import Mathlib

set_option maxRecDepth 100000
set_option linter.dupNamespace false

/-!
# sqlbuilder: a shallow embedding of `builder.go`

Go strings are immutable byte sequences; they are modelled as lists of
naturals (each byte a number below 256).  Values of type `interface{}` are a
closed sum `Val`.  Pointers to condition nodes are addresses into an explicit
heap of `Where` objects.  A run-time fault of the Go program (index out of
range, slice bounds out of range, nil dereference, failed type assertion,
unbounded recursion) is the result `none`.
-/

namespace Builder

/-! ## Strings -/

/-- A Go string: a sequence of bytes. -/
abbrev GoString := List Nat

/-- The bytes (UTF-8) of a string literal of the source. -/
def lit (s : String) : GoString :=
  s.data.flatMap (fun c => (String.utf8EncodeChar c).map UInt8.toNat)

/-- Go `strings.Join`. -/
def join (elems : List GoString) (sep : GoString) : GoString :=
  match elems with
  | [] => []
  | [e] => e
  | e :: rest => e ++ sep ++ join rest sep

/-- Go `strings.Repeat`. -/
def strRepeat (s : GoString) : Nat → GoString
  | 0 => []
  | n + 1 => s ++ strRepeat s n

/-- Go slice expression `s[lo:hi]` (the bounds are Go `int`s); faults when the
bounds are out of range. -/
def sliceStr (s : GoString) (lo hi : Int) : Option GoString :=
  if 0 ≤ lo ∧ lo ≤ hi ∧ hi ≤ s.length then
    some ((s.drop lo.toNat).take (hi.toNat - lo.toNat))
  else none

/-- Go index expression `l[i]` with an `int` index; faults when the index is out
of range. -/
def goIndex {α : Type} (l : List α) (i : Int) : Option α :=
  if 0 ≤ i then l[i.toNat]? else none

/-- Source: `_wrapField`. -/
def _wrapField (field del : GoString) : GoString := del ++ field ++ del

/-- Source: `_wrapBracket`. -/
def _wrapBracket (field : GoString) : GoString := lit "(" ++ field ++ lit ")"

/-- Source: `_sqlError`, the message of `fmt.Errorf("invalid sql: %s", msg)`. -/
def _sqlError (msg : GoString) : GoString := lit "invalid sql: " ++ msg

/-- Source: `_getWheres`. -/
def _getWheres (wheres : GoString) : GoString :=
  if wheres = [] then [] else lit "WHERE " ++ wheres

/-- The loop of `_joinString` over `elems[1:]`: empty elements are skipped. -/
def joinStringLoop (sep : GoString) : List GoString → GoString → GoString
  | [], b => b
  | s :: rest, b =>
    if s = [] then joinStringLoop sep rest b
    else joinStringLoop sep rest (b ++ sep ++ s)

/-- Source: `_joinString`. -/
def _joinString (elems : List GoString) (sep : GoString) : GoString :=
  match elems with
  | [] => []
  | [e] => e
  | e :: rest => joinStringLoop sep rest e

/-- Source: `_stringRepeatJoin`. -/
def _stringRepeatJoin (str sep : GoString) (n : Nat) : GoString :=
  if str = [] ∨ n ≤ 1 then str else str ++ strRepeat (sep ++ str) (n - 1)

/-! ## UTF-8 decoding (Go standard library, `unicode/utf8`) -/

/-- Go `utf8.RuneError`. -/
def RuneError : Nat := 0xFFFD

/-- The table `first` of `unicode/utf8`: information about the first byte of
a UTF-8 sequence (`as = 0xF0` ASCII, `xx = 0xF1` invalid, otherwise the size in
the low three bits and the index of the accept range in the high four). -/
def first (b : Nat) : Nat :=
  if b < 0x80 then 0xF0
  else if b < 0xC2 then 0xF1
  else if b < 0xE0 then 0x02
  else if b = 0xE0 then 0x13
  else if b < 0xED then 0x03
  else if b = 0xED then 0x23
  else if b < 0xF0 then 0x03
  else if b = 0xF0 then 0x34
  else if b < 0xF4 then 0x04
  else if b = 0xF4 then 0x44
  else 0xF1

/-- The table `acceptRanges` of `unicode/utf8`: the range of valid second
bytes. -/
def acceptRanges (i : Nat) : Nat × Nat :=
  match i with
  | 0 => (0x80, 0xBF)
  | 1 => (0xA0, 0xBF)
  | 2 => (0x80, 0x9F)
  | 3 => (0x90, 0xBF)
  | 4 => (0x80, 0x8F)
  | _ => (0, 0)

/-- Go `utf8.DecodeRuneInString`: the first rune of `s` and its width in
bytes; `(RuneError, 0)` on the empty string and `(RuneError, 1)` on an invalid
encoding. -/
def DecodeRuneInString (s : GoString) : Nat × Nat :=
  match s with
  | [] => (RuneError, 0)
  | s0 :: t =>
    let x := first s0
    if x ≥ 0xF0 then
      (if x % 2 = 1 then RuneError else s0, 1)
    else
      let sz := x &&& 7
      let accept := acceptRanges (x >>> 4)
      if s.length < sz then (RuneError, 1)
      else
        match t with
        | [] => (RuneError, 1)
        | s1 :: t1 =>
          if s1 < accept.1 ∨ accept.2 < s1 then (RuneError, 1)
          else if sz ≤ 2 then (((s0 &&& 0x1F) <<< 6) ||| (s1 &&& 0x3F), 2)
          else
            match t1 with
            | [] => (RuneError, 1)
            | s2 :: t2 =>
              if s2 < 0x80 ∨ 0xBF < s2 then (RuneError, 1)
              else if sz ≤ 3 then
                (((s0 &&& 0x0F) <<< 12) ||| ((s1 &&& 0x3F) <<< 6) ||| (s2 &&& 0x3F), 3)
              else
                match t2 with
                | [] => (RuneError, 1)
                | s3 :: _ =>
                  if s3 < 0x80 ∨ 0xBF < s3 then (RuneError, 1)
                  else
                    (((s0 &&& 0x07) <<< 18) ||| ((s1 &&& 0x3F) <<< 12)
                      ||| ((s2 &&& 0x3F) <<< 6) ||| (s3 &&& 0x3F), 4)

/-- The runes of `s` from byte `i` on, as a `range` loop over a string or the
matcher of a regular expression reads them: each step decodes one rune with
`DecodeRuneInString`, so a byte that starts no valid encoding is read as
`RuneError`.  Every step advances `i`, so `fuel` bounds the number of steps. -/
def runesLoop (s : GoString) : Nat → Nat → List Nat
  | 0, _ => []
  | fuel + 1, i =>
    if i < s.length then
      let rw := DecodeRuneInString (s.drop i)
      rw.1 :: runesLoop s fuel (i + rw.2)
    else []

/-- The runes of a string. -/
def runes (s : GoString) : List Nat := runesLoop s s.length 0

/-- Go `utf8.AppendRune` on the empty slice: the UTF-8 encoding of a rune; a
surrogate or a value above `MaxRune` is written as `RuneError`. -/
def AppendRune (r : Nat) : GoString :=
  if r < 0x80 then [r]
  else if r ≤ 0x7FF then [0xC0 ||| (r >>> 6), 0x80 ||| (r &&& 0x3F)]
  else if r > 0x10FFFF ∨ (0xD800 ≤ r ∧ r ≤ 0xDFFF) then [0xEF, 0xBF, 0xBD]
  else if r ≤ 0xFFFF then
    [0xE0 ||| (r >>> 12), 0x80 ||| ((r >>> 6) &&& 0x3F), 0x80 ||| (r &&& 0x3F)]
  else
    [0xF0 ||| (r >>> 18), 0x80 ||| ((r >>> 12) &&& 0x3F), 0x80 ||| ((r >>> 6) &&& 0x3F),
     0x80 ||| (r &&& 0x3F)]

/-! ## Escaping -/

/-- The `switch r` of `_escape`: the escape byte of a rune, `0` when the rune
is not escaped. -/
def escapeOf (r : Nat) : Nat :=
  if r = 0 then 48          -- '0'
  else if r = 10 then 110   -- '\n' gives 'n'
  else if r = 13 then 114   -- '\r' gives 'r'
  else if r = 92 then 92    -- backslash
  else if r = 39 then 39    -- single quote
  else if r = 34 then 34    -- double quote
  else if r = 26 then 90    -- '\032' gives 'Z'
  else 0

/-- The loop `for i := 0; i < len(sql); { ... i += w }` of `_escape`, with
`dest` the bytes written so far.  Every iteration advances `i`, so `fuel`
bounds the number of iterations. -/
def escapeLoop (sql : GoString) : Nat → Nat → GoString → Option GoString
  | 0, i, dest => if i < sql.length then none else some dest
  | fuel + 1, i, dest =>
    if i < sql.length then
      let rw := DecodeRuneInString (sql.drop i)
      let escape := escapeOf rw.1
      if escape ≠ 0 then
        escapeLoop sql fuel (i + rw.2) (dest ++ [92, escape])
      else
        match sliceStr sql i (i + rw.2 : Nat) with
        | none => none
        | some seg => escapeLoop sql fuel (i + rw.2) (dest ++ seg)
    else some dest

/-- Source: `_escape`. -/
def _escape (sql : GoString) : Option GoString :=
  escapeLoop sql sql.length 0 []

/-- The escape sequence of one byte, in the words of the specification: a
special byte becomes a backslash followed by its code, any other byte is
copied. -/
def escapeByte (b : Nat) : GoString :=
  if b = 0 then [92, 48]
  else if b = 10 then [92, 110]
  else if b = 13 then [92, 114]
  else if b = 92 then [92, 92]
  else if b = 39 then [92, 39]
  else if b = 34 then [92, 34]
  else if b = 26 then [92, 90]
  else [b]

/-- Whether a byte is one of the seven special bytes. -/
def isSpecial (b : Nat) : Bool :=
  b = 0 ∨ b = 10 ∨ b = 13 ∨ b = 92 ∨ b = 39 ∨ b = 34 ∨ b = 26

/-! ## Values of type `interface{}` -/

/-- Go `reflect.Kind`, for the dynamic types that are modelled. -/
inductive Kind
  | Bool | Int | Int8 | Int16 | Int32 | Int64
  | Uint | Uint8 | Uint16 | Uint32 | Uint64
  | Float32 | Float64 | String | Slice | Struct
deriving DecidableEq, Repr

/-- The predeclared integer types. -/
inductive NumKind
  | int | int8 | int16 | int32 | int64
  | uint | uint8 | uint16 | uint32 | uint64
deriving DecidableEq, Repr

/-- The `reflect.Kind` of a predeclared integer type. -/
def NumKind.kind : NumKind → Kind
  | .int => .Int | .int8 => .Int8 | .int16 => .Int16 | .int32 => .Int32
  | .int64 => .Int64 | .uint => .Uint | .uint8 => .Uint8 | .uint16 => .Uint16
  | .uint32 => .Uint32 | .uint64 => .Uint64

/-- The name of a predeclared integer type. -/
def NumKind.name : NumKind → GoString
  | .int => lit "int" | .int8 => lit "int8" | .int16 => lit "int16"
  | .int32 => lit "int32" | .int64 => lit "int64" | .uint => lit "uint"
  | .uint8 => lit "uint8" | .uint16 => lit "uint16" | .uint32 => lit "uint32"
  | .uint64 => lit "uint64"

/-- A value of type `interface{}`: the nil interface, or a value of one of the
dynamic types of the data model (the predeclared boolean, integer,
floating-point and string types, defined string types, slices, and this
package's struct type `UpdateRaw`).  A floating-point value is kept as its
bits; `slice elem xs` is a value of the slice type `[]elem` (the element type
given by its type string) whose elements, boxed, are `xs`; `defString ty s` is
a value of a defined type whose underlying type is `string`, such as
`OrderEnum` and `Operation` of this package, `ty` being its type string
(`builder.OrderEnum`) and `s` its bytes. -/
inductive Val
  | nil
  | bool (b : Bool)
  | num (k : NumKind) (n : Int)
  | float32 (bits : Nat)
  | float64 (bits : Nat)
  | str (s : GoString)
  | defString (ty : GoString) (s : GoString)
  | slice (elem : GoString) (xs : List Val)
  | updateRaw (Expr : GoString) (Args : List Val)

/-- Go `reflect.TypeOf(v).Kind()`: `reflect.TypeOf(nil)` is the nil `Type`, on
which the method call faults. -/
def typeKind : Val → Option Kind
  | .nil => none
  | .bool _ => some .Bool
  | .num k _ => some k.kind
  | .float32 _ => some .Float32
  | .float64 _ => some .Float64
  | .str _ => some .String
  | .defString _ _ => some .String
  | .slice _ _ => some .Slice
  | .updateRaw _ _ => some .Struct

/-- The name of the package, from the clause `package builder` of the
source. -/
def packageName : GoString := lit "builder"

/-- Go `reflect.TypeOf(v).String()`: the type string, a defined type being
qualified by the name of its package; faults on the nil interface value. -/
def typeString : Val → Option GoString
  | .nil => none
  | .bool _ => some (lit "bool")
  | .num k _ => some k.name
  | .float32 _ => some (lit "float32")
  | .float64 _ => some (lit "float64")
  | .str _ => some (lit "string")
  | .defString ty _ => some ty
  | .slice elem _ => some (lit "[]" ++ elem)
  | .updateRaw _ _ => some (packageName ++ lit ".UpdateRaw")

/-- The type assertion `v.(string)`; faults when the dynamic type is not
`string`. -/
def assertString : Val → Option GoString
  | .str s => some s
  | _ => none

/-- The type assertion `v.(UpdateRaw)`, giving the fields `Expr` and `Args`;
faults when the dynamic type is not `UpdateRaw`. -/
def assertUpdateRaw : Val → Option (GoString × List Val)
  | .updateRaw e a => some (e, a)
  | _ => none

/-! ## Maps -/

/-- A Go map with string keys, as an association list.  Ranging over the map
enumerates the entries in the order of the list: Go leaves the order
unspecified, and a statement about every list is a statement about every
order. -/
abbrev GoMap (α : Type) := List (GoString × α)

/-- Map index `m[k]` with the zero value `d` for a missing key. -/
def mapGet {α : Type} (m : GoMap α) (k : GoString) (d : α) : α :=
  match m with
  | [] => d
  | (k1, v) :: rest => if k1 = k then v else mapGet rest k d

/-- Map assignment `m[k] = v`. -/
def mapSet {α : Type} (m : GoMap α) (k : GoString) (v : α) : GoMap α :=
  match m with
  | [] => [(k, v)]
  | (k1, v1) :: rest => if k1 = k then (k1, v) :: rest else (k1, v1) :: mapSet rest k v

/-! ## Clause components -/

/-- Go `strconv.FormatInt(n, 10)`. -/
def formatInt (n : Int) : GoString := (toString n).data.map Char.toNat

/-- Source: `onDupKeyUpdates.String`, the loop over `keys` from index `i`. -/
def onDupLoop (n : Nat) : List GoString → Nat → GoString → GoString
  | [], _, sb => sb
  | key :: rest, i, sb =>
    onDupLoop n rest (i + 1)
      (sb ++ key ++ lit " = VALUES(" ++ key ++ (if i + 1 = n then lit ")" else lit "), "))

/-- Source: `onDupKeyUpdates.String`. -/
def onDupKeyUpdates.String (keys : List GoString) : GoString :=
  if keys.length = 0 then []
  else onDupLoop keys.length keys 0 (lit "ON DUPLICATE KEY UPDATE ")

/-- Source: `ForceIndex.String`. -/
def ForceIndex.String (f : GoString) : GoString :=
  if f ≠ [] then lit "FORCE INDEX(" ++ f ++ lit ")" else []

/-- Source: `Groups.String`. -/
def Groups.String (groups : List GoString) : GoString :=
  if groups.length = 0 then [] else lit "GROUP BY " ++ join groups (lit ",")

/-- Source: `Order`. -/
structure Order where
  Order : GoString
  Field : GoString
deriving DecidableEq

/-- Source: `Order.String`. -/
def Order.String (o : Builder.Order) : GoString := o.Field ++ lit " " ++ o.Order

/-- Source: `Orders.String`. -/
def Orders.String (orders : List Builder.Order) : GoString :=
  match orders with
  | [] => []
  | o :: rest =>
    rest.foldl (fun sb o1 => sb ++ lit "," ++ o1.String) (lit "ORDER BY " ++ o.String)

/-- Source: `Limit.String`. -/
def Limit.String (l : Int) : GoString :=
  if l = -1 then [] else lit "LIMIT " ++ formatInt l

/-- Source: `Offset.String`. -/
def Offset.String (o : Int) : GoString :=
  if o = -1 then [] else lit "OFFSET " ++ formatInt o

/-! ## Constants -/

def SQLActionSelect : GoString := lit "select"
def SQLActionUpdate : GoString := lit "update"
def SQLActionDelete : GoString := lit "delete"
def SQLActionInsert : GoString := lit "insert"

def OrderAsc : GoString := lit "ASC"
def OrderDesc : GoString := lit "DESC"

def OpEq : GoString := lit "="
def OpLt : GoString := lit "<"
def OpLte : GoString := lit "<="
def OpGt : GoString := lit ">"
def OpGte : GoString := lit ">="
def OpIn : GoString := lit "in"
def OpNotIn : GoString := lit "not in"

def WhereCondAnd : GoString := lit "AND"
def WhereCondOr : GoString := lit "OR"

/-- Go `strings.ToLower` on one byte of an ASCII string. -/
def lowerByte (c : Nat) : Nat := if 65 ≤ c ∧ c ≤ 90 then c + 32 else c

/-- The lowercase mappings of the table `CaseRanges` of package `unicode`
(Unicode 15.0.0) above ASCII, as runs of code points: an entry
`(lo, hi, step, to)` maps the code points `lo`, `lo + step`, ... up to `hi` to
`to`, `to + step`, ...; a code point in no run has no lowercase mapping. -/
def lowerRanges : List (Nat × Nat × Nat × Nat) :=
  [(0xC0, 0xD6, 1, 0xE0), (0xD8, 0xDE, 1, 0xF8), (0x100, 0x12E, 2, 0x101),
   (0x130, 0x130, 1, 0x69), (0x132, 0x136, 2, 0x133), (0x139, 0x147, 2, 0x13A),
   (0x14A, 0x176, 2, 0x14B), (0x178, 0x178, 1, 0xFF), (0x179, 0x17D, 2, 0x17A),
   (0x181, 0x181, 1, 0x253), (0x182, 0x184, 2, 0x183), (0x186, 0x186, 1, 0x254),
   (0x187, 0x187, 1, 0x188), (0x189, 0x18A, 1, 0x256), (0x18B, 0x18B, 1, 0x18C),
   (0x18E, 0x18E, 1, 0x1DD), (0x18F, 0x18F, 1, 0x259), (0x190, 0x190, 1, 0x25B),
   (0x191, 0x191, 1, 0x192), (0x193, 0x193, 1, 0x260), (0x194, 0x194, 1, 0x263),
   (0x196, 0x196, 1, 0x269), (0x197, 0x197, 1, 0x268), (0x198, 0x198, 1, 0x199),
   (0x19C, 0x19C, 1, 0x26F), (0x19D, 0x19D, 1, 0x272), (0x19F, 0x19F, 1, 0x275),
   (0x1A0, 0x1A4, 2, 0x1A1), (0x1A6, 0x1A6, 1, 0x280), (0x1A7, 0x1A7, 1, 0x1A8),
   (0x1A9, 0x1A9, 1, 0x283), (0x1AC, 0x1AC, 1, 0x1AD), (0x1AE, 0x1AE, 1, 0x288),
   (0x1AF, 0x1AF, 1, 0x1B0), (0x1B1, 0x1B2, 1, 0x28A), (0x1B3, 0x1B5, 2, 0x1B4),
   (0x1B7, 0x1B7, 1, 0x292), (0x1B8, 0x1B8, 1, 0x1B9), (0x1BC, 0x1BC, 1, 0x1BD),
   (0x1C4, 0x1C4, 1, 0x1C6), (0x1C5, 0x1C5, 1, 0x1C6), (0x1C7, 0x1C7, 1, 0x1C9),
   (0x1C8, 0x1C8, 1, 0x1C9), (0x1CA, 0x1CA, 1, 0x1CC), (0x1CB, 0x1DB, 2, 0x1CC),
   (0x1DE, 0x1EE, 2, 0x1DF), (0x1F1, 0x1F1, 1, 0x1F3), (0x1F2, 0x1F4, 2, 0x1F3),
   (0x1F6, 0x1F6, 1, 0x195), (0x1F7, 0x1F7, 1, 0x1BF), (0x1F8, 0x21E, 2, 0x1F9),
   (0x220, 0x220, 1, 0x19E), (0x222, 0x232, 2, 0x223), (0x23A, 0x23A, 1, 0x2C65),
   (0x23B, 0x23B, 1, 0x23C), (0x23D, 0x23D, 1, 0x19A), (0x23E, 0x23E, 1, 0x2C66),
   (0x241, 0x241, 1, 0x242), (0x243, 0x243, 1, 0x180), (0x244, 0x244, 1, 0x289),
   (0x245, 0x245, 1, 0x28C), (0x246, 0x24E, 2, 0x247), (0x370, 0x372, 2, 0x371),
   (0x376, 0x376, 1, 0x377), (0x37F, 0x37F, 1, 0x3F3), (0x386, 0x386, 1, 0x3AC),
   (0x388, 0x38A, 1, 0x3AD), (0x38C, 0x38C, 1, 0x3CC), (0x38E, 0x38F, 1, 0x3CD),
   (0x391, 0x3A1, 1, 0x3B1), (0x3A3, 0x3AB, 1, 0x3C3), (0x3CF, 0x3CF, 1, 0x3D7),
   (0x3D8, 0x3EE, 2, 0x3D9), (0x3F4, 0x3F4, 1, 0x3B8), (0x3F7, 0x3F7, 1, 0x3F8),
   (0x3F9, 0x3F9, 1, 0x3F2), (0x3FA, 0x3FA, 1, 0x3FB), (0x3FD, 0x3FF, 1, 0x37B),
   (0x400, 0x40F, 1, 0x450), (0x410, 0x42F, 1, 0x430), (0x460, 0x480, 2, 0x461),
   (0x48A, 0x4BE, 2, 0x48B), (0x4C0, 0x4C0, 1, 0x4CF), (0x4C1, 0x4CD, 2, 0x4C2),
   (0x4D0, 0x52E, 2, 0x4D1), (0x531, 0x556, 1, 0x561), (0x10A0, 0x10C5, 1, 0x2D00),
   (0x10C7, 0x10C7, 1, 0x2D27), (0x10CD, 0x10CD, 1, 0x2D2D), (0x13A0, 0x13EF, 1, 0xAB70),
   (0x13F0, 0x13F5, 1, 0x13F8), (0x1C90, 0x1CBA, 1, 0x10D0), (0x1CBD, 0x1CBF, 1, 0x10FD),
   (0x1E00, 0x1E94, 2, 0x1E01), (0x1E9E, 0x1E9E, 1, 0xDF), (0x1EA0, 0x1EFE, 2, 0x1EA1),
   (0x1F08, 0x1F0F, 1, 0x1F00), (0x1F18, 0x1F1D, 1, 0x1F10), (0x1F28, 0x1F2F, 1, 0x1F20),
   (0x1F38, 0x1F3F, 1, 0x1F30), (0x1F48, 0x1F4D, 1, 0x1F40), (0x1F59, 0x1F5F, 2, 0x1F51),
   (0x1F68, 0x1F6F, 1, 0x1F60), (0x1F88, 0x1F8F, 1, 0x1F80), (0x1F98, 0x1F9F, 1, 0x1F90),
   (0x1FA8, 0x1FAF, 1, 0x1FA0), (0x1FB8, 0x1FB9, 1, 0x1FB0), (0x1FBA, 0x1FBB, 1, 0x1F70),
   (0x1FBC, 0x1FBC, 1, 0x1FB3), (0x1FC8, 0x1FCB, 1, 0x1F72), (0x1FCC, 0x1FCC, 1, 0x1FC3),
   (0x1FD8, 0x1FD9, 1, 0x1FD0), (0x1FDA, 0x1FDB, 1, 0x1F76), (0x1FE8, 0x1FE9, 1, 0x1FE0),
   (0x1FEA, 0x1FEB, 1, 0x1F7A), (0x1FEC, 0x1FEC, 1, 0x1FE5), (0x1FF8, 0x1FF9, 1, 0x1F78),
   (0x1FFA, 0x1FFB, 1, 0x1F7C), (0x1FFC, 0x1FFC, 1, 0x1FF3), (0x2126, 0x2126, 1, 0x3C9),
   (0x212A, 0x212A, 1, 0x6B), (0x212B, 0x212B, 1, 0xE5), (0x2132, 0x2132, 1, 0x214E),
   (0x2160, 0x216F, 1, 0x2170), (0x2183, 0x2183, 1, 0x2184), (0x24B6, 0x24CF, 1, 0x24D0),
   (0x2C00, 0x2C2F, 1, 0x2C30), (0x2C60, 0x2C60, 1, 0x2C61), (0x2C62, 0x2C62, 1, 0x26B),
   (0x2C63, 0x2C63, 1, 0x1D7D), (0x2C64, 0x2C64, 1, 0x27D), (0x2C67, 0x2C6B, 2, 0x2C68),
   (0x2C6D, 0x2C6D, 1, 0x251), (0x2C6E, 0x2C6E, 1, 0x271), (0x2C6F, 0x2C6F, 1, 0x250),
   (0x2C70, 0x2C70, 1, 0x252), (0x2C72, 0x2C72, 1, 0x2C73), (0x2C75, 0x2C75, 1, 0x2C76),
   (0x2C7E, 0x2C7F, 1, 0x23F), (0x2C80, 0x2CE2, 2, 0x2C81), (0x2CEB, 0x2CED, 2, 0x2CEC),
   (0x2CF2, 0x2CF2, 1, 0x2CF3), (0xA640, 0xA66C, 2, 0xA641), (0xA680, 0xA69A, 2, 0xA681),
   (0xA722, 0xA72E, 2, 0xA723), (0xA732, 0xA76E, 2, 0xA733), (0xA779, 0xA77B, 2, 0xA77A),
   (0xA77D, 0xA77D, 1, 0x1D79), (0xA77E, 0xA786, 2, 0xA77F), (0xA78B, 0xA78B, 1, 0xA78C),
   (0xA78D, 0xA78D, 1, 0x265), (0xA790, 0xA792, 2, 0xA791), (0xA796, 0xA7A8, 2, 0xA797),
   (0xA7AA, 0xA7AA, 1, 0x266), (0xA7AB, 0xA7AB, 1, 0x25C), (0xA7AC, 0xA7AC, 1, 0x261),
   (0xA7AD, 0xA7AD, 1, 0x26C), (0xA7AE, 0xA7AE, 1, 0x26A), (0xA7B0, 0xA7B0, 1, 0x29E),
   (0xA7B1, 0xA7B1, 1, 0x287), (0xA7B2, 0xA7B2, 1, 0x29D), (0xA7B3, 0xA7B3, 1, 0xAB53),
   (0xA7B4, 0xA7C2, 2, 0xA7B5), (0xA7C4, 0xA7C4, 1, 0xA794), (0xA7C5, 0xA7C5, 1, 0x282),
   (0xA7C6, 0xA7C6, 1, 0x1D8E), (0xA7C7, 0xA7C9, 2, 0xA7C8), (0xA7D0, 0xA7D0, 1, 0xA7D1),
   (0xA7D6, 0xA7D8, 2, 0xA7D7), (0xA7F5, 0xA7F5, 1, 0xA7F6), (0xFF21, 0xFF3A, 1, 0xFF41),
   (0x10400, 0x10427, 1, 0x10428), (0x104B0, 0x104D3, 1, 0x104D8),
   (0x10570, 0x1057A, 1, 0x10597), (0x1057C, 0x1058A, 1, 0x105A3),
   (0x1058C, 0x10592, 1, 0x105B3), (0x10594, 0x10595, 1, 0x105BB),
   (0x10C80, 0x10CB2, 1, 0x10CC0), (0x118A0, 0x118BF, 1, 0x118C0),
   (0x16E40, 0x16E5F, 1, 0x16E60), (0x1E900, 0x1E921, 1, 0x1E922)]

/-- Go `unicode.ToLower`. -/
def unicodeToLower (r : Nat) : Nat :=
  if r ≤ 0x7F then lowerByte r
  else
    match lowerRanges.find?
        (fun e => decide (e.1 ≤ r ∧ r ≤ e.2.1 ∧ (r - e.1) % e.2.2.1 = 0)) with
    | some e => e.2.2.2 + (r - e.1)
    | none => r

/-- Go `strings.ToLower`: an ASCII string is lowered byte by byte; any other
string is mapped rune by rune with `unicode.ToLower` (`strings.Map`), which
writes every byte that starts no valid encoding as `RuneError`. -/
def stringsToLower (s : GoString) : GoString :=
  if s.all (fun c => decide (c < 0x80)) then s.map lowerByte
  else (runes s).flatMap (fun c => AppendRune (unicodeToLower c))

/-- Source: `Operation.lower`. -/
def Operation.lower (o : GoString) : GoString := stringsToLower o

/-! ## The condition tree -/

/-- Source: `Where`.  `Children` (a slice of `*Where`), `CombineRight` and
`CombineLeft` (`*Where`, `none` for the nil pointer) hold addresses of the
heap. -/
structure Where where
  Field : GoString
  Operation : GoString
  Value : List Val
  Children : List Nat
  Cond : GoString
  CombineRight : Option Nat
  CombineLeft : Option Nat

/-- The `Where` objects allocated so far; the address of an object is its
index. -/
abbrev Heap := List Where

/-- Source: `Wheres`, a slice of pointers. -/
abbrev Wheres := List Nat

/-- A store through a pointer, `(*p).f = ...`; faults on a dangling address. -/
def Heap.update (h : Heap) (p : Nat) (f : Where → Where) : Option Heap :=
  match h[p]? with
  | none => none
  | some w => some (h.set p (f w))

/-- Source: `Where.IsCombine`. -/
def Where.IsCombine (wh : Where) : Bool :=
  wh.CombineLeft.isSome || wh.CombineRight.isSome

/-- Source: `Wheres.where`: allocates the leaf and appends its address. -/
def Wheres.where_ (h : Heap) (whs : Wheres) (field operation : GoString)
    (value : List Val) (cond : GoString) : Heap × Wheres :=
  (h ++ [{ Field := field, Operation := operation, Value := value, Children := [],
           Cond := cond, CombineRight := none, CombineLeft := none }],
   whs ++ [h.length])

/-- Source: `Wheres.Where`. -/
def Wheres.Where (h : Heap) (whs : Wheres) (field operation : GoString) (value : Val) :
    Heap × Wheres :=
  Wheres.where_ h whs field operation [value] WhereCondAnd

/-- Source: `Wheres.OrWhere`. -/
def Wheres.OrWhere (h : Heap) (whs : Wheres) (field operation : GoString) (value : Val) :
    Heap × Wheres :=
  Wheres.where_ h whs field operation [value] WhereCondOr

/-- Source: `Wheres.WhereIn`. -/
def Wheres.WhereIn (h : Heap) (whs : Wheres) (field : GoString) (value : List Val) :
    Heap × Wheres :=
  Wheres.where_ h whs field OpIn value WhereCondAnd

/-- Source: `Wheres.OrWhereIn`. -/
def Wheres.OrWhereIn (h : Heap) (whs : Wheres) (field : GoString) (value : List Val) :
    Heap × Wheres :=
  Wheres.where_ h whs field OpIn value WhereCondOr

/-- Source: `Wheres.WhereNotIn`. -/
def Wheres.WhereNotIn (h : Heap) (whs : Wheres) (field : GoString) (value : List Val) :
    Heap × Wheres :=
  Wheres.where_ h whs field OpNotIn value WhereCondAnd

/-- Source: `Wheres.OrWhereNotIn`. -/
def Wheres.OrWhereNotIn (h : Heap) (whs : Wheres) (field : GoString) (value : List Val) :
    Heap × Wheres :=
  Wheres.where_ h whs field OpNotIn value WhereCondOr

/-- The inner loop of the first loop of `Wheres.WhereCombineIn`:
`fieldValues[field] = append(fieldValues[field], v[i])` for every tuple `v`;
faults when a tuple has no element `i`. -/
def combineInInner (field : GoString) (i : Nat) :
    List (List Val) → GoMap (List Val) → Option (GoMap (List Val))
  | [], fv => some fv
  | v :: rest, fv =>
    match v[i]? with
    | none => none
    | some x => combineInInner field i rest (mapSet fv field (mapGet fv field [] ++ [x]))

/-- The first loop of `Wheres.WhereCombineIn`, over `fields` from index `i`. -/
def combineInCollect (values : List (List Val)) :
    List GoString → Nat → GoMap (List Val) → Option (GoMap (List Val))
  | [], _, fv => some fv
  | field :: rest, i, fv =>
    match combineInInner field i values fv with
    | none => none
    | some fv1 => combineInCollect values rest (i + 1) fv1

/-- The second loop of `Wheres.WhereCombineIn`, over `fields` from index `i`:
the leaf is appended and, for `i > 0`, the objects at the indices
`len(whs)-i-1` and `len(whs)-i` of `whs` are linked. -/
def combineInLink (fv : GoMap (List Val)) :
    List GoString → Nat → Heap → Wheres → Option (Heap × Wheres)
  | [], _, h, whs => some (h, whs)
  | field :: rest, i, h, whs =>
    let hw := Wheres.where_ h whs field OpIn (mapGet fv field []) WhereCondAnd
    let h1 := hw.1
    let whs1 := hw.2
    if i > 0 then
      match goIndex whs1 ((whs1.length : Int) - i - 1), goIndex whs1 ((whs1.length : Int) - i) with
      | some l, some r =>
        match Heap.update h1 l (fun w => { w with CombineRight := some r }) with
        | none => none
        | some h2 =>
          match Heap.update h2 r (fun w => { w with CombineLeft := some l }) with
          | none => none
          | some h3 => combineInLink fv rest (i + 1) h3 whs1
      | _, _ => none
    else combineInLink fv rest (i + 1) h1 whs1

/-- Source: `Wheres.WhereCombineIn`. -/
def Wheres.WhereCombineIn (h : Heap) (whs : Wheres) (fields : List GoString)
    (values : List (List Val)) : Option (Heap × Wheres) :=
  match combineInCollect values fields 0 [] with
  | none => none
  | some fv => combineInLink fv fields 0 h whs

/-! ## The condition serializer -/

/-- The loop `for cur != nil` of `Where.string` over a combine chain: the
fields, the placeholders written to `phsSb` and the value lists of the leaves
reached through `CombineRight`.  `fuel` bounds the number of iterations. -/
def chainLoop (h : Heap) (getPh : Kind → GoString) :
    Nat → Option Nat → List GoString → GoString → List (List Val) →
    Option (List GoString × GoString × List (List Val))
  | _, none, combineFields, phsSb, allValues => some (combineFields, phsSb, allValues)
  | 0, some _, _, _, _ => none
  | fuel + 1, some p, combineFields, phsSb, allValues =>
    match h[p]? with
    | none => none
    | some cur =>
      match cur.Value[0]? with
      | none => none
      | some v0 =>
        match typeKind v0 with
        | none => none
        | some k =>
          chainLoop h getPh fuel cur.CombineRight (combineFields ++ [cur.Field])
            (if cur.CombineRight.isSome then phsSb ++ getPh k ++ lit "," else phsSb ++ getPh k)
            (allValues ++ [cur.Value])

/-- The inner loop `for j := 0; j < len(allValues); j++` of `Where.string`:
the values `allValues[j][i]`. -/
def chainRow (i : Nat) : List (List Val) → Option (List Val)
  | [] => some []
  | col :: rest =>
    match col[i]?, chainRow i rest with
    | some v, some vs => some (v :: vs)
    | _, _ => none

/-- The loop `for i := 0; i < len(allValues[0]); i++` of `Where.string`, over
the indices `is`. -/
def chainRows (allValues : List (List Val)) : List Nat → Option (List Val)
  | [] => some []
  | i :: is =>
    match chainRow i allValues, chainRows allValues is with
    | some r, some rs => some (r ++ rs)
    | _, _ => none

/-- Source: `Where.string`, the part for a node without children; `p` is the
receiver `wh`, a pointer, and `wh` the object it points to. -/
def Where.leafString (h : Heap) (getPh : Kind → GoString) (p : Nat) (wh : Where)
    (first : Bool) :
    Option (GoString × List Val) :=
  match wh.Value[0]? with
  | none => none
  | some v0 =>
    match typeKind v0 with
    | none => none
    | some k =>
      let ph := getPh k
      let r : Option (GoString × GoString × List Val) :=
        if wh.Operation = OpIn ∨ wh.Operation = OpNotIn then
          match wh.CombineRight with
          | none =>
            some (wh.Field, _wrapBracket (_stringRepeatJoin ph (lit ",") wh.Value.length),
              wh.Value)
          | some _ =>
            match chainLoop h getPh (h.length + 1) (some p) [] [] [] with
            | none => none
            | some (combineFields, phsSb, allValues) =>
              match allValues[0]? with
              | none => none
              | some a0 =>
                match chainRows allValues (List.range a0.length) with
                | none => none
                | some values =>
                  some (_wrapBracket (join combineFields (lit ",")),
                    _wrapBracket (_stringRepeatJoin (_wrapBracket phsSb) (lit ",")
                      wh.Value.length),
                    values)
        else some (wh.Field, ph, wh.Value)
      match r with
      | none => none
      | some (field, phs, values) =>
        if first then some (join [field, wh.Operation, phs] (lit " "), values)
        else some (join [wh.Cond, field, wh.Operation, phs] (lit " "), values)

/-- The loop `for i+1 < len(whs) && whs[i].CombineRight != nil { i++ }` of
`Wheres.string`: the value of `i` after the loop. -/
def skipCombined (h : Heap) (whs : Wheres) : Nat → Nat → Option Nat
  | 0, _ => none
  | fuel + 1, i =>
    if i + 1 < whs.length then
      match whs[i]? with
      | none => none
      | some p =>
        match h[p]? with
        | none => none
        | some w =>
          if w.CombineRight.isSome then skipCombined h whs fuel (i + 1) else some i
    else some i

/-- The loop `for i := 0; i < len(whs); i++` of `Wheres.string`, from index
`i` with the accumulators `resList` and `whArgs`; `str` is the method
`Where.string` of the nodes. -/
def stringLoop (h : Heap) (str : Nat → Bool → Bool → Option (GoString × List Val))
    (whs : Wheres) :
    Nat → Nat → List GoString → List Val → Option (List GoString × List Val)
  | 0, _, _, _ => none
  | fuel + 1, i, resList, whArgs =>
    if i < whs.length then
      match whs[i]? with
      | none => none
      | some p =>
        match str p (i == 0) (whs.length > 1), h[p]? with
        | some (s, args), some w =>
          if w.CombineRight.isNone then
            stringLoop h str whs fuel (i + 1) (resList ++ [s]) (whArgs ++ args)
          else
            match skipCombined h whs (whs.length + 1) i with
            | none => none
            | some i1 => stringLoop h str whs fuel (i1 + 1) (resList ++ [s]) (whArgs ++ args)
        | _, _ => none
    else some (resList, whArgs)

/-- Source: `Wheres.string`, with `str` the method `Where.string` of the
nodes. -/
def Wheres.stringWith (h : Heap) (str : Nat → Bool → Bool → Option (GoString × List Val))
    (whs : Wheres) (needBracket : Bool) : Option (GoString × List Val) :=
  match whs with
  | [] => some ([], [])
  | [p] => str p true false
  | _ =>
    match stringLoop h str whs (whs.length + 1) 0 [] [] with
    | none => none
    | some (resList, whArgs) =>
      let res := join resList (lit " ")
      if needBracket then some (_wrapBracket res, whArgs) else some (res, whArgs)

/-- Source: `Where.string`.  `fuel` bounds the depth of the recursion through
`Children`. -/
def Where.stringF (h : Heap) (getPh : Kind → GoString) :
    Nat → Nat → Bool → Bool → Option (GoString × List Val)
  | 0, _, _, _ => none
  | fuel + 1, p, first, needBracket =>
    match h[p]? with
    | none => none
    | some wh =>
      if wh.Children.length > 0 then
        match Wheres.stringWith h (Where.stringF h getPh fuel) wh.Children needBracket with
        | none => none
        | some (s, args) =>
          if first then some (s, args) else some (wh.Cond ++ lit " " ++ s, args)
      else Where.leafString h getPh p wh first

/-- Source: `Where.string`.  A recursion deeper than the number of objects of
the heap visits an object twice and does not end, so this bound on the depth
loses no result. -/
def Where.string (h : Heap) (p : Nat) (first needBracket : Bool)
    (getPh : Kind → GoString) : Option (GoString × List Val) :=
  Where.stringF h getPh h.length p first needBracket

/-- Source: `Wheres.string`. -/
def Wheres.string (h : Heap) (whs : Wheres) (needBracket : Bool)
    (getPh : Kind → GoString) : Option (GoString × List Val) :=
  Wheres.stringWith h (fun p first nb => Where.string h p first nb getPh) whs needBracket

/-! ## The builder -/

/-- Source: `Insert`. -/
structure Insert where
  onDupKeyUpdates : List GoString
  ignore : Bool

/-- Source: `SQLBulder`.  The field `insert` is a pointer in the source; every
builder made by `_default` holds a fresh `Insert` object that nothing else
refers to, and it is kept here by value. -/
structure SQLBulder where
  tableName : GoString
  action : GoString
  fields : List GoString
  args : List Val
  whereList : Wheres
  orders : List Order
  groups : List GoString
  limitSize : Int
  offsetSize : Int
  parameterized : Bool
  delimiter : GoString
  values : List (GoMap Val)
  forceIndexName : GoString
  insert : Insert
  reuse : Bool

/-- Source: `SQLBulder._default`: every field is assigned, so the result does
not depend on the receiver. -/
def SQLBulder._default : SQLBulder :=
  { tableName := [], action := [], fields := [], args := [], whereList := [],
    orders := [], groups := [], limitSize := -1, offsetSize := -1,
    parameterized := false, delimiter := lit "`", values := [],
    forceIndexName := [], insert := { onDupKeyUpdates := [], ignore := false },
    reuse := true }

/-- Source: `NewBuilderOpt`. -/
structure NewBuilderOpt where
  Parameterized : Bool
  Reuse : Bool

/-- Source: `newSQLBuilder`.  The builder is taken from the pool when `reuse`
is set and allocated otherwise; either way it is in the state `_default` (the
pool holds only what `_default` returned, in `builderPool.New` and in
`putBackBuilder`). -/
def newSQLBuilder (table : GoString) (reuse : Bool) : SQLBulder :=
  let builder := if reuse then SQLBulder._default else SQLBulder._default
  { builder with tableName := table }

/-- Source: `New`, with the variadic `opts`. -/
def New (table : GoString) (opts : List NewBuilderOpt) : SQLBulder :=
  let reuse := match opts with | [] => true | o :: _ => o.Reuse
  let parameterized := match opts with | [] => true | o :: _ => o.Parameterized
  { newSQLBuilder table reuse with parameterized := parameterized }

/-- Source: `SQLBulder.placeholder`. -/
def SQLBulder.placeholder (builder : SQLBulder) (typeKind : Kind) : GoString :=
  if builder.parameterized then lit "?"
  else if typeKind = Kind.String then lit "\"%s\"" else lit "%v"

/-- Source: `Where.Wheres` applied to a freshly allocated `&Where{Cond: cond}`,
as in `SQLBulder.Wheres` and `SQLBulder.OrWheres`: the node is allocated, the
callback runs on its (nil) `Children`, the result is stored in `Children`, and
the address of the node is returned. -/
def newBranch (h : Heap) (cond : GoString)
    (fn : Heap → Wheres → Option (Heap × Wheres)) : Option (Heap × Nat) :=
  let p := h.length
  let h1 := h ++ [{ Field := [], Operation := [], Value := [], Children := [],
                    Cond := cond, CombineRight := none, CombineLeft := none }]
  match fn h1 [] with
  | none => none
  | some (h2, children) =>
    match Heap.update h2 p (fun w => { w with Children := children }) with
    | none => none
    | some h3 => some (h3, p)

/-- Source: `SQLBulder.Wheres`. -/
def SQLBulder.Wheres (h : Heap) (builder : SQLBulder)
    (fn : Heap → Builder.Wheres → Option (Heap × Builder.Wheres)) : Option (Heap × SQLBulder) :=
  match newBranch h WhereCondAnd fn with
  | none => none
  | some (h1, p) => some (h1, { builder with whereList := builder.whereList ++ [p] })

/-- Source: `SQLBulder.OrWheres`. -/
def SQLBulder.OrWheres (h : Heap) (builder : SQLBulder)
    (fn : Heap → Builder.Wheres → Option (Heap × Builder.Wheres)) : Option (Heap × SQLBulder) :=
  match newBranch h WhereCondOr fn with
  | none => none
  | some (h1, p) => some (h1, { builder with whereList := builder.whereList ++ [p] })

/-- Source: `SQLBulder.Where`. -/
def SQLBulder.Where (h : Heap) (builder : SQLBulder) (field operation : GoString)
    (value : Val) : Heap × SQLBulder :=
  let r := Builder.Wheres.Where h builder.whereList field (Operation.lower operation) value
  (r.1, { builder with whereList := r.2 })

/-- Source: `SQLBulder.OrWhere`. -/
def SQLBulder.OrWhere (h : Heap) (builder : SQLBulder) (field operation : GoString)
    (value : Val) : Heap × SQLBulder :=
  let r := Builder.Wheres.OrWhere h builder.whereList field (Operation.lower operation) value
  (r.1, { builder with whereList := r.2 })

/-- Source: `_getInValues`.  Every case of the type switch on a slice type, and
the reflective default case for any other slice, yields the elements of the
slice `vals[0]`, boxed; any other `vals[0]` yields `vals`.  Faults when `vals`
is empty. -/
def _getInValues (vals : List Val) : Option (List Val) :=
  match vals with
  | [] => none
  | Val.slice _ xs :: _ => some xs
  | _ => some vals

/-- The common body of `SQLBulder.WhereIn`, `OrWhereIn`, `WhereNotIn` and
`OrWhereNotIn`, which differ in the method `add` of `Wheres` they call. -/
def whereInWith (add : Heap → Builder.Wheres → GoString → List Val → Heap × Builder.Wheres)
    (h : Heap) (builder : SQLBulder) (field : GoString) (value : List Val) :
    Option (Heap × SQLBulder) :=
  if value.length = 0 then some (h, builder)
  else
    match _getInValues value with
    | none => none
    | some vals =>
      if vals.length = 0 then some (h, builder)
      else
        let r := add h builder.whereList field vals
        some (r.1, { builder with whereList := r.2 })

/-- Source: `SQLBulder.WhereIn`. -/
def SQLBulder.WhereIn := whereInWith Builder.Wheres.WhereIn

/-- Source: `SQLBulder.OrWhereIn`. -/
def SQLBulder.OrWhereIn := whereInWith Builder.Wheres.OrWhereIn

/-- Source: `SQLBulder.WhereNotIn`. -/
def SQLBulder.WhereNotIn := whereInWith Builder.Wheres.WhereNotIn

/-- Source: `SQLBulder.OrWhereNotIn`. -/
def SQLBulder.OrWhereNotIn := whereInWith Builder.Wheres.OrWhereNotIn

/-- Source: `SQLBulder.WhereCombineIn`. -/
def SQLBulder.WhereCombineIn (h : Heap) (builder : SQLBulder) (field : List GoString)
    (value : List (List Val)) : Option (Heap × SQLBulder) :=
  if value.length = 0 then some (h, builder)
  else
    match Builder.Wheres.WhereCombineIn h builder.whereList field value with
    | none => none
    | some (h1, whs) => some (h1, { builder with whereList := whs })

/-- Source: `SQLBulder.Select`. -/
def SQLBulder.Select (builder : SQLBulder) (fields : List GoString) : SQLBulder :=
  { builder with action := SQLActionSelect, fields := builder.fields ++ fields }

/-- Source: `SQLBulder.OrderBy`. -/
def SQLBulder.OrderBy (builder : SQLBulder) (field order : GoString) : SQLBulder :=
  { builder with orders := builder.orders ++ [{ Field := field, Order := order }] }

/-- Source: `SQLBulder.OrderBys`. -/
def SQLBulder.OrderBys (builder : SQLBulder) (fields : List GoString) (order : GoString) :
    SQLBulder :=
  { builder with
    orders := builder.orders ++ fields.map (fun f => { Field := f, Order := order }) }

/-- Source: `SQLBulder.GroupBy`. -/
def SQLBulder.GroupBy (builder : SQLBulder) (fields : List GoString) : SQLBulder :=
  { builder with groups := builder.groups ++ fields }

/-- Source: `SQLBulder.Limit`. -/
def SQLBulder.Limit (builder : SQLBulder) (limit : Int) : SQLBulder :=
  { builder with limitSize := limit }

/-- Source: `SQLBulder.Offset`. -/
def SQLBulder.Offset (builder : SQLBulder) (offset : Int) : SQLBulder :=
  { builder with offsetSize := offset }

/-- Source: `SQLBulder.Update`. -/
def SQLBulder.Update (builder : SQLBulder) (values : GoMap Val) : SQLBulder :=
  { builder with action := SQLActionUpdate, values := [values] }

/-- Source: `SQLBulder.ForceIndex`. -/
def SQLBulder.ForceIndex (builder : SQLBulder) (index : GoString) : SQLBulder :=
  { builder with forceIndexName := index }

/-- Source: `SQLBulder.OnDuplicateUpdateKeys`. -/
def SQLBulder.OnDuplicateUpdateKeys (builder : SQLBulder) (keys : List GoString) :
    SQLBulder :=
  { builder with insert := { builder.insert with onDupKeyUpdates := keys } }

/-- Source: `SQLBulder.Insert`. -/
def SQLBulder.Insert (builder : SQLBulder) (values : GoMap Val) : SQLBulder :=
  { builder with action := SQLActionInsert, values := [values] }

/-- Source: `SQLBulder.InsertIgnore`. -/
def SQLBulder.InsertIgnore (builder : SQLBulder) (values : GoMap Val) : SQLBulder :=
  let b1 := SQLBulder.Insert builder values
  { b1 with insert := { b1.insert with ignore := true } }

/-- Source: `SQLBulder.BatchInsert`. -/
def SQLBulder.BatchInsert (builder : SQLBulder) (values : List (GoMap Val)) : SQLBulder :=
  { builder with action := SQLActionInsert, values := values }

/-- Source: `SQLBulder.BatchInsertIgnore`. -/
def SQLBulder.BatchInsertIgnore (builder : SQLBulder) (values : List (GoMap Val)) :
    SQLBulder :=
  { builder with action := SQLActionInsert, values := values,
                 insert := { builder.insert with ignore := true } }

/-- Source: `SQLBulder.Delete`. -/
def SQLBulder.Delete (builder : SQLBulder) : SQLBulder :=
  { builder with action := SQLActionDelete }

/-- Source: `SQLBulder.Query`. -/
def SQLBulder.Query (builder : SQLBulder) : SQLBulder :=
  { builder with action := SQLActionSelect }

/-! ## The action renderers -/

/-- What a terminal call returns: the statement, the arguments (`none` is the
nil slice) and the error (`none` is the nil error, otherwise its message). -/
structure BuildResult where
  sql : GoString
  args : Option (List Val)
  err : Option GoString

/-- An error return `"", nil, _sqlError(msg)`. -/
def errorResult (msg : GoString) : BuildResult :=
  { sql := [], args := none, err := some (_sqlError msg) }

/-- The loop `for field, val := range builder.values[0]` of `buildInsert`, with
the accumulators `fields`, `fieldsHolderSb`, `placeholders` and
`needEscapeFields`. -/
def insertHeader (builder : SQLBulder) :
    GoMap Val → List GoString × GoString × List GoString × GoMap Bool →
    Option (List GoString × GoString × List GoString × GoMap Bool)
  | [], acc => some acc
  | (field, val) :: rest, (fields, fieldsHolderSb, placeholders, needEscapeFields) =>
    match typeKind val with
    | none => none
    | some k =>
      insertHeader builder rest
        (fields ++ [field],
         fieldsHolderSb ++ _wrapField field builder.delimiter ++ lit ",",
         placeholders ++ [builder.placeholder k],
         mapSet needEscapeFields field (!builder.parameterized && k == Kind.String))

/-- The inner loop `for _, field := range fields` of `buildInsert` for one
row. -/
def insertRowArgs (needEscapeFields : GoMap Bool) (row : GoMap Val) :
    List GoString → Option (List Val)
  | [] => some []
  | field :: rest =>
    let arg := mapGet row field Val.nil
    let arg1 : Option Val :=
      if mapGet needEscapeFields field false then
        match assertString arg with
        | none => none
        | some s => (_escape s).map Val.str
      else some arg
    match arg1, insertRowArgs needEscapeFields row rest with
    | some a, some as => some (a :: as)
    | _, _ => none

/-- The loop `for i := range values` of `buildInsert`. -/
def insertArgs (needEscapeFields : GoMap Bool) (fields : List GoString) :
    List (GoMap Val) → Option (List Val)
  | [] => some []
  | row :: rest =>
    match insertRowArgs needEscapeFields row fields, insertArgs needEscapeFields fields rest with
    | some a, some as => some (a ++ as)
    | _, _ => none

/-- Source: `SQLBulder.buildInsert`. -/
def SQLBulder.buildInsert (builder : SQLBulder) : Option BuildResult :=
  match builder.values with
  | [] => some (errorResult (lit "wrong insert values"))
  | row0 :: _ =>
    match insertHeader builder row0 ([], [], [], []) with
    | none => none
    | some (fields, fieldsHolderSb, placeholders, needEscapeFields) =>
      match sliceStr fieldsHolderSb 0 ((fieldsHolderSb.length : Int) - 1) with
      | none => none
      | some fh =>
        let fieldsHolder := _wrapBracket fh
        let batchHolder := _wrapBracket (join placeholders (lit ","))
        match insertArgs needEscapeFields fields builder.values with
        | none => none
        | some args =>
          let ignore := if builder.insert.ignore then lit "IGNORE" else []
          some { sql := _joinString [lit "INSERT", ignore, lit "INTO", builder.tableName,
                          fieldsHolder, lit "VALUES",
                          _stringRepeatJoin batchHolder (lit ",") builder.values.length,
                          onDupKeyUpdates.String builder.insert.onDupKeyUpdates] (lit " "),
                 args := some args, err := none }

/-- Source: `SQLBulder.buildDelete`. -/
def SQLBulder.buildDelete (h : Heap) (builder : SQLBulder) : Option BuildResult :=
  match Builder.Wheres.string h builder.whereList false builder.placeholder with
  | none => none
  | some (wheres, args) =>
    if wheres = [] then some (errorResult (lit "can not delete without where conditions"))
    else
      some { sql := _joinString [lit "DELETE FROM", builder.tableName, _getWheres wheres]
                      (lit " "),
             args := some args, err := none }

/-- The loop `for field, val := range builder.values[0]` of `buildUpdate`, with
the accumulators `updatePartSb` and `builder.args`. -/
def updateLoop (builder : SQLBulder) :
    GoMap Val → GoString × List Val → Option (GoString × List Val)
  | [], acc => some acc
  | (field, val) :: rest, (updatePartSb, args) =>
    match typeString val with
    | none => none
    | some ts =>
      if ts = lit "mydb.UpdateRaw" then
        match assertUpdateRaw val with
        | none => none
        | some (expr, rawArgs) =>
          updateLoop builder rest
            (updatePartSb ++ _wrapField field builder.delimiter ++ lit " = " ++ expr ++ lit ",",
             args ++ rawArgs)
      else
        match typeKind val with
        | none => none
        | some k =>
          let val1 : Option Val :=
            if !builder.parameterized && k == Kind.String then
              match assertString val with
              | none => none
              | some s => (_escape s).map Val.str
            else some val
          match val1 with
          | none => none
          | some v =>
            updateLoop builder rest
              (updatePartSb ++ _wrapField field builder.delimiter ++ lit " = "
                ++ builder.placeholder k ++ lit ",",
               args ++ [v])

/-- Source: `SQLBulder.buildUpdate`.  The second component is the builder after
the call: the method appends to `builder.args`. -/
def SQLBulder.buildUpdate (h : Heap) (builder : SQLBulder) :
    Option (BuildResult × SQLBulder) :=
  match builder.values with
  | [] => some (errorResult (lit "wrong update values"), builder)
  | row0 :: _ =>
    match updateLoop builder row0 ([], builder.args) with
    | none => none
    | some (updatePart, args1) =>
      match Builder.Wheres.string h builder.whereList false builder.placeholder with
      | none => none
      | some (wheres, args) =>
        if wheres = [] then
          some (errorResult (lit "can not update without where conditions"),
                { builder with args := args1 })
        else
          match sliceStr updatePart 0 ((updatePart.length : Int) - 1) with
          | none => none
          | some up =>
            some ({ sql := _joinString [lit "UPDATE", builder.tableName, lit "SET", up,
                             _getWheres wheres] (lit " "),
                    args := some (args1 ++ args), err := none },
                  { builder with args := args1 ++ args })

/-- Source: `SQLBulder.buildSelect`. -/
def SQLBulder.buildSelect (h : Heap) (builder : SQLBulder) : Option BuildResult :=
  match Builder.Wheres.string h builder.whereList false builder.placeholder with
  | none => none
  | some (wheres, args) =>
    some { sql := _joinString [lit "SELECT", join builder.fields (lit ","), lit "FROM",
                    builder.tableName, ForceIndex.String builder.forceIndexName,
                    _getWheres wheres, Orders.String builder.orders,
                    Groups.String builder.groups, Limit.String builder.limitSize,
                    Offset.String builder.offsetSize] (lit " "),
           args := some args, err := none }

/-- Source: `putBackBuilder`: a builder with `reuse` set is reset by `_default`
(and handed to the pool). -/
def putBackBuilder (builder : SQLBulder) : SQLBulder :=
  if builder.reuse then SQLBulder._default else builder

/-- Source: `SQLBulder.build`.  The first component is what the call returns
(`none` when it faults), the second the builder after the deferred
`putBackBuilder`. -/
def SQLBulder.build (h : Heap) (builder : SQLBulder) : Option BuildResult × SQLBulder :=
  if builder.tableName = [] then
    (some (errorResult (lit "empty table name")), putBackBuilder builder)
  else if builder.action = SQLActionInsert then
    (builder.buildInsert, putBackBuilder builder)
  else if builder.action = SQLActionUpdate then
    match builder.buildUpdate h with
    | none => (none, putBackBuilder builder)
    | some (r, b1) => (some r, putBackBuilder b1)
  else if builder.action = SQLActionSelect then
    (builder.buildSelect h, putBackBuilder builder)
  else if builder.action = SQLActionDelete then
    (builder.buildDelete h, putBackBuilder builder)
  else (some (errorResult (lit "wrong action")), putBackBuilder builder)

/-- Source: `SQLBulder.Build`. -/
def SQLBulder.Build (h : Heap) (builder : SQLBulder) : Option BuildResult × SQLBulder :=
  builder.build h

/-- Source: `SQLBulder.BuildWithTable`. -/
def SQLBulder.BuildWithTable (h : Heap) (builder : SQLBulder) (name : GoString) :
    Option BuildResult × SQLBulder :=
  SQLBulder.build h { builder with tableName := name }

/-! ## Sequences of fluent calls -/

/-- A call of the fluent interface on a `Wheres` value, as issued inside the
callback of a grouped branch. -/
inductive WCall
  | Where (field operation : GoString) (value : Val)
  | OrWhere (field operation : GoString) (value : Val)
  | WhereIn (field : GoString) (value : List Val)
  | OrWhereIn (field : GoString) (value : List Val)
  | WhereNotIn (field : GoString) (value : List Val)
  | OrWhereNotIn (field : GoString) (value : List Val)
  | WhereCombineIn (fields : List GoString) (values : List (List Val))

/-- The effect of one call on a `Wheres` value. -/
def WCall.run (h : Heap) (whs : Wheres) : WCall → Option (Heap × Wheres)
  | .Where f o v => some (Wheres.Where h whs f o v)
  | .OrWhere f o v => some (Wheres.OrWhere h whs f o v)
  | .WhereIn f vs => some (Wheres.WhereIn h whs f vs)
  | .OrWhereIn f vs => some (Wheres.OrWhereIn h whs f vs)
  | .WhereNotIn f vs => some (Wheres.WhereNotIn h whs f vs)
  | .OrWhereNotIn f vs => some (Wheres.OrWhereNotIn h whs f vs)
  | .WhereCombineIn fs vs => Wheres.WhereCombineIn h whs fs vs

/-- A callback `func(w Wheres) Wheres` that chains the calls `calls` on `w`. -/
def runCallback : List WCall → Heap → Wheres → Option (Heap × Wheres)
  | [], h, whs => some (h, whs)
  | c :: rest, h, whs =>
    match c.run h whs with
    | none => none
    | some (h1, whs1) => runCallback rest h1 whs1

/-- A call of the fluent interface on the builder that attaches conditions;
the callback of a grouped branch is a chain of calls on its `Wheres`
argument. -/
inductive BCall
  | Where (field operation : GoString) (value : Val)
  | OrWhere (field operation : GoString) (value : Val)
  | WhereIn (field : GoString) (value : List Val)
  | OrWhereIn (field : GoString) (value : List Val)
  | WhereNotIn (field : GoString) (value : List Val)
  | OrWhereNotIn (field : GoString) (value : List Val)
  | WhereCombineIn (fields : List GoString) (values : List (List Val))
  | Wheres (fn : List WCall)
  | OrWheres (fn : List WCall)

/-- The effect of one call on the builder. -/
def BCall.run (h : Heap) (b : SQLBulder) : BCall → Option (Heap × SQLBulder)
  | .Where f o v => some (b.Where h f o v)
  | .OrWhere f o v => some (b.OrWhere h f o v)
  | .WhereIn f vs => b.WhereIn h f vs
  | .OrWhereIn f vs => b.OrWhereIn h f vs
  | .WhereNotIn f vs => b.WhereNotIn h f vs
  | .OrWhereNotIn f vs => b.OrWhereNotIn h f vs
  | .WhereCombineIn fs vs => b.WhereCombineIn h fs vs
  | .Wheres fn => b.Wheres h (runCallback fn)
  | .OrWheres fn => b.OrWheres h (runCallback fn)

/-- The calls `calls` issued in order on the builder. -/
def runCalls : List BCall → Heap → SQLBulder → Option (Heap × SQLBulder)
  | [], h, b => some (h, b)
  | c :: rest, h, b =>
    match c.run h b with
    | none => none
    | some (h1, b1) => runCalls rest h1 b1

/-! ## Markers and arguments -/

/-- The number of markers `?` of a clause text. -/
def countMarkers (s : GoString) : Nat := s.count 63

/-- The clause text in which the `k`-th marker `?` from the left is replaced by
the rendering `r` of the `k`-th argument. -/
def fillMarkers (r : Val → GoString) : GoString → List Val → GoString
  | [], _ => []
  | c :: t, args =>
    if c = 63 then
      match args with
      | [] => c :: fillMarkers r t []
      | a :: rest => r a ++ fillMarkers r t rest
    else c :: fillMarkers r t args

/-- The leaves of the combine chain that starts at `cur`, in chain order. -/
def chainMembers (h : Heap) : Nat → Option Nat → Option (List Where)
  | _, none => some []
  | 0, some _ => none
  | fuel + 1, some p =>
    match h[p]? with
    | none => none
    | some w =>
      match chainMembers h fuel w.CombineRight with
      | none => none
      | some ms => some (w :: ms)

/-- The tuples of a combine chain: the tuple `i`, for the indices `is`, holds
the `i`-th value of every leaf, in chain order. -/
def chainTuples (cols : List (List Val)) : List Nat → Option (List (List Val))
  | [] => some []
  | i :: is =>
    match chainRow i cols, chainTuples cols is with
    | some r, some rs => some (r :: rs)
    | _, _ => none

/-- The clause of a leaf in the words of the specification (section 4.3), with
every value rendered by `r` at its own position: `field op v` for a leaf with
one value, `field op (v1,...,vn)` for `in` and `not in`, and
`(f1,...,fm) op ((v11,...,v1m),...,(vn1,...,vnm))` for the head of a combine
chain, one tuple per value of the head; preceded by the conjunction unless the
leaf is the first of its list. -/
def Where.leafInline (h : Heap) (r : Val → GoString) (p : Nat) (wh : Where)
    (first : Bool) : Option (GoString × List Val) :=
  let body : Option (GoString × GoString) :=
    if wh.Operation = OpIn ∨ wh.Operation = OpNotIn then
      match wh.CombineRight with
      | none => some (wh.Field, _wrapBracket (join (wh.Value.map r) (lit ",")))
      | some _ =>
        match chainMembers h (h.length + 1) (some p) with
        | none => none
        | some ms =>
          match chainTuples (ms.map (fun m => m.Value)) (List.range wh.Value.length) with
          | none => none
          | some rows =>
            some (_wrapBracket (join (ms.map (fun m => m.Field)) (lit ",")),
              _wrapBracket (join (rows.map
                (fun row => _wrapBracket (join (row.map r) (lit ",")))) (lit ",")))
    else
      match wh.Value with
      | [v] => some (wh.Field, r v)
      | _ => none
  match body with
  | none => none
  | some (field, vals) =>
    if first then some (join [field, wh.Operation, vals] (lit " "), [])
    else some (join [wh.Cond, field, wh.Operation, vals] (lit " "), [])

/-- The rendering of a node with its values in place: the traversal of
`Where.string` (conjunctions, brackets, recursion through `Children`) around
`Where.leafInline`. -/
def Where.inlineF (h : Heap) (r : Val → GoString) :
    Nat → Nat → Bool → Bool → Option (GoString × List Val)
  | 0, _, _, _ => none
  | fuel + 1, p, first, needBracket =>
    match h[p]? with
    | none => none
    | some wh =>
      if wh.Children.length > 0 then
        match Wheres.stringWith h (Where.inlineF h r fuel) wh.Children needBracket with
        | none => none
        | some (s, args) =>
          if first then some (s, args) else some (wh.Cond ++ lit " " ++ s, args)
      else Where.leafInline h r p wh first

/-- The rendering of a condition list with its values in place (no markers, no
argument list): the reference against which the markers and the arguments of
`Wheres.string` are compared. -/
def Wheres.inline (h : Heap) (whs : Wheres) (needBracket : Bool) (r : Val → GoString) :
    Option GoString :=
  (Wheres.stringWith h (Where.inlineF h r h.length) whs needBracket).map (fun x => x.1)

/-! ## The shape of the heaps that the fluent interface builds -/

/-- What every node made by the fluent interface satisfies by itself: its
conjunction is `AND` or `OR`, and unless its operator is `in` or `not in` it
holds at most one value. -/
def NodeOK (w : Where) : Prop :=
  (w.Cond = WhereCondAnd ∨ w.Cond = WhereCondOr) ∧
  ((w.Operation = OpIn ∨ w.Operation = OpNotIn) ∨ w.Value.length ≤ 1)

/-- A run of consecutive objects `block`, the first at the address `base`,
whose pointers stay inside the run: the children of a node are nodes of the
run without children, and the combine-right peer of a node is a node of the
run without children and without a combine-right peer of its own. -/
def BlockOK (base : Nat) (block : List Where) : Prop :=
  ∀ (k : Nat) (w : Where), block[k]? = some w →
    NodeOK w ∧
    (∀ c ∈ w.Children, ∃ (j : Nat) (wc : Where),
      c = base + j ∧ block[j]? = some wc ∧ wc.Children = []) ∧
    (∀ q, w.CombineRight = some q → ∃ (j : Nat) (wq : Where),
      q = base + j ∧ block[j]? = some wq ∧ wq.CombineRight = none ∧ wq.Children = [])

/-- The leaves `ext` that a call of `WhereCombineIn` has appended so far, the
first at the address `base`: leaves made by `Wheres.where`, of which only the
first may have a combine-right peer, the second. -/
def LinkOK (base : Nat) (ext : List Where) : Prop :=
  ∀ (k : Nat) (w : Where), ext[k]? = some w →
    NodeOK w ∧ w.Children = [] ∧
    (1 ≤ k → w.CombineRight = none) ∧
    (k = 0 → w.CombineRight = none ∨ (w.CombineRight = some (base + 1) ∧ 2 ≤ ext.length))

/-- The invariant of the heap under the fluent interface: the children of a
node are nodes without children (a tree has at most two levels), and the
combine-right peer of a node is a leaf that ends the chain. -/
def HeapInv (h : Heap) : Prop :=
  ∀ (p : Nat) (w : Where), h[p]? = some w →
    NodeOK w ∧
    (∀ c ∈ w.Children, ∃ wc : Where, h[c]? = some wc ∧ wc.Children = []) ∧
    (∀ q, w.CombineRight = some q → ∃ wq : Where,
      h[q]? = some wq ∧ wq.CombineRight = none ∧ wq.Children = [])

/-! ## The scenarios of `builder_test.go` -/

/-- The callback of the first `Wheres` call of `TestSQLBuild`:
`w.Where("d", "=", 12).Where("e", ">=", "14").OrWhere("f", "<=", 15)`. -/
def testGroup1 (h : Heap) (w : Wheres) : Option (Heap × Wheres) :=
  let r1 := Wheres.Where h w (lit "d") (lit "=") (Val.num .int 12)
  let r2 := Wheres.Where r1.1 r1.2 (lit "e") (lit ">=") (Val.str (lit "14"))
  some (Wheres.OrWhere r2.1 r2.2 (lit "f") (lit "<=") (Val.num .int 15))

/-- The callback of the `OrWheres` call of `TestSQLBuild`:
`w.Where("d", "=", 15).Where("e", "=", "147")`. -/
def testGroup2 (h : Heap) (w : Wheres) : Option (Heap × Wheres) :=
  let r1 := Wheres.Where h w (lit "d") (lit "=") (Val.num .int 15)
  some (Wheres.Where r1.1 r1.2 (lit "e") (lit "=") (Val.str (lit "147")))

/-- The select statement of `TestSQLBuild`, on a builder made with the options
`opts`: what `BuildWithTable("test_p1")` returns. -/
def testSelect (opts : List NewBuilderOpt) : Option BuildResult :=
  let b := (New (lit "test") opts).Select [lit "a", lit "b", lit "c", lit "max(d)"]
  let b := b.ForceIndex (lit "_uk_a_b_c")
  let s1 := SQLBulder.Where [] b (lit "a") (lit "=") (Val.num .int 11)
  (SQLBulder.Wheres s1.1 s1.2 testGroup1).bind fun s2 =>
  let s3 := SQLBulder.OrWhere s2.1 s2.2 (lit "c") (lit "=") (Val.num .int 13)
  (SQLBulder.OrWheres s3.1 s3.2 testGroup2).bind fun s4 =>
  (SQLBulder.WhereIn s4.1 s4.2 (lit "g")
    [Val.slice (lit "interface {}")
      [Val.num .int 1, Val.num .int 2, Val.num .int 3, Val.num .int 4, Val.num .int 5]]).bind
  fun s5 =>
  (SQLBulder.WhereIn s5.1 s5.2 (lit "h")
    [Val.slice (lit "interface {}") [Val.str (lit "jack")]]).bind fun s6 =>
  (SQLBulder.WhereCombineIn s6.1 s6.2 [lit "aa", lit "bb"]
    [[Val.num .int 10, Val.num .int 20], [Val.num .int 11, Val.num .int 22]]).bind fun s7 =>
  let b := (((((s7.2.OrderBy (lit "a") OrderAsc).OrderBy (lit "b") OrderDesc).GroupBy
    [lit "c"]).Limit 10).Offset 20).Query
  (SQLBulder.BuildWithTable s7.1 b (lit "test_p1")).1

/-- The insert statement of `TestSQLBuild` into the table `table`, the fields of
the row being enumerated in the order `a`, `b`, on a builder made with the
options `opts`: what `Build` returns. -/
def testInsert (table : GoString) (opts : List NewBuilderOpt) : Option BuildResult :=
  ((((New table opts).Insert
      [(lit "a", Val.num .int 1), (lit "b", Val.num .int 2)]).OnDuplicateUpdateKeys
      [lit "a", lit "b"]).Build []).1

/-- The update statement of `TestSQLBuild`, the fields of the row being
enumerated in the order `c`, `b`, `d`, `f`, on a builder made with the options
`opts`: what `Build` returns. -/
def testUpdate (opts : List NewBuilderOpt) : Option BuildResult :=
  let s1 := SQLBulder.Where [] (New (lit "test") opts) (lit "a") (lit "=") (Val.num .int 11)
  ((s1.2.Update
      [(lit "c", Val.num .int 1), (lit "b", Val.num .int 2), (lit "d", Val.str (lit "jack")),
       (lit "f", Val.updateRaw (lit "%d | f") [Val.num .int 100])]).Build s1.1).1

end Builder

namespace Builder

/-! ## Every call of the fluent interface -/

/-- A call of the fluent interface on the builder: a call that attaches
conditions, or one of the calls that set the action, the fields, the rows and
the clauses. -/
inductive Call
  | cond (c : BCall)
  | Select (fields : List GoString)
  | OrderBy (field order : GoString)
  | OrderBys (fields : List GoString) (order : GoString)
  | GroupBy (fields : List GoString)
  | Limit (limit : Int)
  | Offset (offset : Int)
  | Update (values : GoMap Val)
  | ForceIndex (index : GoString)
  | OnDuplicateUpdateKeys (keys : List GoString)
  | Insert (values : GoMap Val)
  | InsertIgnore (values : GoMap Val)
  | BatchInsert (values : List (GoMap Val))
  | BatchInsertIgnore (values : List (GoMap Val))
  | Delete
  | Query

/-- The effect of one call of the fluent interface on the builder. -/
def Call.run (h : Heap) (b : SQLBulder) : Call → Option (Heap × SQLBulder)
  | .cond c => c.run h b
  | .Select fields => some (h, b.Select fields)
  | .OrderBy field order => some (h, b.OrderBy field order)
  | .OrderBys fields order => some (h, b.OrderBys fields order)
  | .GroupBy fields => some (h, b.GroupBy fields)
  | .Limit limit => some (h, b.Limit limit)
  | .Offset offset => some (h, b.Offset offset)
  | .Update values => some (h, b.Update values)
  | .ForceIndex index => some (h, b.ForceIndex index)
  | .OnDuplicateUpdateKeys keys => some (h, b.OnDuplicateUpdateKeys keys)
  | .Insert values => some (h, b.Insert values)
  | .InsertIgnore values => some (h, b.InsertIgnore values)
  | .BatchInsert values => some (h, b.BatchInsert values)
  | .BatchInsertIgnore values => some (h, b.BatchInsertIgnore values)
  | .Delete => some (h, b.Delete)
  | .Query => some (h, b.Query)

/-- The calls `calls` of the fluent interface issued in order on the
builder. -/
def runAll : List Call → Heap → SQLBulder → Option (Heap × SQLBulder)
  | [], h, b => some (h, b)
  | c :: rest, h, b =>
    match c.run h b with
    | none => none
    | some (h1, b1) => runAll rest h1 b1

/-! ## The pool of builders -/

/-- Source: `builderPool`: the states of the instances that the pool holds. -/
abbrev Pool := List SQLBulder

/-- Go `sync.Pool.Get` on `builderPool`: an instance of the pool, which is
removed from it, or, when the pool hands out none (`pick` is `none` or names no
instance), what `builderPool.New` returns, `new(SQLBulder)._default()`. -/
def Pool.Get (pool : Pool) (pick : Option Nat) : SQLBulder × Pool :=
  match pick with
  | none => (SQLBulder._default, pool)
  | some i =>
    match pool[i]? with
    | none => (SQLBulder._default, pool)
    | some b => (b, pool.eraseIdx i)

/-- Source: `newSQLBuilder`, with the pool explicit. -/
def newSQLBuilderIn (pool : Pool) (pick : Option Nat) (table : GoString) (reuse : Bool) :
    SQLBulder × Pool :=
  let r := if reuse then Pool.Get pool pick else (SQLBulder._default, pool)
  ({ r.1 with tableName := table }, r.2)

/-- Source: `New`, with the pool explicit. -/
def NewIn (pool : Pool) (pick : Option Nat) (table : GoString) (opts : List NewBuilderOpt) :
    SQLBulder × Pool :=
  let reuse := match opts with | [] => true | o :: _ => o.Reuse
  let parameterized := match opts with | [] => true | o :: _ => o.Parameterized
  let r := newSQLBuilderIn pool pick table reuse
  ({ r.1 with parameterized := parameterized }, r.2)

/-- Source: `putBackBuilder`, with the pool explicit: the builder after the
call and the pool after it (`builderPool.Put(builder._default())`). -/
def putBackBuilderIn (pool : Pool) (builder : SQLBulder) : SQLBulder × Pool :=
  if builder.reuse then (SQLBulder._default, SQLBulder._default :: pool) else (builder, pool)

/-! ## Combine chains: `CombineValues` and `SetValueByGivenFieldValues` -/

/-- Whether a value may be a key of a Go map with keys of type `interface{}`:
a key whose dynamic type is a slice, or a struct with a slice field
(`UpdateRaw`), makes the map operation fault. -/
def hashable : Val → Bool
  | .slice _ _ => false
  | .updateRaw _ _ => false
  | _ => true

/-- Whether the bits of a `float32` are a NaN. -/
def isNaN32 (bits : Nat) : Bool := (bits / 2 ^ 23) % 256 == 255 && bits % 2 ^ 23 != 0

/-- Whether the bits of a `float64` are a NaN. -/
def isNaN64 (bits : Nat) : Bool := (bits / 2 ^ 52) % 2048 == 2047 && bits % 2 ^ 52 != 0

/-- Go `==` on two hashable values of type `interface{}`, as a map compares
its keys: equal dynamic types and equal values (a NaN equals nothing, the two
zeros of a floating-point type are equal). -/
def keyEq : Val → Val → Bool
  | .nil, .nil => true
  | .bool a, .bool b => a == b
  | .num k n, .num k1 n1 => decide (k = k1) && decide (n = n1)
  | .float32 a, .float32 b =>
    !isNaN32 a && !isNaN32 b && (a == b || (a % 2 ^ 31 == 0 && b % 2 ^ 31 == 0))
  | .float64 a, .float64 b =>
    !isNaN64 a && !isNaN64 b && (a == b || (a % 2 ^ 63 == 0 && b % 2 ^ 63 == 0))
  | .str a, .str b => decide (a = b)
  | .defString t a, .defString t1 b => decide (t = t1) && decide (a = b)
  | _, _ => false

/-- Map index `m[k]` on a map from field names to pointers: `none` is the nil
pointer of a missing key. -/
def mapFind {α : Type} (m : GoMap α) (k : GoString) : Option α :=
  match m with
  | [] => none
  | (k1, v) :: rest => if k1 = k then some v else mapFind rest k

/-- The loops `for leftCur.CombineLeft != nil` and
`for rightCur.CombineRight != nil` of `CombineValues`, `next` being the link
that is followed; `fuel` bounds the number of iterations (a cyclic chain does
not end). -/
def combineWalk (h : Heap) (next : Where → Option Nat) :
    Nat → Where → GoMap Nat × GoMap (List Val) → Option (GoMap Nat × GoMap (List Val))
  | 0, _, _ => none
  | fuel + 1, cur, (whs, vals) =>
    match next cur with
    | none => some (whs, vals)
    | some q =>
      match h[q]? with
      | none => none
      | some cur1 =>
        combineWalk h next fuel cur1 (mapSet whs cur1.Field q, mapSet vals cur1.Field cur1.Value)

/-- Source: `Where.CombineValues`, on the object at the address `p`: the map
from the field names of the chain to its leaves and the map from the field
names to the value lists. -/
def Where.CombineValues (h : Heap) (p : Nat) : Option (GoMap Nat × GoMap (List Val)) :=
  match h[p]? with
  | none => none
  | some wh =>
    match combineWalk h (fun w => w.CombineLeft) (h.length + 1) wh
        ([(wh.Field, p)], [(wh.Field, wh.Value)]) with
    | none => none
    | some acc => combineWalk h (fun w => w.CombineRight) (h.length + 1) wh acc

/-- The statement `fieldValsMap[v] = append(fieldValsMap[v], i)` on a map that
is kept as the list of its entries. -/
def indexAdd (v : Val) (i : Nat) : List (Val × List Nat) → List (Val × List Nat)
  | [] => [(v, [i])]
  | (k, is) :: rest => if keyEq k v then (k, is ++ [i]) :: rest else (k, is) :: indexAdd v i rest

/-- The loop `for i, v := range fieldVals` of `SetValueByGivenFieldValues`,
from the index `i`. -/
def indexLoop : List Val → Nat → List (Val × List Nat) → Option (List (Val × List Nat))
  | [], _, m => some m
  | v :: rest, i, m => if hashable v then indexLoop rest (i + 1) (indexAdd v i m) else none

/-- Map index `fieldValsMap[v]`: the nil slice for a missing key. -/
def indexGet (v : Val) : List (Val × List Nat) → List Nat
  | [] => []
  | (k, is) :: rest => if keyEq k v then is else indexGet v rest

/-- The loop `for _, v := range values` of `SetValueByGivenFieldValues`. -/
def needLoop (m : List (Val × List Nat)) : List Val → List Nat → Option (List Nat)
  | [], needIndexs => some needIndexs
  | v :: rest, needIndexs =>
    if hashable v then needLoop m rest (needIndexs ++ indexGet v m) else none

/-- The loop `for _, i := range needIndexs`: the values `vals[i]`. -/
def pickValues (vals : List Val) : List Nat → Option (List Val)
  | [] => some []
  | i :: rest =>
    match vals[i]?, pickValues vals rest with
    | some v, some vs => some (v :: vs)
    | _, _ => none

/-- The loop `for f, vals := range all` of `SetValueByGivenFieldValues`, over
the entries of `all` in the order of the list. -/
def setValuesLoop (cw : GoMap Nat) (field : GoString) (values : List Val)
    (needIndexs : List Nat) : GoMap (List Val) → Heap → Option Heap
  | [], h => some h
  | (f, vals) :: rest, h =>
    if f = field then
      match mapFind cw field with
      | none => none
      | some p =>
        match Heap.update h p (fun w => { w with Value := values }) with
        | none => none
        | some h1 => setValuesLoop cw field values needIndexs rest h1
    else
      match pickValues vals needIndexs with
      | none => none
      | some tmpValues =>
        match mapFind cw f with
        | none => none
        | some p =>
          match Heap.update h p (fun w => { w with Value := tmpValues }) with
          | none => none
          | some h1 => setValuesLoop cw field values needIndexs rest h1

/-- Source: `CombineWheres.SetValueByGivenFieldValues`: the heap after the
call. -/
def CombineWheres.SetValueByGivenFieldValues (h : Heap) (cw : GoMap Nat) (field : GoString)
    (values : List Val) (all : GoMap (List Val)) : Option Heap :=
  match indexLoop (mapGet all field []) 0 [] with
  | none => none
  | some fieldValsMap =>
    match needLoop fieldValsMap values [] with
    | none => none
    | some needIndexs => setValuesLoop cw field values needIndexs all h

/-! ## The text of a list of tagged clauses -/

/-- The text that the claim about conjunction tags describes, for the rendered
nodes of a list given by their conjunction tags and their clauses: the clause
of the first node, and for every later node one space, its tag, one space and
its clause. -/
def taggedClauses : List (GoString × GoString) → GoString
  | [] => []
  | e :: rest => e.2 ++ rest.flatMap (fun x => lit " " ++ x.1 ++ lit " " ++ x.2)

/-- Whether the object at an address has a combine-right peer. -/
def hasRight (h : Heap) (p : Nat) : Bool :=
  match h[p]? with
  | some w => w.CombineRight.isSome
  | none => false

/-- The rendered nodes of a condition list, in the words of the claim about
conjunction tags: every entry of the list but the peers of a combine chain.  A
peer stands right after an entry with a combine-right peer and is rendered
inside the clause of the head of its chain; `skip` says that the entry before
has a combine-right peer. -/
def renderedNodes (h : Heap) : Bool → Wheres → Wheres
  | _, [] => []
  | skip, p :: rest => (if skip then [] else [p]) ++ renderedNodes h (hasRight h p) rest

/-- The clause of a leaf without its conjunction tag, as the specification
writes it: `field op ph` for a leaf with a plain operator, `field op (ph,...)`
with one placeholder per value for `in` and `not in`, and
`(f1,f2) op ((ph1,ph2),...)` with one pair per value for the head of a combine
chain of two leaves; a placeholder is that of the kind of the first value of
its leaf.  The arguments are the values of the leaf, and for a chain the values
of the two leaves tuple by tuple. -/
def leafClause (h : Heap) (getPh : Kind → GoString) (w : Where) :
    Option (GoString × List Val) :=
  match w.Value with
  | [] => none
  | v :: _ =>
    match typeKind v with
    | none => none
    | some k =>
      if w.Operation = OpIn ∨ w.Operation = OpNotIn then
        match w.CombineRight with
        | none =>
          some (join [w.Field, w.Operation,
              _wrapBracket (_stringRepeatJoin (getPh k) (lit ",") w.Value.length)] (lit " "),
            w.Value)
        | some q =>
          match h[q]? with
          | none => none
          | some wq =>
            match wq.Value with
            | [] => none
            | v1 :: _ =>
              match typeKind v1 with
              | none => none
              | some k1 =>
                some (join [_wrapBracket (join [w.Field, wq.Field] (lit ",")), w.Operation,
                    _wrapBracket (_stringRepeatJoin
                      (_wrapBracket (getPh k ++ lit "," ++ getPh k1)) (lit ",")
                      w.Value.length)] (lit " "),
                  ((w.Value.zip wq.Value).map (fun p => [p.1, p.2])).flatten)
      else some (join [w.Field, w.Operation, getPh k] (lit " "), w.Value)

/-- The heap `h1` is the heap `h` up to the conjunction tag of the object at
the address `p`: the same addresses, and at every address an object with the
same field name, operator, values, children and combine-right peer, and, except
at `p`, the same conjunction tag. -/
def AgreeButCond (p : Nat) (h h1 : Heap) : Prop :=
  h1.length = h.length ∧
  ∀ (q : Nat) (x : Where), h[q]? = some x →
    ∃ x1 : Where, h1[q]? = some x1 ∧ x1.Field = x.Field ∧ x1.Operation = x.Operation ∧
      x1.Value = x.Value ∧ x1.Children = x.Children ∧ x1.CombineRight = x.CombineRight ∧
      (q ≠ p → x1.Cond = x.Cond)

/-! ## Spacing of a statement -/

/-- Whether a text holds no two consecutive spaces. -/
def noDoubleSpace : GoString → Bool
  | [] => true
  | [_] => true
  | a :: b :: t => !(a == 32 && b == 32) && noDoubleSpace (b :: t)

/-- A text is tidy when it is not empty, neither starts nor ends with a space,
and holds no two consecutive spaces. -/
def Tidy (s : GoString) : Prop :=
  s ≠ [] ∧ s.head? ≠ some 32 ∧ s.getLast? ≠ some 32 ∧ noDoubleSpace s = true

instance (s : GoString) : Decidable (Tidy s) := by
  unfold Tidy
  exact inferInstance

/-! ## Further scenarios of `builder_test.go` -/

/-- The delete statement of `TestSQLBuild`, on a builder made with the options
`opts`: what `New("test").Where("a", "=", 11).Delete().Build()` returns. -/
def testDelete (opts : List NewBuilderOpt) : Option BuildResult :=
  let s1 := SQLBulder.Where [] (New (lit "test") opts) (lit "a") (lit "=") (Val.num .int 11)
  (s1.2.Delete.Build s1.1).1

end Builder

namespace Builder

/-! ## Unescaping -/

/-- The special byte that an escape code stands for: `0`, `n`, `r`, backslash,
single quote, double quote and `Z` stand for NUL, LF, CR, backslash, single
quote, double quote and 0x1A; any other byte is no code. -/
def unescapeCode (c : Nat) : Option Nat :=
  if c = 48 then some 0
  else if c = 110 then some 10
  else if c = 114 then some 13
  else if c = 92 then some 92
  else if c = 39 then some 39
  else if c = 34 then some 34
  else if c = 90 then some 26
  else none

/-- The left-to-right reading of an escaped text; `pending` tells that the byte
just read is a backslash that starts a pair.  A backslash followed by a code
gives the special byte of the code, every other byte is copied. -/
def unescapeFrom : Bool → GoString → GoString
  | false, [] => []
  | true, [] => [92]
  | false, b :: t => if b = 92 then unescapeFrom true t else b :: unescapeFrom false t
  | true, c :: t =>
    match unescapeCode c with
    | some b => b :: unescapeFrom false t
    | none => 92 :: c :: unescapeFrom false t

/-- The inverse of `_escape`, in the words of the claim: the text is read left
to right, each pair of a backslash and a code is mapped back to its special
byte and every other byte is copied. -/
def unescape (s : GoString) : GoString := unescapeFrom false s

/-! ## Find by field -/

/-- The inner loop `for _, wh := range nextLevel` of `Wheres.findByField`: a
node whose field is `field` is appended to `res`, the children of every node
to `tmpLevel`.  Faults on a dangling address. -/
def findLevel (h : Heap) (field : GoString) :
    List Nat → List Nat → List Nat → Option (List Nat × List Nat)
  | [], res, tmpLevel => some (res, tmpLevel)
  | p :: rest, res, tmpLevel =>
    match h[p]? with
    | none => none
    | some wh =>
      findLevel h field rest (if wh.Field = field then res ++ [p] else res)
        (tmpLevel ++ wh.Children)

/-- The outer loop `for len(nextLevel) > 0` of `Wheres.findByField`; `fuel`
bounds the number of iterations, and the result is `none` when the loop has
not ended within the bound. -/
def findLoop (h : Heap) (field : GoString) : Nat → List Nat → List Nat → Option (List Nat)
  | 0, nextLevel, res => if nextLevel.length > 0 then none else some res
  | fuel + 1, nextLevel, res =>
    if nextLevel.length > 0 then
      match findLevel h field nextLevel res [] with
      | none => none
      | some (res1, tmpLevel) => findLoop h field fuel tmpLevel res1
    else some res

/-- Source: `Wheres.findByField`.  The function stores nothing through a
pointer, so the heap is no result; it returns the addresses found.  The loop
descends one level per iteration, which in a tree of at most `h.length` nodes
ends within `h.length + 1` iterations. -/
def Wheres.findByField (h : Heap) (whs : Wheres) (field : GoString) : Option (List Nat) :=
  if whs.length = 0 then some []
  else findLoop h field (h.length + 1) whs []

/-- Source: `SQLBulder.GetWheresByField`. -/
def SQLBulder.GetWheresByField (h : Heap) (builder : SQLBulder) (field : GoString) :
    Option (List Nat) :=
  Wheres.findByField h builder.whereList field

/-- The children of the node at an address, left to right. -/
def childrenOf (h : Heap) (p : Nat) : List Nat :=
  match h[p]? with
  | some wh => wh.Children
  | none => []

/-- Whether the node at an address has the field name `field`. -/
def hasField (h : Heap) (field : GoString) (p : Nat) : Bool :=
  match h[p]? with
  | some wh => decide (wh.Field = field)
  | none => false

/-- The nodes of depth `d` of the tree with the top-level entries `whs`, left
to right: the entries themselves at depth 0, and at depth `d + 1` the children
of the nodes of depth `d`. -/
def levelNodes (h : Heap) (whs : Wheres) : Nat → List Nat
  | 0 => whs
  | d + 1 => (levelNodes h whs d).flatMap (childrenOf h)

/-- The nodes of depth below `D` in breadth-first order: depth by depth, and
left to right within a depth. -/
def breadthFirst (h : Heap) (whs : Wheres) (D : Nat) : List Nat :=
  (List.range D).flatMap (levelNodes h whs)

/-- A condition tree of three levels: the entries `a = 1`, a branch and
`b = 2`; the branch holds `b = 3`, a branch and `a = 4`; the inner branch holds
`a = 5`. -/
def testTree : Heap :=
  [ { Field := lit "a", Operation := lit "=", Value := [Val.num .int 1], Children := [],
      Cond := lit "AND", CombineRight := none, CombineLeft := none },
    { Field := [], Operation := [], Value := [], Children := [3, 4, 5],
      Cond := lit "AND", CombineRight := none, CombineLeft := none },
    { Field := lit "b", Operation := lit "=", Value := [Val.num .int 2], Children := [],
      Cond := lit "AND", CombineRight := none, CombineLeft := none },
    { Field := lit "b", Operation := lit "=", Value := [Val.num .int 3], Children := [],
      Cond := lit "AND", CombineRight := none, CombineLeft := none },
    { Field := [], Operation := [], Value := [], Children := [6],
      Cond := lit "OR", CombineRight := none, CombineLeft := none },
    { Field := lit "a", Operation := lit "=", Value := [Val.num .int 4], Children := [],
      Cond := lit "AND", CombineRight := none, CombineLeft := none },
    { Field := lit "a", Operation := lit "=", Value := [Val.num .int 5], Children := [],
      Cond := lit "AND", CombineRight := none, CombineLeft := none } ]

/-! ## Regular expressions (Go standard library, `regexp`)

The patterns that `isSingleAggregationFun` compiles use a small part of the
syntax of package `regexp`: the flag group `(?i)` at the start, literal
characters, a bracket expression of literal characters, an escaped punctuation
character, the dot, the star with or without a following question mark, and
capture groups without a quantifier.  `Compile` gives `none` on any other
pattern. -/

/-- The orbit of an ASCII rune under `unicode.SimpleFold`: a letter folds to its
other case, `k` and `s` also to the Kelvin sign U+212A and the long s U+017F;
any other ASCII rune folds to itself only. -/
def foldOrbit (r : Nat) : List Nat :=
  if r = 75 ∨ r = 107 then [75, 107, 0x212A]
  else if r = 83 ∨ r = 115 then [83, 115, 0x17F]
  else if 65 ≤ r ∧ r ≤ 90 then [r, r + 32]
  else if 97 ≤ r ∧ r ≤ 122 then [r - 32, r]
  else [r]

/-- The tokens of a pattern. -/
inductive Tok
  | set (rs : List Nat)
  | dot
  | star
  | quest
  | lparen
  | rparen

/-- The punctuation characters with a meaning in a pattern outside a bracket
expression: backslash, dot, plus, star, question mark, parentheses, bar,
brackets, braces, caret and dollar. -/
def metaChars : List Nat := [92, 46, 43, 42, 63, 40, 41, 124, 91, 93, 123, 125, 94, 36]

/-- The tokens of a pattern of ASCII characters, read left to right; `esc` says
that the previous character is a backslash, `cls` holds the members read so far
of an open bracket expression.  With `fold` (flag `i`) a literal character
stands for its fold orbit.  A range, a negation, an escape or a bracket inside
a bracket expression, an empty bracket expression, an escaped letter or digit,
and the characters plus, bar, braces, caret, dollar and a closing bracket
outside a bracket expression are not handled. -/
def lex (fold : Bool) : Bool → Option (List Nat) → GoString → Option (List Tok)
  | false, none, [] => some []
  | _, _, [] => none
  | true, none, c :: t =>
    if c ∈ metaChars then (lex fold false none t).map (fun ts => Tok.set [c] :: ts) else none
  | true, some _, _ :: _ => none
  | false, some acc, c :: t =>
    if c = 93 then
      if acc = [] then none else (lex fold false none t).map (fun ts => Tok.set acc :: ts)
    else if c = 45 ∨ c = 92 ∨ c = 91 ∨ c = 94 ∨ 128 ≤ c then none
    else lex fold false (some (acc ++ (if fold then foldOrbit c else [c]))) t
  | false, none, c :: t =>
    if c = 92 then lex fold true none t
    else if c = 91 then lex fold false (some []) t
    else if c = 46 then (lex fold false none t).map (fun ts => Tok.dot :: ts)
    else if c = 42 then (lex fold false none t).map (fun ts => Tok.star :: ts)
    else if c = 63 then (lex fold false none t).map (fun ts => Tok.quest :: ts)
    else if c = 40 then (lex fold false none t).map (fun ts => Tok.lparen :: ts)
    else if c = 41 then (lex fold false none t).map (fun ts => Tok.rparen :: ts)
    else if c ∈ metaChars ∨ 128 ≤ c then none
    else (lex fold false none t).map (fun ts => Tok.set (if fold then foldOrbit c else [c]) :: ts)

/-- A set of runes of a compiled pattern: the listed runes, or every rune but
the newline (the dot without the flag `s`). -/
inductive CharSet
  | of (rs : List Nat)
  | anyNotNL

/-- Whether the rune belongs to the set. -/
def CharSet.has : CharSet → Nat → Bool
  | .of rs, r => decide (r ∈ rs)
  | .anyNotNL, r => decide (r ≠ 10)

/-- One step of a compiled pattern: one rune of a set, or any number of runes
of a set. -/
inductive Inst
  | one (c : CharSet)
  | many (c : CharSet)

/-- The pending step as a list. -/
def flush : Option Inst → List Inst
  | none => []
  | some i => [i]

/-- The steps of a token list; `d` is the number of open groups and `pending`
the step read last, which a following star still applies to.  A group is kept
only for its content (no alternation is handled, and a quantifier after a
group is not handled), a star after a star is an error, a question mark is
handled only after a star (the lazy star, which matches the same texts). -/
def parseToks : Nat → Option Inst → List Tok → Option (List Inst)
  | d, p, [] => if d = 0 then some (flush p) else none
  | d, p, .set rs :: t => (parseToks d (some (.one (.of rs))) t).map (fun is => flush p ++ is)
  | d, p, .dot :: t => (parseToks d (some (.one .anyNotNL)) t).map (fun is => flush p ++ is)
  | d, some (.one c), .star :: t => parseToks d (some (.many c)) t
  | _, _, .star :: _ => none
  | d, some (.many c), .quest :: t => (parseToks d none t).map (fun is => Inst.many c :: is)
  | _, _, .quest :: _ => none
  | d, p, .lparen :: t => (parseToks (d + 1) none t).map (fun is => flush p ++ is)
  | 0, _, .rparen :: _ => none
  | d + 1, p, .rparen :: t => (parseToks d none t).map (fun is => flush p ++ is)

/-- Go `regexp.Compile`, on the patterns described above: the steps of the
pattern, `none` when the pattern has an error or is not handled. -/
def Compile (pattern : GoString) : Option (List Inst) :=
  if pattern.take 4 = lit "(?i)" then (lex true false none (pattern.drop 4)).bind (parseToks 0 none)
  else (lex false false none pattern).bind (parseToks 0 none)

/-- Whether the steps match a prefix of the runes. -/
def matchHere : List Inst → List Nat → Bool
  | [], _ => true
  | .one _ :: _, [] => false
  | .one c :: rest, r :: rs => c.has r && matchHere rest rs
  | .many c :: rest, rs =>
    (List.range ((rs.takeWhile c.has).length + 1)).any (fun k => matchHere rest (rs.drop k))

/-- Go `(*Regexp).MatchString`: whether the text contains a match of the
pattern, starting at any rune. -/
def MatchString (re : List Inst) (s : GoString) : Bool :=
  (List.range ((runes s).length + 1)).any (fun i => matchHere re ((runes s).drop i))

/-! ## Aggregation predicates -/

/-- Source: `SQLBulder.isSingleAggregationFun`.  The error of `regexp.Compile`
is dropped; with exactly one field the compiled pattern is used, and the result
is `none` when there is none. -/
def SQLBulder.isSingleAggregationFun (builder : SQLBulder) (funName : GoString) :
    Option Bool :=
  let exp := Compile (lit "(?i)" ++ funName ++ lit "\\((.*?)\\)")
  if builder.fields.length = 1 then
    match exp, builder.fields[0]? with
    | some re, some f => some (MatchString re f)
    | _, _ => none
  else some false

/-- Source: `SQLBulder.IsSingleAggregationSum`. -/
def SQLBulder.IsSingleAggregationSum (builder : SQLBulder) : Option Bool :=
  builder.isSingleAggregationFun (lit "[count|sum]")

/-- Source: `SQLBulder.IsSingleAggregationAvg`. -/
def SQLBulder.IsSingleAggregationAvg (builder : SQLBulder) : Option Bool :=
  builder.isSingleAggregationFun (lit "avg")

/-- Source: `SQLBulder.IsSingleAggregationMax`. -/
def SQLBulder.IsSingleAggregationMax (builder : SQLBulder) : Option Bool :=
  builder.isSingleAggregationFun (lit "max")

/-- Source: `SQLBulder.IsSingleAggregationMin`. -/
def SQLBulder.IsSingleAggregationMin (builder : SQLBulder) : Option Bool :=
  builder.isSingleAggregationFun (lit "min")

end Builder

/-! # Theorems -/

namespace Builder

theorem le_lor_left (a b : Nat) : a ≤ a ||| b :=
  Nat.le_of_testBit (fun i h => by simp [Nat.testBit_or, h])

theorem le_lor_right (a b : Nat) : b ≤ a ||| b :=
  Nat.le_of_testBit (fun i h => by simp [Nat.testBit_or, h])

theorem and_63 (x : Nat) : x &&& 0x3F = x % 64 := Nat.and_pow_two_sub_one_eq_mod x 6
theorem and_31 (x : Nat) : x &&& 0x1F = x % 32 := Nat.and_pow_two_sub_one_eq_mod x 5
theorem and_15 (x : Nat) : x &&& 0x0F = x % 16 := Nat.and_pow_two_sub_one_eq_mod x 4
theorem and_7 (x : Nat) : x &&& 0x07 = x % 8 := Nat.and_pow_two_sub_one_eq_mod x 3

theorem escapeOf_high (r : Nat) (h : 128 ≤ r) : escapeOf r = 0 := by
  unfold escapeOf
  repeat (first | rw [if_neg (by omega)] | rfl)

theorem escapeByte_high (b : Nat) (h : 128 ≤ b) : escapeByte b = [b] := by
  unfold escapeByte
  repeat (first | rw [if_neg (by omega)] | rfl)

theorem escapeByte_of_escapeOf_zero (b : Nat) (h : escapeOf b = 0) : escapeByte b = [b] := by
  unfold escapeOf at h
  unfold escapeByte
  split_ifs at h ⊢
  all_goals simp_all

theorem escapeByte_of_escapeOf (b : Nat) (h : escapeOf b ≠ 0) :
    escapeByte b = [92, escapeOf b] := by
  unfold escapeOf at h ⊢
  unfold escapeByte
  split_ifs at h ⊢ <;> simp_all

theorem first_cases (b : Nat) :
    (first b = 0xF0 ∧ b < 0x80) ∨ first b = 0xF1 ∨
    (first b = 0x02 ∧ 0xC2 ≤ b ∧ b < 0xE0) ∨
    (first b = 0x13 ∧ b = 0xE0) ∨
    (first b = 0x03 ∧ 0xE1 ≤ b ∧ b < 0xF0) ∨
    (first b = 0x23 ∧ b = 0xED) ∨
    (first b = 0x34 ∧ b = 0xF0) ∨
    (first b = 0x04 ∧ 0xF1 ≤ b ∧ b < 0xF4) ∨
    (first b = 0x44 ∧ b = 0xF4) := by
  unfold first
  split_ifs <;> simp <;> omega


theorem rune2_high (b s1 : Nat) (h1 : 194 ≤ b) (h2 : b < 224) :
    128 ≤ (b &&& 31) <<< 6 ||| s1 &&& 63 := by
  refine le_trans ?_ (le_lor_left _ _)
  rw [and_31, Nat.shiftLeft_eq]
  omega

theorem rune3_high (b s1 s2 : Nat) (h : 225 ≤ b ∧ b < 240 ∨ b = 224 ∧ 160 ≤ s1 ∧ s1 ≤ 191) :
    128 ≤ (b &&& 15) <<< 12 ||| (s1 &&& 63) <<< 6 ||| s2 &&& 63 := by
  refine le_trans ?_ (le_lor_left _ _)
  rcases h with h | h
  · refine le_trans ?_ (le_lor_left _ _)
    rw [and_15, Nat.shiftLeft_eq]
    omega
  · refine le_trans ?_ (le_lor_right _ _)
    rw [and_63, Nat.shiftLeft_eq]
    omega

theorem rune4_high (b s1 s2 s3 : Nat)
    (h : 241 ≤ b ∧ b ≤ 244 ∨ b = 240 ∧ 144 ≤ s1 ∧ s1 ≤ 191) :
    128 ≤ (b &&& 7) <<< 18 ||| (s1 &&& 63) <<< 12 ||| (s2 &&& 63) <<< 6 ||| s3 &&& 63 := by
  refine le_trans ?_ (le_lor_left _ _)
  refine le_trans ?_ (le_lor_left _ _)
  rcases h with h | h
  · refine le_trans ?_ (le_lor_left _ _)
    rw [and_7, Nat.shiftLeft_eq]
    omega
  · refine le_trans ?_ (le_lor_right _ _)
    rw [and_63, Nat.shiftLeft_eq]
    omega

/-- The property of one decoding step that `_escape` relies on. -/
theorem decode_step (b : Nat) (rest : GoString) :
    1 ≤ (DecodeRuneInString (b :: rest)).2 ∧
    (DecodeRuneInString (b :: rest)).2 ≤ (b :: rest).length ∧
    (escapeOf (DecodeRuneInString (b :: rest)).1 ≠ 0 →
      (DecodeRuneInString (b :: rest)).2 = 1 ∧
      escapeByte b = [92, escapeOf (DecodeRuneInString (b :: rest)).1]) ∧
    (escapeOf (DecodeRuneInString (b :: rest)).1 = 0 →
      ((b :: rest).take (DecodeRuneInString (b :: rest)).2).flatMap escapeByte
        = (b :: rest).take (DecodeRuneInString (b :: rest)).2) := by
  have hRE : escapeOf RuneError = 0 := by decide
  have one : ∀ r, (escapeOf r ≠ 0 → escapeByte b = [92, escapeOf r]) →
      (escapeOf r = 0 → escapeByte b = [b]) →
      1 ≤ ((r, 1) : Nat × Nat).2 ∧ ((r, 1) : Nat × Nat).2 ≤ (b :: rest).length ∧
      (escapeOf ((r, 1) : Nat × Nat).1 ≠ 0 → ((r, 1) : Nat × Nat).2 = 1 ∧
        escapeByte b = [92, escapeOf ((r, 1) : Nat × Nat).1]) ∧
      (escapeOf ((r, 1) : Nat × Nat).1 = 0 →
        ((b :: rest).take ((r, 1) : Nat × Nat).2).flatMap escapeByte
          = (b :: rest).take ((r, 1) : Nat × Nat).2) := by
    intro r h1 h2
    refine ⟨le_refl _, by simp, fun h => ⟨rfl, h1 h⟩, fun h => ?_⟩
    simp [h2 h]
  have err : 128 ≤ b → ∀ rw, (RuneError, 1) = rw →
      1 ≤ rw.2 ∧ rw.2 ≤ (b :: rest).length ∧
      (escapeOf rw.1 ≠ 0 → rw.2 = 1 ∧ escapeByte b = [92, escapeOf rw.1]) ∧
      (escapeOf rw.1 = 0 →
        ((b :: rest).take rw.2).flatMap escapeByte = (b :: rest).take rw.2) := by
    intro hb rw h
    subst h
    exact one _ (fun h => absurd hRE h) (fun _ => escapeByte_high b hb)
  have multi : ∀ r k, 128 ≤ r → 1 ≤ k → k ≤ (b :: rest).length →
      (∀ x ∈ (b :: rest).take k, 128 ≤ x) → ∀ rw, (r, k) = rw →
      1 ≤ rw.2 ∧ rw.2 ≤ (b :: rest).length ∧
      (escapeOf rw.1 ≠ 0 → rw.2 = 1 ∧ escapeByte b = [92, escapeOf rw.1]) ∧
      (escapeOf rw.1 = 0 →
        ((b :: rest).take rw.2).flatMap escapeByte = (b :: rest).take rw.2) := by
    intro r k hr hk1 hk2 hall rw h
    subst h
    refine ⟨hk1, hk2, fun h => absurd (escapeOf_high r hr) h, fun _ => ?_⟩
    show (List.take k (b :: rest)).flatMap escapeByte = List.take k (b :: rest)
    generalize List.take k (b :: rest) = l at hall
    induction l with
    | nil => rfl
    | cons x xs ih =>
      rw [List.flatMap_cons, escapeByte_high x (hall x (List.mem_cons_self _ _)),
        ih (fun y hy => hall y (List.mem_cons_of_mem _ hy))]
      rfl
  rcases first_cases b with h | h | h | h | h | h | h | h | h
  · have : DecodeRuneInString (b :: rest) = (b, 1) := by
      simp [DecodeRuneInString, h.1]
    rw [this]
    exact one b (escapeByte_of_escapeOf b) (escapeByte_of_escapeOf_zero b)
  · have hb : 128 ≤ b := by
      by_contra hlt
      have : first b = 0xF0 := by unfold first; rw [if_pos (by omega)]
      omega
    have : DecodeRuneInString (b :: rest) = (RuneError, 1) := by
      simp [DecodeRuneInString, h]
    rw [this]
    exact err hb _ rfl
  · obtain ⟨hf, h1, h2⟩ := h
    have hb : 128 ≤ b := by omega
    generalize hrw : DecodeRuneInString (b :: rest) = rw
    rcases rest with _ | ⟨s1, t1⟩
    all_goals simp +decide [DecodeRuneInString, hf, acceptRanges] at hrw
    all_goals try split_ifs at hrw
    all_goals first
      | exact err hb _ hrw
      | (refine multi _ 2 (rune2_high b s1 h1 h2) (by omega) (by simp) ?_ _ hrw
         intro x hx
         simp at hx
         omega)
  · obtain ⟨hf, h1⟩ := h
    have hb : 128 ≤ b := by omega
    generalize hrw : DecodeRuneInString (b :: rest) = rw
    rcases rest with _ | ⟨s1, _ | ⟨s2, t2⟩⟩
    all_goals simp +decide [DecodeRuneInString, hf, acceptRanges] at hrw
    all_goals try split_ifs at hrw
    all_goals first
      | exact err hb _ hrw
      | (refine multi _ 3 (rune3_high b s1 s2 (Or.inr ⟨h1, by omega, by omega⟩)) (by omega) (by simp) ?_ _ hrw
         intro x hx
         simp at hx
         omega)
  · obtain ⟨hf, h1, h2⟩ := h
    have hb : 128 ≤ b := by omega
    generalize hrw : DecodeRuneInString (b :: rest) = rw
    rcases rest with _ | ⟨s1, _ | ⟨s2, t2⟩⟩
    all_goals simp +decide [DecodeRuneInString, hf, acceptRanges] at hrw
    all_goals try split_ifs at hrw
    all_goals first
      | exact err hb _ hrw
      | (refine multi _ 3 (rune3_high b s1 s2 (Or.inl ⟨h1, h2⟩)) (by omega) (by simp) ?_ _ hrw
         intro x hx
         simp at hx
         omega)
  · obtain ⟨hf, h1⟩ := h
    have hb : 128 ≤ b := by omega
    generalize hrw : DecodeRuneInString (b :: rest) = rw
    rcases rest with _ | ⟨s1, _ | ⟨s2, t2⟩⟩
    all_goals simp +decide [DecodeRuneInString, hf, acceptRanges] at hrw
    all_goals try split_ifs at hrw
    all_goals first
      | exact err hb _ hrw
      | (refine multi _ 3 (rune3_high b s1 s2 (Or.inl ⟨by omega, by omega⟩)) (by omega) (by simp) ?_ _ hrw
         intro x hx
         simp at hx
         omega)
  · obtain ⟨hf, h1⟩ := h
    have hb : 128 ≤ b := by omega
    generalize hrw : DecodeRuneInString (b :: rest) = rw
    rcases rest with _ | ⟨s1, _ | ⟨s2, _ | ⟨s3, t3⟩⟩⟩
    all_goals simp +decide [DecodeRuneInString, hf, acceptRanges] at hrw
    all_goals try split_ifs at hrw
    all_goals first
      | exact err hb _ hrw
      | (refine multi _ 4 (rune4_high b s1 s2 s3 (Or.inr ⟨h1, by omega, by omega⟩)) (by omega) (by simp) ?_ _ hrw
         intro x hx
         simp at hx
         omega)
  · obtain ⟨hf, h1, h2⟩ := h
    have hb : 128 ≤ b := by omega
    generalize hrw : DecodeRuneInString (b :: rest) = rw
    rcases rest with _ | ⟨s1, _ | ⟨s2, _ | ⟨s3, t3⟩⟩⟩
    all_goals simp +decide [DecodeRuneInString, hf, acceptRanges] at hrw
    all_goals try split_ifs at hrw
    all_goals first
      | exact err hb _ hrw
      | (refine multi _ 4 (rune4_high b s1 s2 s3 (Or.inl ⟨h1, by omega⟩)) (by omega) (by simp) ?_ _ hrw
         intro x hx
         simp at hx
         omega)
  · obtain ⟨hf, h1⟩ := h
    have hb : 128 ≤ b := by omega
    generalize hrw : DecodeRuneInString (b :: rest) = rw
    rcases rest with _ | ⟨s1, _ | ⟨s2, _ | ⟨s3, t3⟩⟩⟩
    all_goals simp +decide [DecodeRuneInString, hf, acceptRanges] at hrw
    all_goals try split_ifs at hrw
    all_goals first
      | exact err hb _ hrw
      | (refine multi _ 4 (rune4_high b s1 s2 s3 (Or.inl ⟨by omega, by omega⟩)) (by omega) (by simp) ?_ _ hrw
         intro x hx
         simp at hx
         omega)

theorem escapeLoop_eq (sql : GoString) :
    ∀ (fuel i : Nat) (dest : GoString), i ≤ sql.length → sql.length - i ≤ fuel →
      escapeLoop sql fuel i dest = some (dest ++ (sql.drop i).flatMap escapeByte) := by
  intro fuel
  induction fuel with
  | zero =>
    intro i dest hi hf
    have : i = sql.length := by omega
    subst this
    simp [escapeLoop]
  | succ n ih =>
    intro i dest hi hf
    unfold escapeLoop
    by_cases hlt : i < sql.length
    · rw [if_pos hlt]
      obtain ⟨b, rest, hdrop⟩ : ∃ b rest, sql.drop i = b :: rest := by
        cases h : sql.drop i with
        | nil =>
          have := congrArg List.length h
          simp at this
          omega
        | cons b rest => exact ⟨b, rest, rfl⟩
      have hlen : (b :: rest).length = sql.length - i := by
        rw [← hdrop, List.length_drop]
      obtain ⟨hw1, hw2, hesc, hcopy⟩ := decode_step b rest
      simp only [hdrop]
      by_cases he : escapeOf (DecodeRuneInString (b :: rest)).1 = 0
      · rw [if_neg (by simpa using he)]
        have hs : sliceStr sql i (i + (DecodeRuneInString (b :: rest)).2 : Nat)
            = some ((b :: rest).take (DecodeRuneInString (b :: rest)).2) := by
          unfold sliceStr
          rw [if_pos ⟨by omega, by omega, by omega⟩]
          have e : ((i : Int) + ((DecodeRuneInString (b :: rest)).2 : Int)).toNat
              = i + (DecodeRuneInString (b :: rest)).2 := by omega
          simp [hdrop, e]
        rw [hs]
        simp only []
        rw [ih _ _ (by omega) (by omega)]
        have hsplit : sql.drop i = (b :: rest).take (DecodeRuneInString (b :: rest)).2
            ++ sql.drop (i + (DecodeRuneInString (b :: rest)).2) := by
          rw [← List.drop_drop, hdrop, List.take_append_drop]
        congr 1
        conv_rhs => rw [← hdrop, hsplit, List.flatMap_append, hcopy he]
        simp
      · rw [if_pos (by simpa using he)]
        obtain ⟨hw, hb⟩ := hesc he
        rw [ih _ _ (by omega) (by omega), hw]
        have : sql.drop (i + 1) = rest := by
          rw [← List.drop_drop, hdrop]; rfl
        rw [this, List.flatMap_cons, hb]
        simp
    · have : i = sql.length := by omega
      subst this
      simp

theorem _escape_eq (sql : GoString) : _escape sql = some (sql.flatMap escapeByte) := by
  unfold _escape
  rw [escapeLoop_eq sql sql.length 0 [] (Nat.zero_le _) (by omega)]
  simp

end Builder

namespace Builder

theorem escapeByte_length (b : Nat) :
    (escapeByte b).length = 1 + (if isSpecial b then 1 else 0) := by
  unfold escapeByte isSpecial
  split_ifs <;> simp_all

theorem flatMap_escapeByte_length (s : GoString) :
    (s.flatMap escapeByte).length = s.length + s.countP isSpecial := by
  induction s with
  | nil => rfl
  | cons b t ih =>
    rw [List.flatMap_cons, List.length_append, ih, escapeByte_length, List.countP_cons]
    simp only [List.length_cons]
    split_ifs <;> omega

end Builder

namespace Builder

theorem typeString_ne_mydb (v : Val) (ts : GoString) (h : typeString v = some ts)
    (hd : ∀ ty s, v ≠ Val.defString ty s) :
    ts ≠ lit "mydb.UpdateRaw" := by
  cases v with
  | nil => simp [typeString] at h
  | bool b => simp only [typeString, Option.some.injEq] at h; subst h; decide
  | num k n =>
    simp only [typeString, Option.some.injEq] at h; subst h
    cases k <;> decide
  | float32 b => simp only [typeString, Option.some.injEq] at h; subst h; decide
  | float64 b => simp only [typeString, Option.some.injEq] at h; subst h; decide
  | str s => simp only [typeString, Option.some.injEq] at h; subst h; decide
  | defString ty s => exact absurd rfl (hd ty s)
  | slice e xs =>
    simp only [typeString, Option.some.injEq] at h; subst h
    intro hc
    have h1 : lit "[]" ++ e = 91 :: 93 :: e := rfl
    have h2 : lit "mydb.UpdateRaw" = 109 :: (lit "ydb.UpdateRaw") := rfl
    rw [h1, h2] at hc
    have := (List.cons.inj hc).1
    omega
  | updateRaw e a => simp only [typeString, Option.some.injEq] at h; subst h; decide

theorem typeString_isSome (v : Val) (h : v ≠ Val.nil) : ∃ ts, typeString v = some ts := by
  cases v <;> first | exact absurd rfl h | exact ⟨_, rfl⟩

theorem typeKind_isSome (v : Val) (h : v ≠ Val.nil) : ∃ k, typeKind v = some k := by
  cases v <;> first | exact absurd rfl h | exact ⟨_, rfl⟩

theorem typeKind_String (v : Val) (h : typeKind v = some Kind.String) :
    (∃ s, v = Val.str s) ∨ ∃ ty s, v = Val.defString ty s := by
  cases v with
  | str s => exact Or.inl ⟨s, rfl⟩
  | defString ty s => exact Or.inr ⟨ty, s, rfl⟩
  | num k n => cases k <;> simp [typeKind, NumKind.kind] at h
  | _ => simp [typeKind] at h

theorem assertString_isSome (v : Val) (h : (assertString v).isSome = true) :
    ∃ s, v = Val.str s := by
  cases v with
  | str s => exact ⟨s, rfl⟩
  | _ => simp [assertString] at h

/-- The values that the loop of `buildUpdate` handles: no nil value, no value
of a type whose type string is `mydb.UpdateRaw`, and in literal mode no value
of kind string that is not of type `string`. -/
theorem updateLoop_isSome (b : SQLBulder) (row : GoMap Val)
    (hrow : ∀ e ∈ row, e.2 ≠ Val.nil ∧ typeString e.2 ≠ some (lit "mydb.UpdateRaw") ∧
      (b.parameterized = false → typeKind e.2 = some Kind.String →
        (assertString e.2).isSome = true)) :
    ∀ acc, ∃ r, updateLoop b row acc = some r := by
  induction row with
  | nil => intro acc; exact ⟨acc, rfl⟩
  | cons e rest ih =>
    intro acc
    obtain ⟨f, v⟩ := e
    obtain ⟨sb, args⟩ := acc
    obtain ⟨hv, hmy, hstr⟩ := hrow (f, v) (List.mem_cons_self _ _)
    have ih1 := ih (fun e he => hrow e (List.mem_cons_of_mem _ he))
    obtain ⟨ts, hts⟩ := typeString_isSome v hv
    obtain ⟨k, hk⟩ := typeKind_isSome v hv
    have hne : ts ≠ lit "mydb.UpdateRaw" := by
      intro hc
      apply hmy
      show typeString v = _
      rw [hts, hc]
    rw [updateLoop]
    simp only [hts, if_neg hne, hk]
    by_cases hc : (!b.parameterized && k == Kind.String) = true
    · have hkS : k = Kind.String := by
        simp only [Bool.and_eq_true, beq_iff_eq] at hc
        exact hc.2
      have hpar : b.parameterized = false := by
        simp only [Bool.and_eq_true, Bool.not_eq_true'] at hc
        exact hc.1
      subst hkS
      obtain ⟨s, rfl⟩ := assertString_isSome v (hstr hpar hk)
      simp only [hc, if_true, assertString, _escape_eq, Option.map_some']
      exact ih1 _
    · simp only [hc]
      exact ih1 _

end Builder

namespace Builder

theorem join_cons_cons (a b : GoString) (l : List GoString) (sep : GoString) :
    join (a :: b :: l) sep = a ++ sep ++ join (b :: l) sep := rfl

theorem join_singleton (a sep : GoString) : join [a] sep = a := rfl

theorem join_cons_of_ne_nil (a : GoString) (l : List GoString) (sep : GoString) (h : l ≠ []) :
    join (a :: l) sep = a ++ sep ++ join l sep := by
  cases l with
  | nil => exact absurd rfl h
  | cons b t => rfl

/-- A string builder that got `g x` and then the separator for every `x` holds
the join followed by one separator. -/
theorem flatMap_sep_eq_join {α : Type} (g : α → GoString) (sep : GoString) (l : List α)
    (h : l ≠ []) :
    l.flatMap (fun x => g x ++ sep) = join (l.map g) sep ++ sep := by
  induction l with
  | nil => exact absurd rfl h
  | cons x t ih =>
    cases t with
    | nil => simp [join]
    | cons y t1 =>
      rw [List.flatMap_cons, ih (by simp)]
      simp only [List.map_cons, join_cons_cons, List.append_assoc]

theorem sliceStr_dropLast (t : GoString) (c : Nat) :
    sliceStr (t ++ [c]) 0 (((t ++ [c]).length : Int) - 1) = some t := by
  unfold sliceStr
  have hl : (((t ++ [c]).length : Int) - 1) = (t.length : Int) := by
    simp
  rw [hl, if_pos ⟨le_refl _, by omega, by simp⟩]
  simp

theorem strRepeat_eq (s : GoString) (n : Nat) :
    strRepeat s n = (List.replicate n s).flatten := by
  induction n with
  | zero => rfl
  | succ k ih => simp [strRepeat, ih, List.replicate_succ]

theorem join_replicate_succ (s sep : GoString) (n : Nat) :
    join (List.replicate (n + 1) s) sep = s ++ strRepeat (sep ++ s) n := by
  induction n with
  | zero => simp [join, strRepeat]
  | succ k ih =>
    rw [List.replicate_succ, List.replicate_succ, join_cons_cons, ← List.replicate_succ, ih]
    simp [strRepeat, List.append_assoc]

theorem _stringRepeatJoin_eq (s sep : GoString) (n : Nat) (hs : s ≠ []) (hn : 1 ≤ n) :
    _stringRepeatJoin s sep n = join (List.replicate n s) sep := by
  obtain ⟨k, rfl⟩ : ∃ k, n = k + 1 := ⟨n - 1, by omega⟩
  unfold _stringRepeatJoin
  by_cases h : s = [] ∨ k + 1 ≤ 1
  · rw [if_pos h]
    rcases h with h | h
    · exact absurd h hs
    · have : k = 0 := by omega
      subst this
      rfl
  · rw [if_neg h, join_replicate_succ]
    simp

theorem onDupLoop_eq (n : Nat) (keys : List GoString) :
    ∀ (i : Nat) (sb : GoString), keys ≠ [] → i + keys.length = n →
      onDupLoop n keys i sb
        = sb ++ join (keys.map (fun k => k ++ lit " = VALUES(" ++ k ++ lit ")")) (lit ", ") := by
  induction keys with
  | nil => intro i sb h; exact absurd rfl h
  | cons k t ih =>
    intro i sb _ hlen
    cases t with
    | nil =>
      simp only [List.length_singleton] at hlen
      simp only [onDupLoop, if_pos hlen, List.map_cons, List.map_nil, join_singleton]
      simp [List.append_assoc]
    | cons k2 t2 =>
      have hne : ¬ (i + 1 = n) := by simp only [List.length_cons] at hlen; omega
      rw [onDupLoop, if_neg hne, ih (i + 1) _ (by simp) (by simp only [List.length_cons] at hlen ⊢; omega)]
      simp only [List.map_cons, join_cons_cons, List.append_assoc]
      have : lit "), " = lit ")" ++ lit ", " := rfl
      rw [this]
      simp only [List.append_assoc]

theorem onDupKeyUpdates_String_eq (keys : List GoString) :
    onDupKeyUpdates.String keys
      = if keys = [] then []
        else lit "ON DUPLICATE KEY UPDATE "
          ++ join (keys.map (fun k => k ++ lit " = VALUES(" ++ k ++ lit ")")) (lit ", ") := by
  unfold onDupKeyUpdates.String
  by_cases h : keys = []
  · subst h; rfl
  · have hl : ¬ (keys.length = 0) := by
      intro hc; exact h (List.length_eq_zero.mp hc)
    rw [if_neg hl, if_neg h, onDupLoop_eq keys.length keys 0 _ h (by omega)]

theorem mapGet_of_all {α : Type} (m : GoMap α) (d : α) (hm : ∀ e ∈ m, e.2 = d)
    (f : GoString) : mapGet m f d = d := by
  induction m with
  | nil => rfl
  | cons e t ih =>
    obtain ⟨k1, v1⟩ := e
    simp only [mapGet]
    split_ifs
    · exact hm (k1, v1) (List.mem_cons_self _ _)
    · exact ih (fun e he => hm e (List.mem_cons_of_mem _ he))

theorem mapSet_all {α : Type} (m : GoMap α) (d : α) (hm : ∀ e ∈ m, e.2 = d)
    (k : GoString) : ∀ e ∈ mapSet m k d, e.2 = d := by
  induction m with
  | nil =>
    intro e he
    simp only [mapSet, List.mem_singleton] at he
    subst he
    rfl
  | cons e0 t ih =>
    obtain ⟨k1, v1⟩ := e0
    intro e he
    simp only [mapSet] at he
    split_ifs at he
    · rcases List.mem_cons.mp he with h | h
      · subst h; rfl
      · exact hm e (List.mem_cons_of_mem _ h)
    · rcases List.mem_cons.mp he with h | h
      · subst h; exact hm (k1, v1) (List.mem_cons_self _ _)
      · exact ih (fun e he => hm e (List.mem_cons_of_mem _ he)) e h

theorem insertHeader_parameterized (b : SQLBulder) (hp : b.parameterized = true)
    (row : GoMap Val) (hrow : ∀ e ∈ row, e.2 ≠ Val.nil) :
    ∀ (fields : List GoString) (sb : GoString) (phs : List GoString) (ne : GoMap Bool),
      (∀ e ∈ ne, e.2 = false) →
      ∃ ne1, (∀ e ∈ ne1, e.2 = false) ∧
        insertHeader b row (fields, sb, phs, ne)
          = some (fields ++ row.map (fun e => e.1),
              sb ++ row.flatMap (fun e => _wrapField e.1 b.delimiter ++ lit ","),
              phs ++ List.replicate row.length (lit "?"), ne1) := by
  induction row with
  | nil =>
    intro fields sb phs ne hne
    exact ⟨ne, hne, by simp [insertHeader]⟩
  | cons e t ih =>
    intro fields sb phs ne hne
    obtain ⟨f, v⟩ := e
    obtain ⟨k, hk⟩ := typeKind_isSome v (hrow (f, v) (List.mem_cons_self _ _))
    have hph : b.placeholder k = lit "?" := by simp [SQLBulder.placeholder, hp]
    have hflag : (!b.parameterized && k == Kind.String) = false := by simp [hp]
    obtain ⟨ne1, hne1, heq⟩ := ih (fun e he => hrow e (List.mem_cons_of_mem _ he))
      (fields ++ [f]) (sb ++ _wrapField f b.delimiter ++ lit ",") (phs ++ [lit "?"])
      (mapSet ne f false) (mapSet_all ne false hne f)
    refine ⟨ne1, hne1, ?_⟩
    rw [insertHeader]
    simp only [hk, hph, hflag, heq]
    simp [List.replicate_succ, List.append_assoc]

theorem insertRowArgs_plain (ne : GoMap Bool) (hne : ∀ e ∈ ne, e.2 = false) (row : GoMap Val)
    (fields : List GoString) :
    insertRowArgs ne row fields = some (fields.map (fun f => mapGet row f Val.nil)) := by
  induction fields with
  | nil => rfl
  | cons f t ih =>
    rw [insertRowArgs]
    simp only [mapGet_of_all ne false hne f, ih]
    rfl

theorem insertArgs_plain (ne : GoMap Bool) (hne : ∀ e ∈ ne, e.2 = false)
    (fields : List GoString) (rows : List (GoMap Val)) :
    insertArgs ne fields rows
      = some (rows.flatMap (fun row => fields.map (fun f => mapGet row f Val.nil))) := by
  induction rows with
  | nil => rfl
  | cons r t ih =>
    rw [insertArgs]
    simp only [insertRowArgs_plain ne hne r fields, ih]
    rfl

theorem _wrapBracket_ne_nil (s : GoString) : _wrapBracket s ≠ [] := by
  have : _wrapBracket s = 40 :: (s ++ lit ")") := rfl
  rw [this]; simp

theorem _wrapBracket_eq (s : GoString) : _wrapBracket s = lit "(" ++ s ++ lit ")" := rfl

theorem joinStringLoop_cons (sep s : GoString) (rest : List GoString) (b : GoString) :
    joinStringLoop sep (s :: rest) b
      = joinStringLoop sep rest (b ++ (if s = [] then [] else sep ++ s)) := by
  rw [joinStringLoop]
  split_ifs <;> simp [List.append_assoc]

theorem joinStringLoop_nil (sep : GoString) (b : GoString) : joinStringLoop sep [] b = b := rfl

theorem flatMap_fixed_getElem? {α β : Type} (g : β → List α) (n : Nat)
    (hg : ∀ x, (g x).length = n) (l : List β) :
    ∀ (i j : Nat), j < n → (l.flatMap g)[i * n + j]? = (l[i]?).bind (fun x => (g x)[j]?) := by
  induction l with
  | nil => intro i j _; simp
  | cons x t ih =>
    intro i j hj
    rw [List.flatMap_cons]
    cases i with
    | zero =>
      simp only [Nat.zero_mul, Nat.zero_add, List.getElem?_cons_zero, Option.some_bind]
      rw [List.getElem?_append_left (by rw [hg]; exact hj)]
    | succ i1 =>
      have hge : (g x).length ≤ (i1 + 1) * n + j := by
        rw [hg, Nat.succ_mul]; omega
      rw [List.getElem?_append_right hge, List.getElem?_cons_succ, ← ih i1 j hj]
      congr 1
      rw [hg, Nat.succ_mul]; omega

theorem flatMap_fixed_length {α β : Type} (g : β → List α) (n : Nat)
    (hg : ∀ x, (g x).length = n) (l : List β) : (l.flatMap g).length = l.length * n := by
  induction l with
  | nil => simp
  | cons x t ih => rw [List.flatMap_cons, List.length_append, ih, hg, List.length_cons,
      Nat.succ_mul]; omega

theorem buildInsert_parameterized (b : SQLBulder) (row0 : GoMap Val) (rest : List (GoMap Val))
    (hp : b.parameterized = true) (hv : b.values = row0 :: rest) (hne : row0 ≠ [])
    (hnil : ∀ e ∈ row0, e.2 ≠ Val.nil) (ht : b.tableName ≠ []) :
    b.buildInsert = some
      { sql := lit "INSERT" ++ (if b.insert.ignore then lit " IGNORE" else []) ++ lit " INTO "
          ++ b.tableName ++ lit " ("
          ++ join (row0.map (fun e => _wrapField e.1 b.delimiter)) (lit ",")
          ++ lit ") VALUES "
          ++ join (List.replicate (rest.length + 1)
              (lit "(" ++ join (List.replicate row0.length (lit "?")) (lit ",") ++ lit ")"))
              (lit ",")
          ++ (if b.insert.onDupKeyUpdates = [] then []
              else lit " ON DUPLICATE KEY UPDATE "
                ++ join (b.insert.onDupKeyUpdates.map
                    (fun k => k ++ lit " = VALUES(" ++ k ++ lit ")")) (lit ", ")),
        args := some ((row0 :: rest).flatMap
          (fun row => row0.map (fun e => mapGet row e.1 Val.nil))),
        err := none } := by
  obtain ⟨ne1, hne1, hhead⟩ := insertHeader_parameterized b hp row0 hnil [] [] [] []
    (by intro e he; cases he)
  have hfh : ([] : GoString) ++ row0.flatMap (fun e => _wrapField e.1 b.delimiter ++ lit ",")
      = join (row0.map (fun e => _wrapField e.1 b.delimiter)) (lit ",") ++ [44] := by
    rw [List.nil_append]
    exact flatMap_sep_eq_join (fun e => _wrapField e.1 b.delimiter) (lit ",") row0 hne
  rw [hfh] at hhead
  unfold SQLBulder.buildInsert
  simp only [hv, hhead, sliceStr_dropLast, List.nil_append,
    insertArgs_plain ne1 hne1, List.length_cons]
  rw [_stringRepeatJoin_eq _ _ _ (_wrapBracket_ne_nil _) (by omega),
    onDupKeyUpdates_String_eq]
  simp only [_joinString, joinStringLoop_cons, joinStringLoop_nil]
  have e1 : ¬ (lit "INTO" = []) := by decide
  have e2 : ¬ (lit "VALUES" = []) := by decide
  have e3 : ∀ s, ¬ (_wrapBracket s = []) := _wrapBracket_ne_nil
  have e4 : ∀ n s, ¬ (join (List.replicate (n + 1) (_wrapBracket s)) (lit ",") = []) := by
    intro n s
    rw [join_replicate_succ]
    intro hc
    exact _wrapBracket_ne_nil s (List.append_eq_nil.mp hc).1
  simp only [if_neg e1, if_neg e2, if_neg (e3 _), if_neg (e4 _ _), if_neg ht]
  have l1 : lit " INTO " = lit " " ++ (lit "INTO" ++ lit " ") := rfl
  have l2 : lit " (" = lit " " ++ lit "(" := rfl
  have l3 : lit ") VALUES " = lit ")" ++ (lit " " ++ (lit "VALUES" ++ lit " ")) := rfl
  have l4 : lit " IGNORE" = lit " " ++ lit "IGNORE" := rfl
  have l5 : lit " ON DUPLICATE KEY UPDATE " = lit " " ++ lit "ON DUPLICATE KEY UPDATE " := rfl
  have l6 : ¬ (lit "IGNORE" = []) := by decide
  have l7 : ∀ t : GoString, ¬ (lit "ON DUPLICATE KEY UPDATE " ++ t = []) := by
    intro t hc
    have : lit "ON DUPLICATE KEY UPDATE " = [] := (List.append_eq_nil.mp hc).1
    revert this
    decide
  simp only [Option.some.injEq, BuildResult.mk.injEq, and_true]
  constructor
  · rw [l1, l2, l3, l4, l5]
    cases hi : b.insert.ignore <;> cases hk : b.insert.onDupKeyUpdates <;>
      simp [_wrapBracket_eq, List.append_assoc, l6, l7]
  · simp only [List.nil_append, List.map_map]
    rfl

end Builder

namespace Builder

theorem join_cons_eq_flatMap (e : GoString) (l : List GoString) (sep : GoString) :
    join (e :: l) sep = e ++ l.flatMap (fun s => sep ++ s) := by
  induction l generalizing e with
  | nil => simp [join]
  | cons x t ih =>
    rw [join_cons_cons, ih x]
    simp [List.append_assoc]

theorem joinStringLoop_eq (sep : GoString) (l : List GoString) :
    ∀ b, joinStringLoop sep l b
      = b ++ (l.filter (fun s => decide (s ≠ []))).flatMap (fun s => sep ++ s) := by
  induction l with
  | nil => intro b; simp [joinStringLoop]
  | cons x t ih =>
    intro b
    rw [joinStringLoop]
    by_cases hx : x = []
    · rw [if_pos hx, ih]
      simp [hx]
    · rw [if_neg hx, ih]
      simp [hx, List.append_assoc]

theorem _joinString_eq (e : GoString) (l : List GoString) (sep : GoString) :
    _joinString (e :: l) sep = join (e :: l.filter (fun s => decide (s ≠ []))) sep := by
  rw [join_cons_eq_flatMap]
  cases l with
  | nil => simp [_joinString]
  | cons x t =>
    simp only [_joinString]
    exact joinStringLoop_eq sep (x :: t) e

theorem Orders_foldl_eq (l : List Builder.Order) :
    ∀ sb, l.foldl (fun sb o1 => sb ++ lit "," ++ o1.String) sb
      = sb ++ l.flatMap (fun o => lit "," ++ (o.Field ++ lit " " ++ o.Order)) := by
  induction l with
  | nil => intro sb; simp
  | cons o t ih =>
    intro sb
    rw [List.foldl_cons, ih]
    simp [Order.String, List.append_assoc]

theorem Orders_String_eq (orders : List Builder.Order) :
    Orders.String orders
      = if orders = [] then []
        else lit "ORDER BY "
          ++ join (orders.map (fun o => o.Field ++ lit " " ++ o.Order)) (lit ",") := by
  cases orders with
  | nil => rfl
  | cons o t =>
    rw [if_neg (by simp)]
    simp only [Orders.String]
    rw [Orders_foldl_eq]
    simp only [List.map_cons, join_cons_eq_flatMap, Order.String, List.flatMap_map,
      List.append_assoc]

theorem Groups_String_eq (groups : List GoString) :
    Groups.String groups
      = if groups = [] then [] else lit "GROUP BY " ++ join groups (lit ",") := by
  cases groups with
  | nil => rfl
  | cons g t => simp [Groups.String]

theorem ForceIndex_String_eq (f : GoString) :
    ForceIndex.String f = if f = [] then [] else lit "FORCE INDEX(" ++ f ++ lit ")" := by
  unfold ForceIndex.String
  by_cases h : f = []
  · simp [h]
  · simp [h]

theorem buildSelect_eq (h : Heap) (b : SQLBulder) :
    b.buildSelect h
      = (Wheres.string h b.whereList false b.placeholder).map (fun wa =>
          { sql := join (lit "SELECT" ::
              ([join b.fields (lit ","), lit "FROM", b.tableName,
                if b.forceIndexName = [] then []
                  else lit "FORCE INDEX(" ++ b.forceIndexName ++ lit ")",
                if wa.1 = [] then [] else lit "WHERE " ++ wa.1,
                if b.orders = [] then []
                  else lit "ORDER BY "
                    ++ join (b.orders.map (fun o => o.Field ++ lit " " ++ o.Order)) (lit ","),
                if b.groups = [] then [] else lit "GROUP BY " ++ join b.groups (lit ","),
                if b.limitSize = -1 then [] else lit "LIMIT " ++ formatInt b.limitSize,
                if b.offsetSize = -1 then [] else lit "OFFSET " ++ formatInt b.offsetSize
               ].filter (fun s => decide (s ≠ [])))) (lit " "),
            args := some wa.2, err := none }) := by
  unfold SQLBulder.buildSelect
  cases hw : Wheres.string h b.whereList false b.placeholder with
  | none => rfl
  | some wa =>
    obtain ⟨w, a⟩ := wa
    simp only [Option.map_some', _joinString_eq, ForceIndex_String_eq, Orders_String_eq,
      Groups_String_eq, _getWheres, Limit.String, Offset.String]

end Builder

namespace Builder

/-! ### Markers -/

theorem countMarkers_append (x y : GoString) :
    countMarkers (x ++ y) = countMarkers x + countMarkers y := by
  simp [countMarkers]

theorem countMarkers_nil : countMarkers [] = 0 := rfl

theorem countMarkers_cons (c : Nat) (t : GoString) :
    countMarkers (c :: t) = countMarkers t + (if c = 63 then 1 else 0) := by
  simp only [countMarkers, List.count_cons]
  by_cases h : c = 63
  · simp [h]
  · have : ¬ (63 = c) := fun h1 => h h1.symm
    simp [h, this]

theorem fillMarkers_append (r : Val → GoString) (x y : GoString) :
    ∀ (a b : List Val), countMarkers x = a.length →
      fillMarkers r (x ++ y) (a ++ b) = fillMarkers r x a ++ fillMarkers r y b := by
  induction x with
  | nil =>
    intro a b h
    have : a = [] := by
      cases a with
      | nil => rfl
      | cons _ _ => simp [countMarkers] at h
    subst this
    simp [fillMarkers]
  | cons c t ih =>
    intro a b h
    rw [countMarkers_cons] at h
    by_cases hc : c = 63
    · rw [if_pos hc] at h
      cases a with
      | nil => simp at h
      | cons v vs =>
        simp only [List.length_cons, Nat.add_right_cancel_iff] at h
        simp only [List.cons_append, fillMarkers, if_pos hc, List.append_eq]
        rw [ih vs b h]
        simp [List.append_assoc]
    · rw [if_neg hc] at h
      simp only [List.cons_append, fillMarkers, if_neg hc, List.append_eq]
      rw [ih a b (by omega)]

theorem fillMarkers_of_count_zero (r : Val → GoString) (x : GoString)
    (h : countMarkers x = 0) : ∀ a, fillMarkers r x a = x := by
  induction x with
  | nil => intro a; rfl
  | cons c t ih =>
    intro a
    rw [countMarkers_cons] at h
    have hc : ¬ c = 63 := by
      intro hc
      rw [if_pos hc] at h
      omega
    rw [if_neg hc] at h
    simp only [fillMarkers, if_neg hc, ih h]

/-- A text without markers followed by a text with markers. -/
theorem fillMarkers_plain_append (r : Val → GoString) (x y : GoString) (a : List Val)
    (h : countMarkers x = 0) : fillMarkers r (x ++ y) a = x ++ fillMarkers r y a := by
  have := fillMarkers_append r x y [] a (by simpa using h)
  simpa [fillMarkers_of_count_zero r x h] using this

theorem fillMarkers_append_plain (r : Val → GoString) (x y : GoString) (a : List Val)
    (hx : countMarkers x = a.length) (hy : countMarkers y = 0) :
    fillMarkers r (x ++ y) a = fillMarkers r x a ++ y := by
  have := fillMarkers_append r x y a [] hx
  simpa [fillMarkers_of_count_zero r y hy] using this

theorem fillMarkers_marker (r : Val → GoString) (v : Val) :
    fillMarkers r (lit "?") [v] = r v := by
  show fillMarkers r [63] [v] = r v
  simp [fillMarkers]

theorem countMarkers_marker : countMarkers (lit "?") = 1 := by decide

/-! ### The traversal -/

theorem join_append_singleton (l : List GoString) (s sep : GoString) :
    join (l ++ [s]) sep = if l = [] then s else join l sep ++ sep ++ s := by
  induction l with
  | nil => rfl
  | cons x t ih =>
    rw [if_neg (by simp)]
    cases t with
    | nil => rfl
    | cons y t1 =>
      rw [if_neg (by simp)] at ih
      rw [List.cons_append, List.cons_append, join_cons_cons, ← List.cons_append, ih,
        join_cons_cons]
      simp [List.append_assoc]

theorem countMarkers_space : countMarkers (lit " ") = 0 := by decide

/-- The state of the accumulators of `stringLoop` on the two sides. -/
theorem acc_step (r : Val → GoString) (resList resList1 : List GoString) (whArgs : List Val)
    (s s1 : GoString) (args : List Val)
    (hc : countMarkers (join resList (lit " ")) = whArgs.length)
    (hf : fillMarkers r (join resList (lit " ")) whArgs = join resList1 (lit " "))
    (he : resList = [] ↔ resList1 = [])
    (hsc : countMarkers s = args.length) (hsf : fillMarkers r s args = s1) :
    countMarkers (join (resList ++ [s]) (lit " ")) = (whArgs ++ args).length ∧
    fillMarkers r (join (resList ++ [s]) (lit " ")) (whArgs ++ args)
      = join (resList1 ++ [s1]) (lit " ") ∧
    (resList ++ [s] = [] ↔ resList1 ++ [s1] = []) := by
  refine ⟨?_, ?_, by simp⟩
  · rw [join_append_singleton]
    by_cases h : resList = []
    · subst h
      have : whArgs = [] := by
        cases whArgs with
        | nil => rfl
        | cons _ _ => simp [join, countMarkers] at hc
      subst this
      simpa using hsc
    · rw [if_neg h, countMarkers_append, countMarkers_append, countMarkers_space, hc, hsc]
      simp
  · rw [join_append_singleton, join_append_singleton]
    by_cases h : resList = []
    · have h1 : resList1 = [] := he.mp h
      subst h
      have : whArgs = [] := by
        cases whArgs with
        | nil => rfl
        | cons _ _ => simp [join, countMarkers] at hc
      subst this
      subst h1
      simpa using hsf
    · have h1 : ¬ resList1 = [] := fun hh => h (he.mpr hh)
      rw [if_neg h, if_neg h1, List.append_assoc, fillMarkers_append r _ _ _ _ hc, hf,
        fillMarkers_plain_append r _ _ _ countMarkers_space, hsf]
      simp [List.append_assoc]

theorem stringLoop_rel (h : Heap) (r : Val → GoString) (whs : Wheres)
    (str str1 : Nat → Bool → Bool → Option (GoString × List Val))
    (hs : ∀ p f nb t a, str p f nb = some (t, a) →
      ∃ t1 a1, str1 p f nb = some (t1, a1) ∧ countMarkers t = a.length ∧
        fillMarkers r t a = t1) :
    ∀ (fuel i : Nat) (resList resList1 : List GoString) (whArgs whArgs1 : List Val)
      (rl : List GoString) (wa : List Val),
      countMarkers (join resList (lit " ")) = whArgs.length →
      fillMarkers r (join resList (lit " ")) whArgs = join resList1 (lit " ") →
      (resList = [] ↔ resList1 = []) →
      stringLoop h str whs fuel i resList whArgs = some (rl, wa) →
      ∃ rl1 wa1, stringLoop h str1 whs fuel i resList1 whArgs1 = some (rl1, wa1) ∧
        countMarkers (join rl (lit " ")) = wa.length ∧
        fillMarkers r (join rl (lit " ")) wa = join rl1 (lit " ") := by
  intro fuel
  induction fuel with
  | zero =>
    intro i resList resList1 whArgs whArgs1 rl wa _ _ _ hrun
    simp [stringLoop] at hrun
  | succ n ih =>
    intro i resList resList1 whArgs whArgs1 rl wa hc hf he hrun
    rw [stringLoop] at hrun ⊢
    by_cases hi : i < whs.length
    · rw [if_pos hi] at hrun ⊢
      cases hp : whs[i]? with
      | none => simp [hp] at hrun
      | some p =>
        simp only [hp] at hrun ⊢
        cases hstr : str p (i == 0) (decide (whs.length > 1)) with
        | none => simp [hstr] at hrun
        | some ta =>
          obtain ⟨t, a⟩ := ta
          obtain ⟨t1, a1, hstr1, htc, htf⟩ := hs p _ _ t a hstr
          cases hw : h[p]? with
          | none => simp [hstr, hw] at hrun
          | some w =>
            simp only [hstr, hstr1, hw] at hrun ⊢
            obtain ⟨hc2, hf2, he2⟩ := acc_step r resList resList1 whArgs t t1 a hc hf he htc htf
            by_cases hcr : w.CombineRight.isNone = true
            · simp only [hcr, if_true] at hrun ⊢
              exact ih _ _ _ _ _ _ _ hc2 hf2 he2 hrun
            · simp only [hcr] at hrun ⊢
              cases hsk : skipCombined h whs (whs.length + 1) i with
              | none => simp [hsk] at hrun
              | some i1 =>
                simp only [hsk] at hrun ⊢
                exact ih _ _ _ _ _ _ _ hc2 hf2 he2 hrun
    · rw [if_neg hi] at hrun ⊢
      simp only [Option.some.injEq, Prod.mk.injEq] at hrun
      obtain ⟨rfl, rfl⟩ := hrun
      exact ⟨resList1, whArgs1, rfl, hc, hf⟩

theorem countMarkers_wrapBracket (s : GoString) :
    countMarkers (_wrapBracket s) = countMarkers s := by
  rw [_wrapBracket_eq, countMarkers_append, countMarkers_append]
  have h1 : countMarkers (lit "(") = 0 := by decide
  have h2 : countMarkers (lit ")") = 0 := by decide
  omega

theorem fillMarkers_wrapBracket (r : Val → GoString) (s : GoString) (a : List Val)
    (h : countMarkers s = a.length) :
    fillMarkers r (_wrapBracket s) a = _wrapBracket (fillMarkers r s a) := by
  have h1 : countMarkers (lit "(") = 0 := by decide
  have h2 : countMarkers (lit ")") = 0 := by decide
  rw [_wrapBracket_eq, _wrapBracket_eq, List.append_assoc,
    fillMarkers_plain_append r _ _ _ h1, fillMarkers_append_plain r _ _ _ h h2]
  simp [List.append_assoc]

theorem stringWith_rel (h : Heap) (r : Val → GoString) (whs : Wheres)
    (str str1 : Nat → Bool → Bool → Option (GoString × List Val))
    (hs : ∀ p f nb t a, str p f nb = some (t, a) →
      ∃ t1 a1, str1 p f nb = some (t1, a1) ∧ countMarkers t = a.length ∧
        fillMarkers r t a = t1)
    (nb : Bool) (t : GoString) (a : List Val)
    (hrun : Wheres.stringWith h str whs nb = some (t, a)) :
    ∃ t1 a1, Wheres.stringWith h str1 whs nb = some (t1, a1) ∧ countMarkers t = a.length ∧
      fillMarkers r t a = t1 := by
  match whs, hrun with
  | [], hrun =>
    simp only [Wheres.stringWith, Option.some.injEq, Prod.mk.injEq] at hrun
    obtain ⟨rfl, rfl⟩ := hrun
    exact ⟨[], [], rfl, rfl, rfl⟩
  | [p], hrun =>
    simp only [Wheres.stringWith] at hrun ⊢
    exact hs p true false t a hrun
  | p :: q :: rest, hrun =>
    simp only [Wheres.stringWith, List.length_cons] at hrun ⊢
    cases hl : stringLoop h str (p :: q :: rest) (rest.length + 1 + 1 + 1) 0 [] [] with
    | none => simp [hl] at hrun
    | some ra =>
      obtain ⟨rl, wa⟩ := ra
      obtain ⟨rl1, wa1, hl1, hc, hf⟩ := stringLoop_rel h r (p :: q :: rest) str str1 hs _ 0
        [] [] [] [] rl wa rfl rfl Iff.rfl hl
      try simp only [hl] at hrun
      simp only [hl1]
      cases nb with
      | false =>
        simp only [Bool.false_eq_true, if_false, Option.some.injEq, Prod.mk.injEq] at hrun ⊢
        obtain ⟨rfl, rfl⟩ := hrun
        exact ⟨_, _, ⟨rfl, rfl⟩, hc, hf⟩
      | true =>
        simp only [if_true, Option.some.injEq, Prod.mk.injEq] at hrun ⊢
        obtain ⟨rfl, rfl⟩ := hrun
        refine ⟨_, _, ⟨rfl, rfl⟩, ?_, ?_⟩
        · rw [countMarkers_wrapBracket, hc]
        · rw [fillMarkers_wrapBracket r _ _ hc, hf]

/-- The relation between `Where.string` and the reference rendering, given the
relation at the leaves. -/
theorem stringF_rel (h : Heap) (r : Val → GoString) (getPh : Kind → GoString)
    (hcond : ∀ (p : Nat) (w : Where), h[p]? = some w → countMarkers w.Cond = 0)
    (hleaf : ∀ (p : Nat) (w : Where) f t a, h[p]? = some w → ¬ (w.Children.length > 0) →
      Where.leafString h getPh p w f = some (t, a) →
      ∃ t1 a1, Where.leafInline h r p w f = some (t1, a1) ∧ countMarkers t = a.length ∧
        fillMarkers r t a = t1) :
    ∀ (fuel p : Nat) (f nb : Bool) (t : GoString) (a : List Val),
      Where.stringF h getPh fuel p f nb = some (t, a) →
      ∃ t1 a1, Where.inlineF h r fuel p f nb = some (t1, a1) ∧ countMarkers t = a.length ∧
        fillMarkers r t a = t1 := by
  intro fuel
  induction fuel with
  | zero =>
    intro p f nb t a hrun
    simp [Where.stringF] at hrun
  | succ n ih =>
    intro p f nb t a hrun
    rw [Where.stringF] at hrun
    rw [Where.inlineF]
    cases hw : h[p]? with
    | none => simp [hw] at hrun
    | some w =>
      simp only [hw] at hrun ⊢
      by_cases hch : w.Children.length > 0
      · rw [if_pos hch] at hrun ⊢
        cases hsw : Wheres.stringWith h (Where.stringF h getPh n) w.Children nb with
        | none => simp [hsw] at hrun
        | some sa =>
          obtain ⟨s, args⟩ := sa
          obtain ⟨s1, args1, hsw1, hc, hf⟩ :=
            stringWith_rel h r w.Children _ (Where.inlineF h r n) (fun p f nb t a => ih p f nb t a)
              nb s args hsw
          try simp only [hsw] at hrun
          simp only [hsw1]
          cases f with
          | true =>
            simp only [if_true, Option.some.injEq, Prod.mk.injEq] at hrun ⊢
            obtain ⟨rfl, rfl⟩ := hrun
            exact ⟨_, _, ⟨rfl, rfl⟩, hc, hf⟩
          | false =>
            simp only [Bool.false_eq_true, if_false, Option.some.injEq, Prod.mk.injEq] at hrun ⊢
            obtain ⟨rfl, rfl⟩ := hrun
            refine ⟨_, _, ⟨rfl, rfl⟩, ?_, ?_⟩
            · rw [countMarkers_append, countMarkers_append, hcond p w hw, countMarkers_space, hc]
              simp
            · have h0 : countMarkers (w.Cond ++ lit " ") = 0 := by
                rw [countMarkers_append, hcond p w hw, countMarkers_space]
              rw [fillMarkers_plain_append r _ _ _ h0, hf]
      · rw [if_neg hch] at hrun ⊢
        exact hleaf p w f t a hw hch hrun

end Builder

namespace Builder

theorem fill_join_rows (r : Val → GoString) (tpl sep : GoString) (hsep : countMarkers sep = 0) :
    ∀ (rows : List (List Val)), rows ≠ [] → (∀ row ∈ rows, countMarkers tpl = row.length) →
      countMarkers (join (List.replicate rows.length tpl) sep) = rows.flatten.length ∧
      fillMarkers r (join (List.replicate rows.length tpl) sep) rows.flatten
        = join (rows.map (fun row => fillMarkers r tpl row)) sep := by
  intro rows
  induction rows with
  | nil => intro h; exact absurd rfl h
  | cons row t ih =>
    intro _ hall
    have hrow : countMarkers tpl = row.length := hall row (List.mem_cons_self _ _)
    cases t with
    | nil =>
      simp only [List.length_singleton, List.replicate_one, join_singleton, List.flatten_cons,
        List.flatten_nil, List.append_nil, List.map_cons, List.map_nil]
      exact ⟨hrow, trivial⟩
    | cons row2 t2 =>
      obtain ⟨ihc, ihf⟩ := ih (by simp) (fun x hx => hall x (List.mem_cons_of_mem _ hx))
      have e1 : List.replicate (row :: row2 :: t2).length tpl
          = tpl :: List.replicate (row2 :: t2).length tpl := by
        simp [List.replicate_succ]
      have e2 : List.replicate (row2 :: t2).length tpl ≠ [] := by simp
      rw [e1, join_cons_of_ne_nil _ _ _ e2]
      constructor
      · rw [countMarkers_append, countMarkers_append, hsep, ihc, hrow]
        simp
      · rw [List.flatten_cons, List.append_assoc, fillMarkers_append r _ _ _ _ hrow,
          fillMarkers_plain_append r _ _ _ hsep, ihf]
        simp only [List.map_cons, join_cons_cons, List.append_assoc]

theorem chainRow_length (i : Nat) (cols : List (List Val)) :
    ∀ row, chainRow i cols = some row → row.length = cols.length := by
  induction cols with
  | nil => intro row h; simp [chainRow] at h; subst h; rfl
  | cons col t ih =>
    intro row h
    rw [chainRow] at h
    cases hc : col[i]? with
    | none => simp [hc] at h
    | some v =>
      cases ht : chainRow i t with
      | none => simp [hc, ht] at h
      | some vs =>
        simp only [hc, ht, Option.some.injEq] at h
        subst h
        simp [ih vs ht]

theorem chainRows_eq_tuples (cols : List (List Val)) (is : List Nat) :
    chainRows cols is = (chainTuples cols is).map List.flatten := by
  induction is with
  | nil => rfl
  | cons i t ih =>
    rw [chainRows, chainTuples, ih]
    cases chainRow i cols <;> cases chainTuples cols t <;> rfl

theorem chainTuples_spec (cols : List (List Val)) (is : List Nat) :
    ∀ rows, chainTuples cols is = some rows →
      rows.length = is.length ∧ ∀ row ∈ rows, row.length = cols.length := by
  induction is with
  | nil =>
    intro rows h
    simp only [chainTuples, Option.some.injEq] at h
    subst h
    simp
  | cons i t ih =>
    intro rows h
    rw [chainTuples] at h
    cases hr : chainRow i cols with
    | none => simp [hr] at h
    | some row =>
      cases ht : chainTuples cols t with
      | none => simp [hr, ht] at h
      | some rs =>
        simp only [hr, ht, Option.some.injEq] at h
        subst h
        obtain ⟨h1, h2⟩ := ih rs ht
        refine ⟨by simp [h1], ?_⟩
        intro x hx
        rcases List.mem_cons.mp hx with rfl | hx
        · exact chainRow_length i cols _ hr
        · exact h2 x hx

theorem chainLoop_two (h : Heap) (getPh : Kind → GoString) (p q : Nat) (w wq : Where)
    (hp : h[p]? = some w) (hr : w.CombineRight = some q) (hq : h[q]? = some wq)
    (hqr : wq.CombineRight = none) (n : Nat) (cf : List GoString) (phs : GoString)
    (av : List (List Val)) :
    chainLoop h getPh (n + 2) (some p) cf phs av
      = match (w.Value[0]?).bind typeKind, (wq.Value[0]?).bind typeKind with
        | some k0, some k1 =>
          some (cf ++ [w.Field, wq.Field], phs ++ getPh k0 ++ lit "," ++ getPh k1,
            av ++ [w.Value, wq.Value])
        | _, _ => none := by
  rw [chainLoop]
  simp only [hp]
  cases hv0 : w.Value[0]? with
  | none => simp
  | some v0 =>
    cases hk0 : typeKind v0 with
    | none => simp [hk0]
    | some k0 =>
      simp only [hk0, hr, Option.isSome_some, if_true, Option.some_bind]
      rw [chainLoop]
      simp only [hq]
      cases hv1 : wq.Value[0]? with
      | none => simp
      | some v1 =>
        cases hk1 : typeKind v1 with
        | none => simp [hk1]
        | some k1 =>
          simp only [hk1, hqr, Option.some_bind]
          cases n <;> simp [chainLoop, List.append_assoc]

theorem chainMembers_two (h : Heap) (p q : Nat) (w wq : Where)
    (hp : h[p]? = some w) (hr : w.CombineRight = some q) (hq : h[q]? = some wq)
    (hqr : wq.CombineRight = none) (n : Nat) :
    chainMembers h (n + 2) (some p) = some [w, wq] := by
  rw [chainMembers]
  simp only [hp, hr]
  rw [chainMembers]
  simp only [hq, hqr]
  cases n <;> simp [chainMembers]

theorem join3 (a b c sep : GoString) : join [a, b, c] sep = a ++ sep ++ (b ++ sep ++ c) := rfl

theorem join4 (a b c d sep : GoString) :
    join [a, b, c, d] sep = a ++ sep ++ (b ++ sep ++ (c ++ sep ++ d)) := rfl

/-- The conjunction, the field and the operator around the value part. -/
theorem leaf_assemble (r : Val → GoString) (cond field op phs vals1 : GoString)
    (values : List Val) (f : Bool)
    (hC : countMarkers cond = 0) (hF : countMarkers field = 0) (hO : countMarkers op = 0)
    (hc : countMarkers phs = values.length) (hf : fillMarkers r phs values = vals1) :
    countMarkers (if f then join [field, op, phs] (lit " ")
        else join [cond, field, op, phs] (lit " ")) = values.length ∧
    fillMarkers r (if f then join [field, op, phs] (lit " ")
        else join [cond, field, op, phs] (lit " ")) values
      = (if f then join [field, op, vals1] (lit " ")
          else join [cond, field, op, vals1] (lit " ")) := by
  have hs := countMarkers_space
  cases f with
  | true =>
    simp only [if_true, join3]
    have h0 : countMarkers (field ++ lit " " ++ (op ++ lit " ")) = 0 := by
      simp only [countMarkers_append, hF, hO, hs]
    have e : field ++ lit " " ++ (op ++ lit " " ++ phs)
        = (field ++ lit " " ++ (op ++ lit " ")) ++ phs := by simp [List.append_assoc]
    rw [e]
    constructor
    · rw [countMarkers_append, h0, hc]; simp
    · rw [fillMarkers_plain_append r _ _ _ h0, hf]
      simp [List.append_assoc]
  | false =>
    simp only [Bool.false_eq_true, if_false, join4]
    have h0 : countMarkers (cond ++ lit " " ++ (field ++ lit " " ++ (op ++ lit " "))) = 0 := by
      simp only [countMarkers_append, hC, hF, hO, hs]
    have e : cond ++ lit " " ++ (field ++ lit " " ++ (op ++ lit " " ++ phs))
        = (cond ++ lit " " ++ (field ++ lit " " ++ (op ++ lit " "))) ++ phs := by
      simp [List.append_assoc]
    rw [e]
    constructor
    · rw [countMarkers_append, h0, hc]; simp
    · rw [fillMarkers_plain_append r _ _ _ h0, hf]
      simp [List.append_assoc]

theorem fill_pair (r : Val → GoString) (row : List Val) (h : row.length = 2) :
    fillMarkers r (_wrapBracket (lit "?" ++ lit "," ++ lit "?")) row
      = _wrapBracket (join (row.map r) (lit ",")) := by
  match row, h with
  | [a, b], _ =>
    show fillMarkers r [40, 63, 44, 63, 41] [a, b] = [40] ++ (r a ++ [44] ++ r b) ++ [41]
    simp [fillMarkers]

theorem fill_single (r : Val → GoString) (vs : List Val) (hne : vs ≠ []) :
    countMarkers (join (List.replicate vs.length (lit "?")) (lit ",")) = vs.length ∧
    fillMarkers r (join (List.replicate vs.length (lit "?")) (lit ",")) vs
      = join (vs.map r) (lit ",") := by
  have hsep : countMarkers (lit ",") = 0 := by decide
  have key := fill_join_rows r (lit "?") (lit ",") hsep (vs.map (fun v => [v]))
    (by simpa using hne)
    (by
      intro row hrow
      simp only [List.mem_map] at hrow
      obtain ⟨v, _, rfl⟩ := hrow
      rfl)
  have e1 : ∀ l : List Val, (l.map (fun v => [v])).flatten = l := by
    intro l
    induction l with
    | nil => rfl
    | cons v t ih => simp [ih]
  have e2 : (vs.map (fun v => [v])).map (fun row => fillMarkers r (lit "?") row) = vs.map r := by
    rw [List.map_map]
    apply List.map_congr_left
    intro v _
    exact fillMarkers_marker r v
  rw [List.length_map, e1 vs, e2] at key
  exact key

/-- The relation between the markers and arguments of a leaf clause and the
reference clause of the leaf. -/
theorem leaf_rel (h : Heap) (r : Val → GoString) (p : Nat) (w : Where) (f : Bool)
    (t : GoString) (a : List Val)
    (hp : h[p]? = some w)
    (hF : countMarkers w.Field = 0) (hO : countMarkers w.Operation = 0)
    (hC : countMarkers w.Cond = 0)
    (hshape : ¬ (w.Operation = OpIn ∨ w.Operation = OpNotIn) → w.Value.length ≤ 1)
    (hchain : ∀ q, w.CombineRight = some q →
      ∃ wq, h[q]? = some wq ∧ wq.CombineRight = none ∧ countMarkers wq.Field = 0)
    (hrun : Where.leafString h (fun _ => lit "?") p w f = some (t, a)) :
    ∃ t1 a1, Where.leafInline h r p w f = some (t1, a1) ∧ countMarkers t = a.length ∧
      fillMarkers r t a = t1 := by
  unfold Where.leafString at hrun
  unfold Where.leafInline
  cases hv0 : w.Value[0]? with
  | none => simp [hv0] at hrun
  | some v0 =>
    cases hk0 : typeKind v0 with
    | none => simp [hv0, hk0] at hrun
    | some k0 =>
      simp only [hv0, hk0] at hrun
      have hne : w.Value ≠ [] := by
        intro hc; rw [hc] at hv0; simp at hv0
      have hlen : 1 ≤ w.Value.length := by
        cases hw : w.Value with
        | nil => exact absurd hw hne
        | cons _ _ => simp
      have hcomma : countMarkers (lit ",") = 0 := by decide
      -- the three shapes of the value part
      have body : ∀ (field phs : GoString) (values : List Val) (field1 vals1 : GoString),
          countMarkers field = 0 → field = field1 →
          countMarkers phs = values.length → fillMarkers r phs values = vals1 →
          (if f then some (join [field, w.Operation, phs] (lit " "), values)
            else some (join [w.Cond, field, w.Operation, phs] (lit " "), values))
            = some (t, a) →
          ∃ t1 a1,
            (if f then some (join [field1, w.Operation, vals1] (lit " "), ([] : List Val))
              else some (join [w.Cond, field1, w.Operation, vals1] (lit " "), []))
              = some (t1, a1) ∧ countMarkers t = a.length ∧ fillMarkers r t a = t1 := by
        intro field phs values field1 vals1 hf0 hfe hc hfill hres
        subst hfe
        obtain ⟨h1, h2⟩ := leaf_assemble r w.Cond field w.Operation phs vals1 values f hC hf0 hO
          hc hfill
        cases f with
        | true =>
          simp only [if_true, Option.some.injEq, Prod.mk.injEq] at hres h1 h2 ⊢
          obtain ⟨rfl, rfl⟩ := hres
          exact ⟨_, _, ⟨rfl, rfl⟩, h1, h2⟩
        | false =>
          simp only [Bool.false_eq_true, if_false, Option.some.injEq, Prod.mk.injEq]
            at hres h1 h2 ⊢
          obtain ⟨rfl, rfl⟩ := hres
          exact ⟨_, _, ⟨rfl, rfl⟩, h1, h2⟩
      by_cases hin : w.Operation = OpIn ∨ w.Operation = OpNotIn
      · simp only [if_pos hin] at hrun ⊢
        cases hcr : w.CombineRight with
        | none =>
          simp only [hcr] at hrun ⊢
          obtain ⟨hc1, hf1⟩ := fill_single r w.Value hne
          have hq : lit "?" ≠ [] := by decide
          rw [_stringRepeatJoin_eq _ _ _ hq hlen] at hrun
          exact body _ _ _ _ _ hF rfl (by rw [countMarkers_wrapBracket, hc1])
            (by rw [fillMarkers_wrapBracket r _ _ hc1, hf1]) hrun
        | some q =>
          obtain ⟨wq, hq, hqr, hqF⟩ := hchain q hcr
          have hl1 : h.length + 1 = (h.length - 1) + 2 := by
            have : p < h.length := by
              by_contra hc
              rw [List.getElem?_eq_none (by omega)] at hp
              cases hp
            omega
          simp only [hcr] at hrun ⊢
          rw [hl1, chainLoop_two h _ p q w wq hp hcr hq hqr] at hrun
          rw [hl1, chainMembers_two h p q w wq hp hcr hq hqr]
          simp only [hv0, hk0, Option.some_bind] at hrun
          cases hv1 : (wq.Value[0]?).bind typeKind with
          | none => simp [hv1] at hrun
          | some k1 =>
            simp only [hv1, List.nil_append, List.getElem?_cons_zero] at hrun
            rw [chainRows_eq_tuples] at hrun
            simp only [List.map_cons, List.map_nil]
            cases htup : chainTuples [w.Value, wq.Value] (List.range w.Value.length) with
            | none => simp [htup] at hrun
            | some rows =>
              simp only [htup, Option.map_some'] at hrun ⊢
              obtain ⟨hrl, hrw⟩ := chainTuples_spec _ _ rows htup
              simp only [List.length_range, List.length_cons, List.length_nil] at hrl hrw
              have hrne : rows ≠ [] := by
                intro hc; rw [hc] at hrl; simp at hrl; omega
              have hb : _wrapBracket (lit "?" ++ lit "," ++ lit "?") ≠ [] :=
                _wrapBracket_ne_nil _
              rw [_stringRepeatJoin_eq _ _ _ hb hlen, ← hrl] at hrun
              obtain ⟨hc1, hf1⟩ := fill_join_rows r (_wrapBracket (lit "?" ++ lit "," ++ lit "?"))
                (lit ",") hcomma rows hrne
                (by
                  intro row hrow
                  rw [hrw row hrow]
                  decide)
              have hfm : rows.map (fun row =>
                    fillMarkers r (_wrapBracket (lit "?" ++ lit "," ++ lit "?")) row)
                  = rows.map (fun row => _wrapBracket (join (row.map r) (lit ","))) := by
                apply List.map_congr_left
                intro row hrow
                exact fill_pair r row (hrw row hrow)
              rw [hfm] at hf1
              refine body _ _ _ _ _ ?_ rfl (by rw [countMarkers_wrapBracket, hc1])
                (by rw [fillMarkers_wrapBracket r _ _ hc1, hf1]) hrun
              rw [countMarkers_wrapBracket]
              show countMarkers (w.Field ++ lit "," ++ wq.Field) = 0
              rw [countMarkers_append, countMarkers_append, hF, hqF, hcomma]
      · simp only [if_neg hin] at hrun ⊢
        have hl := hshape hin
        obtain ⟨v, hv⟩ : ∃ v, w.Value = [v] := by
          cases hw : w.Value with
          | nil => exact absurd hw hne
          | cons v t =>
            cases t with
            | nil => exact ⟨v, rfl⟩
            | cons _ _ => rw [hw] at hl; simp at hl
        rw [hv] at hrun ⊢
        simp only []
        exact body _ _ _ _ _ hF rfl (by simpa using countMarkers_marker)
          (fillMarkers_marker r v) hrun

end Builder

namespace Builder

/-! ### The heap -/

theorem lt_length_of_getElem? {α : Type} (l : List α) (p : Nat) (w : α) (h : l[p]? = some w) :
    p < l.length := by
  by_contra hc
  rw [List.getElem?_eq_none (by omega)] at h
  cases h

theorem getElem?_append_base {α : Type} (h block : List α) (k : Nat) :
    (h ++ block)[h.length + k]? = block[k]? := by
  rw [List.getElem?_append_right (by omega)]
  congr 1
  omega

theorem Heap_update_block (h : Heap) (block : List Where) (k : Nat) (w : Where)
    (f : Where → Where) (hk : block[k]? = some w) :
    Heap.update (h ++ block) (h.length + k) f = some (h ++ block.set k (f w)) := by
  unfold Heap.update
  rw [getElem?_append_base, hk]
  simp only [Option.some.injEq]
  rw [List.set_append_right _ _ (by omega)]
  congr 2
  omega

theorem range'_snoc (s n : Nat) : List.range' s n ++ [s + n] = List.range' s (n + 1) := by
  rw [List.range'_concat]
  simp

/-! ### The effect of `WhereCombineIn` -/

theorem NodeOK_leaf_in (field : GoString) (value : List Val) (cl cr : Option Nat) :
    NodeOK { Field := field, Operation := OpIn, Value := value, Children := [],
             Cond := WhereCondAnd, CombineRight := cr, CombineLeft := cl } :=
  ⟨Or.inl rfl, Or.inl (Or.inl rfl)⟩

theorem LinkOK_nil (base : Nat) : LinkOK base [] := by
  intro k w hk
  simp at hk

theorem LinkOK_snoc (base : Nat) (ext : List Where) (w : Where) (hext : LinkOK base ext)
    (hw : NodeOK w) (hc : w.Children = []) (hr : w.CombineRight = none) :
    LinkOK base (ext ++ [w]) := by
  intro k x hk
  by_cases hlt : k < ext.length
  · rw [List.getElem?_append_left hlt] at hk
    obtain ⟨h1, h2, h3, h4⟩ := hext k x hk
    refine ⟨h1, h2, h3, ?_⟩
    intro hk0
    rcases h4 hk0 with h | ⟨h, hl⟩
    · exact Or.inl h
    · exact Or.inr ⟨h, by simp; omega⟩
  · rw [List.getElem?_append_right (by omega)] at hk
    have hk0 : k - ext.length = 0 := by
      by_contra hne
      rw [List.getElem?_eq_none (by simp; omega)] at hk
      cases hk
    rw [hk0] at hk
    simp only [List.getElem?_cons_zero, Option.some.injEq] at hk
    subst hk
    exact ⟨hw, hc, fun _ => hr, fun _ => Or.inl hr⟩

/-- Linking the first two leaves keeps the invariant of the appended leaves. -/
theorem LinkOK_link (base : Nat) (ext : List Where) (w0 w1 : Where) (hext : LinkOK base ext)
    (h0 : ext[0]? = some w0) (h1 : ext[1]? = some w1) :
    LinkOK base
      ((ext.set 0 { w0 with CombineRight := some (base + 1) }).set 1
        { w1 with CombineLeft := some base }) := by
  have hlen : 2 ≤ ext.length := by
    have := lt_length_of_getElem? ext 1 w1 h1
    omega
  intro k x hk
  rw [List.getElem?_set] at hk
  by_cases hk1 : 1 = k
  · subst hk1
    rw [if_pos rfl, if_pos (by simp; omega)] at hk
    simp only [Option.some.injEq] at hk
    subst hk
    obtain ⟨a1, a2, a3, _⟩ := hext 1 w1 h1
    exact ⟨a1, a2, fun _ => a3 (le_refl _), fun hc => by omega⟩
  · rw [if_neg hk1, List.getElem?_set] at hk
    by_cases hk0 : 0 = k
    · subst hk0
      rw [if_pos rfl, if_pos (by omega)] at hk
      simp only [Option.some.injEq] at hk
      subst hk
      obtain ⟨a1, a2, _, _⟩ := hext 0 w0 h0
      exact ⟨a1, a2, fun hc => by omega, fun _ => Or.inr ⟨rfl, by simp; omega⟩⟩
    · rw [if_neg hk0] at hk
      obtain ⟨a1, a2, a3, _⟩ := hext k x hk
      exact ⟨a1, a2, a3, fun hc => by omega⟩

theorem goIndex_nat {α : Type} (l : List α) (i : Nat) : goIndex l (i : Int) = l[i]? := by
  unfold goIndex
  simp

theorem combineInLink_effect (fv : GoMap (List Val)) (h0 : Heap) (whs0 : Wheres) :
    ∀ (fields : List GoString) (i : Nat) (ext : List Where), ext.length = i →
      LinkOK h0.length ext →
      ∀ h1 whs1,
        combineInLink fv fields i (h0 ++ ext) (whs0 ++ List.range' h0.length i)
          = some (h1, whs1) →
        ∃ ext1, h1 = h0 ++ ext1 ∧ whs1 = whs0 ++ List.range' h0.length ext1.length ∧
          LinkOK h0.length ext1 := by
  intro fields
  induction fields with
  | nil =>
    intro i ext hlen hok h1 whs1 hrun
    simp only [combineInLink, Option.some.injEq, Prod.mk.injEq] at hrun
    obtain ⟨rfl, rfl⟩ := hrun
    exact ⟨ext, rfl, by rw [hlen], hok⟩
  | cons field rest ih =>
    intro i ext hlen hok h1 whs1 hrun
    rw [combineInLink] at hrun
    simp only [Wheres.where_] at hrun
    have e1 : (h0 ++ ext).length = h0.length + i := by simp [hlen]
    have e2 : whs0 ++ List.range' h0.length i ++ [(h0 ++ ext).length]
        = whs0 ++ List.range' h0.length (i + 1) := by
      rw [e1, List.append_assoc, range'_snoc]
    have e3 : ∀ w : Where, h0 ++ ext ++ [w] = h0 ++ (ext ++ [w]) := by
      intro w; simp
    rw [e2, e3] at hrun
    obtain ⟨leaf, hleaf⟩ : ∃ leaf : Where, leaf =
        { Field := field, Operation := OpIn, Value := mapGet fv field [], Children := [],
          Cond := WhereCondAnd, CombineRight := none, CombineLeft := none } := ⟨_, rfl⟩
    rw [← hleaf] at hrun
    have hok1 : LinkOK h0.length (ext ++ [leaf]) :=
      LinkOK_snoc h0.length ext leaf hok (by rw [hleaf]; exact NodeOK_leaf_in _ _ _ _)
        (by rw [hleaf]) (by rw [hleaf])
    have hlen1 : (ext ++ [leaf]).length = i + 1 := by simp [hlen]
    by_cases hi : i > 0
    · rw [if_pos hi] at hrun
      have el : ((whs0 ++ List.range' h0.length (i + 1)).length : Int) - (i : Int) - 1
          = ((whs0.length : Nat) : Int) := by
        simp; omega
      have er : ((whs0 ++ List.range' h0.length (i + 1)).length : Int) - (i : Int)
          = ((whs0.length + 1 : Nat) : Int) := by
        simp; omega
      rw [el, er, goIndex_nat, goIndex_nat] at hrun
      have g0 : (whs0 ++ List.range' h0.length (i + 1))[whs0.length]? = some (h0.length + 0) := by
        rw [show whs0.length = whs0.length + 0 from rfl, getElem?_append_base,
          List.getElem?_range' _ _ (by omega)]
      have g1 : (whs0 ++ List.range' h0.length (i + 1))[whs0.length + 1]?
          = some (h0.length + 1) := by
        rw [getElem?_append_base, List.getElem?_range' _ _ (by omega)]
      rw [g0, g1] at hrun
      simp only [] at hrun
      obtain ⟨w0, hw0⟩ : ∃ w0, (ext ++ [leaf])[0]? = some w0 := by
        rw [List.getElem?_eq_getElem (by rw [hlen1]; omega)]
        exact ⟨_, rfl⟩
      obtain ⟨w1, hw1⟩ : ∃ w1, (ext ++ [leaf])[1]? = some w1 := by
        rw [List.getElem?_eq_getElem (by rw [hlen1]; omega)]
        exact ⟨_, rfl⟩
      rw [Heap_update_block h0 _ 0 w0 _ hw0] at hrun
      simp only [] at hrun
      have hw1' : ((ext ++ [leaf]).set 0
            { w0 with CombineRight := some (h0.length + 1) })[1]? = some w1 := by
        rw [List.getElem?_set_ne (by omega)]
        exact hw1
      rw [Heap_update_block h0 _ 1 w1 _ hw1'] at hrun
      simp only [] at hrun
      exact ih (i + 1) _ (by simp [hlen]) (LinkOK_link h0.length _ w0 w1 hok1 hw0 hw1) h1 whs1 hrun
    · rw [if_neg hi] at hrun
      exact ih (i + 1) _ hlen1 hok1 h1 whs1 hrun

theorem WhereCombineIn_effect (h0 : Heap) (whs0 : Wheres) (fields : List GoString)
    (values : List (List Val)) (h1 : Heap) (whs1 : Wheres)
    (hrun : Wheres.WhereCombineIn h0 whs0 fields values = some (h1, whs1)) :
    ∃ ext1, h1 = h0 ++ ext1 ∧ whs1 = whs0 ++ List.range' h0.length ext1.length ∧
      LinkOK h0.length ext1 := by
  unfold Wheres.WhereCombineIn at hrun
  cases hc : combineInCollect values fields 0 [] with
  | none => simp [hc] at hrun
  | some fv =>
    simp only [hc] at hrun
    have := combineInLink_effect fv h0 whs0 fields 0 [] rfl (LinkOK_nil _) h1 whs1
    simp only [List.append_nil, List.range'_zero] at this
    exact this hrun

/-! ### Blocks -/

theorem BlockOK_of_LinkOK (base : Nat) (ext : List Where) (h : LinkOK base ext) :
    BlockOK base ext ∧ ∀ w ∈ ext, w.Children = [] := by
  constructor
  · intro k w hk
    obtain ⟨h1, h2, h3, h4⟩ := h k w hk
    refine ⟨h1, ?_, ?_⟩
    · intro c hc
      rw [h2] at hc
      cases hc
    · intro q hq
      have hk0 : k = 0 := by
        by_contra hne
        rw [h3 (by omega)] at hq
        cases hq
      rcases h4 hk0 with hn | ⟨hs, hl⟩
      · rw [hn] at hq; cases hq
      · rw [hs] at hq
        simp only [Option.some.injEq] at hq
        obtain ⟨w1, hw1⟩ : ∃ w1, ext[1]? = some w1 := by
          rw [List.getElem?_eq_getElem (by omega)]
          exact ⟨_, rfl⟩
        obtain ⟨_, b2, b3, _⟩ := h 1 w1 hw1
        exact ⟨1, w1, hq.symm, hw1, b3 (le_refl _), b2⟩
  · intro w hw
    obtain ⟨k, hk⟩ := List.getElem?_of_mem hw
    exact (h k w hk).2.1

theorem BlockOK_append (base : Nat) (b1 b2 : List Where) (h1 : BlockOK base b1)
    (h2 : BlockOK (base + b1.length) b2) : BlockOK base (b1 ++ b2) := by
  intro k w hk
  by_cases hlt : k < b1.length
  · rw [List.getElem?_append_left hlt] at hk
    obtain ⟨a1, a2, a3⟩ := h1 k w hk
    refine ⟨a1, ?_, ?_⟩
    · intro c hc
      obtain ⟨j, wc, e, hj, hcc⟩ := a2 c hc
      exact ⟨j, wc, e, by
        rw [List.getElem?_append_left (lt_length_of_getElem? _ _ _ hj)]; exact hj, hcc⟩
    · intro q hq
      obtain ⟨j, wq, e, hj, x1, x2⟩ := a3 q hq
      exact ⟨j, wq, e, by
        rw [List.getElem?_append_left (lt_length_of_getElem? _ _ _ hj)]; exact hj, x1, x2⟩
  · rw [List.getElem?_append_right (by omega)] at hk
    obtain ⟨a1, a2, a3⟩ := h2 _ w hk
    refine ⟨a1, ?_, ?_⟩
    · intro c hc
      obtain ⟨j, wc, e, hj, hcc⟩ := a2 c hc
      exact ⟨b1.length + j, wc, by omega, by rw [getElem?_append_base]; exact hj, hcc⟩
    · intro q hq
      obtain ⟨j, wq, e, hj, x1, x2⟩ := a3 q hq
      exact ⟨b1.length + j, wq, by omega, by rw [getElem?_append_base]; exact hj, x1, x2⟩

theorem HeapInv_nil : HeapInv [] := by
  intro p w hp
  simp at hp

theorem HeapInv_append (h : Heap) (block : List Where) (hh : HeapInv h)
    (hb : BlockOK h.length block) : HeapInv (h ++ block) := by
  intro p w hp
  by_cases hlt : p < h.length
  · rw [List.getElem?_append_left hlt] at hp
    obtain ⟨a1, a2, a3⟩ := hh p w hp
    refine ⟨a1, ?_, ?_⟩
    · intro c hc
      obtain ⟨wc, hj, hcc⟩ := a2 c hc
      exact ⟨wc, by
        rw [List.getElem?_append_left (lt_length_of_getElem? _ _ _ hj)]; exact hj, hcc⟩
    · intro q hq
      obtain ⟨wq, hj, x1, x2⟩ := a3 q hq
      exact ⟨wq, by
        rw [List.getElem?_append_left (lt_length_of_getElem? _ _ _ hj)]; exact hj, x1, x2⟩
  · rw [List.getElem?_append_right (by omega)] at hp
    obtain ⟨a1, a2, a3⟩ := hb _ w hp
    refine ⟨a1, ?_, ?_⟩
    · intro c hc
      obtain ⟨j, wc, e, hj, hcc⟩ := a2 c hc
      exact ⟨wc, by rw [e, getElem?_append_base]; exact hj, hcc⟩
    · intro q hq
      obtain ⟨j, wq, e, hj, x1, x2⟩ := a3 q hq
      exact ⟨wq, by rw [e, getElem?_append_base]; exact hj, x1, x2⟩

/-- One leaf made by `Wheres.where`. -/
theorem BlockOK_leaf (base : Nat) (w : Where) (hw : NodeOK w) (hc : w.Children = [])
    (hr : w.CombineRight = none) : BlockOK base [w] ∧ ∀ x ∈ [w], x.Children = [] := by
  constructor
  · intro k x hk
    have hk0 : k = 0 := by
      have := lt_length_of_getElem? _ _ _ hk
      simpa using this
    subst hk0
    simp only [List.getElem?_cons_zero, Option.some.injEq] at hk
    subst hk
    refine ⟨hw, ?_, ?_⟩
    · intro c hcc; rw [hc] at hcc; cases hcc
    · intro q hq; rw [hr] at hq; cases hq
  · intro x hx
    simp only [List.mem_singleton] at hx
    subst hx
    exact hc

/-! ### The effect of the calls -/

theorem where_effect (h : Heap) (whs : Wheres) (field op : GoString) (value : List Val)
    (cond : GoString) (hc : cond = WhereCondAnd ∨ cond = WhereCondOr)
    (hv : (op = OpIn ∨ op = OpNotIn) ∨ value.length ≤ 1) :
    ∃ ext, Wheres.where_ h whs field op value cond
        = (h ++ ext, whs ++ List.range' h.length ext.length) ∧
      BlockOK h.length ext ∧ ∀ w ∈ ext, w.Children = [] := by
  refine ⟨[{ Field := field, Operation := op, Value := value, Children := [], Cond := cond,
             CombineRight := none, CombineLeft := none }], ?_, ?_⟩
  · simp [Wheres.where_, List.range']
  · exact BlockOK_leaf _ _ ⟨hc, hv⟩ rfl rfl

theorem WCall_effect (c : WCall) (h : Heap) (whs : Wheres) (h1 : Heap) (whs1 : Wheres)
    (hrun : c.run h whs = some (h1, whs1)) :
    ∃ ext, h1 = h ++ ext ∧ whs1 = whs ++ List.range' h.length ext.length ∧
      BlockOK h.length ext ∧ ∀ w ∈ ext, w.Children = [] := by
  have key : ∀ (field op : GoString) (value : List Val) (cond : GoString),
      (cond = WhereCondAnd ∨ cond = WhereCondOr) →
      ((op = OpIn ∨ op = OpNotIn) ∨ value.length ≤ 1) →
      some (Wheres.where_ h whs field op value cond) = some (h1, whs1) →
      ∃ ext, h1 = h ++ ext ∧ whs1 = whs ++ List.range' h.length ext.length ∧
        BlockOK h.length ext ∧ ∀ w ∈ ext, w.Children = [] := by
    intro field op value cond hc hv he
    obtain ⟨ext, e, hb⟩ := where_effect h whs field op value cond hc hv
    rw [e] at he
    simp only [Option.some.injEq, Prod.mk.injEq] at he
    exact ⟨ext, he.1.symm, he.2.symm, hb⟩
  cases c with
  | Where f o v => exact key f o [v] _ (Or.inl rfl) (Or.inr (by simp)) hrun
  | OrWhere f o v => exact key f o [v] _ (Or.inr rfl) (Or.inr (by simp)) hrun
  | WhereIn f vs => exact key f OpIn vs _ (Or.inl rfl) (Or.inl (Or.inl rfl)) hrun
  | OrWhereIn f vs => exact key f OpIn vs _ (Or.inr rfl) (Or.inl (Or.inl rfl)) hrun
  | WhereNotIn f vs => exact key f OpNotIn vs _ (Or.inl rfl) (Or.inl (Or.inr rfl)) hrun
  | OrWhereNotIn f vs => exact key f OpNotIn vs _ (Or.inr rfl) (Or.inl (Or.inr rfl)) hrun
  | WhereCombineIn fs vs =>
    obtain ⟨ext, e1, e2, hl⟩ := WhereCombineIn_effect h whs fs vs h1 whs1 hrun
    exact ⟨ext, e1, e2, BlockOK_of_LinkOK _ _ hl⟩

theorem runCallback_effect (calls : List WCall) :
    ∀ (h : Heap) (whs : Wheres) (h1 : Heap) (whs1 : Wheres),
      runCallback calls h whs = some (h1, whs1) →
      ∃ ext, h1 = h ++ ext ∧ whs1 = whs ++ List.range' h.length ext.length ∧
        BlockOK h.length ext ∧ ∀ w ∈ ext, w.Children = [] := by
  induction calls with
  | nil =>
    intro h whs h1 whs1 hrun
    simp only [runCallback, Option.some.injEq, Prod.mk.injEq] at hrun
    obtain ⟨rfl, rfl⟩ := hrun
    refine ⟨[], by simp, by simp, ?_, by simp⟩
    intro k w hk
    simp at hk
  | cons c rest ih =>
    intro h whs h1 whs1 hrun
    rw [runCallback] at hrun
    cases hc : c.run h whs with
    | none => simp [hc] at hrun
    | some r =>
      obtain ⟨h2, whs2⟩ := r
      simp only [hc] at hrun
      obtain ⟨e1, rfl, rfl, hb1, hl1⟩ := WCall_effect c h whs h2 whs2 hc
      obtain ⟨e2, rfl, rfl, hb2, hl2⟩ := ih _ _ h1 whs1 hrun
      refine ⟨e1 ++ e2, by simp, ?_, ?_, ?_⟩
      · rw [List.append_assoc, List.length_append, List.length_append]
        have := List.range'_append h.length e1.length e2.length 1
        simp only [Nat.one_mul] at this
        rw [this, Nat.add_comm]
      · apply BlockOK_append _ _ _ hb1
        rw [List.length_append] at hb2
        exact hb2
      · intro w hw
        rcases List.mem_append.mp hw with hw | hw
        · exact hl1 w hw
        · exact hl2 w hw

theorem extend_preserves (h : Heap) (whs : Wheres) (ext : List Where) (hh : HeapInv h)
    (hv : ∀ p ∈ whs, p < h.length) (hb : BlockOK h.length ext) :
    HeapInv (h ++ ext) ∧
      ∀ p ∈ whs ++ List.range' h.length ext.length, p < (h ++ ext).length := by
  refine ⟨HeapInv_append h ext hh hb, ?_⟩
  intro p hp
  rw [List.length_append]
  rcases List.mem_append.mp hp with hp | hp
  · have := hv p hp; omega
  · rw [List.mem_range'_1] at hp; omega

theorem BlockOK_branch (base : Nat) (b : Where) (ext : List Where) (hb : NodeOK b)
    (hc : b.Children = List.range' (base + 1) ext.length) (hr : b.CombineRight = none)
    (hext : BlockOK (base + 1) ext) (hl : ∀ w ∈ ext, w.Children = []) :
    BlockOK base (b :: ext) := by
  intro k w hk
  cases k with
  | zero =>
    simp only [List.getElem?_cons_zero, Option.some.injEq] at hk
    subst hk
    refine ⟨hb, ?_, ?_⟩
    · intro c hcc
      rw [hc, List.mem_range'_1] at hcc
      obtain ⟨wc, hwc⟩ : ∃ wc, ext[c - (base + 1)]? = some wc := by
        rw [List.getElem?_eq_getElem (by omega)]
        exact ⟨_, rfl⟩
      refine ⟨c - (base + 1) + 1, wc, by omega, by simpa using hwc, ?_⟩
      exact hl wc (List.getElem?_mem hwc)
    · intro q hq; rw [hr] at hq; cases hq
  | succ k1 =>
    simp only [List.getElem?_cons_succ] at hk
    obtain ⟨a1, a2, a3⟩ := hext k1 w hk
    refine ⟨a1, ?_, ?_⟩
    · intro c hcc
      obtain ⟨j, wc, e, hj, x⟩ := a2 c hcc
      exact ⟨j + 1, wc, by omega, by simpa using hj, x⟩
    · intro q hq
      obtain ⟨j, wq, e, hj, x1, x2⟩ := a3 q hq
      exact ⟨j + 1, wq, by omega, by simpa using hj, x1, x2⟩

theorem newBranch_effect (h : Heap) (cond : GoString) (calls : List WCall)
    (hc : cond = WhereCondAnd ∨ cond = WhereCondOr) (h1 : Heap) (p : Nat)
    (hrun : newBranch h cond (runCallback calls) = some (h1, p)) :
    p = h.length ∧ ∃ block, h1 = h ++ block ∧ 0 < block.length ∧ BlockOK h.length block := by
  unfold newBranch at hrun
  simp only [] at hrun
  cases hf : runCallback calls
      (h ++ [{ Field := [], Operation := [], Value := [], Children := [], Cond := cond,
               CombineRight := none, CombineLeft := none }]) [] with
  | none => simp [hf] at hrun
  | some r =>
    obtain ⟨h2, children⟩ := r
    obtain ⟨ext, e1, e2, hb, hl⟩ := runCallback_effect calls _ _ h2 children hf
    subst e1
    simp only [hf] at hrun
    have hupd := Heap_update_block h
      ([{ Field := [], Operation := [], Value := [], Children := [], Cond := cond,
          CombineRight := none, CombineLeft := none }] ++ ext) 0
        { Field := [], Operation := [], Value := [], Children := [], Cond := cond,
          CombineRight := none, CombineLeft := none }
        (fun w => { w with Children := children }) (by simp)
    simp only [Nat.add_zero, ← List.append_assoc] at hupd
    rw [hupd] at hrun
    simp only [Option.some.injEq, Prod.mk.injEq] at hrun
    obtain ⟨rfl, rfl⟩ := hrun
    refine ⟨rfl, _, rfl, by simp, ?_⟩
    simp only [List.singleton_append, List.set_cons_zero]
    apply BlockOK_branch
    · exact ⟨hc, Or.inr (by simp)⟩
    · rw [e2]; simp
    · rfl
    · simpa using hb
    · exact hl

theorem where_preserves (h : Heap) (whs : Wheres) (field op : GoString) (value : List Val)
    (cond : GoString) (hc : cond = WhereCondAnd ∨ cond = WhereCondOr)
    (hv : (op = OpIn ∨ op = OpNotIn) ∨ value.length ≤ 1)
    (hh : HeapInv h) (hw : ∀ p ∈ whs, p < h.length) :
    HeapInv (Wheres.where_ h whs field op value cond).1 ∧
      ∀ p ∈ (Wheres.where_ h whs field op value cond).2,
        p < (Wheres.where_ h whs field op value cond).1.length := by
  obtain ⟨ext, e, hb, _⟩ := where_effect h whs field op value cond hc hv
  rw [e]
  exact extend_preserves h whs ext hh hw hb

theorem whereInWith_preserves
    (add : Heap → Wheres → GoString → List Val → Heap × Wheres)
    (hadd : ∀ (h : Heap) (whs : Wheres) (f : GoString) (vs : List Val), HeapInv h →
      (∀ p ∈ whs, p < h.length) →
      HeapInv (add h whs f vs).1 ∧ ∀ p ∈ (add h whs f vs).2, p < (add h whs f vs).1.length)
    (h : Heap) (b : SQLBulder) (f : GoString) (value : List Val) (h1 : Heap) (b1 : SQLBulder)
    (hh : HeapInv h) (hw : ∀ p ∈ b.whereList, p < h.length)
    (hrun : whereInWith add h b f value = some (h1, b1)) :
    HeapInv h1 ∧ ∀ p ∈ b1.whereList, p < h1.length := by
  unfold whereInWith at hrun
  by_cases h0 : value.length = 0
  · rw [if_pos h0] at hrun
    simp only [Option.some.injEq, Prod.mk.injEq] at hrun
    obtain ⟨rfl, rfl⟩ := hrun
    exact ⟨hh, hw⟩
  · rw [if_neg h0] at hrun
    cases hg : _getInValues value with
    | none => simp [hg] at hrun
    | some vals =>
      simp only [hg] at hrun
      by_cases h00 : vals.length = 0
      · rw [if_pos h00] at hrun
        simp only [Option.some.injEq, Prod.mk.injEq] at hrun
        obtain ⟨rfl, rfl⟩ := hrun
        exact ⟨hh, hw⟩
      · rw [if_neg h00] at hrun
        simp only [Option.some.injEq, Prod.mk.injEq] at hrun
        obtain ⟨rfl, rfl⟩ := hrun
        exact hadd h b.whereList f vals hh hw

theorem BCall_preserves (c : BCall) (h : Heap) (b : SQLBulder) (h1 : Heap) (b1 : SQLBulder)
    (hh : HeapInv h) (hw : ∀ p ∈ b.whereList, p < h.length)
    (hrun : c.run h b = some (h1, b1)) :
    HeapInv h1 ∧ ∀ p ∈ b1.whereList, p < h1.length := by
  cases c with
  | Where f o v =>
    simp only [BCall.run, SQLBulder.Where, Wheres.Where, Option.some.injEq,
      Prod.mk.injEq] at hrun
    obtain ⟨rfl, rfl⟩ := hrun
    exact where_preserves h b.whereList f _ [v] _ (Or.inl rfl) (Or.inr (by simp)) hh hw
  | OrWhere f o v =>
    simp only [BCall.run, SQLBulder.OrWhere, Wheres.OrWhere, Option.some.injEq,
      Prod.mk.injEq] at hrun
    obtain ⟨rfl, rfl⟩ := hrun
    exact where_preserves h b.whereList f _ [v] _ (Or.inr rfl) (Or.inr (by simp)) hh hw
  | WhereIn f vs =>
    exact whereInWith_preserves Wheres.WhereIn
      (fun h whs f vs hh hw =>
        where_preserves h whs f OpIn vs _ (Or.inl rfl) (Or.inl (Or.inl rfl)) hh hw)
      h b f vs h1 b1 hh hw hrun
  | OrWhereIn f vs =>
    exact whereInWith_preserves Wheres.OrWhereIn
      (fun h whs f vs hh hw =>
        where_preserves h whs f OpIn vs _ (Or.inr rfl) (Or.inl (Or.inl rfl)) hh hw)
      h b f vs h1 b1 hh hw hrun
  | WhereNotIn f vs =>
    exact whereInWith_preserves Wheres.WhereNotIn
      (fun h whs f vs hh hw =>
        where_preserves h whs f OpNotIn vs _ (Or.inl rfl) (Or.inl (Or.inr rfl)) hh hw)
      h b f vs h1 b1 hh hw hrun
  | OrWhereNotIn f vs =>
    exact whereInWith_preserves Wheres.OrWhereNotIn
      (fun h whs f vs hh hw =>
        where_preserves h whs f OpNotIn vs _ (Or.inr rfl) (Or.inl (Or.inr rfl)) hh hw)
      h b f vs h1 b1 hh hw hrun
  | WhereCombineIn fs vs =>
    simp only [BCall.run, SQLBulder.WhereCombineIn] at hrun
    by_cases h0 : vs.length = 0
    · rw [if_pos h0] at hrun
      simp only [Option.some.injEq, Prod.mk.injEq] at hrun
      obtain ⟨rfl, rfl⟩ := hrun
      exact ⟨hh, hw⟩
    · rw [if_neg h0] at hrun
      cases hc : Wheres.WhereCombineIn h b.whereList fs vs with
      | none => simp [hc] at hrun
      | some r =>
        obtain ⟨h2, whs2⟩ := r
        simp only [hc, Option.some.injEq, Prod.mk.injEq] at hrun
        obtain ⟨rfl, rfl⟩ := hrun
        obtain ⟨ext, rfl, rfl, hl⟩ := WhereCombineIn_effect h b.whereList fs vs _ _ hc
        exact extend_preserves h b.whereList ext hh hw (BlockOK_of_LinkOK _ _ hl).1
  | Wheres fn =>
    simp only [BCall.run, SQLBulder.Wheres] at hrun
    cases hn : newBranch h WhereCondAnd (runCallback fn) with
    | none => simp [hn] at hrun
    | some r =>
      obtain ⟨h2, p⟩ := r
      simp only [hn, Option.some.injEq, Prod.mk.injEq] at hrun
      obtain ⟨rfl, rfl⟩ := hrun
      obtain ⟨rfl, block, rfl, hpos, hb⟩ := newBranch_effect h _ fn (Or.inl rfl) _ _ hn
      refine ⟨HeapInv_append h block hh hb, ?_⟩
      intro q hq
      rw [List.length_append]
      rcases List.mem_append.mp hq with hq | hq
      · have := hw q hq; omega
      · simp only [List.mem_singleton] at hq; omega
  | OrWheres fn =>
    simp only [BCall.run, SQLBulder.OrWheres] at hrun
    cases hn : newBranch h WhereCondOr (runCallback fn) with
    | none => simp [hn] at hrun
    | some r =>
      obtain ⟨h2, p⟩ := r
      simp only [hn, Option.some.injEq, Prod.mk.injEq] at hrun
      obtain ⟨rfl, rfl⟩ := hrun
      obtain ⟨rfl, block, rfl, hpos, hb⟩ := newBranch_effect h _ fn (Or.inr rfl) _ _ hn
      refine ⟨HeapInv_append h block hh hb, ?_⟩
      intro q hq
      rw [List.length_append]
      rcases List.mem_append.mp hq with hq | hq
      · have := hw q hq; omega
      · simp only [List.mem_singleton] at hq; omega

theorem runCalls_preserves (calls : List BCall) :
    ∀ (h : Heap) (b : SQLBulder) (h1 : Heap) (b1 : SQLBulder), HeapInv h →
      (∀ p ∈ b.whereList, p < h.length) → runCalls calls h b = some (h1, b1) →
      HeapInv h1 ∧ ∀ p ∈ b1.whereList, p < h1.length := by
  induction calls with
  | nil =>
    intro h b h1 b1 hh hw hrun
    simp only [runCalls, Option.some.injEq, Prod.mk.injEq] at hrun
    obtain ⟨rfl, rfl⟩ := hrun
    exact ⟨hh, hw⟩
  | cons c rest ih =>
    intro h b h1 b1 hh hw hrun
    rw [runCalls] at hrun
    cases hc : c.run h b with
    | none => simp [hc] at hrun
    | some r =>
      obtain ⟨h2, b2⟩ := r
      simp only [hc] at hrun
      obtain ⟨hh2, hw2⟩ := BCall_preserves c h b h2 b2 hh hw hc
      exact ih h2 b2 h1 b1 hh2 hw2 hrun

end Builder

namespace Builder

/-! ### The serializer returns -/

theorem chainRow_isSome (i : Nat) (cols : List (List Val))
    (h : ∀ col ∈ cols, i < col.length) : ∃ row, chainRow i cols = some row := by
  induction cols with
  | nil => exact ⟨[], rfl⟩
  | cons col t ih =>
    obtain ⟨row, hrow⟩ := ih (fun x hx => h x (List.mem_cons_of_mem _ hx))
    have hlt := h col (List.mem_cons_self _ _)
    refine ⟨col[i] :: row, ?_⟩
    rw [chainRow, hrow, List.getElem?_eq_getElem hlt]

theorem chainRows_isSome (cols : List (List Val)) (is : List Nat)
    (h : ∀ i ∈ is, ∀ col ∈ cols, i < col.length) : ∃ vs, chainRows cols is = some vs := by
  induction is with
  | nil => exact ⟨[], rfl⟩
  | cons i t ih =>
    obtain ⟨vs, hvs⟩ := ih (fun j hj => h j (List.mem_cons_of_mem _ hj))
    obtain ⟨row, hrow⟩ := chainRow_isSome i cols (h i (List.mem_cons_self _ _))
    exact ⟨row ++ vs, by rw [chainRows, hrow, hvs]⟩

theorem leafString_isSome (h : Heap) (getPh : Kind → GoString) (p : Nat) (w : Where)
    (f : Bool) (hp : h[p]? = some w)
    (hval : ∃ v vs, w.Value = v :: vs ∧ v ≠ Val.nil)
    (hchain : ∀ q, w.CombineRight = some q → ∃ wq, h[q]? = some wq ∧
      wq.CombineRight = none ∧ (∃ v vs, wq.Value = v :: vs ∧ v ≠ Val.nil) ∧
      w.Value.length ≤ wq.Value.length) :
    ∃ r, Where.leafString h getPh p w f = some r := by
  obtain ⟨v, vs, hv, hvn⟩ := hval
  obtain ⟨k, hk⟩ := typeKind_isSome v hvn
  unfold Where.leafString
  have hv0 : w.Value[0]? = some v := by rw [hv]; simp
  simp only [hv0, hk]
  by_cases hin : w.Operation = OpIn ∨ w.Operation = OpNotIn
  · simp only [if_pos hin]
    cases hcr : w.CombineRight with
    | none =>
      simp only []
      cases f <;> exact ⟨_, rfl⟩
    | some q =>
      obtain ⟨wq, hq, hqr, ⟨v1, vs1, hv1, hv1n⟩, hlen⟩ := hchain q hcr
      obtain ⟨k1, hk1⟩ := typeKind_isSome v1 hv1n
      have hl1 : h.length + 1 = (h.length - 1) + 2 := by
        have := lt_length_of_getElem? _ _ _ hp
        omega
      have hv10 : wq.Value[0]? = some v1 := by rw [hv1]; simp
      simp only []
      rw [hl1, chainLoop_two h _ p q w wq hp hcr hq hqr]
      simp only [hv0, hk, hv10, hk1, Option.some_bind, List.nil_append,
        List.getElem?_cons_zero]
      obtain ⟨vals, hvals⟩ := chainRows_isSome [w.Value, wq.Value] (List.range w.Value.length)
        (by
          intro i hi col hcol
          rw [List.mem_range] at hi
          simp only [List.mem_cons, List.mem_singleton, List.not_mem_nil, or_false] at hcol
          rcases hcol with rfl | rfl
          · exact hi
          · omega)
      rw [hvals]
      simp only []
      cases f <;> exact ⟨_, rfl⟩
  · simp only [if_neg hin]
    cases f <;> exact ⟨_, rfl⟩

theorem skipCombined_spec (h : Heap) (whs : Wheres)
    (hv : ∀ i, i < whs.length → ∃ (p : Nat) (w : Where), whs[i]? = some p ∧ h[p]? = some w) :
    ∀ (fuel i : Nat), whs.length - i < fuel →
      ∃ i1, skipCombined h whs fuel i = some i1 ∧ i ≤ i1 := by
  intro fuel
  induction fuel with
  | zero => intro i hi; omega
  | succ n ih =>
    intro i hi
    rw [skipCombined]
    by_cases hlt : i + 1 < whs.length
    · rw [if_pos hlt]
      obtain ⟨p, w, hp, hw⟩ := hv i (by omega)
      simp only [hp, hw]
      by_cases hcr : w.CombineRight.isSome = true
      · rw [if_pos hcr]
        obtain ⟨i1, h1, h2⟩ := ih (i + 1) (by omega)
        exact ⟨i1, h1, by omega⟩
      · rw [if_neg hcr]
        exact ⟨i, rfl, le_refl _⟩
    · rw [if_neg hlt]
      exact ⟨i, rfl, le_refl _⟩

theorem stringLoop_isSome (h : Heap) (whs : Wheres)
    (str : Nat → Bool → Bool → Option (GoString × List Val))
    (hv : ∀ i, i < whs.length → ∃ (p : Nat) (w : Where), whs[i]? = some p ∧ h[p]? = some w)
    (hs : ∀ p ∈ whs, ∀ f nb, ∃ r, str p f nb = some r) :
    ∀ (fuel i : Nat) (rl : List GoString) (wa : List Val), whs.length - i < fuel →
      ∃ r, stringLoop h str whs fuel i rl wa = some r := by
  intro fuel
  induction fuel with
  | zero => intro i rl wa hi; omega
  | succ n ih =>
    intro i rl wa hi
    rw [stringLoop]
    by_cases hlt : i < whs.length
    · rw [if_pos hlt]
      obtain ⟨p, w, hp, hw⟩ := hv i hlt
      obtain ⟨r, hr⟩ := hs p (List.getElem?_mem hp) (i == 0) (decide (whs.length > 1))
      obtain ⟨s, args⟩ := r
      simp only [hp, hr, hw]
      by_cases hcr : w.CombineRight.isNone = true
      · rw [if_pos hcr]
        exact ih (i + 1) _ _ (by omega)
      · rw [if_neg hcr]
        obtain ⟨i1, h1, h2⟩ := skipCombined_spec h whs hv (whs.length + 1) i (by omega)
        simp only [h1]
        exact ih (i1 + 1) _ _ (by omega)
    · rw [if_neg hlt]
      exact ⟨_, rfl⟩

theorem stringWith_isSome (h : Heap) (whs : Wheres)
    (str : Nat → Bool → Bool → Option (GoString × List Val))
    (hv : ∀ p ∈ whs, ∃ w : Where, h[p]? = some w)
    (hs : ∀ p ∈ whs, ∀ f nb, ∃ r, str p f nb = some r) (nb : Bool) :
    ∃ r, Wheres.stringWith h str whs nb = some r := by
  have hv1 : ∀ i, i < whs.length →
      ∃ (p : Nat) (w : Where), whs[i]? = some p ∧ h[p]? = some w := by
    intro i hi
    have hp : whs[i]? = some whs[i] := List.getElem?_eq_getElem hi
    obtain ⟨w, hw⟩ := hv _ (List.getElem?_mem hp)
    exact ⟨_, w, hp, hw⟩
  match whs, hv, hs, hv1 with
  | [], _, _, _ => exact ⟨_, rfl⟩
  | [p], _, hs, _ =>
    simp only [Wheres.stringWith]
    exact hs p (List.mem_singleton_self _) true false
  | p :: q :: rest, hv, hs, hv1 =>
    simp only [Wheres.stringWith]
    obtain ⟨r, hr⟩ := stringLoop_isSome h (p :: q :: rest) str hv1 hs
      ((p :: q :: rest).length + 1) 0 [] [] (by omega)
    obtain ⟨rl, wa⟩ := r
    rw [hr]
    cases nb <;> exact ⟨_, rfl⟩

theorem stringF_leaf_isSome (h : Heap) (getPh : Kind → GoString) (hh : HeapInv h)
    (hval : ∀ (p : Nat) (w : Where), h[p]? = some w → w.Children = [] →
      ∃ v vs, w.Value = v :: vs ∧ v ≠ Val.nil)
    (hlen : ∀ (p q : Nat) (w wq : Where), h[p]? = some w → w.CombineRight = some q →
      h[q]? = some wq → wq.Value.length = w.Value.length)
    (p : Nat) (w : Where) (hp : h[p]? = some w) (hc : w.Children = []) (n : Nat)
    (f nb : Bool) : ∃ r, Where.stringF h getPh (n + 1) p f nb = some r := by
  rw [Where.stringF]
  simp only [hp]
  rw [if_neg (by rw [hc]; simp)]
  apply leafString_isSome h getPh p w f hp (hval p w hp hc)
  intro q hq
  obtain ⟨wq, hwq, h1, h2⟩ := (hh p w hp).2.2 q hq
  exact ⟨wq, hwq, h1, hval q wq hwq h2, by rw [hlen p q w wq hp hq hwq]⟩

theorem stringF_node_isSome (h : Heap) (getPh : Kind → GoString) (hh : HeapInv h)
    (hval : ∀ (p : Nat) (w : Where), h[p]? = some w → w.Children = [] →
      ∃ v vs, w.Value = v :: vs ∧ v ≠ Val.nil)
    (hlen : ∀ (p q : Nat) (w wq : Where), h[p]? = some w → w.CombineRight = some q →
      h[q]? = some wq → wq.Value.length = w.Value.length)
    (p : Nat) (w : Where) (hp : h[p]? = some w) (n : Nat)
    (f nb : Bool) : ∃ r, Where.stringF h getPh (n + 2) p f nb = some r := by
  by_cases hc : w.Children = []
  · exact stringF_leaf_isSome h getPh hh hval hlen p w hp hc (n + 1) f nb
  · rw [Where.stringF]
    simp only [hp]
    have hpos : w.Children.length > 0 := by
      cases hw : w.Children with
      | nil => exact absurd hw hc
      | cons _ _ => simp
    rw [if_pos hpos]
    obtain ⟨r, hr⟩ := stringWith_isSome h w.Children (Where.stringF h getPh (n + 1))
      (by
        intro c hcm
        obtain ⟨wc, hwc, _⟩ := (hh p w hp).2.1 c hcm
        exact ⟨wc, hwc⟩)
      (by
        intro c hcm f1 nb1
        obtain ⟨wc, hwc, hcc⟩ := (hh p w hp).2.1 c hcm
        exact stringF_leaf_isSome h getPh hh hval hlen c wc hwc hcc n f1 nb1)
      nb
    obtain ⟨s, args⟩ := r
    rw [hr]
    cases f <;> exact ⟨_, rfl⟩

/-- On a heap with the invariant of the fluent interface whose childless nodes
have a non-nil first value and whose combine peers have value lists of equal
length, the serializer returns. -/
theorem Wheres_string_isSome (h : Heap) (getPh : Kind → GoString) (hh : HeapInv h)
    (hval : ∀ (p : Nat) (w : Where), h[p]? = some w → w.Children = [] →
      ∃ v vs, w.Value = v :: vs ∧ v ≠ Val.nil)
    (hlen : ∀ (p q : Nat) (w wq : Where), h[p]? = some w → w.CombineRight = some q →
      h[q]? = some wq → wq.Value.length = w.Value.length)
    (whs : Wheres) (hw : ∀ p ∈ whs, p < h.length) (nb : Bool) :
    ∃ r, Wheres.string h whs nb getPh = some r := by
  unfold Wheres.string
  apply stringWith_isSome
  · intro p hp
    exact ⟨h.get ⟨p, hw p hp⟩, List.getElem?_eq_getElem (hw p hp)⟩
  · intro p hp f nb1
    have hw1 : h[p]? = some (h.get ⟨p, hw p hp⟩) := List.getElem?_eq_getElem (hw p hp)
    generalize h.get ⟨p, hw p hp⟩ = w at hw1
    unfold Where.string
    by_cases hc : w.Children = []
    · obtain ⟨n, hn⟩ : ∃ n, h.length = n + 1 := ⟨h.length - 1, by have := hw p hp; omega⟩
      rw [hn]
      exact stringF_leaf_isSome h getPh hh hval hlen p w hw1 hc n f nb1
    · obtain ⟨c, hcm⟩ : ∃ c, c ∈ w.Children := by
        cases hw2 : w.Children with
        | nil => exact absurd hw2 hc
        | cons c _ => exact ⟨c, List.mem_cons_self _ _⟩
      obtain ⟨wc, hwc, hcc⟩ := (hh p w hw1).2.1 c hcm
      have hne : c ≠ p := by
        intro e
        rw [e, hw1] at hwc
        simp only [Option.some.injEq] at hwc
        rw [hwc] at hc
        exact hc hcc
      have hcl := lt_length_of_getElem? _ _ _ hwc
      have hpl := hw p hp
      obtain ⟨n, hn⟩ : ∃ n, h.length = n + 2 := ⟨h.length - 2, by omega⟩
      rw [hn]
      exact stringF_node_isSome h getPh hh hval hlen p w hw1 n f nb1

end Builder

namespace Builder

theorem countMarkers_cond (c : GoString) (h : c = WhereCondAnd ∨ c = WhereCondOr) :
    countMarkers c = 0 := by
  rcases h with rfl | rfl <;> decide

/-- The markers of the clause text and the arguments, against the reference
rendering, on a heap with the invariant of the fluent interface. -/
theorem Wheres_string_rel (h : Heap) (r : Val → GoString) (hh : HeapInv h)
    (hq : ∀ w ∈ h, countMarkers w.Field = 0 ∧ countMarkers w.Operation = 0)
    (whs : Wheres) (nb : Bool) (t : GoString) (a : List Val)
    (hrun : Wheres.string h whs nb (fun _ => lit "?") = some (t, a)) :
    countMarkers t = a.length ∧ Wheres.inline h whs nb r = some (fillMarkers r t a) := by
  unfold Wheres.string at hrun
  obtain ⟨t1, a1, h1, hc, hf⟩ := stringWith_rel h r whs _ (Where.inlineF h r h.length)
    (by
      intro p f nb1 t2 a2 hrun2
      refine stringF_rel h r (fun _ => lit "?") ?_ ?_ h.length p f nb1 t2 a2 hrun2
      · intro p1 w1 hp1
        exact countMarkers_cond _ (hh p1 w1 hp1).1.1
      · intro p1 w1 f1 t3 a3 hp1 _ hl
        obtain ⟨⟨hc1, hs1⟩, _, hch⟩ := hh p1 w1 hp1
        have hq1 := hq w1 (List.getElem?_mem hp1)
        refine leaf_rel h r p1 w1 f1 t3 a3 hp1 hq1.1 hq1.2 (countMarkers_cond _ hc1) ?_ ?_ hl
        · intro hnin
          rcases hs1 with hin | hle
          · exact absurd hin hnin
          · exact hle
        · intro q hcr
          obtain ⟨wq, hwq, x1, _⟩ := hch q hcr
          exact ⟨wq, hwq, x1, (hq wq (List.getElem?_mem hwq)).1⟩)
    nb t a hrun
  refine ⟨hc, ?_⟩
  unfold Wheres.inline
  rw [h1, hf]
  rfl

theorem placeholder_parameterized (b : SQLBulder) (hp : b.parameterized = true) :
    b.placeholder = fun _ => lit "?" := by
  funext k
  simp [SQLBulder.placeholder, hp]

end Builder

namespace Builder

/-! ### `WhereCombineIn` with two fields -/

theorem mapGet_mapSet_same {α : Type} (m : GoMap α) (k : GoString) (v d : α) :
    mapGet (mapSet m k v) k d = v := by
  induction m with
  | nil => simp [mapSet, mapGet]
  | cons e t ih =>
    obtain ⟨k1, v1⟩ := e
    by_cases hk : k1 = k
    · simp [mapSet, mapGet, hk]
    · simp [mapSet, mapGet, hk, ih]

theorem mapGet_mapSet_other {α : Type} (m : GoMap α) (k g : GoString) (v d : α)
    (hg : g ≠ k) : mapGet (mapSet m k v) g d = mapGet m g d := by
  induction m with
  | nil => simp [mapSet, mapGet, Ne.symm hg]
  | cons e t ih =>
    obtain ⟨k1, v1⟩ := e
    by_cases hk : k1 = k
    · subst hk
      simp [mapSet, mapGet, Ne.symm hg]
    · by_cases hkg : k1 = g
      · subst hkg
        simp [mapSet, mapGet, hk]
      · simp [mapSet, mapGet, hk, hkg, ih]

/-- The inner loop of the first loop of `WhereCombineIn` over two-element tuples:
the list of the field gains the component `i` of every tuple, the lists of the
other fields are left as they are. -/
theorem combineInInner_pairs (field : GoString) (i : Nat) (sel : Val × Val → Val)
    (hsel : ∀ p : Val × Val, [p.1, p.2][i]? = some (sel p)) :
    ∀ (pairs : List (Val × Val)) (fv : GoMap (List Val)),
      ∃ fv1, combineInInner field i (pairs.map (fun p => [p.1, p.2])) fv = some fv1 ∧
        mapGet fv1 field [] = mapGet fv field [] ++ pairs.map sel ∧
        ∀ g, g ≠ field → mapGet fv1 g [] = mapGet fv g [] := by
  intro pairs
  induction pairs with
  | nil => intro fv; exact ⟨fv, rfl, by simp, fun _ _ => rfl⟩
  | cons p t ih =>
    intro fv
    obtain ⟨fv1, h1, h2, h3⟩ := ih (mapSet fv field (mapGet fv field [] ++ [sel p]))
    refine ⟨fv1, ?_, ?_, ?_⟩
    · simp only [List.map_cons, combineInInner, hsel]
      exact h1
    · rw [h2, mapGet_mapSet_same]
      simp
    · intro g hg
      rw [h3 g hg, mapGet_mapSet_other _ _ _ _ _ hg]

theorem combineInCollect_pairs (f1 f2 : GoString) (hf : f1 ≠ f2) (pairs : List (Val × Val)) :
    ∃ fv, combineInCollect (pairs.map (fun p => [p.1, p.2])) [f1, f2] 0 [] = some fv ∧
      mapGet fv f1 [] = pairs.map Prod.fst ∧ mapGet fv f2 [] = pairs.map Prod.snd := by
  obtain ⟨fv1, h1, h2, h3⟩ := combineInInner_pairs f1 0 Prod.fst (fun _ => rfl) pairs []
  obtain ⟨fv2, k1, k2, k3⟩ := combineInInner_pairs f2 1 Prod.snd (fun _ => rfl) pairs fv1
  refine ⟨fv2, ?_, ?_, ?_⟩
  · simp only [combineInCollect, h1, k1]
  · rw [k3 f1 hf, h2]
    rfl
  · rw [k2, h3 f2 (Ne.symm hf)]
    rfl

theorem Heap_update_fst (h : Heap) (a b : Where) (f : Where → Where) :
    Heap.update (h ++ [a, b]) h.length f = some (h ++ [f a, b]) := by
  have u := Heap_update_block h [a, b] 0 a f rfl
  rw [Nat.add_zero] at u
  rw [u]
  rfl

theorem Heap_update_snd (h : Heap) (a b : Where) (f : Where → Where) :
    Heap.update (h ++ [a, b]) (h.length + 1) f = some (h ++ [a, f b]) := by
  rw [Heap_update_block h [a, b] 1 b f rfl]
  rfl

theorem combineInLink_two (fv : GoMap (List Val)) (f1 f2 : GoString) (h : Heap) :
    combineInLink fv [f1, f2] 0 h []
      = some
        (h ++ [{ Field := f1, Operation := OpIn, Value := mapGet fv f1 [], Children := [],
                 Cond := WhereCondAnd, CombineRight := some (h.length + 1),
                 CombineLeft := none },
               { Field := f2, Operation := OpIn, Value := mapGet fv f2 [], Children := [],
                 Cond := WhereCondAnd, CombineRight := none,
                 CombineLeft := some h.length }],
         [h.length, h.length + 1]) := by
  have e1 : goIndex [h.length, h.length + 1] (((2 : Nat) : Int) - ((0 + 1 : Nat) : Int) - 1)
      = some h.length := by
    rw [show (((2 : Nat) : Int) - ((0 + 1 : Nat) : Int) - 1) = ((0 : Nat) : Int) by norm_num,
      goIndex_nat]
    rfl
  have e2 : goIndex [h.length, h.length + 1] (((2 : Nat) : Int) - ((0 + 1 : Nat) : Int))
      = some (h.length + 1) := by
    rw [show (((2 : Nat) : Int) - ((0 + 1 : Nat) : Int)) = ((1 : Nat) : Int) by norm_num,
      goIndex_nat]
    rfl
  simp only [combineInLink, Wheres.where_, List.nil_append, List.length_append,
    List.length_singleton, List.singleton_append, List.length_cons, List.length_nil,
    lt_self_iff_false, if_false, Nat.lt_add_one, if_true, zero_add, List.append_assoc,
    e1, e2]
  rw [Heap_update_fst]
  simp only []
  rw [Heap_update_snd]

end Builder

namespace Builder

theorem chainRows_pairs : ∀ (ps pre : List (Val × Val)),
    chainRows [(pre ++ ps).map Prod.fst, (pre ++ ps).map Prod.snd]
        (List.range' pre.length ps.length)
      = some ((ps.map (fun p => [p.1, p.2])).flatten) := by
  intro ps
  induction ps with
  | nil => intro pre; rfl
  | cons p t ih =>
    intro pre
    have ih1 := ih (pre ++ [p])
    simp only [List.append_assoc, List.singleton_append, List.length_append,
      List.length_singleton] at ih1
    simp only [List.length_cons, List.range'_succ, chainRows, chainRow, ih1,
      List.getElem?_map, List.getElem?_append_right (le_refl _), Nat.sub_self,
      List.getElem?_cons_zero, Option.map_some']
    rfl

theorem combine_two_render (h : Heap) (getPh : Kind → GoString) (A B : Where)
    (p : Val × Val) (ps : List (Val × Val)) (k0 k1 : Kind)
    (hk0 : typeKind p.1 = some k0) (hk1 : typeKind p.2 = some k1)
    (hAc : A.Children = []) (hAo : A.Operation = OpIn)
    (hAr : A.CombineRight = some (h.length + 1))
    (hAv : A.Value = (p :: ps).map Prod.fst)
    (hBr : B.CombineRight = none) (hBv : B.Value = (p :: ps).map Prod.snd) :
    Wheres.string (h ++ [A, B]) [h.length, h.length + 1] false getPh
      = some (join [_wrapBracket (join [A.Field, B.Field] (lit ",")), OpIn,
            _wrapBracket (_stringRepeatJoin (_wrapBracket (getPh k0 ++ lit "," ++ getPh k1))
              (lit ",") (ps.length + 1))] (lit " "),
          ((p :: ps).map (fun p => [p.1, p.2])).flatten) := by
  have hA : (h ++ [A, B])[h.length]? = some A := by
    have := getElem?_append_base h [A, B] 0
    simpa using this
  have hB : (h ++ [A, B])[h.length + 1]? = some B := by
    have := getElem?_append_base h [A, B] 1
    simpa using this
  have hchain := chainLoop_two (h ++ [A, B]) getPh h.length (h.length + 1) A B hA hAr hB hBr
    (h.length + 1) [] [] []
  have hv0 : A.Value[0]? = some p.1 := by rw [hAv]; simp
  have hv1 : B.Value[0]? = some p.2 := by rw [hBv]; simp
  have hb0 : (A.Value[0]?).bind typeKind = some k0 := by rw [hv0]; exact hk0
  have hb1 : (B.Value[0]?).bind typeKind = some k1 := by rw [hv1]; exact hk1
  rw [hb0, hb1] at hchain
  simp only [List.nil_append] at hchain
  have hrows := chainRows_pairs (p :: ps) []
  simp only [List.nil_append, List.length_nil, ← List.range_eq_range'] at hrows
  have hleaf : Where.leafString (h ++ [A, B]) getPh h.length A true
      = some (join [_wrapBracket (join [A.Field, B.Field] (lit ",")), OpIn,
            _wrapBracket (_stringRepeatJoin (_wrapBracket (getPh k0 ++ lit "," ++ getPh k1))
              (lit ",") (ps.length + 1))] (lit " "),
          ((p :: ps).map (fun p => [p.1, p.2])).flatten) := by
    unfold Where.leafString
    have hl : (h ++ [A, B]).length + 1 = h.length + 1 + 2 := by simp
    simp only [hv0, hk0, hAo, true_or, if_true, hAr, hl, hchain, List.getElem?_cons_zero]
    rw [hAv, hBv]
    simp only [List.length_cons] at hrows
    simp only [List.length_map, hrows, List.length_cons]
  have hstr : Where.string (h ++ [A, B]) h.length true true getPh
      = some (join [_wrapBracket (join [A.Field, B.Field] (lit ",")), OpIn,
            _wrapBracket (_stringRepeatJoin (_wrapBracket (getPh k0 ++ lit "," ++ getPh k1))
              (lit ",") (ps.length + 1))] (lit " "),
          ((p :: ps).map (fun p => [p.1, p.2])).flatten) := by
    unfold Where.string
    have hl : (h ++ [A, B]).length = h.length + 1 + 1 := by simp
    rw [hl, Where.stringF]
    simp only [hA, hAc, List.length_nil, gt_iff_lt, lt_self_iff_false, if_false]
    exact hleaf
  unfold Wheres.string Wheres.stringWith
  simp only [List.length_cons, List.length_nil, zero_add, stringLoop, skipCombined,
    List.getElem?_cons_zero, hstr, hA, hAr, Option.isNone_some, Option.isSome_some,
    Nat.reduceAdd, Nat.reduceLT, if_true, if_false, beq_self_eq_true, gt_iff_lt,
    decide_True, lt_self_iff_false, Bool.false_eq_true, List.nil_append, join]

theorem tuples_as_pairs : ∀ (tuples : List (List Val)), (∀ t ∈ tuples, t.length = 2) →
    ∃ pairs : List (Val × Val), tuples = pairs.map (fun p => [p.1, p.2]) := by
  intro tuples
  induction tuples with
  | nil => intro _; exact ⟨[], rfl⟩
  | cons t rest ih =>
    intro hlen
    obtain ⟨pairs, hp⟩ := ih (fun x hx => hlen x (List.mem_cons_of_mem _ hx))
    have ht := hlen t (List.mem_cons_self _ _)
    match t, ht with
    | [a, b], _ => exact ⟨(a, b) :: pairs, by rw [hp]; rfl⟩

theorem combine_two_text (f1 f2 : GoString) (n : Nat) :
    join [_wrapBracket (join [f1, f2] (lit ",")), OpIn,
        _wrapBracket (_stringRepeatJoin (_wrapBracket (lit "?" ++ lit "," ++ lit "?"))
          (lit ",") (n + 1))] (lit " ")
      = lit "(" ++ f1 ++ lit "," ++ f2 ++ lit ") in (" ++
          join (List.replicate (n + 1) (lit "(?,?)")) (lit ",") ++ lit ")" := by
  rw [_stringRepeatJoin_eq _ _ _ (by decide) (by omega)]
  have e1 : lit ") in (" = lit ")" ++ (lit " " ++ (OpIn ++ (lit " " ++ lit "("))) := by decide
  have e2 : _wrapBracket (lit "?" ++ lit "," ++ lit "?") = lit "(?,?)" := by decide
  rw [e1, e2]
  simp only [join3, _wrapBracket, join, List.append_assoc, List.nil_append]

theorem WhereCombineIn_two (h : Heap) (b : SQLBulder) (f1 f2 : GoString) (hf : f1 ≠ f2)
    (hb : b.whereList = []) (p : Val × Val) (ps : List (Val × Val)) :
    ∃ A B : Where,
      b.WhereCombineIn h [f1, f2] ((p :: ps).map (fun p => [p.1, p.2]))
        = some (h ++ [A, B], { b with whereList := [h.length, h.length + 1] }) ∧
      A.Field = f1 ∧ B.Field = f2 ∧ A.Children = [] ∧ A.Operation = OpIn ∧
      A.CombineRight = some (h.length + 1) ∧ A.Value = (p :: ps).map Prod.fst ∧
      B.CombineRight = none ∧ B.Value = (p :: ps).map Prod.snd := by
  obtain ⟨fv, hfv, hv1, hv2⟩ := combineInCollect_pairs f1 f2 hf (p :: ps)
  obtain ⟨A, hA⟩ : ∃ A : Where, A =
      { Field := f1, Operation := OpIn, Value := mapGet fv f1 [], Children := [],
        Cond := WhereCondAnd, CombineRight := some (h.length + 1), CombineLeft := none } :=
    ⟨_, rfl⟩
  obtain ⟨B, hB⟩ : ∃ B : Where, B =
      { Field := f2, Operation := OpIn, Value := mapGet fv f2 [], Children := [],
        Cond := WhereCondAnd, CombineRight := none, CombineLeft := some h.length } :=
    ⟨_, rfl⟩
  have hlink := combineInLink_two fv f1 f2 h
  rw [← hA, ← hB] at hlink
  refine ⟨A, B, ?_, ?_, ?_, ?_, ?_, ?_, ?_, ?_, ?_⟩
  · simp only [SQLBulder.WhereCombineIn, Wheres.WhereCombineIn, hb, hfv,
      hlink, List.length_map, List.length_cons]
    rfl
  · rw [hA]
  · rw [hB]
  · rw [hA]
  · rw [hA]
  · rw [hA]
  · rw [hA]; exact hv1
  · rw [hB]
  · rw [hB]; exact hv2

end Builder

namespace Builder

/-! ### The `reuse` flag under the fluent interface -/

theorem whereInWith_reuse
    (add : Heap → Wheres → GoString → List Val → Heap × Wheres)
    (h : Heap) (b : SQLBulder) (f : GoString) (v : List Val) (h1 : Heap) (b1 : SQLBulder)
    (hr : whereInWith add h b f v = some (h1, b1)) : b1.reuse = b.reuse := by
  unfold whereInWith at hr
  split_ifs at hr with h0
  · cases hr; rfl
  · cases hg : _getInValues v with
    | none => simp [hg] at hr
    | some vals =>
      simp only [hg] at hr
      split_ifs at hr <;> cases hr <;> rfl

theorem BCall_reuse (c : BCall) (h : Heap) (b : SQLBulder) (h1 : Heap) (b1 : SQLBulder)
    (hr : c.run h b = some (h1, b1)) : b1.reuse = b.reuse := by
  cases c with
  | Where f o v => cases hr; rfl
  | OrWhere f o v => cases hr; rfl
  | WhereIn f vs => exact whereInWith_reuse _ h b f vs h1 b1 hr
  | OrWhereIn f vs => exact whereInWith_reuse _ h b f vs h1 b1 hr
  | WhereNotIn f vs => exact whereInWith_reuse _ h b f vs h1 b1 hr
  | OrWhereNotIn f vs => exact whereInWith_reuse _ h b f vs h1 b1 hr
  | WhereCombineIn fs vs =>
    simp only [BCall.run, SQLBulder.WhereCombineIn] at hr
    split_ifs at hr
    · cases hr; rfl
    · cases hw : Wheres.WhereCombineIn h b.whereList fs vs with
      | none => simp [hw] at hr
      | some r => simp only [hw] at hr; cases hr; rfl
  | Wheres fn =>
    simp only [BCall.run, SQLBulder.Wheres] at hr
    cases hn : newBranch h WhereCondAnd (runCallback fn) with
    | none => simp [hn] at hr
    | some r => simp only [hn] at hr; cases hr; rfl
  | OrWheres fn =>
    simp only [BCall.run, SQLBulder.OrWheres] at hr
    cases hn : newBranch h WhereCondOr (runCallback fn) with
    | none => simp [hn] at hr
    | some r => simp only [hn] at hr; cases hr; rfl

theorem Call_reuse (c : Call) (h : Heap) (b : SQLBulder) (h1 : Heap) (b1 : SQLBulder)
    (hr : c.run h b = some (h1, b1)) : b1.reuse = b.reuse := by
  cases c with
  | cond c => exact BCall_reuse c h b h1 b1 hr
  | _ => cases hr; rfl

theorem runAll_reuse (calls : List Call) : ∀ (h : Heap) (b : SQLBulder) (h1 : Heap)
    (b1 : SQLBulder), runAll calls h b = some (h1, b1) → b1.reuse = b.reuse := by
  induction calls with
  | nil => intro h b h1 b1 hr; cases hr; rfl
  | cons c rest ih =>
    intro h b h1 b1 hr
    simp only [runAll] at hr
    cases hc : c.run h b with
    | none => simp [hc] at hr
    | some r =>
      obtain ⟨h2, b2⟩ := r
      simp only [hc] at hr
      rw [ih h2 b2 h1 b1 hr, Call_reuse c h b h2 b2 hc]

theorem New_reuse (table : GoString) (opts : List NewBuilderOpt) :
    (New table opts).reuse = true := by
  unfold New newSQLBuilder
  simp
  rfl

theorem build_resets (h : Heap) (b : SQLBulder) (hr : b.reuse = true) :
    (b.build h).2 = SQLBulder._default := by
  have hp : putBackBuilder b = SQLBulder._default := by simp [putBackBuilder, hr]
  unfold SQLBulder.build
  split_ifs
  · exact hp
  · exact hp
  · cases hu : b.buildUpdate h with
    | none => simp only []; exact hp
    | some r =>
      obtain ⟨r, b1⟩ := r
      simp only []
      have hb1 : b1.reuse = true := by
        unfold SQLBulder.buildUpdate at hu
        cases hv : b.values with
        | nil => simp only [hv] at hu; cases hu; exact hr
        | cons row0 rest =>
          simp only [hv] at hu
          cases hl : updateLoop b row0 ([], b.args) with
          | none => simp [hl] at hu
          | some ua =>
            obtain ⟨up, a1⟩ := ua
            simp only [hl] at hu
            cases hw : Wheres.string h b.whereList false b.placeholder with
            | none => simp [hw] at hu
            | some wa =>
              obtain ⟨w, a⟩ := wa
              simp only [hw] at hu
              split_ifs at hu
              · cases hu; exact hr
              · cases hs : sliceStr up 0 ((up.length : Int) - 1) with
                | none => simp [hs] at hu
                | some u => simp only [hs] at hu; cases hu; exact hr
      simp [putBackBuilder, hb1]
  · exact hp
  · exact hp
  · exact hp

end Builder

namespace Builder

/-! ### `WhereCombineIn` with any number of fields -/

theorem combineInInner_total (field : GoString) (i : Nat) :
    ∀ (tuples : List (List Val)) (fv : GoMap (List Val)),
      (∀ t ∈ tuples, i < t.length) →
      ∃ fv1, combineInInner field i tuples fv = some fv1 ∧
        mapGet fv1 field [] = mapGet fv field [] ++ tuples.filterMap (fun t => t[i]?) ∧
        ∀ g, g ≠ field → mapGet fv1 g [] = mapGet fv g [] := by
  intro tuples
  induction tuples with
  | nil => intro fv _; exact ⟨fv, rfl, by simp, fun _ _ => rfl⟩
  | cons t rest ih =>
    intro fv hlen
    have ht : i < t.length := hlen t (List.mem_cons_self _ _)
    have hx : t[i]? = some t[i] := List.getElem?_eq_getElem ht
    obtain ⟨fv1, h1, h2, h3⟩ := ih (mapSet fv field (mapGet fv field [] ++ [t[i]]))
      (fun x hx => hlen x (List.mem_cons_of_mem _ hx))
    refine ⟨fv1, ?_, ?_, ?_⟩
    · simp only [combineInInner, hx]
      exact h1
    · rw [h2, mapGet_mapSet_same]
      simp [hx]
    · intro g hg
      rw [h3 g hg, mapGet_mapSet_other _ _ _ _ _ hg]

theorem combineInCollect_total (tuples : List (List Val)) :
    ∀ (fields : List GoString) (i : Nat) (fv : GoMap (List Val)),
      fields.Nodup → (∀ t ∈ tuples, i + fields.length ≤ t.length) →
      ∃ fv1, combineInCollect tuples fields i fv = some fv1 ∧
        (∀ (j : Nat) (f : GoString), fields[j]? = some f →
          mapGet fv1 f [] = mapGet fv f [] ++ tuples.filterMap (fun t => t[i + j]?)) ∧
        ∀ g, g ∉ fields → mapGet fv1 g [] = mapGet fv g [] := by
  intro fields
  induction fields with
  | nil =>
    intro i fv _ _
    exact ⟨fv, rfl, fun j f hj => by simp at hj, fun _ _ => rfl⟩
  | cons field rest ih =>
    intro i fv hnd hlen
    obtain ⟨hnotin, hnd1⟩ := List.nodup_cons.mp hnd
    obtain ⟨fv1, h1, h2, h3⟩ := combineInInner_total field i tuples fv
      (fun t ht => by have := hlen t ht; simp at this; omega)
    obtain ⟨fv2, k1, k2, k3⟩ := ih (i + 1) fv1 hnd1
      (fun t ht => by have := hlen t ht; simp at this; omega)
    refine ⟨fv2, ?_, ?_, ?_⟩
    · simp only [combineInCollect, h1]
      exact k1
    · intro j f hj
      cases j with
      | zero =>
        simp only [List.getElem?_cons_zero, Option.some.injEq] at hj
        subst hj
        rw [k3 field hnotin, h2]
        rfl
      | succ j =>
        simp only [List.getElem?_cons_succ] at hj
        have hmem : f ∈ rest := List.getElem?_mem hj
        have hne : f ≠ field := fun hc => hnotin (hc ▸ hmem)
        rw [k2 j f hj, h3 f hne]
        congr 2
        funext t
        congr 1
        omega
    · intro g hg
      have hg1 : g ≠ field := fun hc => hg (hc ▸ List.mem_cons_self _ _)
      have hg2 : g ∉ rest := fun hc => hg (List.mem_cons_of_mem _ hc)
      rw [k3 g hg2, h3 g hg1]

theorem map_set_same {α β : Type} (f : α → β) (l : List α) (k : Nat) (w w1 : α)
    (hk : l[k]? = some w) (hf : f w1 = f w) : (l.set k w1).map f = l.map f := by
  apply List.ext_getElem?
  intro n
  rw [List.getElem?_map, List.getElem?_set, List.getElem?_map]
  by_cases hn : k = n
  · subst hn
    have hlt := lt_length_of_getElem? l k w hk
    rw [if_pos rfl, if_pos hlt, hk]
    simp [hf]
  · rw [if_neg hn]

/-- The second loop of `WhereCombineIn` returns: it appends one leaf for every
field, in field order, and the links it stores change neither the field, the
operator, the values, the children nor the conjunction of a leaf. -/
theorem combineInLink_content (fv : GoMap (List Val)) (h0 : Heap) (whs0 : Wheres) :
    ∀ (fields : List GoString) (i : Nat) (ext : List Where) (names : List GoString),
      ext.length = i →
      ext.map (fun w => (w.Field, w.Operation, w.Value, w.Children, w.Cond))
        = names.map (fun f => (f, OpIn, mapGet fv f [], ([] : List Nat), WhereCondAnd)) →
      ∃ ext1,
        combineInLink fv fields i (h0 ++ ext) (whs0 ++ List.range' h0.length i)
          = some (h0 ++ ext1, whs0 ++ List.range' h0.length (i + fields.length)) ∧
        ext1.map (fun w => (w.Field, w.Operation, w.Value, w.Children, w.Cond))
          = (names ++ fields).map
              (fun f => (f, OpIn, mapGet fv f [], ([] : List Nat), WhereCondAnd)) := by
  intro fields
  induction fields with
  | nil =>
    intro i ext names hlen hc
    exact ⟨ext, by simp [combineInLink], by simpa using hc⟩
  | cons field rest ih =>
    intro i ext names hlen hc
    rw [combineInLink]
    simp only [Wheres.where_]
    have e1 : (h0 ++ ext).length = h0.length + i := by simp [hlen]
    have e2 : whs0 ++ List.range' h0.length i ++ [(h0 ++ ext).length]
        = whs0 ++ List.range' h0.length (i + 1) := by
      rw [e1, List.append_assoc, range'_snoc]
    have e3 : ∀ w : Where, h0 ++ ext ++ [w] = h0 ++ (ext ++ [w]) := by
      intro w; simp
    rw [e2, e3]
    obtain ⟨leaf, hleaf⟩ : ∃ leaf : Where, leaf =
        { Field := field, Operation := OpIn, Value := mapGet fv field [], Children := [],
          Cond := WhereCondAnd, CombineRight := none, CombineLeft := none } := ⟨_, rfl⟩
    rw [← hleaf]
    have hlen1 : (ext ++ [leaf]).length = i + 1 := by simp [hlen]
    have hc1 : (ext ++ [leaf]).map (fun w => (w.Field, w.Operation, w.Value, w.Children, w.Cond))
        = (names ++ [field]).map
            (fun f => (f, OpIn, mapGet fv f [], ([] : List Nat), WhereCondAnd)) := by
      rw [List.map_append, List.map_append, hc, hleaf]
      rfl
    have hfin : i + (field :: rest).length = i + 1 + rest.length := by
      simp; omega
    have hnames : names ++ field :: rest = names ++ [field] ++ rest := by simp
    rw [hfin, hnames]
    by_cases hi : i > 0
    · rw [if_pos hi]
      have el : ((whs0 ++ List.range' h0.length (i + 1)).length : Int) - (i : Int) - 1
          = ((whs0.length : Nat) : Int) := by
        simp; omega
      have er : ((whs0 ++ List.range' h0.length (i + 1)).length : Int) - (i : Int)
          = ((whs0.length + 1 : Nat) : Int) := by
        simp; omega
      rw [el, er, goIndex_nat, goIndex_nat]
      have g0 : (whs0 ++ List.range' h0.length (i + 1))[whs0.length]? = some (h0.length + 0) := by
        rw [show whs0.length = whs0.length + 0 from rfl, getElem?_append_base,
          List.getElem?_range' _ _ (by omega)]
      have g1 : (whs0 ++ List.range' h0.length (i + 1))[whs0.length + 1]?
          = some (h0.length + 1) := by
        rw [getElem?_append_base, List.getElem?_range' _ _ (by omega)]
      rw [g0, g1]
      simp only []
      obtain ⟨w0, hw0⟩ : ∃ w0, (ext ++ [leaf])[0]? = some w0 := by
        rw [List.getElem?_eq_getElem (by rw [hlen1]; omega)]
        exact ⟨_, rfl⟩
      obtain ⟨w1, hw1⟩ : ∃ w1, (ext ++ [leaf])[1]? = some w1 := by
        rw [List.getElem?_eq_getElem (by rw [hlen1]; omega)]
        exact ⟨_, rfl⟩
      rw [Heap_update_block h0 _ 0 w0 _ hw0]
      simp only []
      have hw1n : ((ext ++ [leaf]).set 0
            { w0 with CombineRight := some (h0.length + 1) })[1]? = some w1 := by
        rw [List.getElem?_set_ne (by omega)]
        exact hw1
      rw [Heap_update_block h0 _ 1 w1 _ hw1n]
      simp only []
      refine ih (i + 1) _ (names ++ [field]) (by simp [hlen]) ?_
      rw [map_set_same (fun w : Where => (w.Field, w.Operation, w.Value, w.Children, w.Cond))
          _ 1 w1 { w1 with CombineLeft := some (h0.length + 0) } hw1n rfl,
        map_set_same (fun w : Where => (w.Field, w.Operation, w.Value, w.Children, w.Cond))
          _ 0 w0 { w0 with CombineRight := some (h0.length + 1) } hw0 rfl]
      exact hc1
    · rw [if_neg hi]
      exact ih (i + 1) _ (names ++ [field]) hlen1 hc1

end Builder

namespace Builder

/-! ### Conjunction tags -/

theorem leafString_not_first (h : Heap) (getPh : Kind → GoString) (p : Nat) (w : Where) :
    Where.leafString h getPh p w false
      = (Where.leafString h getPh p w true).map
          (fun r => (w.Cond ++ lit " " ++ r.1, r.2)) := by
  unfold Where.leafString
  cases w.Value[0]? with
  | none => rfl
  | some v0 =>
    simp only []
    cases typeKind v0 with
    | none => rfl
    | some k =>
      simp only []
      split
      · rfl
      · rename_i field phs values _
        simp only [Bool.false_eq_true, if_false, if_true, Option.map_some', join4, join3]

theorem stringF_not_first (h : Heap) (getPh : Kind → GoString) (fuel p : Nat) (nb : Bool)
    (w : Where) (hp : h[p]? = some w) :
    Where.stringF h getPh fuel p false nb
      = (Where.stringF h getPh fuel p true nb).map
          (fun r => (w.Cond ++ lit " " ++ r.1, r.2)) := by
  cases fuel with
  | zero => rfl
  | succ n =>
    rw [Where.stringF, Where.stringF]
    simp only [hp]
    by_cases hc : w.Children.length > 0
    · rw [if_pos hc, if_pos hc]
      cases Wheres.stringWith h (Where.stringF h getPh n) w.Children nb with
      | none => rfl
      | some sa => rfl
    · rw [if_neg hc, if_neg hc]
      exact leafString_not_first h getPh p w

theorem skipCombined_ge (h : Heap) (whs : Wheres) :
    ∀ (fuel i i1 : Nat), skipCombined h whs fuel i = some i1 → i ≤ i1 := by
  intro fuel
  induction fuel with
  | zero => intro i i1 hr; simp [skipCombined] at hr
  | succ n ih =>
    intro i i1 hr
    rw [skipCombined] at hr
    by_cases hlt : i + 1 < whs.length
    · rw [if_pos hlt] at hr
      cases hp : whs[i]? with
      | none => simp [hp] at hr
      | some p =>
        simp only [hp] at hr
        cases hw : h[p]? with
        | none => simp [hw] at hr
        | some w =>
          simp only [hw] at hr
          by_cases hcr : w.CombineRight.isSome = true
          · rw [if_pos hcr] at hr
            have := ih (i + 1) i1 hr
            omega
          · rw [if_neg hcr] at hr
            cases hr
            exact le_refl _
    · rw [if_neg hlt] at hr
      cases hr
      exact le_refl _

theorem drop_sublist_drop {α : Type} (l : List α) (i j : Nat) (hij : i ≤ j) :
    List.Sublist (l.drop j) (l.drop i) := by
  obtain ⟨k, rfl⟩ : ∃ k, j = i + k := ⟨j - i, by omega⟩
  rw [← List.drop_drop]
  exact List.drop_sublist _ _

/-- The loop of `Wheres.string` from an index `i >= 1`: every node it renders
contributes its conjunction tag, one space and its clause. -/
theorem stringLoop_tags (h : Heap) (whs : Wheres)
    (str : Nat → Bool → Bool → Option (GoString × List Val)) (nb0 : Bool)
    (hnb : nb0 = decide (whs.length > 1))
    (hs : ∀ (p : Nat) (w : Where) (t : GoString) (a : List Val), h[p]? = some w →
      str p false nb0 = some (t, a) →
      ∃ c, str p true nb0 = some (c, a) ∧ t = w.Cond ++ lit " " ++ c) :
    ∀ (fuel i : Nat) (rl0 : List GoString) (wa0 : List Val) (rl : List GoString)
      (wa : List Val), 1 ≤ i →
      stringLoop h str whs fuel i rl0 wa0 = some (rl, wa) →
      ∃ nodes : List (Nat × GoString × GoString × List Val),
        List.Sublist (nodes.map (fun e => e.1)) (whs.drop i) ∧
        (∀ e ∈ nodes, ∃ w : Where, h[e.1]? = some w ∧ e.2.1 = w.Cond ∧
          str e.1 true nb0 = some (e.2.2.1, e.2.2.2)) ∧
        rl = rl0 ++ nodes.map (fun e => e.2.1 ++ lit " " ++ e.2.2.1) ∧
        wa = wa0 ++ (nodes.map (fun e => e.2.2.2)).flatten := by
  intro fuel
  induction fuel with
  | zero =>
    intro i rl0 wa0 rl wa _ hrun
    simp [stringLoop] at hrun
  | succ n ih =>
    intro i rl0 wa0 rl wa hi1 hrun
    rw [stringLoop] at hrun
    by_cases hi : i < whs.length
    · rw [if_pos hi] at hrun
      cases hp : whs[i]? with
      | none => simp [hp] at hrun
      | some p =>
        simp only [hp] at hrun
        have hi0 : (i == 0) = false := by
          cases i with
          | zero => omega
          | succ k => rfl
        rw [hi0, ← hnb] at hrun
        cases hstr : str p false nb0 with
        | none => simp [hstr] at hrun
        | some ta =>
          obtain ⟨t, a⟩ := ta
          cases hw : h[p]? with
          | none => simp [hstr, hw] at hrun
          | some w =>
            simp only [hstr, hw] at hrun
            obtain ⟨c, hc, ht⟩ := hs p w t a hw hstr
            have hdrop : whs.drop i = p :: whs.drop (i + 1) := by
              rw [List.drop_eq_getElem_cons hi]
              congr 1
              have := List.getElem?_eq_getElem hi
              rw [hp] at this
              exact (Option.some.inj this).symm
            have key : ∀ i1, i ≤ i1 →
                stringLoop h str whs n (i1 + 1) (rl0 ++ [t]) (wa0 ++ a) = some (rl, wa) →
                ∃ nodes : List (Nat × GoString × GoString × List Val),
                  List.Sublist (nodes.map (fun e => e.1)) (whs.drop i) ∧
                  (∀ e ∈ nodes, ∃ w : Where, h[e.1]? = some w ∧ e.2.1 = w.Cond ∧
                    str e.1 true nb0 = some (e.2.2.1, e.2.2.2)) ∧
                  rl = rl0 ++ nodes.map (fun e => e.2.1 ++ lit " " ++ e.2.2.1) ∧
                  wa = wa0 ++ (nodes.map (fun e => e.2.2.2)).flatten := by
              intro i1 hle hrun1
              obtain ⟨nodes, h1, h2, h3, h4⟩ := ih (i1 + 1) _ _ rl wa (by omega) hrun1
              refine ⟨(p, w.Cond, c, a) :: nodes, ?_, ?_, ?_, ?_⟩
              · rw [hdrop, List.map_cons]
                exact List.Sublist.cons₂ _
                  (h1.trans (drop_sublist_drop whs (i + 1) (i1 + 1) (by omega)))
              · intro e he
                rcases List.mem_cons.mp he with rfl | he
                · exact ⟨w, hw, rfl, hc⟩
                · exact h2 e he
              · rw [h3, ht]
                simp [List.append_assoc]
              · rw [h4]
                simp [List.append_assoc]
            by_cases hcr : w.CombineRight.isNone = true
            · simp only [hcr, if_true] at hrun
              exact key i (le_refl _) hrun
            · simp only [hcr] at hrun
              cases hsk : skipCombined h whs (whs.length + 1) i with
              | none => simp [hsk] at hrun
              | some i1 =>
                simp only [hsk] at hrun
                exact key i1 (skipCombined_ge h whs _ i i1 hsk) hrun
    · rw [if_neg hi] at hrun
      simp only [Option.some.injEq, Prod.mk.injEq] at hrun
      obtain ⟨rfl, rfl⟩ := hrun
      exact ⟨[], by simp, by simp, by simp, by simp⟩

theorem string_some_node (h : Heap) (getPh : Kind → GoString) (p : Nat) (f nb : Bool)
    (r : GoString × List Val) (hr : Where.string h p f nb getPh = some r) :
    ∃ w : Where, h[p]? = some w := by
  unfold Where.string at hr
  cases hl : h.length with
  | zero => rw [hl] at hr; simp [Where.stringF] at hr
  | succ n =>
    rw [hl, Where.stringF] at hr
    cases hp : h[p]? with
    | none => simp [hp] at hr
    | some w => exact ⟨w, rfl⟩

theorem string_not_first (h : Heap) (getPh : Kind → GoString) (p : Nat) (nb : Bool)
    (w : Where) (hp : h[p]? = some w) :
    Where.string h p false nb getPh
      = (Where.string h p true nb getPh).map (fun r => (w.Cond ++ lit " " ++ r.1, r.2)) :=
  stringF_not_first h getPh h.length p nb w hp

theorem taggedClauses_cons (tag c : GoString) (nodes : List (Nat × GoString × GoString × List Val)) :
    join (c :: nodes.map (fun e => e.2.1 ++ lit " " ++ e.2.2.1)) (lit " ")
      = taggedClauses ((tag, c) :: nodes.map (fun e => (e.2.1, e.2.2.1))) := by
  rw [join_cons_eq_flatMap, taggedClauses]
  congr 1
  induction nodes with
  | nil => rfl
  | cons e t ih =>
    simp only [List.append_assoc] at ih
    simp only [List.map_cons, List.flatMap_cons, List.append_assoc]
    rw [ih]

/-- The text and the arguments that `Wheres.string` returns, in terms of the
nodes it renders. -/
theorem Wheres_string_tags (h : Heap) (getPh : Kind → GoString) (whs : Wheres) (nb : Bool)
    (t : GoString) (a : List Val)
    (hrun : Wheres.string h whs nb getPh = some (t, a)) :
    ∃ nodes : List (Nat × GoString × GoString × List Val),
      List.Sublist (nodes.map (fun e => e.1)) whs ∧
      (nodes.map (fun e => e.1)).head? = whs.head? ∧
      (∀ e ∈ nodes, ∃ w : Where, h[e.1]? = some w ∧ e.2.1 = w.Cond ∧
        Where.string h e.1 true (decide (whs.length > 1)) getPh = some (e.2.2.1, e.2.2.2)) ∧
      t = (if nb = true ∧ whs.length > 1
            then _wrapBracket (taggedClauses (nodes.map (fun e => (e.2.1, e.2.2.1))))
            else taggedClauses (nodes.map (fun e => (e.2.1, e.2.2.1)))) ∧
      a = (nodes.map (fun e => e.2.2.2)).flatten := by
  unfold Wheres.string at hrun
  match whs, hrun with
  | [], hrun =>
    simp only [Wheres.stringWith, Option.some.injEq, Prod.mk.injEq] at hrun
    obtain ⟨rfl, rfl⟩ := hrun
    exact ⟨[], by simp, rfl, by simp, by simp [taggedClauses], rfl⟩
  | [p], hrun =>
    simp only [Wheres.stringWith] at hrun
    obtain ⟨w, hw⟩ := string_some_node h getPh p true false _ hrun
    refine ⟨[(p, w.Cond, t, a)], by simp, rfl, ?_, ?_, by simp⟩
    · intro e he
      simp only [List.mem_singleton] at he
      subst he
      exact ⟨w, hw, rfl, by simpa using hrun⟩
    · simp [taggedClauses]
  | p :: q :: rest, hrun =>
    simp only [Wheres.stringWith, List.length_cons] at hrun
    cases hloop : stringLoop h (fun p first nb => Where.string h p first nb getPh)
        (p :: q :: rest) (rest.length + 1 + 1 + 1) 0 [] [] with
    | none => simp [hloop] at hrun
    | some r =>
      obtain ⟨rl, wa⟩ := r
      simp only [hloop] at hrun
      rw [stringLoop] at hloop
      simp only [List.length_cons, Nat.zero_lt_succ, if_true, List.getElem?_cons_zero,
        beq_self_eq_true] at hloop
      have hnb : decide (rest.length + 1 + 1 > 1) = true := by simp
      rw [hnb] at hloop
      cases hstr : Where.string h p true true getPh with
      | none => simp [hstr] at hloop
      | some ca =>
        obtain ⟨c, a0⟩ := ca
        obtain ⟨w, hw⟩ := string_some_node h getPh p true true _ hstr
        simp only [hstr, hw, List.nil_append] at hloop
        have key : ∀ i1,
            stringLoop h (fun p first nb => Where.string h p first nb getPh) (p :: q :: rest)
              (rest.length + 1 + 1) (i1 + 1) [c] a0 = some (rl, wa) →
            ∃ nodes : List (Nat × GoString × GoString × List Val),
              List.Sublist (nodes.map (fun e => e.1)) (p :: q :: rest) ∧
              (nodes.map (fun e => e.1)).head? = some p ∧
              (∀ e ∈ nodes, ∃ w : Where, h[e.1]? = some w ∧ e.2.1 = w.Cond ∧
                Where.string h e.1 true true getPh = some (e.2.2.1, e.2.2.2)) ∧
              join rl (lit " ") = taggedClauses (nodes.map (fun e => (e.2.1, e.2.2.1))) ∧
              wa = (nodes.map (fun e => e.2.2.2)).flatten := by
          intro i1 hrun1
          obtain ⟨nodes, h1, h2, h3, h4⟩ := stringLoop_tags h (p :: q :: rest)
            (fun p first nb => Where.string h p first nb getPh) true (by simp)
            (by
              intro p1 w1 t1 a1 hp1 hs1
              change Where.string h p1 false true getPh = _ at hs1
              rw [string_not_first h getPh p1 true w1 hp1] at hs1
              cases hx : Where.string h p1 true true getPh with
              | none => simp [hx] at hs1
              | some ca1 =>
                obtain ⟨c1, a2⟩ := ca1
                simp only [hx, Option.map_some', Option.some.injEq, Prod.mk.injEq] at hs1
                obtain ⟨rfl, rfl⟩ := hs1
                exact ⟨c1, hx, rfl⟩)
            (rest.length + 1 + 1) (i1 + 1) [c] a0 rl wa (by omega) hrun1
          refine ⟨(p, w.Cond, c, a0) :: nodes, ?_, rfl, ?_, ?_, ?_⟩
          · rw [List.map_cons]
            refine List.Sublist.cons₂ _ (h1.trans ?_)
            have := drop_sublist_drop (p :: q :: rest) 1 (i1 + 1) (by omega)
            simpa using this
          · intro e he
            rcases List.mem_cons.mp he with rfl | he
            · exact ⟨w, hw, rfl, hstr⟩
            · exact h2 e he
          · rw [h3]
            exact taggedClauses_cons w.Cond c nodes
          · rw [h4]
            simp
        have fin : ∀ nodes : List (Nat × GoString × GoString × List Val),
            List.Sublist (nodes.map (fun e => e.1)) (p :: q :: rest) ∧
            (nodes.map (fun e => e.1)).head? = some p ∧
            (∀ e ∈ nodes, ∃ w : Where, h[e.1]? = some w ∧ e.2.1 = w.Cond ∧
              Where.string h e.1 true true getPh = some (e.2.2.1, e.2.2.2)) ∧
            join rl (lit " ") = taggedClauses (nodes.map (fun e => (e.2.1, e.2.2.1))) ∧
            wa = (nodes.map (fun e => e.2.2.2)).flatten →
            ∃ nodes : List (Nat × GoString × GoString × List Val),
              List.Sublist (nodes.map (fun e => e.1)) (p :: q :: rest) ∧
              (nodes.map (fun e => e.1)).head? = (p :: q :: rest).head? ∧
              (∀ e ∈ nodes, ∃ w : Where, h[e.1]? = some w ∧ e.2.1 = w.Cond ∧
                Where.string h e.1 true (decide ((p :: q :: rest).length > 1)) getPh
                  = some (e.2.2.1, e.2.2.2)) ∧
              t = (if nb = true ∧ (p :: q :: rest).length > 1
                    then _wrapBracket (taggedClauses (nodes.map (fun e => (e.2.1, e.2.2.1))))
                    else taggedClauses (nodes.map (fun e => (e.2.1, e.2.2.1)))) ∧
              a = (nodes.map (fun e => e.2.2.2)).flatten := by
          rintro nodes ⟨k1, k2, k3, k4, k5⟩
          refine ⟨nodes, k1, k2, ?_, ?_, ?_⟩
          · simpa using k3
          · cases nb with
            | false =>
              simp only [Bool.false_eq_true, if_false, Option.some.injEq, Prod.mk.injEq] at hrun
              simp only [Bool.false_eq_true, false_and, if_false]
              rw [← hrun.1, k4]
            | true =>
              simp only [if_true, Option.some.injEq, Prod.mk.injEq] at hrun
              have hl : (p :: q :: rest).length > 1 := by simp
              simp only [hl, and_self, if_true]
              rw [← hrun.1, k4]
          · cases nb with
            | false =>
              simp only [Bool.false_eq_true, if_false, Option.some.injEq, Prod.mk.injEq] at hrun
              rw [← hrun.2, k5]
            | true =>
              simp only [if_true, Option.some.injEq, Prod.mk.injEq] at hrun
              rw [← hrun.2, k5]
        by_cases hcr : w.CombineRight.isNone = true
        · simp only [hcr, if_true] at hloop
          obtain ⟨nodes, hn⟩ := key 0 hloop
          exact fin nodes hn
        · simp only [hcr] at hloop
          cases hsk : skipCombined h (p :: q :: rest) (rest.length + 1 + 1 + 1) 0 with
          | none => simp [hsk] at hloop
          | some i1 =>
            simp only [hsk] at hloop
            obtain ⟨nodes, hn⟩ := key i1 hloop
            exact fin nodes hn

end Builder

namespace Builder

/-! ### The conjunction tag of the first node is not read -/

theorem AgreeButCond_none (p : Nat) (h h1 : Heap) (hag : AgreeButCond p h h1) (q : Nat)
    (hq : h[q]? = none) : h1[q]? = none := by
  rw [List.getElem?_eq_none_iff] at hq ⊢
  rw [hag.1]
  exact hq

theorem chainLoop_agree (p : Nat) (h h1 : Heap) (hag : AgreeButCond p h h1)
    (getPh : Kind → GoString) :
    ∀ (fuel : Nat) (cur : Option Nat) (cf : List GoString) (phs : GoString)
      (av : List (List Val)),
      chainLoop h1 getPh fuel cur cf phs av = chainLoop h getPh fuel cur cf phs av := by
  intro fuel
  induction fuel with
  | zero =>
    intro cur cf phs av
    cases cur <;> rfl
  | succ n ih =>
    intro cur cf phs av
    cases cur with
    | none => rfl
    | some q =>
      rw [chainLoop, chainLoop]
      cases hq : h[q]? with
      | none => rw [AgreeButCond_none p h h1 hag q hq]
      | some x =>
        obtain ⟨x1, hx1, e1, e2, e3, e4, e5, _⟩ := hag.2 q x hq
        rw [hx1]
        simp only [e1, e3, e5]
        cases x.Value[0]? with
        | none => rfl
        | some v0 =>
          simp only []
          cases typeKind v0 with
          | none => rfl
          | some k => simp only [ih]

theorem leafString_agree (p : Nat) (h h1 : Heap) (hag : AgreeButCond p h h1)
    (getPh : Kind → GoString) (q : Nat) (x x1 : Where) (first : Bool)
    (e1 : x1.Field = x.Field) (e2 : x1.Operation = x.Operation) (e3 : x1.Value = x.Value)
    (e5 : x1.CombineRight = x.CombineRight) (e6 : first = false → x1.Cond = x.Cond) :
    Where.leafString h1 getPh q x1 first = Where.leafString h getPh q x first := by
  unfold Where.leafString
  rw [e1, e2, e3, e5, hag.1]
  simp only [chainLoop_agree p h h1 hag]
  cases first with
  | true => rfl
  | false => rw [e6 rfl]

theorem skipCombined_agree (p : Nat) (h h1 : Heap) (hag : AgreeButCond p h h1)
    (whs : Wheres) :
    ∀ (fuel i : Nat), skipCombined h1 whs fuel i = skipCombined h whs fuel i := by
  intro fuel
  induction fuel with
  | zero => intro i; rfl
  | succ n ih =>
    intro i
    rw [skipCombined, skipCombined]
    by_cases hlt : i + 1 < whs.length
    · rw [if_pos hlt, if_pos hlt]
      cases whs[i]? with
      | none => rfl
      | some q =>
        simp only []
        cases hq : h[q]? with
        | none => rw [AgreeButCond_none p h h1 hag q hq]
        | some x =>
          obtain ⟨x1, hx1, _, _, _, _, e5, _⟩ := hag.2 q x hq
          rw [hx1]
          simp only [e5, ih]
    · rw [if_neg hlt, if_neg hlt]

theorem stringLoop_agree (p : Nat) (h h1 : Heap) (hag : AgreeButCond p h h1)
    (whs : Wheres) (str str1 : Nat → Bool → Bool → Option (GoString × List Val))
    (hs : ∀ (i q : Nat), whs[i]? = some q →
      str1 q (i == 0) (decide (whs.length > 1)) = str q (i == 0) (decide (whs.length > 1))) :
    ∀ (fuel i : Nat) (rl : List GoString) (wa : List Val),
      stringLoop h1 str1 whs fuel i rl wa = stringLoop h str whs fuel i rl wa := by
  intro fuel
  induction fuel with
  | zero => intro i rl wa; rfl
  | succ n ih =>
    intro i rl wa
    rw [stringLoop, stringLoop]
    by_cases hi : i < whs.length
    · rw [if_pos hi, if_pos hi]
      cases hq : whs[i]? with
      | none => rfl
      | some q =>
        simp only []
        rw [hs i q hq]
        cases str q (i == 0) (decide (whs.length > 1)) with
        | none => rfl
        | some ta =>
          cases hx : h[q]? with
          | none => rw [AgreeButCond_none p h h1 hag q hx]
          | some x =>
            obtain ⟨x1, hx1, _, _, _, _, e5, _⟩ := hag.2 q x hx
            rw [hx1]
            simp only [e5, skipCombined_agree p h h1 hag, ih]
    · rw [if_neg hi, if_neg hi]

theorem stringWith_agree (p : Nat) (h h1 : Heap) (hag : AgreeButCond p h h1)
    (whs : Wheres) (str str1 : Nat → Bool → Bool → Option (GoString × List Val))
    (hs : ∀ (i q : Nat), whs[i]? = some q → ∀ nb, str1 q (i == 0) nb = str q (i == 0) nb)
    (nb : Bool) :
    Wheres.stringWith h1 str1 whs nb = Wheres.stringWith h str whs nb := by
  match whs, hs with
  | [], _ => rfl
  | [q], hs =>
    simp only [Wheres.stringWith]
    exact hs 0 q rfl false
  | q :: q1 :: rest, hs =>
    simp only [Wheres.stringWith]
    rw [stringLoop_agree p h h1 hag (q :: q1 :: rest) str str1 (fun i q hq => hs i q hq _)]

theorem stringF_agree (p : Nat) (h h1 : Heap) (hag : AgreeButCond p h h1)
    (hnc : ∀ x ∈ h, p ∉ x.Children) (getPh : Kind → GoString) :
    ∀ (fuel q : Nat) (first nb : Bool), (q = p → first = true) →
      Where.stringF h1 getPh fuel q first nb = Where.stringF h getPh fuel q first nb := by
  intro fuel
  induction fuel with
  | zero => intro q first nb _; rfl
  | succ n ih =>
    intro q first nb hfirst
    rw [Where.stringF, Where.stringF]
    cases hq : h[q]? with
    | none => rw [AgreeButCond_none p h h1 hag q hq]
    | some x =>
      obtain ⟨x1, hx1, e1, e2, e3, e4, e5, e6⟩ := hag.2 q x hq
      rw [hx1]
      simp only [e4]
      by_cases hc : x.Children.length > 0
      · rw [if_pos hc, if_pos hc]
        have hmem : x ∈ h := List.getElem?_mem hq
        rw [stringWith_agree p h h1 hag x.Children (Where.stringF h getPh n)
          (Where.stringF h1 getPh n)
          (fun i c hc1 nb1 => ih c (i == 0) nb1
            (fun hcp => absurd (hcp ▸ List.getElem?_mem hc1) (hnc x hmem)))]
        cases Wheres.stringWith h (Where.stringF h getPh n) x.Children nb with
        | none => rfl
        | some sa =>
          cases first with
          | true => rfl
          | false =>
            have hqp : q ≠ p := fun hc1 => by have := hfirst hc1; cases this
            simp only [Bool.false_eq_true, if_false, e6 hqp]
      · rw [if_neg hc, if_neg hc]
        refine leafString_agree p h h1 hag getPh q x x1 first e1 e2 e3 e5 ?_
        intro hf
        have hqp : q ≠ p := fun hc1 => by have := hfirst hc1; rw [hf] at this; cases this
        exact e6 hqp

/-- The rendering of a list does not read the conjunction tag of its first
node, when that node occurs nowhere else in the list and is no child of a
node. -/
theorem Wheres_string_agree (p : Nat) (h h1 : Heap) (hag : AgreeButCond p h h1)
    (hnc : ∀ x ∈ h, p ∉ x.Children) (getPh : Kind → GoString) (rest : Wheres)
    (hrest : p ∉ rest) (nb : Bool) :
    Wheres.string h1 (p :: rest) nb getPh = Wheres.string h (p :: rest) nb getPh := by
  unfold Wheres.string
  apply stringWith_agree p h h1 hag
  intro i q hq nb1
  unfold Where.string
  rw [hag.1]
  apply stringF_agree p h h1 hag hnc
  intro hqp
  cases i with
  | zero => rfl
  | succ k =>
    simp only [List.getElem?_cons_succ] at hq
    exact absurd (hqp ▸ List.getElem?_mem hq) hrest

theorem AgreeButCond_set (h : Heap) (p : Nat) (w : Where) (c : GoString)
    (hp : h[p]? = some w) : AgreeButCond p h (h.set p { w with Cond := c }) := by
  refine ⟨by simp, ?_⟩
  intro q x hq
  by_cases hqp : p = q
  · subst hqp
    rw [hp] at hq
    cases hq
    refine ⟨{ w with Cond := c }, ?_, rfl, rfl, rfl, rfl, rfl, fun hne => absurd rfl hne⟩
    rw [List.getElem?_set_self (lt_length_of_getElem? h p w hp)]
  · refine ⟨x, ?_, rfl, rfl, rfl, rfl, rfl, fun _ => rfl⟩
    rw [List.getElem?_set_ne hqp]
    exact hq

end Builder

namespace Builder

/-! ### Tidy texts -/

theorem noDoubleSpace_append : ∀ (a b : GoString),
    noDoubleSpace a = true → noDoubleSpace b = true →
    (a.getLast? ≠ some 32 ∨ b.head? ≠ some 32) → noDoubleSpace (a ++ b) = true := by
  intro a
  induction a with
  | nil => intro b _ hb _; exact hb
  | cons x t ih =>
    intro b ha hb hor
    cases t with
    | nil =>
      cases b with
      | nil => rfl
      | cons y u =>
        simp only [List.singleton_append, noDoubleSpace, Bool.and_eq_true, Bool.not_eq_true',
          Bool.and_eq_false_imp, beq_iff_eq]
        refine ⟨?_, hb⟩
        intro hx
        subst hx
        simpa using hor
    | cons y u =>
      simp only [noDoubleSpace, Bool.and_eq_true] at ha
      simp only [List.cons_append, noDoubleSpace, Bool.and_eq_true]
      refine ⟨ha.1, ?_⟩
      have := ih b ha.2 hb (by
        rcases hor with h1 | h1
        · left; simpa [List.getLast?_cons_cons] using h1
        · right; exact h1)
      simpa using this

theorem Tidy_append (a b : GoString) (ha : Tidy a) (hb : Tidy b) : Tidy (a ++ b) := by
  obtain ⟨a1, a2, a3, a4⟩ := ha
  obtain ⟨b1, b2, b3, b4⟩ := hb
  refine ⟨by simp [a1], ?_, ?_, noDoubleSpace_append a b a4 b4 (Or.inl a3)⟩
  · cases a with
    | nil => exact absurd rfl a1
    | cons x t => simpa using a2
  · rw [List.getLast?_append_of_ne_nil _ b1]
    exact b3

theorem Tidy_space (a b : GoString) (ha : Tidy a) (hb : Tidy b) :
    Tidy (a ++ lit " " ++ b) := by
  obtain ⟨a1, a2, a3, a4⟩ := ha
  obtain ⟨b1, b2, b3, b4⟩ := hb
  have h1 : noDoubleSpace (a ++ lit " ") = true :=
    noDoubleSpace_append a (lit " ") a4 (by decide) (Or.inl a3)
  refine ⟨by simp [a1], ?_, ?_, noDoubleSpace_append (a ++ lit " ") b h1 b4 (Or.inr b2)⟩
  · cases a with
    | nil => exact absurd rfl a1
    | cons x t => simpa using a2
  · rw [List.getLast?_append_of_ne_nil _ b1]
    exact b3

theorem Tidy_ne_nil (a : GoString) (ha : Tidy a) : a ≠ [] := ha.1

theorem Tidy_join_space : ∀ (l : List GoString), l ≠ [] → (∀ s ∈ l, Tidy s) →
    Tidy (join l (lit " ")) := by
  intro l
  induction l with
  | nil => intro h; exact absurd rfl h
  | cons x t ih =>
    intro _ hall
    cases t with
    | nil => exact hall x (List.mem_cons_self _ _)
    | cons y u =>
      rw [join_cons_cons]
      exact Tidy_space _ _ (hall x (List.mem_cons_self _ _))
        (ih (by simp) (fun s hs => hall s (List.mem_cons_of_mem _ hs)))

theorem Tidy_join_comma : ∀ (l : List GoString), l ≠ [] → (∀ s ∈ l, Tidy s) →
    Tidy (join l (lit ",")) := by
  intro l
  induction l with
  | nil => intro h; exact absurd rfl h
  | cons x t ih =>
    intro _ hall
    cases t with
    | nil => exact hall x (List.mem_cons_self _ _)
    | cons y u =>
      rw [join_cons_cons]
      exact Tidy_append _ _ (Tidy_append _ _ (hall x (List.mem_cons_self _ _)) (by decide))
        (ih (by simp) (fun s hs => hall s (List.mem_cons_of_mem _ hs)))

theorem Tidy_wrapBracket (s : GoString) (hs : Tidy s) : Tidy (_wrapBracket s) := by
  unfold _wrapBracket
  exact Tidy_append _ _ (Tidy_append _ _ (by decide) hs) (by decide)

theorem Tidy_strRepeat (s : GoString) (hs : Tidy s) : ∀ n, Tidy (strRepeat s (n + 1)) := by
  intro n
  induction n with
  | zero => simpa [strRepeat] using hs
  | succ k ih =>
    rw [strRepeat]
    exact Tidy_append _ _ hs ih

theorem Tidy_stringRepeatJoin (s : GoString) (hs : Tidy s) (n : Nat) :
    Tidy (_stringRepeatJoin s (lit ",") n) := by
  unfold _stringRepeatJoin
  split_ifs with h
  · exact hs
  · obtain ⟨k, hk⟩ : ∃ k, n - 1 = k + 1 := ⟨n - 2, by omega⟩
    rw [hk]
    exact Tidy_append _ _ hs (Tidy_strRepeat _ (Tidy_append _ _ (by decide) hs) k)

theorem Tidy_of_noSpace : ∀ (s : GoString), s ≠ [] → (∀ c ∈ s, c ≠ 32) → Tidy s := by
  intro s hne hall
  refine ⟨hne, ?_, ?_, ?_⟩
  · intro hc
    exact hall 32 (List.mem_of_mem_head? hc) rfl
  · intro hc
    exact hall 32 (List.mem_of_mem_getLast? hc) rfl
  · clear hne
    induction s with
    | nil => rfl
    | cons x t ih =>
      cases t with
      | nil => rfl
      | cons y u =>
        simp only [noDoubleSpace, Bool.and_eq_true, Bool.not_eq_true', Bool.and_eq_false_imp,
          beq_iff_eq]
        refine ⟨fun hx => absurd hx (hall x (List.mem_cons_self _ _)), ?_⟩
        exact ih (fun c hc => hall c (List.mem_cons_of_mem _ hc))

theorem digitChar_ne_space : ∀ d, d < 10 → (Nat.digitChar d).toNat ≠ 32 := by
  decide

theorem toDigitsCore_noSpace : ∀ (fuel n : Nat) (ds : List Char),
    (∀ c ∈ ds, c.toNat ≠ 32) → ∀ c ∈ Nat.toDigitsCore 10 fuel n ds, c.toNat ≠ 32 := by
  intro fuel
  induction fuel with
  | zero => intro n ds hds; simpa [Nat.toDigitsCore] using hds
  | succ k ih =>
    intro n ds hds
    rw [Nat.toDigitsCore]
    have hd : ∀ c ∈ Nat.digitChar (n % 10) :: ds, c.toNat ≠ 32 := by
      intro c hc
      rcases List.mem_cons.mp hc with rfl | hc
      · exact digitChar_ne_space _ (Nat.mod_lt _ (by decide))
      · exact hds c hc
    split_ifs
    · exact hd
    · exact ih _ _ hd

theorem toDigitsCore_ne_nil : ∀ (fuel n : Nat) (ds : List Char),
    (fuel ≠ 0 ∨ ds ≠ []) → Nat.toDigitsCore 10 fuel n ds ≠ [] := by
  intro fuel
  induction fuel with
  | zero =>
    intro n ds h
    rcases h with h | h
    · exact absurd rfl h
    · simpa [Nat.toDigitsCore] using h
  | succ k ih =>
    intro n ds _
    rw [Nat.toDigitsCore]
    split_ifs
    · simp
    · exact ih _ _ (Or.inr (by simp))

theorem formatInt_Tidy (n : Int) : Tidy (formatInt n) := by
  apply Tidy_of_noSpace
  · unfold formatInt
    cases n with
    | ofNat m =>
      show (Nat.repr m).data.map Char.toNat ≠ []
      simp only [Nat.repr, Nat.toDigits, List.asString, ne_eq, List.map_eq_nil_iff]
      exact toDigitsCore_ne_nil _ _ _ (Or.inl (by omega))
    | negSucc m =>
      show (("-" ++ Nat.repr (m + 1)).data).map Char.toNat ≠ []
      simp
  · intro c hc
    unfold formatInt at hc
    cases n with
    | ofNat m =>
      change c ∈ (Nat.repr m).data.map Char.toNat at hc
      simp only [Nat.repr, Nat.toDigits, List.asString, List.mem_map] at hc
      obtain ⟨ch, hch, rfl⟩ := hc
      exact toDigitsCore_noSpace _ _ [] (by simp) ch hch
    | negSucc m =>
      change c ∈ (("-" ++ Nat.repr (m + 1)).data).map Char.toNat at hc
      simp only [String.data_append, List.map_append, List.mem_append, List.mem_map] at hc
      rcases hc with ⟨ch, hch, rfl⟩ | ⟨ch, hch, rfl⟩
      · simp at hch
        subst hch
        decide
      · simp only [Nat.repr, Nat.toDigits, List.asString] at hch
        exact toDigitsCore_noSpace _ _ [] (by simp) ch hch

end Builder

namespace Builder

/-! ### The clause text is tidy -/

theorem leaf_tidy (h : Heap) (getPh : Kind → GoString) (p : Nat) (w : Where) (f : Bool)
    (t : GoString) (a : List Val) (hp : h[p]? = some w)
    (hph : ∀ k, Tidy (getPh k))
    (hF : Tidy w.Field) (hO : Tidy w.Operation) (hC : Tidy w.Cond)
    (hchain : ∀ q, w.CombineRight = some q →
      ∃ wq, h[q]? = some wq ∧ wq.CombineRight = none ∧ Tidy wq.Field)
    (hrun : Where.leafString h getPh p w f = some (t, a)) : Tidy t := by
  unfold Where.leafString at hrun
  cases hv0 : w.Value[0]? with
  | none => simp [hv0] at hrun
  | some v0 =>
    cases hk0 : typeKind v0 with
    | none => simp [hv0, hk0] at hrun
    | some k0 =>
      simp only [hv0, hk0] at hrun
      have body : ∀ (field phs : GoString) (values : List Val),
          Tidy field → Tidy phs →
          (if f then some (join [field, w.Operation, phs] (lit " "), values)
            else some (join [w.Cond, field, w.Operation, phs] (lit " "), values))
            = some (t, a) → Tidy t := by
        intro field phs values hf hphs hres
        cases f with
        | true =>
          simp only [if_true, Option.some.injEq, Prod.mk.injEq] at hres
          rw [← hres.1]
          exact Tidy_join_space _ (by simp) (by
            intro s hs
            simp only [List.mem_cons, List.mem_singleton, List.not_mem_nil, or_false] at hs
            rcases hs with rfl | rfl | rfl <;> assumption)
        | false =>
          simp only [Bool.false_eq_true, if_false, Option.some.injEq, Prod.mk.injEq] at hres
          rw [← hres.1]
          exact Tidy_join_space _ (by simp) (by
            intro s hs
            simp only [List.mem_cons, List.mem_singleton, List.not_mem_nil, or_false] at hs
            rcases hs with rfl | rfl | rfl | rfl <;> assumption)
      by_cases hin : w.Operation = OpIn ∨ w.Operation = OpNotIn
      · simp only [if_pos hin] at hrun
        cases hcr : w.CombineRight with
        | none =>
          simp only [hcr] at hrun
          exact body _ _ _ hF (Tidy_wrapBracket _ (Tidy_stringRepeatJoin _ (hph k0) _)) hrun
        | some q =>
          obtain ⟨wq, hq, hqr, hqF⟩ := hchain q hcr
          have hl1 : h.length + 1 = (h.length - 1) + 2 := by
            have : p < h.length := lt_length_of_getElem? h p w hp
            omega
          simp only [hcr] at hrun
          rw [hl1, chainLoop_two h _ p q w wq hp hcr hq hqr] at hrun
          simp only [hv0, hk0, Option.some_bind] at hrun
          cases hv1 : (wq.Value[0]?).bind typeKind with
          | none => simp [hv1] at hrun
          | some k1 =>
            simp only [hv1, List.nil_append, List.getElem?_cons_zero] at hrun
            cases hrows : chainRows [w.Value, wq.Value] (List.range w.Value.length) with
            | none => simp [hrows] at hrun
            | some rows =>
              simp only [hrows] at hrun
              refine body _ _ _ ?_ ?_ hrun
              · exact Tidy_wrapBracket _ (Tidy_join_comma _ (by simp) (by
                  intro s hs
                  simp only [List.mem_cons, List.mem_singleton, List.not_mem_nil,
                    or_false] at hs
                  rcases hs with rfl | rfl <;> assumption))
              · exact Tidy_wrapBracket _ (Tidy_stringRepeatJoin _
                  (Tidy_wrapBracket _ (Tidy_append _ _
                    (Tidy_append _ _ (hph k0) (by decide)) (hph k1))) _)
      · simp only [if_neg hin] at hrun
        exact body _ _ _ hF (hph k0) hrun

theorem stringLoop_tidy (h : Heap) (whs : Wheres)
    (str : Nat → Bool → Bool → Option (GoString × List Val))
    (hs : ∀ p f nb t a, str p f nb = some (t, a) → Tidy t) :
    ∀ (fuel i : Nat) (rl0 : List GoString) (wa0 : List Val) (rl : List GoString)
      (wa : List Val), (∀ s ∈ rl0, Tidy s) →
      stringLoop h str whs fuel i rl0 wa0 = some (rl, wa) →
      (∀ s ∈ rl, Tidy s) ∧ (rl0 ≠ [] ∨ i < whs.length → rl ≠ []) := by
  intro fuel
  induction fuel with
  | zero =>
    intro i rl0 wa0 rl wa _ hrun
    simp [stringLoop] at hrun
  | succ n ih =>
    intro i rl0 wa0 rl wa hall hrun
    rw [stringLoop] at hrun
    by_cases hi : i < whs.length
    · rw [if_pos hi] at hrun
      cases hp : whs[i]? with
      | none => simp [hp] at hrun
      | some p =>
        simp only [hp] at hrun
        cases hstr : str p (i == 0) (decide (whs.length > 1)) with
        | none => simp [hstr] at hrun
        | some ta =>
          obtain ⟨t, a⟩ := ta
          have ht := hs p _ _ t a hstr
          cases hw : h[p]? with
          | none => simp [hstr, hw] at hrun
          | some w =>
            simp only [hstr, hw] at hrun
            have hall1 : ∀ s ∈ rl0 ++ [t], Tidy s := by
              intro s hs1
              rcases List.mem_append.mp hs1 with h1 | h1
              · exact hall s h1
              · simp only [List.mem_singleton] at h1
                subst h1
                exact ht
            by_cases hcr : w.CombineRight.isNone = true
            · simp only [hcr, if_true] at hrun
              obtain ⟨k1, k2⟩ := ih _ _ _ _ _ hall1 hrun
              exact ⟨k1, fun _ => k2 (Or.inl (by simp))⟩
            · simp only [hcr] at hrun
              cases hsk : skipCombined h whs (whs.length + 1) i with
              | none => simp [hsk] at hrun
              | some i1 =>
                simp only [hsk] at hrun
                obtain ⟨k1, k2⟩ := ih _ _ _ _ _ hall1 hrun
                exact ⟨k1, fun _ => k2 (Or.inl (by simp))⟩
    · rw [if_neg hi] at hrun
      simp only [Option.some.injEq, Prod.mk.injEq] at hrun
      obtain ⟨rfl, rfl⟩ := hrun
      refine ⟨hall, ?_⟩
      intro hor
      rcases hor with h1 | h1
      · exact h1
      · exact absurd h1 hi

theorem stringWith_tidy (h : Heap) (whs : Wheres)
    (str : Nat → Bool → Bool → Option (GoString × List Val))
    (hs : ∀ p f nb t a, str p f nb = some (t, a) → Tidy t)
    (hne : whs ≠ []) (nb : Bool) (t : GoString) (a : List Val)
    (hrun : Wheres.stringWith h str whs nb = some (t, a)) : Tidy t := by
  match whs, hne, hrun with
  | [p], _, hrun =>
    simp only [Wheres.stringWith] at hrun
    exact hs p _ _ t a hrun
  | p :: q :: rest, _, hrun =>
    simp only [Wheres.stringWith, List.length_cons] at hrun
    cases hloop : stringLoop h str (p :: q :: rest) (rest.length + 1 + 1 + 1) 0 [] [] with
    | none => simp [hloop] at hrun
    | some r =>
      obtain ⟨rl, wa⟩ := r
      simp only [hloop] at hrun
      obtain ⟨k1, k2⟩ := stringLoop_tidy h (p :: q :: rest) str hs _ 0 [] [] rl wa
        (by simp) hloop
      have hj : Tidy (join rl (lit " ")) :=
        Tidy_join_space rl (k2 (Or.inr (by simp))) k1
      cases nb with
      | false =>
        simp only [Bool.false_eq_true, if_false, Option.some.injEq, Prod.mk.injEq] at hrun
        rw [← hrun.1]
        exact hj
      | true =>
        simp only [if_true, Option.some.injEq, Prod.mk.injEq] at hrun
        rw [← hrun.1]
        exact Tidy_wrapBracket _ hj

theorem stringF_tidy (h : Heap) (getPh : Kind → GoString) (hph : ∀ k, Tidy (getPh k))
    (hC : ∀ x ∈ h, Tidy x.Cond)
    (hleaf : ∀ x ∈ h, x.Children = [] → Tidy x.Field ∧ Tidy x.Operation)
    (hchain : ∀ x ∈ h, ∀ q, x.CombineRight = some q →
      ∃ wq, h[q]? = some wq ∧ wq.CombineRight = none ∧ wq.Children = []) :
    ∀ (fuel p : Nat) (f nb : Bool) (t : GoString) (a : List Val),
      Where.stringF h getPh fuel p f nb = some (t, a) → Tidy t := by
  intro fuel
  induction fuel with
  | zero => intro p f nb t a hrun; simp [Where.stringF] at hrun
  | succ n ih =>
    intro p f nb t a hrun
    rw [Where.stringF] at hrun
    cases hp : h[p]? with
    | none => simp [hp] at hrun
    | some w =>
      simp only [hp] at hrun
      have hmem : w ∈ h := List.getElem?_mem hp
      by_cases hc : w.Children.length > 0
      · rw [if_pos hc] at hrun
        cases hsw : Wheres.stringWith h (Where.stringF h getPh n) w.Children nb with
        | none => simp [hsw] at hrun
        | some sa =>
          obtain ⟨s, args⟩ := sa
          simp only [hsw] at hrun
          have hs : Tidy s := stringWith_tidy h w.Children _ ih
            (by intro hc1; rw [hc1] at hc; simp at hc) nb s args hsw
          cases f with
          | true =>
            simp only [if_true, Option.some.injEq, Prod.mk.injEq] at hrun
            rw [← hrun.1]; exact hs
          | false =>
            simp only [Bool.false_eq_true, if_false, Option.some.injEq, Prod.mk.injEq] at hrun
            rw [← hrun.1]
            exact Tidy_space _ _ (hC w hmem) hs
      · rw [if_neg hc] at hrun
        have hc0 : w.Children = [] := by
          cases hw : w.Children with
          | nil => rfl
          | cons _ _ => rw [hw] at hc; simp at hc
        obtain ⟨h1, h2⟩ := hleaf w hmem hc0
        refine leaf_tidy h getPh p w f t a hp hph h1 h2 (hC w hmem) ?_ hrun
        intro q hq
        obtain ⟨wq, k1, k2, k3⟩ := hchain w hmem q hq
        exact ⟨wq, k1, k2, (hleaf wq (List.getElem?_mem k1) k3).1⟩

end Builder

namespace Builder

/-! ### The heap invariant under every call of the fluent interface -/

theorem runCalls_singleton (c : BCall) (h : Heap) (b : SQLBulder) :
    runCalls [c] h b = c.run h b := by
  simp only [runCalls]
  cases c.run h b with
  | none => rfl
  | some r => rfl

theorem Call_preserves (c : Call) (h : Heap) (b : SQLBulder) (h1 : Heap) (b1 : SQLBulder)
    (hh : HeapInv h) (hp : ∀ p ∈ b.whereList, p < h.length)
    (hr : c.run h b = some (h1, b1)) :
    HeapInv h1 ∧ ∀ p ∈ b1.whereList, p < h1.length := by
  cases c with
  | cond c =>
    exact runCalls_preserves [c] h b h1 b1 hh hp (by rw [runCalls_singleton]; exact hr)
  | _ =>
    simp only [Call.run, Option.some.injEq, Prod.mk.injEq] at hr
    obtain ⟨rfl, rfl⟩ := hr
    exact ⟨hh, hp⟩

theorem runAll_preserves (calls : List Call) : ∀ (h : Heap) (b : SQLBulder) (h1 : Heap)
    (b1 : SQLBulder), HeapInv h → (∀ p ∈ b.whereList, p < h.length) →
    runAll calls h b = some (h1, b1) →
    HeapInv h1 ∧ ∀ p ∈ b1.whereList, p < h1.length := by
  induction calls with
  | nil =>
    intro h b h1 b1 hh hp hr
    simp only [runAll, Option.some.injEq, Prod.mk.injEq] at hr
    obtain ⟨rfl, rfl⟩ := hr
    exact ⟨hh, hp⟩
  | cons c rest ih =>
    intro h b h1 b1 hh hp hr
    simp only [runAll] at hr
    cases hc : c.run h b with
    | none => simp [hc] at hr
    | some r =>
      obtain ⟨h2, b2⟩ := r
      simp only [hc] at hr
      obtain ⟨k1, k2⟩ := Call_preserves c h b h2 b2 hh hp hc
      exact ih h2 b2 h1 b1 k1 k2 hr

theorem New_whereList (table : GoString) (opts : List NewBuilderOpt) :
    (New table opts).whereList = [] := by
  unfold New newSQLBuilder
  simp
  rfl

theorem runAll_New_inv (calls : List Call) (table : GoString) (opts : List NewBuilderOpt)
    (h : Heap) (b : SQLBulder) (hr : runAll calls [] (New table opts) = some (h, b)) :
    HeapInv h ∧ ∀ p ∈ b.whereList, p < h.length :=
  runAll_preserves calls [] _ h b HeapInv_nil
    (by rw [New_whereList]; intro p hp; cases hp) hr

end Builder

namespace Builder

/-! ### A non-empty list renders a non-empty clause -/

theorem join_ne_nil (l : List GoString) (sep : GoString) (hl : l ≠ [])
    (hall : ∀ s ∈ l, s ≠ []) : join l sep ≠ [] := by
  cases l with
  | nil => exact absurd rfl hl
  | cons x t =>
    rw [join_cons_eq_flatMap]
    have := hall x (List.mem_cons_self _ _)
    simp [this]

theorem stringLoop_ne_nil (h : Heap) (whs : Wheres)
    (str : Nat → Bool → Bool → Option (GoString × List Val))
    (hs : ∀ p f nb t a, str p f nb = some (t, a) → t ≠ []) :
    ∀ (fuel i : Nat) (rl0 : List GoString) (wa0 : List Val) (rl : List GoString)
      (wa : List Val), (∀ s ∈ rl0, s ≠ []) →
      stringLoop h str whs fuel i rl0 wa0 = some (rl, wa) →
      (∀ s ∈ rl, s ≠ []) ∧ (rl0 ≠ [] ∨ i < whs.length → rl ≠ []) := by
  intro fuel
  induction fuel with
  | zero =>
    intro i rl0 wa0 rl wa _ hrun
    simp [stringLoop] at hrun
  | succ n ih =>
    intro i rl0 wa0 rl wa hall hrun
    rw [stringLoop] at hrun
    by_cases hi : i < whs.length
    · rw [if_pos hi] at hrun
      cases hp : whs[i]? with
      | none => simp [hp] at hrun
      | some p =>
        simp only [hp] at hrun
        cases hstr : str p (i == 0) (decide (whs.length > 1)) with
        | none => simp [hstr] at hrun
        | some ta =>
          obtain ⟨t, a⟩ := ta
          have ht := hs p _ _ t a hstr
          cases hw : h[p]? with
          | none => simp [hstr, hw] at hrun
          | some w =>
            simp only [hstr, hw] at hrun
            have hall1 : ∀ s ∈ rl0 ++ [t], s ≠ [] := by
              intro s hs1
              rcases List.mem_append.mp hs1 with h1 | h1
              · exact hall s h1
              · simp only [List.mem_singleton] at h1
                subst h1
                exact ht
            by_cases hcr : w.CombineRight.isNone = true
            · simp only [hcr, if_true] at hrun
              obtain ⟨k1, k2⟩ := ih _ _ _ _ _ hall1 hrun
              exact ⟨k1, fun _ => k2 (Or.inl (by simp))⟩
            · simp only [hcr] at hrun
              cases hsk : skipCombined h whs (whs.length + 1) i with
              | none => simp [hsk] at hrun
              | some i1 =>
                simp only [hsk] at hrun
                obtain ⟨k1, k2⟩ := ih _ _ _ _ _ hall1 hrun
                exact ⟨k1, fun _ => k2 (Or.inl (by simp))⟩
    · rw [if_neg hi] at hrun
      simp only [Option.some.injEq, Prod.mk.injEq] at hrun
      obtain ⟨rfl, rfl⟩ := hrun
      refine ⟨hall, ?_⟩
      intro hor
      rcases hor with h1 | h1
      · exact h1
      · exact absurd h1 hi

theorem stringWith_ne_nil (h : Heap) (whs : Wheres)
    (str : Nat → Bool → Bool → Option (GoString × List Val))
    (hs : ∀ p f nb t a, str p f nb = some (t, a) → t ≠ [])
    (hne : whs ≠ []) (nb : Bool) (t : GoString) (a : List Val)
    (hrun : Wheres.stringWith h str whs nb = some (t, a)) : t ≠ [] := by
  match whs, hne, hrun with
  | [p], _, hrun =>
    simp only [Wheres.stringWith] at hrun
    exact hs p _ _ t a hrun
  | p :: q :: rest, _, hrun =>
    simp only [Wheres.stringWith, List.length_cons] at hrun
    cases hloop : stringLoop h str (p :: q :: rest) (rest.length + 1 + 1 + 1) 0 [] [] with
    | none => simp [hloop] at hrun
    | some r =>
      obtain ⟨rl, wa⟩ := r
      simp only [hloop] at hrun
      obtain ⟨k1, k2⟩ := stringLoop_ne_nil h (p :: q :: rest) str hs _ 0 [] [] rl wa
        (by simp) hloop
      have hj : join rl (lit " ") ≠ [] := join_ne_nil rl _ (k2 (Or.inr (by simp))) k1
      cases nb with
      | false =>
        simp only [Bool.false_eq_true, if_false, Option.some.injEq, Prod.mk.injEq] at hrun
        rw [← hrun.1]
        exact hj
      | true =>
        simp only [if_true, Option.some.injEq, Prod.mk.injEq] at hrun
        rw [← hrun.1]
        exact _wrapBracket_ne_nil _

theorem leafString_ne_nil (h : Heap) (getPh : Kind → GoString) (p : Nat) (w : Where)
    (f : Bool) (t : GoString) (a : List Val)
    (hrun : Where.leafString h getPh p w f = some (t, a)) : t ≠ [] := by
  unfold Where.leafString at hrun
  cases hv0 : w.Value[0]? with
  | none => simp [hv0] at hrun
  | some v0 =>
    cases hk0 : typeKind v0 with
    | none => simp [hv0, hk0] at hrun
    | some k0 =>
      simp only [hv0, hk0] at hrun
      split at hrun
      · cases hrun
      · rename_i field phs values _
        cases f with
        | true =>
          simp only [if_true, Option.some.injEq, Prod.mk.injEq] at hrun
          rw [← hrun.1, join3]
          simp
          intro _ hsp
          exact absurd hsp (by decide)
        | false =>
          simp only [Bool.false_eq_true, if_false, Option.some.injEq, Prod.mk.injEq] at hrun
          rw [← hrun.1, join4]
          simp
          intro _ hsp
          exact absurd hsp (by decide)

theorem stringF_ne_nil (h : Heap) (getPh : Kind → GoString) :
    ∀ (fuel p : Nat) (f nb : Bool) (t : GoString) (a : List Val),
      Where.stringF h getPh fuel p f nb = some (t, a) → t ≠ [] := by
  intro fuel
  induction fuel with
  | zero => intro p f nb t a hrun; simp [Where.stringF] at hrun
  | succ n ih =>
    intro p f nb t a hrun
    rw [Where.stringF] at hrun
    cases hp : h[p]? with
    | none => simp [hp] at hrun
    | some w =>
      simp only [hp] at hrun
      by_cases hc : w.Children.length > 0
      · rw [if_pos hc] at hrun
        cases hsw : Wheres.stringWith h (Where.stringF h getPh n) w.Children nb with
        | none => simp [hsw] at hrun
        | some sa =>
          obtain ⟨s, args⟩ := sa
          simp only [hsw] at hrun
          have hs : s ≠ [] := stringWith_ne_nil h w.Children _ ih
            (by intro hc1; rw [hc1] at hc; simp at hc) nb s args hsw
          cases f with
          | true =>
            simp only [if_true, Option.some.injEq, Prod.mk.injEq] at hrun
            rw [← hrun.1]; exact hs
          | false =>
            simp only [Bool.false_eq_true, if_false, Option.some.injEq, Prod.mk.injEq] at hrun
            rw [← hrun.1]
            simp [hs]
      · rw [if_neg hc] at hrun
        exact leafString_ne_nil h getPh p w f t a hrun

/-- The clause of a list is empty exactly when the list is. -/
theorem Wheres_string_nil_iff (h : Heap) (getPh : Kind → GoString) (whs : Wheres) (nb : Bool)
    (t : GoString) (a : List Val) (hrun : Wheres.string h whs nb getPh = some (t, a)) :
    t = [] ↔ whs = [] := by
  constructor
  · intro ht
    by_contra hne
    unfold Wheres.string at hrun
    exact stringWith_ne_nil h whs _
      (fun p f nb1 t1 a1 hr => stringF_ne_nil h getPh h.length p f nb1 t1 a1 hr)
      hne nb t a hrun ht
  · intro hw
    rw [hw] at hrun
    simp only [Wheres.string, Wheres.stringWith, Option.some.injEq, Prod.mk.injEq] at hrun
    exact hrun.1.symm

end Builder

namespace Builder

/-! ### What the fluent calls leave unchanged -/

theorem whereInWith_eq
    (add : Heap → Wheres → GoString → List Val → Heap × Wheres)
    (h : Heap) (b : SQLBulder) (f : GoString) (v : List Val) (h1 : Heap) (b1 : SQLBulder)
    (hr : whereInWith add h b f v = some (h1, b1)) :
    b1 = { b with whereList := b1.whereList } := by
  unfold whereInWith at hr
  split_ifs at hr with h0
  · cases hr; rfl
  · cases hg : _getInValues v with
    | none => simp [hg] at hr
    | some vals =>
      simp only [hg] at hr
      split_ifs at hr <;> cases hr <;> rfl

theorem BCall_run_eq (c : BCall) (h : Heap) (b : SQLBulder) (h1 : Heap) (b1 : SQLBulder)
    (hr : c.run h b = some (h1, b1)) : b1 = { b with whereList := b1.whereList } := by
  cases c with
  | Where f o v => cases hr; rfl
  | OrWhere f o v => cases hr; rfl
  | WhereIn f vs => exact whereInWith_eq _ h b f vs h1 b1 hr
  | OrWhereIn f vs => exact whereInWith_eq _ h b f vs h1 b1 hr
  | WhereNotIn f vs => exact whereInWith_eq _ h b f vs h1 b1 hr
  | OrWhereNotIn f vs => exact whereInWith_eq _ h b f vs h1 b1 hr
  | WhereCombineIn fs vs =>
    simp only [BCall.run, SQLBulder.WhereCombineIn] at hr
    split_ifs at hr
    · cases hr; rfl
    · cases hw : Wheres.WhereCombineIn h b.whereList fs vs with
      | none => simp [hw] at hr
      | some r => simp only [hw] at hr; cases hr; rfl
  | Wheres fn =>
    simp only [BCall.run, SQLBulder.Wheres] at hr
    cases hn : newBranch h WhereCondAnd (runCallback fn) with
    | none => simp [hn] at hr
    | some r => simp only [hn] at hr; cases hr; rfl
  | OrWheres fn =>
    simp only [BCall.run, SQLBulder.OrWheres] at hr
    cases hn : newBranch h WhereCondOr (runCallback fn) with
    | none => simp [hn] at hr
    | some r => simp only [hn] at hr; cases hr; rfl

/-- The action of a builder obtained from `New` is none or one of the four
actions, and an update has its row. -/
theorem runAll_action (calls : List Call) : ∀ (h : Heap) (b : SQLBulder) (h1 : Heap)
    (b1 : SQLBulder),
    (b.action = [] ∨ b.action = SQLActionSelect ∨ b.action = SQLActionDelete ∨
      b.action = SQLActionInsert ∨ (b.action = SQLActionUpdate ∧ b.values ≠ [])) →
    runAll calls h b = some (h1, b1) →
    (b1.action = [] ∨ b1.action = SQLActionSelect ∨ b1.action = SQLActionDelete ∨
      b1.action = SQLActionInsert ∨ (b1.action = SQLActionUpdate ∧ b1.values ≠ [])) := by
  induction calls with
  | nil =>
    intro h b h1 b1 hb hr
    simp only [runAll, Option.some.injEq, Prod.mk.injEq] at hr
    obtain ⟨rfl, rfl⟩ := hr
    exact hb
  | cons c rest ih =>
    intro h b h1 b1 hb hr
    simp only [runAll] at hr
    cases hc : c.run h b with
    | none => simp [hc] at hr
    | some r =>
      obtain ⟨h2, b2⟩ := r
      simp only [hc] at hr
      refine ih h2 b2 h1 b1 ?_ hr
      cases c with
      | cond c =>
        have e := BCall_run_eq c h b h2 b2 hc
        rw [e]
        exact hb
      | Select fields => cases hc; exact Or.inr (Or.inl rfl)
      | OrderBy f o => cases hc; exact hb
      | OrderBys f o => cases hc; exact hb
      | GroupBy f => cases hc; exact hb
      | Limit l => cases hc; exact hb
      | Offset o => cases hc; exact hb
      | Update v => cases hc; exact Or.inr (Or.inr (Or.inr (Or.inr ⟨rfl, by simp [SQLBulder.Update]⟩)))
      | ForceIndex i => cases hc; exact hb
      | OnDuplicateUpdateKeys k => cases hc; exact hb
      | Insert v => cases hc; exact Or.inr (Or.inr (Or.inr (Or.inl rfl)))
      | InsertIgnore v => cases hc; exact Or.inr (Or.inr (Or.inr (Or.inl rfl)))
      | BatchInsert v => cases hc; exact Or.inr (Or.inr (Or.inr (Or.inl rfl)))
      | BatchInsertIgnore v => cases hc; exact Or.inr (Or.inr (Or.inr (Or.inl rfl)))
      | Delete => cases hc; exact Or.inr (Or.inr (Or.inl rfl))
      | Query => cases hc; exact Or.inr (Or.inl rfl)

/-! ### `buildInsert` and `buildUpdate` return -/

theorem sliceStr_ok (s : GoString) (hs : s ≠ []) :
    ∃ r, sliceStr s 0 ((s.length : Int) - 1) = some r := by
  have hl : 1 ≤ s.length := by
    cases s with
    | nil => exact absurd rfl hs
    | cons _ _ => simp
  unfold sliceStr
  rw [if_pos ⟨le_refl _, by omega, by omega⟩]
  exact ⟨_, rfl⟩

theorem insertHeader_total (b : SQLBulder) (row : GoMap Val)
    (hrow : ∀ e ∈ row, e.2 ≠ Val.nil) :
    ∀ (fields : List GoString) (sb : GoString) (phs : List GoString) (ne : GoMap Bool),
      ∃ sb1 phs1 ne1,
        insertHeader b row (fields, sb, phs, ne)
          = some (fields ++ row.map (fun e => e.1), sb1, phs1, ne1) ∧
        (sb ≠ [] ∨ row ≠ [] → sb1 ≠ []) ∧
        ∀ f, mapGet ne1 f false = true →
          mapGet ne f false = true ∨
          (b.parameterized = false ∧ ∃ e ∈ row, e.1 = f ∧ typeKind e.2 = some Kind.String) := by
  induction row with
  | nil =>
    intro fields sb phs ne
    refine ⟨sb, phs, ne, by simp [insertHeader], ?_, fun f hf => Or.inl hf⟩
    intro hor
    rcases hor with h1 | h1
    · exact h1
    · exact absurd rfl h1
  | cons e t ih =>
    intro fields sb phs ne
    obtain ⟨f0, v0⟩ := e
    obtain ⟨k, hk⟩ := typeKind_isSome v0 (hrow (f0, v0) (List.mem_cons_self _ _))
    obtain ⟨sb1, phs1, ne1, h1, h2, h3⟩ := ih (fun e he => hrow e (List.mem_cons_of_mem _ he))
      (fields ++ [f0]) (sb ++ _wrapField f0 b.delimiter ++ lit ",")
      (phs ++ [b.placeholder k])
      (mapSet ne f0 (!b.parameterized && k == Kind.String))
    refine ⟨sb1, phs1, ne1, ?_, ?_, ?_⟩
    · rw [insertHeader]
      simp only [hk, h1, List.map_cons]
      simp
    · intro _
      apply h2
      left
      simp
      intro _ _
      decide
    · intro f hf
      rcases h3 f hf with h4 | ⟨h4, e, he, h5, h6⟩
      · by_cases hff : f = f0
        · subst hff
          rw [mapGet_mapSet_same] at h4
          simp only [Bool.and_eq_true, Bool.not_eq_true', beq_iff_eq] at h4
          exact Or.inr ⟨h4.1, (f, v0), List.mem_cons_self _ _, rfl, by rw [hk, h4.2]⟩
        · rw [mapGet_mapSet_other _ _ _ _ _ hff] at h4
          exact Or.inl h4
      · exact Or.inr ⟨h4, e, List.mem_cons_of_mem _ he, h5, h6⟩

theorem insertRowArgs_total (ne : GoMap Bool) (row : GoMap Val) :
    ∀ (fields : List GoString),
      (∀ f ∈ fields, mapGet ne f false = true → ∃ s, mapGet row f Val.nil = Val.str s) →
      ∃ args, insertRowArgs ne row fields = some args := by
  intro fields
  induction fields with
  | nil => intro _; exact ⟨[], rfl⟩
  | cons f t ih =>
    intro hall
    obtain ⟨args, ha⟩ := ih (fun g hg => hall g (List.mem_cons_of_mem _ hg))
    rw [insertRowArgs]
    by_cases hne : mapGet ne f false = true
    · obtain ⟨s, hs⟩ := hall f (List.mem_cons_self _ _) hne
      simp only [hne, if_true, hs, assertString, _escape_eq, Option.map_some', ha]
      exact ⟨_, rfl⟩
    · simp only [hne, Bool.false_eq_true, if_false, ha]
      exact ⟨_, rfl⟩

theorem insertArgs_total (ne : GoMap Bool) (fields : List GoString) :
    ∀ (rows : List (GoMap Val)),
      (∀ row ∈ rows, ∀ f ∈ fields, mapGet ne f false = true →
        ∃ s, mapGet row f Val.nil = Val.str s) →
      ∃ args, insertArgs ne fields rows = some args := by
  intro rows
  induction rows with
  | nil => intro _; exact ⟨[], rfl⟩
  | cons r t ih =>
    intro hall
    obtain ⟨a1, h1⟩ := insertRowArgs_total ne r fields (hall r (List.mem_cons_self _ _))
    obtain ⟨a2, h2⟩ := ih (fun row hrow => hall row (List.mem_cons_of_mem _ hrow))
    rw [insertArgs]
    simp only [h1, h2]
    exact ⟨_, rfl⟩

theorem buildInsert_ok (b : SQLBulder) (row0 : GoMap Val) (rest : List (GoMap Val))
    (hv : b.values = row0 :: rest) (hne : row0 ≠ [])
    (hnil : ∀ e ∈ row0, e.2 ≠ Val.nil)
    (hstr : b.parameterized = false → ∀ row ∈ b.values, ∀ e ∈ row0,
      typeKind e.2 = some Kind.String → ∃ s, mapGet row e.1 Val.nil = Val.str s) :
    ∃ (sql : GoString) (args : List Val),
      b.buildInsert = some { sql := sql, args := some args, err := none } := by
  unfold SQLBulder.buildInsert
  rw [hv]
  simp only []
  obtain ⟨sb1, phs1, ne1, h1, h2, h3⟩ := insertHeader_total b row0 hnil [] [] [] []
  rw [h1]
  simp only []
  obtain ⟨fh, hfh⟩ := sliceStr_ok sb1 (h2 (Or.inr hne))
  rw [hfh]
  simp only []
  obtain ⟨args, ha⟩ := insertArgs_total ne1 ([] ++ row0.map (fun e => e.1)) (row0 :: rest)
    (by
      intro row hrow f _ hf
      rcases h3 f hf with h4 | ⟨h4, e, he, h5, h6⟩
      · simp [mapGet] at h4
      · rw [← h5]
        exact hstr h4 row (by rw [hv]; exact hrow) e he h6)
  rw [ha]
  exact ⟨_, _, rfl⟩

theorem updateLoop_ne_nil (b : SQLBulder) (row : GoMap Val) :
    ∀ (sb : GoString) (args : List Val) (sb1 : GoString) (args1 : List Val),
      updateLoop b row (sb, args) = some (sb1, args1) → (sb ≠ [] ∨ row ≠ []) → sb1 ≠ [] := by
  induction row with
  | nil =>
    intro sb args sb1 args1 hr hor
    simp only [updateLoop, Option.some.injEq, Prod.mk.injEq] at hr
    rcases hor with h1 | h1
    · rw [← hr.1]; exact h1
    · exact absurd rfl h1
  | cons e t ih =>
    intro sb args sb1 args1 hr _
    obtain ⟨f, v⟩ := e
    rw [updateLoop] at hr
    cases hts : typeString v with
    | none => simp [hts] at hr
    | some ts =>
      simp only [hts] at hr
      split_ifs at hr
      · cases hraw : assertUpdateRaw v with
        | none => simp [hraw] at hr
        | some ea =>
          obtain ⟨expr, ra⟩ := ea
          simp only [hraw] at hr
          exact ih _ _ _ _ hr (Or.inl (by simp; intro _ _ _ _; decide))
      · cases hk : typeKind v with
        | none => simp [hk] at hr
        | some k =>
          simp only [hk] at hr
          split at hr
          · cases hr
          · exact ih _ _ _ _ hr (Or.inl (by simp; intro _ _ _ _; decide))

end Builder

namespace Builder

/-! ### The nodes that `Wheres.string` renders -/

theorem hasRight_of (h : Heap) (p : Nat) (w : Where) (hp : h[p]? = some w) :
    hasRight h p = w.CombineRight.isSome := by
  simp only [hasRight, hp]

/-- The loop that skips the peers of a combine chain ends at the last entry
that directly follows an entry with a combine-right peer. -/
theorem skipCombined_rendered (h : Heap) (whs : Wheres) :
    ∀ (fuel j i1 p : Nat), skipCombined h whs fuel j = some i1 → whs[j]? = some p →
      renderedNodes h (hasRight h p) (whs.drop (j + 1))
        = renderedNodes h false (whs.drop (i1 + 1)) := by
  intro fuel
  induction fuel with
  | zero => intro j i1 p hr _; simp [skipCombined] at hr
  | succ n ih =>
    intro j i1 p hr hp
    rw [skipCombined] at hr
    by_cases hlt : j + 1 < whs.length
    · rw [if_pos hlt] at hr
      simp only [hp] at hr
      cases hw : h[p]? with
      | none => simp [hw] at hr
      | some w =>
        simp only [hw] at hr
        by_cases hcr : w.CombineRight.isSome = true
        · rw [if_pos hcr] at hr
          have hq : whs[j + 1]? = some (whs.get ⟨j + 1, hlt⟩) := List.getElem?_eq_getElem hlt
          have hdrop : whs.drop (j + 1) = whs.get ⟨j + 1, hlt⟩ :: whs.drop (j + 1 + 1) :=
            List.drop_eq_getElem_cons hlt
          rw [hasRight_of h p w hw, hcr, hdrop]
          simp only [renderedNodes, if_true, List.nil_append]
          exact ih (j + 1) i1 _ hr hq
        · rw [if_neg hcr] at hr
          cases hr
          rw [hasRight_of h p w hw]
          simp only [Bool.not_eq_true] at hcr
          rw [hcr]
    · rw [if_neg hlt] at hr
      cases hr
      rw [List.drop_eq_nil_of_le (by omega)]
      rfl

/-- The loop of `Wheres.string` from an index `i >= 1`: it renders the entries
that do not directly follow an entry with a combine-right peer, and each
contributes its conjunction tag, one space and its clause. -/
theorem stringLoop_nodes (h : Heap) (whs : Wheres)
    (str : Nat → Bool → Bool → Option (GoString × List Val)) (nb0 : Bool)
    (hnb : nb0 = decide (whs.length > 1))
    (hs : ∀ (p : Nat) (w : Where) (t : GoString) (a : List Val), h[p]? = some w →
      str p false nb0 = some (t, a) →
      ∃ c, str p true nb0 = some (c, a) ∧ t = w.Cond ++ lit " " ++ c) :
    ∀ (fuel i : Nat) (rl0 : List GoString) (wa0 : List Val) (rl : List GoString)
      (wa : List Val), 1 ≤ i →
      stringLoop h str whs fuel i rl0 wa0 = some (rl, wa) →
      ∃ nodes : List (Nat × GoString × GoString × List Val),
        nodes.map (fun e => e.1) = renderedNodes h false (whs.drop i) ∧
        (∀ e ∈ nodes, ∃ w : Where, h[e.1]? = some w ∧ e.2.1 = w.Cond ∧
          str e.1 true nb0 = some (e.2.2.1, e.2.2.2)) ∧
        rl = rl0 ++ nodes.map (fun e => e.2.1 ++ lit " " ++ e.2.2.1) ∧
        wa = wa0 ++ (nodes.map (fun e => e.2.2.2)).flatten := by
  intro fuel
  induction fuel with
  | zero =>
    intro i rl0 wa0 rl wa _ hrun
    simp [stringLoop] at hrun
  | succ n ih =>
    intro i rl0 wa0 rl wa hi1 hrun
    rw [stringLoop] at hrun
    by_cases hi : i < whs.length
    · rw [if_pos hi] at hrun
      cases hp : whs[i]? with
      | none => simp [hp] at hrun
      | some p =>
        simp only [hp] at hrun
        have hi0 : (i == 0) = false := by
          cases i with
          | zero => omega
          | succ k => rfl
        rw [hi0, ← hnb] at hrun
        cases hstr : str p false nb0 with
        | none => simp [hstr] at hrun
        | some ta =>
          obtain ⟨t, a⟩ := ta
          cases hw : h[p]? with
          | none => simp [hstr, hw] at hrun
          | some w =>
            simp only [hstr, hw] at hrun
            obtain ⟨c, hc, ht⟩ := hs p w t a hw hstr
            have hdrop : whs.drop i = p :: whs.drop (i + 1) := by
              rw [List.drop_eq_getElem_cons hi]
              congr 1
              have := List.getElem?_eq_getElem hi
              rw [hp] at this
              exact (Option.some.inj this).symm
            have key : ∀ i1,
                renderedNodes h (hasRight h p) (whs.drop (i + 1))
                  = renderedNodes h false (whs.drop (i1 + 1)) →
                stringLoop h str whs n (i1 + 1) (rl0 ++ [t]) (wa0 ++ a) = some (rl, wa) →
                ∃ nodes : List (Nat × GoString × GoString × List Val),
                  nodes.map (fun e => e.1) = renderedNodes h false (whs.drop i) ∧
                  (∀ e ∈ nodes, ∃ w : Where, h[e.1]? = some w ∧ e.2.1 = w.Cond ∧
                    str e.1 true nb0 = some (e.2.2.1, e.2.2.2)) ∧
                  rl = rl0 ++ nodes.map (fun e => e.2.1 ++ lit " " ++ e.2.2.1) ∧
                  wa = wa0 ++ (nodes.map (fun e => e.2.2.2)).flatten := by
              intro i1 hren hrun1
              obtain ⟨nodes, h1, h2, h3, h4⟩ := ih (i1 + 1) _ _ rl wa (by omega) hrun1
              refine ⟨(p, w.Cond, c, a) :: nodes, ?_, ?_, ?_, ?_⟩
              · rw [hdrop, List.map_cons, h1]
                simp only [renderedNodes, Bool.false_eq_true, if_false, List.singleton_append]
                rw [hren]
              · intro e he
                rcases List.mem_cons.mp he with rfl | he
                · exact ⟨w, hw, rfl, hc⟩
                · exact h2 e he
              · rw [h3, ht]
                simp [List.append_assoc]
              · rw [h4]
                simp [List.append_assoc]
            by_cases hcr : w.CombineRight.isNone = true
            · simp only [hcr, if_true] at hrun
              refine key i ?_ hrun
              rw [hasRight_of h p w hw]
              have : w.CombineRight.isSome = false := by
                cases hx : w.CombineRight with
                | none => rfl
                | some q => rw [hx] at hcr; simp at hcr
              rw [this]
            · simp only [hcr] at hrun
              cases hsk : skipCombined h whs (whs.length + 1) i with
              | none => simp [hsk] at hrun
              | some i1 =>
                simp only [hsk] at hrun
                exact key i1 (skipCombined_rendered h whs _ i i1 p hsk hp) hrun
    · rw [if_neg hi] at hrun
      simp only [Option.some.injEq, Prod.mk.injEq] at hrun
      obtain ⟨rfl, rfl⟩ := hrun
      refine ⟨[], ?_, by simp, by simp, by simp⟩
      rw [List.drop_eq_nil_of_le (by omega)]
      rfl

/-- The text and the arguments that `Wheres.string` returns, in terms of the
nodes it renders: the entries that do not directly follow an entry with a
combine-right peer. -/
theorem Wheres_string_nodes (h : Heap) (getPh : Kind → GoString) (whs : Wheres) (nb : Bool)
    (t : GoString) (a : List Val)
    (hrun : Wheres.string h whs nb getPh = some (t, a)) :
    ∃ nodes : List (Nat × GoString × GoString × List Val),
      nodes.map (fun e => e.1) = renderedNodes h false whs ∧
      (∀ e ∈ nodes, ∃ w : Where, h[e.1]? = some w ∧ e.2.1 = w.Cond ∧
        Where.string h e.1 true (decide (whs.length > 1)) getPh = some (e.2.2.1, e.2.2.2)) ∧
      t = (if nb = true ∧ whs.length > 1
            then _wrapBracket (taggedClauses (nodes.map (fun e => (e.2.1, e.2.2.1))))
            else taggedClauses (nodes.map (fun e => (e.2.1, e.2.2.1)))) ∧
      a = (nodes.map (fun e => e.2.2.2)).flatten := by
  unfold Wheres.string at hrun
  match whs, hrun with
  | [], hrun =>
    simp only [Wheres.stringWith, Option.some.injEq, Prod.mk.injEq] at hrun
    obtain ⟨rfl, rfl⟩ := hrun
    exact ⟨[], rfl, by simp, by simp [taggedClauses], rfl⟩
  | [p], hrun =>
    simp only [Wheres.stringWith] at hrun
    obtain ⟨w, hw⟩ := string_some_node h getPh p true false _ hrun
    refine ⟨[(p, w.Cond, t, a)], rfl, ?_, ?_, by simp⟩
    · intro e he
      simp only [List.mem_singleton] at he
      subst he
      exact ⟨w, hw, rfl, by simpa using hrun⟩
    · simp [taggedClauses]
  | p :: q :: rest, hrun =>
    simp only [Wheres.stringWith, List.length_cons] at hrun
    cases hloop : stringLoop h (fun p first nb => Where.string h p first nb getPh)
        (p :: q :: rest) (rest.length + 1 + 1 + 1) 0 [] [] with
    | none => simp [hloop] at hrun
    | some r =>
      obtain ⟨rl, wa⟩ := r
      simp only [hloop] at hrun
      rw [stringLoop] at hloop
      simp only [List.length_cons, Nat.zero_lt_succ, if_true, List.getElem?_cons_zero,
        beq_self_eq_true] at hloop
      have hnb : decide (rest.length + 1 + 1 > 1) = true := by simp
      rw [hnb] at hloop
      cases hstr : Where.string h p true true getPh with
      | none => simp [hstr] at hloop
      | some ca =>
        obtain ⟨c, a0⟩ := ca
        obtain ⟨w, hw⟩ := string_some_node h getPh p true true _ hstr
        simp only [hstr, hw, List.nil_append] at hloop
        have key : ∀ i1,
            renderedNodes h (hasRight h p) (q :: rest)
              = renderedNodes h false ((p :: q :: rest).drop (i1 + 1)) →
            stringLoop h (fun p first nb => Where.string h p first nb getPh) (p :: q :: rest)
              (rest.length + 1 + 1) (i1 + 1) [c] a0 = some (rl, wa) →
            ∃ nodes : List (Nat × GoString × GoString × List Val),
              nodes.map (fun e => e.1) = renderedNodes h false (p :: q :: rest) ∧
              (∀ e ∈ nodes, ∃ w : Where, h[e.1]? = some w ∧ e.2.1 = w.Cond ∧
                Where.string h e.1 true true getPh = some (e.2.2.1, e.2.2.2)) ∧
              join rl (lit " ") = taggedClauses (nodes.map (fun e => (e.2.1, e.2.2.1))) ∧
              wa = (nodes.map (fun e => e.2.2.2)).flatten := by
          intro i1 hren hrun1
          obtain ⟨nodes, h1, h2, h3, h4⟩ := stringLoop_nodes h (p :: q :: rest)
            (fun p first nb => Where.string h p first nb getPh) true (by simp)
            (by
              intro p1 w1 t1 a1 hp1 hs1
              change Where.string h p1 false true getPh = _ at hs1
              rw [string_not_first h getPh p1 true w1 hp1] at hs1
              cases hx : Where.string h p1 true true getPh with
              | none => simp [hx] at hs1
              | some ca1 =>
                obtain ⟨c1, a2⟩ := ca1
                simp only [hx, Option.map_some', Option.some.injEq, Prod.mk.injEq] at hs1
                obtain ⟨rfl, rfl⟩ := hs1
                exact ⟨c1, hx, rfl⟩)
            (rest.length + 1 + 1) (i1 + 1) [c] a0 rl wa (by omega) hrun1
          refine ⟨(p, w.Cond, c, a0) :: nodes, ?_, ?_, ?_, ?_⟩
          · rw [List.map_cons, h1]
            show _ = (if false = true then [] else [p]) ++
              renderedNodes h (hasRight h p) (q :: rest)
            rw [hren]
            rfl
          · intro e he
            rcases List.mem_cons.mp he with rfl | he
            · exact ⟨w, hw, rfl, hstr⟩
            · exact h2 e he
          · rw [h3]
            exact taggedClauses_cons w.Cond c nodes
          · rw [h4]
            simp
        have fin : ∀ nodes : List (Nat × GoString × GoString × List Val),
            nodes.map (fun e => e.1) = renderedNodes h false (p :: q :: rest) ∧
            (∀ e ∈ nodes, ∃ w : Where, h[e.1]? = some w ∧ e.2.1 = w.Cond ∧
              Where.string h e.1 true true getPh = some (e.2.2.1, e.2.2.2)) ∧
            join rl (lit " ") = taggedClauses (nodes.map (fun e => (e.2.1, e.2.2.1))) ∧
            wa = (nodes.map (fun e => e.2.2.2)).flatten →
            ∃ nodes : List (Nat × GoString × GoString × List Val),
              nodes.map (fun e => e.1) = renderedNodes h false (p :: q :: rest) ∧
              (∀ e ∈ nodes, ∃ w : Where, h[e.1]? = some w ∧ e.2.1 = w.Cond ∧
                Where.string h e.1 true (decide ((p :: q :: rest).length > 1)) getPh
                  = some (e.2.2.1, e.2.2.2)) ∧
              t = (if nb = true ∧ (p :: q :: rest).length > 1
                    then _wrapBracket (taggedClauses (nodes.map (fun e => (e.2.1, e.2.2.1))))
                    else taggedClauses (nodes.map (fun e => (e.2.1, e.2.2.1)))) ∧
              a = (nodes.map (fun e => e.2.2.2)).flatten := by
          rintro nodes ⟨k1, k3, k4, k5⟩
          refine ⟨nodes, k1, ?_, ?_, ?_⟩
          · simpa using k3
          · cases nb with
            | false =>
              simp only [Bool.false_eq_true, if_false, Option.some.injEq, Prod.mk.injEq] at hrun
              simp only [Bool.false_eq_true, false_and, if_false]
              rw [← hrun.1, k4]
            | true =>
              simp only [if_true, Option.some.injEq, Prod.mk.injEq] at hrun
              have hl : (p :: q :: rest).length > 1 := by simp
              simp only [hl, and_self, if_true]
              rw [← hrun.1, k4]
          · cases nb with
            | false =>
              simp only [Bool.false_eq_true, if_false, Option.some.injEq, Prod.mk.injEq] at hrun
              rw [← hrun.2, k5]
            | true =>
              simp only [if_true, Option.some.injEq, Prod.mk.injEq] at hrun
              rw [← hrun.2, k5]
        by_cases hcr : w.CombineRight.isNone = true
        · simp only [hcr, if_true] at hloop
          have hsome : w.CombineRight.isSome = false := by
            cases hx : w.CombineRight with
            | none => rfl
            | some q => rw [hx] at hcr; simp at hcr
          obtain ⟨nodes, hn⟩ := key 0 (by rw [hasRight_of h p w hw, hsome]; rfl) hloop
          exact fin nodes hn
        · simp only [hcr] at hloop
          cases hsk : skipCombined h (p :: q :: rest) (rest.length + 1 + 1 + 1) 0 with
          | none => simp [hsk] at hloop
          | some i1 =>
            simp only [hsk] at hloop
            have := skipCombined_rendered h (p :: q :: rest) _ 0 i1 p hsk rfl
            obtain ⟨nodes, hn⟩ := key i1 (by simpa using this) hloop
            exact fin nodes hn

end Builder

namespace Builder

/-! ### The clause of a node -/

theorem AgreeButCond_refl (p : Nat) (h : Heap) : AgreeButCond p h h :=
  ⟨rfl, fun _ x hq => ⟨x, hq, rfl, rfl, rfl, rfl, rfl, fun _ => rfl⟩⟩

theorem stringF_leaf (h : Heap) (getPh : Kind → GoString) (n p : Nat) (w : Where)
    (hp : h[p]? = some w) (hc : w.Children = []) (f nb : Bool) :
    Where.stringF h getPh (n + 1) p f nb = Where.leafString h getPh p w f := by
  rw [Where.stringF]
  simp only [hp]
  rw [if_neg (by rw [hc]; simp)]

/-- A node without children renders as its leaf. -/
theorem string_leaf (h : Heap) (getPh : Kind → GoString) (p : Nat) (w : Where)
    (hp : h[p]? = some w) (hc : w.Children = []) (f nb : Bool) :
    Where.string h p f nb getPh = Where.leafString h getPh p w f := by
  unfold Where.string
  obtain ⟨n, hn⟩ : ∃ n, h.length = n + 1 :=
    ⟨h.length - 1, by have := lt_length_of_getElem? _ _ _ hp; omega⟩
  rw [hn]
  exact stringF_leaf h getPh n p w hp hc f nb

/-- A node with children, as the first of its list, renders as the list of its
children. -/
theorem string_branch (h : Heap) (getPh : Kind → GoString) (hh : HeapInv h) (p : Nat)
    (w : Where) (hp : h[p]? = some w) (hc : w.Children ≠ []) (nb : Bool) :
    Where.string h p true nb getPh = Wheres.string h w.Children nb getPh := by
  obtain ⟨c, hcm⟩ : ∃ c, c ∈ w.Children := by
    cases hw2 : w.Children with
    | nil => exact absurd hw2 hc
    | cons c _ => exact ⟨c, List.mem_cons_self _ _⟩
  obtain ⟨wc, hwc, hcc⟩ := (hh p w hp).2.1 c hcm
  have hne : c ≠ p := by
    intro e
    rw [e, hp] at hwc
    simp only [Option.some.injEq] at hwc
    rw [hwc] at hc
    exact hc hcc
  have hcl := lt_length_of_getElem? _ _ _ hwc
  have hpl := lt_length_of_getElem? _ _ _ hp
  obtain ⟨n, hn⟩ : ∃ n, h.length = n + 2 := ⟨h.length - 2, by omega⟩
  have hpos : w.Children.length > 0 := List.length_pos.2 hc
  have hR : Wheres.string h w.Children nb getPh
      = Wheres.stringWith h (fun p first nb => Where.stringF h getPh (n + 2) p first nb)
          w.Children nb := by
    simp only [Wheres.string, Where.string, hn]
  rw [hR]
  unfold Where.string
  rw [hn, Where.stringF]
  simp only [hp, if_pos hpos]
  have hcong : Wheres.stringWith h (fun p first nb => Where.stringF h getPh (n + 2) p first nb)
      w.Children nb = Wheres.stringWith h (Where.stringF h getPh (n + 1)) w.Children nb := by
    apply stringWith_agree 0 h h (AgreeButCond_refl 0 h)
    intro i q hq nb1
    obtain ⟨wq, hwq, hqc⟩ := (hh p w hp).2.1 q (List.getElem?_mem hq)
    show Where.stringF h getPh (n + 1 + 1) q (i == 0) nb1 = _
    rw [stringF_leaf h getPh (n + 1) q wq hwq hqc, stringF_leaf h getPh n q wq hwq hqc]
  rw [hcong]
  cases Wheres.stringWith h (Where.stringF h getPh (n + 1)) w.Children nb with
  | none => rfl
  | some sa => rfl

theorem chainRows_zip (xs ys : List Val) (hl : ys.length = xs.length) :
    chainRows [xs, ys] (List.range xs.length)
      = some (((xs.zip ys).map (fun p => [p.1, p.2])).flatten) := by
  have h := chainRows_pairs (xs.zip ys) []
  simp only [List.nil_append, List.length_nil, List.length_zip, hl, Nat.min_self,
    ← List.range_eq_range'] at h
  rw [List.map_fst_zip _ _ (by omega), List.map_snd_zip _ _ (by omega)] at h
  exact h

/-- On a heap in which the combine-right peer of a leaf ends the chain and
holds as many values as the leaf, the first-position rendering of a leaf is its
clause. -/
theorem leafString_eq_leafClause (h : Heap) (getPh : Kind → GoString) (p : Nat) (w : Where)
    (hp : h[p]? = some w)
    (hchain : ∀ q, w.CombineRight = some q → ∃ wq : Where, h[q]? = some wq ∧
      wq.CombineRight = none ∧ wq.Value.length = w.Value.length) :
    Where.leafString h getPh p w true = leafClause h getPh w := by
  unfold Where.leafString leafClause
  cases hv : w.Value with
  | nil => simp
  | cons v vs =>
    simp only [List.getElem?_cons_zero]
    cases hk : typeKind v with
    | none => rfl
    | some k =>
      simp only []
      by_cases hop : w.Operation = OpIn ∨ w.Operation = OpNotIn
      · simp only [if_pos hop]
        cases hcr : w.CombineRight with
        | none => simp only [if_true, hv]
        | some q =>
          obtain ⟨wq, hwq, hqr, hql⟩ := hchain q hcr
          obtain ⟨n, hn⟩ : ∃ n, h.length = n + 1 :=
            ⟨h.length - 1, by have := lt_length_of_getElem? _ _ _ hp; omega⟩
          have hch := chainLoop_two h getPh p q w wq hp hcr hwq hqr n [] [] []
          simp only [hwq, hn]
          rw [hch]
          have hb0 : (w.Value[0]?).bind typeKind = some k := by rw [hv]; simpa using hk
          rw [hb0]
          cases hv1 : wq.Value with
          | nil => simp
          | cons v1 vs1 =>
            simp only [List.getElem?_cons_zero, Option.some_bind]
            cases hk1 : typeKind v1 with
            | none => rfl
            | some k1 =>
              simp only [List.nil_append, List.getElem?_cons_zero]
              have hrows := chainRows_zip w.Value wq.Value hql
              rw [hv, hv1] at hrows
              simp only [List.length_cons] at hrows
              simp only [hv, List.length_cons, hrows, if_true]
      · simp only [if_neg hop, if_true, hv]

/-- The rendering of a condition list on a heap of the fluent interface: the
rendered nodes are the entries that do not directly follow an entry with a
combine-right peer; the text is the clause of the first followed by one space,
the tag, one space and the clause of every later one; the clause of a node with
children is the text of its children, that of a leaf its leaf clause. -/
theorem Wheres_string_structure (h : Heap) (getPh : Kind → GoString) (hh : HeapInv h)
    (hval : ∀ (p : Nat) (w : Where), h[p]? = some w → w.Children = [] →
      ∃ v vs, w.Value = v :: vs ∧ v ≠ Val.nil)
    (hlen : ∀ (p q : Nat) (w wq : Where), h[p]? = some w → w.CombineRight = some q →
      h[q]? = some wq → wq.Value.length = w.Value.length)
    (whs : Wheres) (hw : ∀ p ∈ whs, p < h.length) (nb : Bool) :
    ∃ nodes : List (Nat × GoString × GoString × List Val),
      nodes.map (fun e => e.1) = renderedNodes h false whs ∧
      (∀ e ∈ nodes, ∃ w : Where, h[e.1]? = some w ∧ e.2.1 = w.Cond ∧
        (if w.Children = [] then leafClause h getPh w = some (e.2.2.1, e.2.2.2)
         else Wheres.string h w.Children (decide (whs.length > 1)) getPh
           = some (e.2.2.1, e.2.2.2))) ∧
      Wheres.string h whs nb getPh
        = some (if nb = true ∧ whs.length > 1
            then _wrapBracket (taggedClauses (nodes.map (fun e => (e.2.1, e.2.2.1))))
            else taggedClauses (nodes.map (fun e => (e.2.1, e.2.2.1))),
          (nodes.map (fun e => e.2.2.2)).flatten) := by
  obtain ⟨⟨t, a⟩, hs⟩ := Wheres_string_isSome h getPh hh hval hlen whs hw nb
  obtain ⟨nodes, h1, h2, h3, h4⟩ := Wheres_string_nodes h getPh whs nb t a hs
  refine ⟨nodes, h1, ?_, by rw [hs, h3, h4]⟩
  intro e he
  obtain ⟨w, hp, htag, hstr⟩ := h2 e he
  refine ⟨w, hp, htag, ?_⟩
  by_cases hc : w.Children = []
  · rw [if_pos hc]
    rw [string_leaf h getPh e.1 w hp hc] at hstr
    rw [← leafString_eq_leafClause h getPh e.1 w hp ?_]
    · exact hstr
    · intro q hq
      obtain ⟨wq, hwq, hqr, _⟩ := (hh e.1 w hp).2.2 q hq
      exact ⟨wq, hwq, hqr, hlen e.1 q w wq hp hq hwq⟩
  · rw [if_neg hc]
    rw [string_branch h getPh hh e.1 w hp hc] at hstr
    exact hstr

end Builder

namespace Builder

/-! ### The last entry of a condition list has no combine-right peer -/

theorem where_last (h : Heap) (whs : Wheres) (field op : GoString) (value : List Val)
    (cond : GoString) :
    ∀ q, (Wheres.where_ h whs field op value cond).2.getLast? = some q →
      hasRight (Wheres.where_ h whs field op value cond).1 q = false := by
  intro q hq
  have hlast : (whs ++ [h.length]).getLast? = some h.length := by simp
  simp only [Wheres.where_, hlast, Option.some.injEq] at hq
  subst hq
  simp [Wheres.where_, hasRight]

theorem whereInWith_last
    (add : Heap → Wheres → GoString → List Val → Heap × Wheres)
    (hadd : ∀ (h : Heap) (whs : Wheres) (f : GoString) (vs : List Val),
      ∀ q, (add h whs f vs).2.getLast? = some q → hasRight (add h whs f vs).1 q = false)
    (h : Heap) (b : SQLBulder) (f : GoString) (value : List Val) (h1 : Heap) (b1 : SQLBulder)
    (hl : ∀ q, b.whereList.getLast? = some q → hasRight h q = false)
    (hrun : whereInWith add h b f value = some (h1, b1)) :
    ∀ q, b1.whereList.getLast? = some q → hasRight h1 q = false := by
  unfold whereInWith at hrun
  by_cases h0 : value.length = 0
  · rw [if_pos h0] at hrun
    simp only [Option.some.injEq, Prod.mk.injEq] at hrun
    obtain ⟨rfl, rfl⟩ := hrun
    exact hl
  · rw [if_neg h0] at hrun
    cases hg : _getInValues value with
    | none => simp [hg] at hrun
    | some vals =>
      simp only [hg] at hrun
      by_cases h00 : vals.length = 0
      · rw [if_pos h00] at hrun
        simp only [Option.some.injEq, Prod.mk.injEq] at hrun
        obtain ⟨rfl, rfl⟩ := hrun
        exact hl
      · rw [if_neg h00] at hrun
        simp only [Option.some.injEq, Prod.mk.injEq] at hrun
        obtain ⟨rfl, rfl⟩ := hrun
        exact hadd h b.whereList f vals

theorem newBranch_root (h : Heap) (cond : GoString) (calls : List WCall) (h1 : Heap) (p : Nat)
    (hrun : newBranch h cond (runCallback calls) = some (h1, p)) :
    hasRight h1 p = false := by
  unfold newBranch at hrun
  simp only [] at hrun
  cases hf : runCallback calls
      (h ++ [{ Field := [], Operation := [], Value := [], Children := [], Cond := cond,
               CombineRight := none, CombineLeft := none }]) [] with
  | none => simp [hf] at hrun
  | some r =>
    obtain ⟨h2, children⟩ := r
    obtain ⟨ext, e1, e2, hb, hl⟩ := runCallback_effect calls _ _ h2 children hf
    subst e1
    simp only [hf] at hrun
    have hupd := Heap_update_block h
      ([{ Field := [], Operation := [], Value := [], Children := [], Cond := cond,
          CombineRight := none, CombineLeft := none }] ++ ext) 0
        { Field := [], Operation := [], Value := [], Children := [], Cond := cond,
          CombineRight := none, CombineLeft := none }
        (fun w => { w with Children := children }) (by simp)
    simp only [Nat.add_zero, ← List.append_assoc] at hupd
    rw [hupd] at hrun
    simp only [Option.some.injEq, Prod.mk.injEq] at hrun
    obtain ⟨rfl, rfl⟩ := hrun
    have hg := getElem?_append_base h
      (({ Field := [], Operation := [], Value := [], Children := [], Cond := cond,
          CombineRight := none, CombineLeft := none } :: ext).set 0
        { Field := [], Operation := [], Value := [], Children := children, Cond := cond,
          CombineRight := none, CombineLeft := none }) 0
    simp only [Nat.add_zero, List.set_cons_zero, List.getElem?_cons_zero] at hg
    simp only [hasRight, List.singleton_append, List.set_cons_zero, hg]
    rfl

theorem combineIn_last (h0 : Heap) (whs0 : Wheres) (fields : List GoString)
    (values : List (List Val)) (h1 : Heap) (whs1 : Wheres)
    (hl : ∀ q, whs0.getLast? = some q → hasRight h0 q = false)
    (hrun : Wheres.WhereCombineIn h0 whs0 fields values = some (h1, whs1)) :
    ∀ q, whs1.getLast? = some q → hasRight h1 q = false := by
  obtain ⟨ext, rfl, rfl, hok⟩ := WhereCombineIn_effect h0 whs0 fields values h1 whs1 hrun
  intro q hq
  by_cases he : ext = []
  · subst he
    simp only [List.length_nil, List.range'_zero, List.append_nil] at hq ⊢
    exact hl q hq
  · obtain ⟨k, hk⟩ : ∃ k, ext.length = k + 1 :=
      ⟨ext.length - 1, by have := List.length_pos.2 he; omega⟩
    have hr : List.range' h0.length ext.length = List.range' h0.length k ++ [h0.length + k] := by
      rw [hk, range'_snoc]
    rw [hr, ← List.append_assoc] at hq
    have hlast : (whs0 ++ List.range' h0.length k ++ [h0.length + k]).getLast?
        = some (h0.length + k) := by simp
    rw [hlast] at hq
    simp only [Option.some.injEq] at hq
    subst hq
    have hlt : k < ext.length := by omega
    have hg : (h0 ++ ext)[h0.length + k]? = some (ext.get ⟨k, hlt⟩) := by
      rw [getElem?_append_base]
      exact List.getElem?_eq_getElem hlt
    obtain ⟨_, _, h1k, h0k⟩ := hok k (ext.get ⟨k, hlt⟩) (List.getElem?_eq_getElem hlt)
    simp only [hasRight, hg]
    by_cases hk0 : k = 0
    · rcases h0k hk0 with hc | ⟨_, hc⟩
      · change (ext.get ⟨k, hlt⟩).CombineRight.isSome = false
        rw [hc]; rfl
      · omega
    · change (ext.get ⟨k, hlt⟩).CombineRight.isSome = false
      rw [h1k (by omega)]; rfl

theorem BCall_last (c : BCall) (h : Heap) (b : SQLBulder) (h1 : Heap) (b1 : SQLBulder)
    (hl : ∀ q, b.whereList.getLast? = some q → hasRight h q = false)
    (hrun : c.run h b = some (h1, b1)) :
    ∀ q, b1.whereList.getLast? = some q → hasRight h1 q = false := by
  cases c with
  | Where f o v =>
    simp only [BCall.run, SQLBulder.Where, Wheres.Where, Option.some.injEq,
      Prod.mk.injEq] at hrun
    obtain ⟨rfl, rfl⟩ := hrun
    exact where_last h b.whereList f _ [v] _
  | OrWhere f o v =>
    simp only [BCall.run, SQLBulder.OrWhere, Wheres.OrWhere, Option.some.injEq,
      Prod.mk.injEq] at hrun
    obtain ⟨rfl, rfl⟩ := hrun
    exact where_last h b.whereList f _ [v] _
  | WhereIn f vs =>
    exact whereInWith_last Wheres.WhereIn
      (fun h whs f vs => where_last h whs f OpIn vs _) h b f vs h1 b1 hl hrun
  | OrWhereIn f vs =>
    exact whereInWith_last Wheres.OrWhereIn
      (fun h whs f vs => where_last h whs f OpIn vs _) h b f vs h1 b1 hl hrun
  | WhereNotIn f vs =>
    exact whereInWith_last Wheres.WhereNotIn
      (fun h whs f vs => where_last h whs f OpNotIn vs _) h b f vs h1 b1 hl hrun
  | OrWhereNotIn f vs =>
    exact whereInWith_last Wheres.OrWhereNotIn
      (fun h whs f vs => where_last h whs f OpNotIn vs _) h b f vs h1 b1 hl hrun
  | WhereCombineIn fs vs =>
    simp only [BCall.run, SQLBulder.WhereCombineIn] at hrun
    by_cases h0 : vs.length = 0
    · rw [if_pos h0] at hrun
      simp only [Option.some.injEq, Prod.mk.injEq] at hrun
      obtain ⟨rfl, rfl⟩ := hrun
      exact hl
    · rw [if_neg h0] at hrun
      cases hc : Wheres.WhereCombineIn h b.whereList fs vs with
      | none => simp [hc] at hrun
      | some r =>
        obtain ⟨h2, whs2⟩ := r
        simp only [hc, Option.some.injEq, Prod.mk.injEq] at hrun
        obtain ⟨rfl, rfl⟩ := hrun
        exact combineIn_last h b.whereList fs vs _ _ hl hc
  | Wheres fn =>
    simp only [BCall.run, SQLBulder.Wheres] at hrun
    cases hn : newBranch h WhereCondAnd (runCallback fn) with
    | none => simp [hn] at hrun
    | some r =>
      obtain ⟨h2, p⟩ := r
      simp only [hn, Option.some.injEq, Prod.mk.injEq] at hrun
      obtain ⟨rfl, rfl⟩ := hrun
      intro q hq
      have hlast : (b.whereList ++ [p]).getLast? = some p := by simp
      rw [show ({ b with whereList := b.whereList ++ [p] } : SQLBulder).whereList
        = b.whereList ++ [p] from rfl, hlast] at hq
      simp only [Option.some.injEq] at hq
      subst hq
      exact newBranch_root h _ fn _ _ hn
  | OrWheres fn =>
    simp only [BCall.run, SQLBulder.OrWheres] at hrun
    cases hn : newBranch h WhereCondOr (runCallback fn) with
    | none => simp [hn] at hrun
    | some r =>
      obtain ⟨h2, p⟩ := r
      simp only [hn, Option.some.injEq, Prod.mk.injEq] at hrun
      obtain ⟨rfl, rfl⟩ := hrun
      intro q hq
      have hlast : (b.whereList ++ [p]).getLast? = some p := by simp
      rw [show ({ b with whereList := b.whereList ++ [p] } : SQLBulder).whereList
        = b.whereList ++ [p] from rfl, hlast] at hq
      simp only [Option.some.injEq] at hq
      subst hq
      exact newBranch_root h _ fn _ _ hn

/-- After calls of the fluent interface the last entry of the condition list
has no combine-right peer: a combine chain is appended with its peer. -/
theorem runCalls_last (calls : List BCall) :
    ∀ (h : Heap) (b : SQLBulder) (h1 : Heap) (b1 : SQLBulder),
      (∀ q, b.whereList.getLast? = some q → hasRight h q = false) →
      runCalls calls h b = some (h1, b1) →
      ∀ q, b1.whereList.getLast? = some q → hasRight h1 q = false := by
  induction calls with
  | nil =>
    intro h b h1 b1 hl hrun
    simp only [runCalls, Option.some.injEq, Prod.mk.injEq] at hrun
    obtain ⟨rfl, rfl⟩ := hrun
    exact hl
  | cons c rest ih =>
    intro h b h1 b1 hl hrun
    rw [runCalls] at hrun
    cases hc : c.run h b with
    | none => simp [hc] at hrun
    | some r =>
      obtain ⟨h2, b2⟩ := r
      simp only [hc] at hrun
      exact ih h2 b2 h1 b1 (BCall_last c h b h2 b2 hl hc) hrun

/-! ### Rendered nodes of an extended list -/

theorem renderedNodes_append (h : Heap) :
    ∀ (l l2 : Wheres) (s : Bool),
      renderedNodes h s (l ++ l2)
        = renderedNodes h s l ++
          renderedNodes h ((l.getLast?.map (hasRight h)).getD s) l2 := by
  intro l
  induction l with
  | nil => intro l2 s; rfl
  | cons p rest ih =>
    intro l2 s
    show (if s = true then [] else [p]) ++ renderedNodes h (hasRight h p) (rest ++ l2)
      = ((if s = true then [] else [p]) ++ renderedNodes h (hasRight h p) rest) ++ _
    rw [ih l2 (hasRight h p), List.append_assoc]
    congr 2
    cases rest with
    | nil => rfl
    | cons q t =>
      rw [List.getLast?_cons_cons]
      cases hq : (q :: t).getLast? with
      | none => simp at hq
      | some x => rfl

theorem hasRight_append (h ext : Heap) (p : Nat) (hp : p < h.length) :
    hasRight (h ++ ext) p = hasRight h p := by
  simp only [hasRight, List.getElem?_append_left hp]

/-! ### `WhereCombineIn` with two fields on any builder -/

theorem combineInLink_two_gen (fv : GoMap (List Val)) (f1 f2 : GoString) (h : Heap)
    (whs0 : Wheres) :
    combineInLink fv [f1, f2] 0 h whs0
      = some
        (h ++ [{ Field := f1, Operation := OpIn, Value := mapGet fv f1 [], Children := [],
                 Cond := WhereCondAnd, CombineRight := some (h.length + 1),
                 CombineLeft := none },
               { Field := f2, Operation := OpIn, Value := mapGet fv f2 [], Children := [],
                 Cond := WhereCondAnd, CombineRight := none,
                 CombineLeft := some h.length }],
         whs0 ++ [h.length, h.length + 1]) := by
  have e1 : goIndex (whs0 ++ [h.length, h.length + 1])
      (((whs0.length + 2 : Nat) : Int) - ((0 + 1 : Nat) : Int) - 1) = some h.length := by
    rw [show (((whs0.length + 2 : Nat) : Int) - ((0 + 1 : Nat) : Int) - 1)
      = ((whs0.length + 0 : Nat) : Int) by push_cast; ring, goIndex_nat, getElem?_append_base]
    rfl
  have e2 : goIndex (whs0 ++ [h.length, h.length + 1])
      (((whs0.length + 2 : Nat) : Int) - ((0 + 1 : Nat) : Int)) = some (h.length + 1) := by
    rw [show (((whs0.length + 2 : Nat) : Int) - ((0 + 1 : Nat) : Int))
      = ((whs0.length + 1 : Nat) : Int) by push_cast; ring, goIndex_nat, getElem?_append_base]
    rfl
  simp only [combineInLink, Wheres.where_, List.length_append,
    List.length_singleton, List.length_cons, List.length_nil,
    lt_self_iff_false, if_false, Nat.lt_add_one, if_true, zero_add, List.append_assoc,
    List.singleton_append, e1, e2]
  rw [Heap_update_fst]
  simp only []
  rw [Heap_update_snd]

theorem WhereCombineIn_two_gen (h : Heap) (b : SQLBulder) (f1 f2 : GoString) (hf : f1 ≠ f2)
    (p : Val × Val) (ps : List (Val × Val)) :
    ∃ A B : Where,
      b.WhereCombineIn h [f1, f2] ((p :: ps).map (fun p => [p.1, p.2]))
        = some (h ++ [A, B],
            { b with whereList := b.whereList ++ [h.length, h.length + 1] }) ∧
      A.Field = f1 ∧ B.Field = f2 ∧ A.Children = [] ∧ B.Children = [] ∧
      A.Operation = OpIn ∧ A.Cond = WhereCondAnd ∧
      A.CombineRight = some (h.length + 1) ∧ A.Value = (p :: ps).map Prod.fst ∧
      B.CombineRight = none ∧ B.Value = (p :: ps).map Prod.snd := by
  obtain ⟨fv, hfv, hv1, hv2⟩ := combineInCollect_pairs f1 f2 hf (p :: ps)
  obtain ⟨A, hA⟩ : ∃ A : Where, A =
      { Field := f1, Operation := OpIn, Value := mapGet fv f1 [], Children := [],
        Cond := WhereCondAnd, CombineRight := some (h.length + 1), CombineLeft := none } :=
    ⟨_, rfl⟩
  obtain ⟨B, hB⟩ : ∃ B : Where, B =
      { Field := f2, Operation := OpIn, Value := mapGet fv f2 [], Children := [],
        Cond := WhereCondAnd, CombineRight := none, CombineLeft := some h.length } :=
    ⟨_, rfl⟩
  have hlink := combineInLink_two_gen fv f1 f2 h b.whereList
  rw [← hA, ← hB] at hlink
  refine ⟨A, B, ?_, ?_, ?_, ?_, ?_, ?_, ?_, ?_, ?_, ?_, ?_⟩
  · simp only [SQLBulder.WhereCombineIn, Wheres.WhereCombineIn, hfv,
      hlink, List.length_map, List.length_cons]
    rfl
  · rw [hA]
  · rw [hB]
  · rw [hA]
  · rw [hB]
  · rw [hA]
  · rw [hA]
  · rw [hA]
  · rw [hA]; exact hv1
  · rw [hB]
  · rw [hB]; exact hv2

theorem zip_fst_snd (ps : List (Val × Val)) :
    (ps.map Prod.fst).zip (ps.map Prod.snd) = ps := by
  induction ps with
  | nil => rfl
  | cons p t ih => simp only [List.map_cons, List.zip_cons_cons, ih]

/-- The clause of the head of a chain of two `in` leaves. -/
theorem chain_leafClause (h : Heap) (getPh : Kind → GoString) (A B : Where) (q : Nat)
    (p : Val × Val) (ps : List (Val × Val)) (k0 k1 : Kind)
    (hk0 : typeKind p.1 = some k0) (hk1 : typeKind p.2 = some k1)
    (hAo : A.Operation = OpIn) (hAr : A.CombineRight = some q) (hB : h[q]? = some B)
    (hAv : A.Value = (p :: ps).map Prod.fst) (hBv : B.Value = (p :: ps).map Prod.snd) :
    leafClause h getPh A
      = some (join [_wrapBracket (join [A.Field, B.Field] (lit ",")), OpIn,
            _wrapBracket (_stringRepeatJoin (_wrapBracket (getPh k0 ++ lit "," ++ getPh k1))
              (lit ",") (ps.length + 1))] (lit " "),
          ((p :: ps).map (fun p => [p.1, p.2])).flatten) := by
  unfold leafClause
  rw [hAv]
  simp only [List.map_cons, hk0, hAo, true_or, if_true, hAr, hB, hBv, hk1,
    List.length_cons, List.length_map]
  have hz := zip_fst_snd (p :: ps)
  simp only [List.map_cons] at hz
  rw [hz]
  rfl

end Builder

namespace Builder

/-- The state after `WhereCombineIn` with two fields on a builder of the fluent
interface: the heap keeps its invariant, the leaves hold non-nil first values
and chains hold value lists of equal length. -/
theorem combine_two_state (h : Heap) (A B : Where) (p : Val × Val) (ps : List (Val × Val))
    (hinv : HeapInv h)
    (hval : ∀ w ∈ h, w.Children = [] → ∃ v vs, w.Value = v :: vs ∧ v ≠ Val.nil)
    (hlen : ∀ w ∈ h, ∀ (q : Nat) (wq : Where), w.CombineRight = some q →
      h[q]? = some wq → wq.Value.length = w.Value.length)
    (hp1 : p.1 ≠ Val.nil) (hp2 : p.2 ≠ Val.nil)
    (hAr : A.CombineRight = some (h.length + 1)) (hAv : A.Value = (p :: ps).map Prod.fst)
    (hBr : B.CombineRight = none) (hBv : B.Value = (p :: ps).map Prod.snd) :
    (∀ (q : Nat) (w : Where), (h ++ [A, B])[q]? = some w → w.Children = [] →
      ∃ v vs, w.Value = v :: vs ∧ v ≠ Val.nil) ∧
    (∀ (q r : Nat) (w wq : Where), (h ++ [A, B])[q]? = some w → w.CombineRight = some r →
      (h ++ [A, B])[r]? = some wq → wq.Value.length = w.Value.length) := by
  have hA : (h ++ [A, B])[h.length]? = some A := by
    have := getElem?_append_base h [A, B] 0
    simpa using this
  have hB : (h ++ [A, B])[h.length + 1]? = some B := by
    have := getElem?_append_base h [A, B] 1
    simpa using this
  have hcases : ∀ (q : Nat) (w : Where), (h ++ [A, B])[q]? = some w →
      (q < h.length ∧ h[q]? = some w) ∨ (q = h.length ∧ w = A) ∨ (q = h.length + 1 ∧ w = B) := by
    intro q w hq
    by_cases hlt : q < h.length
    · rw [List.getElem?_append_left hlt] at hq
      exact Or.inl ⟨hlt, hq⟩
    · have hq2 := lt_length_of_getElem? _ _ _ hq
      simp only [List.length_append, List.length_cons, List.length_nil] at hq2
      by_cases h0 : q = h.length
      · subst h0
        rw [hA] at hq
        exact Or.inr (Or.inl ⟨rfl, (Option.some.inj hq).symm⟩)
      · have h1 : q = h.length + 1 := by omega
        subst h1
        rw [hB] at hq
        exact Or.inr (Or.inr ⟨rfl, (Option.some.inj hq).symm⟩)
  constructor
  · intro q w hq hc
    rcases hcases q w hq with ⟨_, hq1⟩ | ⟨_, rfl⟩ | ⟨_, rfl⟩
    · exact hval w (List.getElem?_mem hq1) hc
    · exact ⟨p.1, ps.map Prod.fst, by rw [hAv]; rfl, hp1⟩
    · exact ⟨p.2, ps.map Prod.snd, by rw [hBv]; rfl, hp2⟩
  · intro q r w wq hq hcr hr
    rcases hcases q w hq with ⟨_, hq1⟩ | ⟨_, rfl⟩ | ⟨_, rfl⟩
    · obtain ⟨wq1, hwq1, _, _⟩ := (hinv q w hq1).2.2 r hcr
      have hrl := lt_length_of_getElem? _ _ _ hwq1
      rw [List.getElem?_append_left hrl] at hr
      exact hlen w (List.getElem?_mem hq1) r wq hcr hr
    · rw [hAr] at hcr
      simp only [Option.some.injEq] at hcr
      subst hcr
      rw [hB] at hr
      simp only [Option.some.injEq] at hr
      subst hr
      rw [hAv, hBv]
      simp
    · rw [hBr] at hcr
      cases hcr

/-- The rendering of a condition list that ends with a chain of two `in`
leaves: the earlier rendered nodes, then the clause of the chain with the tag
of its head. -/
theorem combine_two_list (h : Heap) (whs0 : Wheres) (getPh : Kind → GoString) (A B : Where)
    (p : Val × Val) (ps : List (Val × Val)) (k0 k1 : Kind)
    (hinv1 : HeapInv (h ++ [A, B]))
    (hptr : ∀ q ∈ whs0, q < h.length)
    (hlast : ∀ q, whs0.getLast? = some q → hasRight h q = false)
    (hval1 : ∀ (q : Nat) (w : Where), (h ++ [A, B])[q]? = some w → w.Children = [] →
      ∃ v vs, w.Value = v :: vs ∧ v ≠ Val.nil)
    (hlen1 : ∀ (q r : Nat) (w wq : Where), (h ++ [A, B])[q]? = some w →
      w.CombineRight = some r → (h ++ [A, B])[r]? = some wq →
      wq.Value.length = w.Value.length)
    (hk0 : typeKind p.1 = some k0) (hk1 : typeKind p.2 = some k1)
    (hAc : A.Children = []) (hAo : A.Operation = OpIn)
    (hAr : A.CombineRight = some (h.length + 1)) (hAv : A.Value = (p :: ps).map Prod.fst)
    (hBv : B.Value = (p :: ps).map Prod.snd) :
    ∃ prior : List (Nat × GoString × GoString × List Val),
      prior.map (fun e => e.1) = renderedNodes (h ++ [A, B]) false whs0 ∧
      renderedNodes (h ++ [A, B]) false (whs0 ++ [h.length, h.length + 1])
        = prior.map (fun e => e.1) ++ [h.length] ∧
      (∀ e ∈ prior, ∃ w : Where, (h ++ [A, B])[e.1]? = some w ∧ e.2.1 = w.Cond ∧
        (if w.Children = [] then leafClause (h ++ [A, B]) getPh w = some (e.2.2.1, e.2.2.2)
         else Wheres.string (h ++ [A, B]) w.Children true getPh
           = some (e.2.2.1, e.2.2.2))) ∧
      Wheres.string (h ++ [A, B]) (whs0 ++ [h.length, h.length + 1]) false getPh
        = some (taggedClauses (prior.map (fun e => (e.2.1, e.2.2.1)) ++
              [(A.Cond, join [_wrapBracket (join [A.Field, B.Field] (lit ",")), OpIn,
                _wrapBracket (_stringRepeatJoin
                  (_wrapBracket (getPh k0 ++ lit "," ++ getPh k1)) (lit ",")
                  (ps.length + 1))] (lit " "))]),
            (prior.map (fun e => e.2.2.2)).flatten ++
              ((p :: ps).map (fun p => [p.1, p.2])).flatten) := by
  have hA : (h ++ [A, B])[h.length]? = some A := by
    have := getElem?_append_base h [A, B] 0
    simpa using this
  have hB : (h ++ [A, B])[h.length + 1]? = some B := by
    have := getElem?_append_base h [A, B] 1
    simpa using this
  have hvalid : ∀ q ∈ whs0 ++ [h.length, h.length + 1], q < (h ++ [A, B]).length := by
    intro q hq
    simp only [List.length_append, List.length_cons, List.length_nil]
    rcases List.mem_append.mp hq with hq | hq
    · have := hptr q hq; omega
    · simp only [List.mem_cons, List.mem_singleton, List.not_mem_nil, or_false] at hq
      omega
  obtain ⟨nodes, hn1, hn2, hn3⟩ := Wheres_string_structure (h ++ [A, B]) getPh hinv1 hval1
    hlen1 (whs0 ++ [h.length, h.length + 1]) hvalid false
  have hst : ((whs0.getLast?.map (hasRight (h ++ [A, B]))).getD false) = false := by
    cases hq : whs0.getLast? with
    | none => rfl
    | some q =>
      simp only [Option.map_some', Option.getD_some]
      rw [hasRight_append h [A, B] q (hptr q (List.mem_of_getLast?_eq_some hq))]
      exact hlast q hq
  have hrA : hasRight (h ++ [A, B]) h.length = true := by
    simp only [hasRight, hA, hAr]
    rfl
  have hren : renderedNodes (h ++ [A, B]) false (whs0 ++ [h.length, h.length + 1])
      = renderedNodes (h ++ [A, B]) false whs0 ++ [h.length] := by
    rw [renderedNodes_append, hst]
    simp only [renderedNodes, hrA, Bool.false_eq_true, if_false, if_true, List.append_nil,
      List.nil_append]
  rw [hren] at hn1
  obtain ⟨prior, lst, hnodes, hprior, hlst⟩ := List.map_eq_append_iff.1 hn1
  obtain ⟨e, rfl, he1⟩ : ∃ e, lst = [e] ∧ e.1 = h.length := by
    rcases lst with _ | ⟨e, _ | ⟨e2, t⟩⟩
    · simp at hlst
    · simp only [List.map_cons, List.map_nil, List.cons.injEq, and_true] at hlst
      exact ⟨e, rfl, hlst⟩
    · simp at hlst
  subst hnodes
  have hlen2 : decide ((whs0 ++ [h.length, h.length + 1]).length > 1) = true := by simp
  rw [hlen2] at hn2
  obtain ⟨w, hw, htag, hcl⟩ := hn2 e (by simp)
  rw [he1, hA] at hw
  simp only [Option.some.injEq] at hw
  subst hw
  rw [if_pos hAc, chain_leafClause (h ++ [A, B]) getPh A B (h.length + 1) p ps k0 k1 hk0 hk1
    hAo hAr hB hAv hBv] at hcl
  simp only [Option.some.injEq, Prod.mk.injEq] at hcl
  refine ⟨prior, hprior, by rw [hren, hprior], fun x hx => hn2 x (by simp [hx]), ?_⟩
  rw [hn3]
  simp only [Bool.false_eq_true, false_and, if_false, List.map_append, List.map_cons,
    List.map_nil, List.flatten_append, List.flatten_cons, List.flatten_nil, List.append_nil,
    htag, ← hcl.1, ← hcl.2]

end Builder

namespace Builder

/-! ### Unescaping an escaped text -/

theorem unescapeFrom_escapeByte (b : Nat) (rest : GoString) :
    unescapeFrom false (escapeByte b ++ rest) = b :: unescapeFrom false rest := by
  unfold escapeByte
  split_ifs with h1 h2 h3 h4 h5 h6 h7
  · subst h1; rfl
  · subst h2; rfl
  · subst h3; rfl
  · subst h4; rfl
  · subst h5; rfl
  · subst h6; rfl
  · subst h7; rfl
  · simp only [List.singleton_append, unescapeFrom, if_neg h4]; rfl

theorem unescape_escape (s : GoString) : unescape (s.flatMap escapeByte) = s := by
  unfold unescape
  induction s with
  | nil => rfl
  | cons b t ih => rw [List.flatMap_cons, unescapeFrom_escapeByte, ih]

theorem escapeByte_token (b : Nat) :
    (escapeByte b = [b] ∧ b ≠ 39 ∧ b ≠ 34 ∧ b ≠ 92) ∨
    (∃ c, escapeByte b = [92, c] ∧ unescapeCode c = some b) := by
  unfold escapeByte
  split_ifs with h1 h2 h3 h4 h5 h6 h7
  · subst h1; exact Or.inr ⟨_, rfl, rfl⟩
  · subst h2; exact Or.inr ⟨_, rfl, rfl⟩
  · subst h3; exact Or.inr ⟨_, rfl, rfl⟩
  · subst h4; exact Or.inr ⟨_, rfl, rfl⟩
  · subst h5; exact Or.inr ⟨_, rfl, rfl⟩
  · subst h6; exact Or.inr ⟨_, rfl, rfl⟩
  · subst h7; exact Or.inr ⟨_, rfl, rfl⟩
  · exact Or.inl ⟨rfl, h5, h6, h4⟩

end Builder

namespace Builder

/-! ### Find by field: the loops -/

theorem findLevel_eq (h : Heap) (field : GoString) :
    ∀ (lvl res tmp : List Nat), (∀ p ∈ lvl, p < h.length) →
      findLevel h field lvl res tmp =
        some (res ++ lvl.filter (hasField h field), tmp ++ lvl.flatMap (childrenOf h)) := by
  intro lvl
  induction lvl with
  | nil => intro res tmp _; simp [findLevel]
  | cons p rest ih =>
    intro res tmp hv
    have hp : p < h.length := hv p (List.mem_cons_self _ _)
    have hget : h[p]? = some h[p] := List.getElem?_eq_getElem hp
    have hrest : ∀ q ∈ rest, q < h.length := fun q hq => hv q (List.mem_cons_of_mem _ hq)
    simp only [findLevel, hget]
    rw [ih _ _ hrest]
    have hc : childrenOf h p = h[p].Children := by simp only [childrenOf, hget]
    have hf : hasField h field p = decide (h[p].Field = field) := by
      simp only [hasField, hget]
    rw [List.flatMap_cons, hc, List.filter_cons, hf]
    by_cases hfield : h[p].Field = field
    · simp [hfield]
    · simp [hfield]

theorem levelNodes_nil (h : Heap) : ∀ d, levelNodes h [] d = [] := by
  intro d
  induction d with
  | zero => rfl
  | succ d ih => simp only [levelNodes, ih, List.flatMap_nil]

theorem levelNodes_shift (h : Heap) (whs : Wheres) :
    ∀ d, levelNodes h whs (d + 1) = levelNodes h (whs.flatMap (childrenOf h)) d := by
  intro d
  induction d with
  | zero => rfl
  | succ d ih =>
    show (levelNodes h whs (d + 1)).flatMap (childrenOf h) = _
    rw [ih]
    rfl

theorem findLoop_eq (h : Heap) (field : GoString) :
    ∀ (fuel k : Nat) (lvl res : List Nat),
      (∀ d, ∀ p ∈ levelNodes h lvl d, p < h.length) → levelNodes h lvl k = [] → k < fuel →
      findLoop h field fuel lvl res =
        some (res ++ (List.range k).flatMap
          (fun d => (levelNodes h lvl d).filter (hasField h field))) := by
  intro fuel
  induction fuel with
  | zero => intro k lvl res _ _ hk; exact absurd hk (Nat.not_lt_zero _)
  | succ fuel ih =>
    intro k lvl res hv hk hlt
    by_cases hl : lvl = []
    · subst hl
      have hz : (List.range k).flatMap
          (fun d => (levelNodes h [] d).filter (hasField h field)) = [] := by
        rw [List.flatMap_eq_nil_iff]
        intro d _
        rw [levelNodes_nil]; rfl
      simp [findLoop, hz]
    · have hpos : lvl.length > 0 := List.length_pos.2 hl
      cases k with
      | zero => exact absurd hk hl
      | succ k =>
        have hv0 : ∀ p ∈ lvl, p < h.length := hv 0
        simp only [findLoop, if_pos hpos, findLevel_eq h field lvl res [] hv0, List.nil_append]
        rw [ih k (lvl.flatMap (childrenOf h)) _ ?_ ?_ (Nat.lt_of_succ_lt_succ hlt)]
        · rw [List.range_succ_eq_map, List.flatMap_cons, List.flatMap_map, List.append_assoc]
          have hfun : (fun d => List.filter (hasField h field)
              (levelNodes h (lvl.flatMap (childrenOf h)) d)) =
              (fun a => List.filter (hasField h field) (levelNodes h lvl a.succ)) := by
            funext d
            rw [← levelNodes_shift]
          rw [hfun]
          rfl
        · intro d p hp
          rw [← levelNodes_shift] at hp
          exact hv (d + 1) p hp
        · rw [← levelNodes_shift]; exact hk

/-! ### Find by field: finite trees -/

/-- A height function can be taken below the number of nodes: the number of
nodes of smaller height. -/
theorem rank_bounded (n : Nat) (r : Nat → Nat) :
    ∃ r2 : Nat → Nat, (∀ p, p < n → r2 p < n) ∧
      ∀ p c, p < n → c < n → r c < r p → r2 c < r2 p := by
  refine ⟨fun p => ((Finset.range n).filter (fun q => r q < r p)).card, ?_, ?_⟩
  · intro p hp
    have hss : (Finset.range n).filter (fun q => r q < r p) ⊂ Finset.range n := by
      rw [Finset.ssubset_iff_of_subset (Finset.filter_subset _ _)]
      exact ⟨p, Finset.mem_range.2 hp, fun hm => absurd (Finset.mem_filter.1 hm).2 (lt_irrefl _)⟩
    simpa using Finset.card_lt_card hss
  · intro p c _ hc hlt
    apply Finset.card_lt_card
    rw [Finset.ssubset_iff_of_subset]
    · exact ⟨c, Finset.mem_filter.2 ⟨Finset.mem_range.2 hc, hlt⟩,
        fun hm => absurd (Finset.mem_filter.1 hm).2 (lt_irrefl _)⟩
    · intro q hq
      have := Finset.mem_filter.1 hq
      exact Finset.mem_filter.2 ⟨this.1, lt_trans this.2 hlt⟩

theorem levelNodes_bound (h : Heap) (whs : Wheres) (r : Nat → Nat)
    (hroots : ∀ p ∈ whs, p < h.length)
    (hacyc : ∀ p wh, h[p]? = some wh → ∀ c ∈ wh.Children, c < h.length ∧ r c < r p) :
    (∀ d, ∀ p ∈ levelNodes h whs d, p < h.length) ∧
    ∀ d, h.length ≤ d → levelNodes h whs d = [] := by
  obtain ⟨r2, hb, hdec⟩ := rank_bounded h.length r
  have key : ∀ d, ∀ p ∈ levelNodes h whs d, p < h.length ∧ r2 p + d < h.length := by
    intro d
    induction d with
    | zero => intro p hp; exact ⟨hroots p hp, hb p (hroots p hp)⟩
    | succ d ih =>
      intro c hc
      obtain ⟨p, hp, hcp⟩ := List.mem_flatMap.1 hc
      obtain ⟨hpl, hpr⟩ := ih p hp
      have hget : h[p]? = some h[p] := List.getElem?_eq_getElem hpl
      have hch : childrenOf h p = h[p].Children := by simp only [childrenOf, hget]
      rw [hch] at hcp
      obtain ⟨hcl, hcr⟩ := hacyc p _ hget c hcp
      have := hdec p c hpl hcl hcr
      exact ⟨hcl, by omega⟩
  refine ⟨fun d p hp => (key d p hp).1, fun d hd => ?_⟩
  apply List.eq_nil_iff_forall_not_mem.2
  intro p hp
  have := (key d p hp).2
  omega

theorem findByField_eq (h : Heap) (whs : Wheres) (field : GoString) (r : Nat → Nat)
    (hroots : ∀ p ∈ whs, p < h.length)
    (hacyc : ∀ p wh, h[p]? = some wh → ∀ c ∈ wh.Children, c < h.length ∧ r c < r p) :
    Wheres.findByField h whs field =
      some ((List.range h.length).flatMap
        (fun d => (levelNodes h whs d).filter (hasField h field))) := by
  obtain ⟨hv, hz⟩ := levelNodes_bound h whs r hroots hacyc
  unfold Wheres.findByField
  by_cases hw : whs.length = 0
  · have hnil : whs = [] := List.length_eq_zero.1 hw
    subst hnil
    have hzz : (List.range h.length).flatMap
        (fun d => (levelNodes h [] d).filter (hasField h field)) = [] := by
      rw [List.flatMap_eq_nil_iff]
      intro d _
      rw [levelNodes_nil]; rfl
    simp [hzz]
  · rw [if_neg hw, findLoop_eq h field (h.length + 1) h.length whs [] hv
      (hz _ (Nat.le_refl _)) (Nat.lt_succ_self _), List.nil_append]

end Builder

namespace Builder

/-- C1 (as stated, refuted): the condition list built by
`New("t").WhereIn("f", nil, 5)` is non-empty, its only leaf `f in (nil, 5)`
holds the non-nil value `5`, its field name and its operator hold no `?`, and
it has no combine chain; in parameterized mode `Wheres.string` returns no text
and no arguments on it: it faults on `reflect.TypeOf(wh.Value[0]).Kind()`, the
first value being nil. -/
theorem where_in_leading_nil_faults :
    ∃ (h : Heap) (b : SQLBulder),
      runCalls [BCall.WhereIn (lit "f") [Val.nil, Val.num .int 5]] [] (New (lit "t") [])
        = some (h, b) ∧
      h = [{ Field := lit "f", Operation := OpIn, Value := [Val.nil, Val.num .int 5],
             Children := [], Cond := WhereCondAnd, CombineRight := none,
             CombineLeft := none }] ∧
      b.whereList = [0] ∧ b.parameterized = true ∧
      Wheres.string h b.whereList false b.placeholder = none :=
  ⟨_, _, rfl, rfl, rfl, rfl, rfl⟩

/-- C1 (amended): for every condition list built through the fluent interface
(any sequence of `Where`, `OrWhere`, `WhereIn`, `OrWhereIn`, `WhereNotIn`,
`OrWhereNotIn`, `WhereCombineIn`, `Wheres`, `OrWheres` on a builder without
conditions, the callbacks of `Wheres` and `OrWheres` chaining calls on their
argument) in which every node without children has a non-nil first value, no
field name and no operator holds a `?`, and the two leaves of a combine chain
hold value lists of equal length, `Wheres.string` in parameterized mode returns
a text and an argument list; the number of `?` in the text is the length of the
argument list; and the `k`-th `?` from the left stands where the value that is
the `k`-th argument belongs: for every rendering `r` of values, the text with
its `k`-th `?` replaced by `r` of the `k`-th argument is the clause written
with the values rendered in place. -/
theorem markers_match_arguments (calls : List BCall) (b0 b : SQLBulder) (h : Heap)
    (hb0 : b0.whereList = [])
    (hrun : runCalls calls [] b0 = some (h, b))
    (hpar : b.parameterized = true)
    (hval : ∀ w ∈ h, w.Children = [] → ∃ v vs, w.Value = v :: vs ∧ v ≠ Val.nil)
    (hq : ∀ w ∈ h, countMarkers w.Field = 0 ∧ countMarkers w.Operation = 0)
    (hlen : ∀ w ∈ h, ∀ (q : Nat) (wq : Where), w.CombineRight = some q →
      h[q]? = some wq → wq.Value.length = w.Value.length) :
    ∃ (text : GoString) (args : List Val),
      Wheres.string h b.whereList false b.placeholder = some (text, args) ∧
      countMarkers text = args.length ∧
      ∀ r : Val → GoString,
        Wheres.inline h b.whereList false r = some (fillMarkers r text args) := by
  obtain ⟨hinv, hptr⟩ := runCalls_preserves calls [] b0 h b HeapInv_nil
    (by rw [hb0]; intro p hp; cases hp) hrun
  rw [placeholder_parameterized b hpar]
  obtain ⟨⟨text, args⟩, hs⟩ := Wheres_string_isSome h (fun _ => lit "?") hinv
    (fun p w hp => hval w (List.getElem?_mem hp))
    (fun p q w wq hp hcr hqq => hlen w (List.getElem?_mem hp) q wq hcr hqq)
    b.whereList hptr false
  refine ⟨text, args, hs, ?_, ?_⟩
  · exact (Wheres_string_rel h (fun _ => []) hinv hq b.whereList false text args hs).1
  · intro r
    exact (Wheres_string_rel h r hinv hq b.whereList false text args hs).2

/-- C1 (amended), at a concrete input:
`New("test").Where("a", "=", 11).Wheres(w.Where("d", "=", 12).OrWhere("f", "<=", "x")).WhereCombineIn([aa, bb], [[10, 20], [11, 22]])`. -/
theorem markers_match_arguments_witness :
    ∃ (h : Heap) (b : SQLBulder),
      runCalls
        [BCall.Where (lit "a") (lit "=") (Val.num .int 11),
         BCall.Wheres [WCall.Where (lit "d") (lit "=") (Val.num .int 12),
                       WCall.OrWhere (lit "f") (lit "<=") (Val.str (lit "x"))],
         BCall.WhereCombineIn [lit "aa", lit "bb"]
           [[Val.num .int 10, Val.num .int 20], [Val.num .int 11, Val.num .int 22]]]
        [] (New (lit "test") []) = some (h, b) ∧
      Wheres.string h b.whereList false b.placeholder
        = some (lit "a = ? AND (d = ? OR f <= ?) AND (aa,bb) in ((?,?),(?,?))",
            [Val.num .int 11, Val.num .int 12, Val.str (lit "x"), Val.num .int 10,
             Val.num .int 20, Val.num .int 11, Val.num .int 22]) ∧
      countMarkers (lit "a = ? AND (d = ? OR f <= ?) AND (aa,bb) in ((?,?),(?,?))") = 7 ∧
      ∀ r : Val → GoString,
        Wheres.inline h b.whereList false r
          = some (fillMarkers r
              (lit "a = ? AND (d = ? OR f <= ?) AND (aa,bb) in ((?,?),(?,?))")
              [Val.num .int 11, Val.num .int 12, Val.str (lit "x"), Val.num .int 10,
               Val.num .int 20, Val.num .int 11, Val.num .int 22]) := by
  have hrun : runCalls
      [BCall.Where (lit "a") (lit "=") (Val.num .int 11),
       BCall.Wheres [WCall.Where (lit "d") (lit "=") (Val.num .int 12),
                     WCall.OrWhere (lit "f") (lit "<=") (Val.str (lit "x"))],
       BCall.WhereCombineIn [lit "aa", lit "bb"]
         [[Val.num .int 10, Val.num .int 20], [Val.num .int 11, Val.num .int 22]]]
      [] (New (lit "test") [])
      = some
        ([{ Field := lit "a", Operation := lit "=", Value := [Val.num .int 11],
            Children := [], Cond := WhereCondAnd, CombineRight := none, CombineLeft := none },
          { Field := [], Operation := [], Value := [],
            Children := [2, 3], Cond := WhereCondAnd, CombineRight := none,
            CombineLeft := none },
          { Field := lit "d", Operation := lit "=", Value := [Val.num .int 12],
            Children := [], Cond := WhereCondAnd, CombineRight := none, CombineLeft := none },
          { Field := lit "f", Operation := lit "<=", Value := [Val.str (lit "x")],
            Children := [], Cond := WhereCondOr, CombineRight := none, CombineLeft := none },
          { Field := lit "aa", Operation := OpIn,
            Value := [Val.num .int 10, Val.num .int 11],
            Children := [], Cond := WhereCondAnd, CombineRight := some 5,
            CombineLeft := none },
          { Field := lit "bb", Operation := OpIn,
            Value := [Val.num .int 20, Val.num .int 22],
            Children := [], Cond := WhereCondAnd, CombineRight := none,
            CombineLeft := some 4 }],
         { New (lit "test") [] with whereList := [0, 1, 4, 5] }) := rfl
  obtain ⟨text, args, h1, h2, h3⟩ := markers_match_arguments _ _ _ _ rfl hrun rfl
    (by
      intro w hw
      simp only [List.mem_cons, List.mem_singleton, List.not_mem_nil, or_false] at hw
      rcases hw with rfl | rfl | rfl | rfl | rfl | rfl
      · exact fun _ => ⟨_, _, rfl, Val.noConfusion⟩
      · intro hc; cases hc
      · exact fun _ => ⟨_, _, rfl, Val.noConfusion⟩
      · exact fun _ => ⟨_, _, rfl, Val.noConfusion⟩
      · exact fun _ => ⟨_, _, rfl, Val.noConfusion⟩
      · exact fun _ => ⟨_, _, rfl, Val.noConfusion⟩)
    (by
      intro w hw
      simp only [List.mem_cons, List.mem_singleton, List.not_mem_nil, or_false] at hw
      rcases hw with rfl | rfl | rfl | rfl | rfl | rfl <;> exact ⟨by decide, by decide⟩)
    (by
      intro w hw q wq hcr hq
      simp only [List.mem_cons, List.mem_singleton, List.not_mem_nil, or_false] at hw
      rcases hw with rfl | rfl | rfl | rfl | rfl | rfl
      all_goals first
        | (cases hcr; done)
        | (cases hcr
           have e : wq = _ := (Option.some.inj hq).symm
           subst e
           rfl))
  have e : some (text, args) = some (_, _) := h1.symm.trans
    (show Wheres.string _ _ false _ = some
      (lit "a = ? AND (d = ? OR f <= ?) AND (aa,bb) in ((?,?),(?,?))",
        [Val.num .int 11, Val.num .int 12, Val.str (lit "x"), Val.num .int 10,
         Val.num .int 20, Val.num .int 11, Val.num .int 22]) from rfl)
  cases e
  exact ⟨_, _, hrun, h1, by decide, h3⟩

end Builder

namespace Builder

/-- C2 (as stated, refuted): in parameterized mode,
`WhereCombineIn([a, a], [[10, 20]])`, two field names and one two-element
tuple, renders `(a,a) in ((?,?),(?,?))`, two placeholder pairs, with the
arguments `[10, 10, 20, 20]` (the map `fieldValues` of `WhereCombineIn` is
keyed by the field name, so both leaves hold `[10, 20]`), not
`(a,a) in ((?,?))` with `[10, 20]`; and
`WhereCombineIn([f1, f2], [[nil, 20]])` renders nothing: `Wheres.string`
faults on `reflect.TypeOf(wh.Value[0]).Kind()`. -/
theorem combine_in_repeated_field_doubles_tuples :
    (∃ (h : Heap) (b : SQLBulder),
      (New (lit "t") []).WhereCombineIn [] [lit "a", lit "a"]
          [[Val.num .int 10, Val.num .int 20]] = some (h, b) ∧
      b.parameterized = true ∧
      Wheres.string h b.whereList false b.placeholder
        = some (lit "(a,a) in ((?,?),(?,?))",
            [Val.num .int 10, Val.num .int 10, Val.num .int 20, Val.num .int 20])) ∧
    (∃ (h : Heap) (b : SQLBulder),
      (New (lit "t") []).WhereCombineIn [] [lit "f1", lit "f2"]
          [[Val.nil, Val.num .int 20]] = some (h, b) ∧
      b.parameterized = true ∧
      Wheres.string h b.whereList false b.placeholder = none) :=
  ⟨⟨_, _, rfl, rfl, rfl⟩, ⟨_, _, rfl, rfl, rfl⟩⟩

/-- C2 (amended): in parameterized mode, on a builder reached by calls of the
fluent interface (with or without earlier conditions, every earlier node
without children holding a non-nil first value and every earlier chain value
lists of equal length), `WhereCombineIn` with two distinct field names
`[f1, f2]` and `N >= 1` two-element tuples of which the first holds no nil value
appends the two leaves of one chain, and the condition list renders exactly one
clause for it, after the clauses of the earlier rendered nodes:
`(f1,f2) in ((?,?),...,(?,?))` with `N` placeholder pairs, preceded by ` AND `
when there is an earlier condition; the arguments are those of the earlier
conditions followed by the tuples flattened row-major (both values of tuple 0,
then both values of tuple 1, ...). -/
theorem combine_in_two_fields_clause (calls : List BCall) (b0 b : SQLBulder) (h : Heap)
    (f1 f2 : GoString) (tuples : List (List Val))
    (hb0 : b0.whereList = []) (hrun : runCalls calls [] b0 = some (h, b))
    (hpar : b.parameterized = true)
    (hval : ∀ w ∈ h, w.Children = [] → ∃ v vs, w.Value = v :: vs ∧ v ≠ Val.nil)
    (hlen : ∀ w ∈ h, ∀ (q : Nat) (wq : Where), w.CombineRight = some q →
      h[q]? = some wq → wq.Value.length = w.Value.length)
    (hf : f1 ≠ f2) (hN : 1 ≤ tuples.length)
    (h2 : ∀ t ∈ tuples, t.length = 2)
    (hnil : ∀ t, tuples[0]? = some t → ∀ v ∈ t, v ≠ Val.nil) :
    ∃ (h1 : Heap) (b1 : SQLBulder) (prior : List (Nat × GoString × GoString × List Val)),
      b.WhereCombineIn h [f1, f2] tuples = some (h1, b1) ∧
      b1.whereList = b.whereList ++ [h.length, h.length + 1] ∧
      prior.map (fun e => e.1) = renderedNodes h1 false b.whereList ∧
      renderedNodes h1 false b1.whereList = prior.map (fun e => e.1) ++ [h.length] ∧
      (∀ e ∈ prior, ∃ w : Where, h1[e.1]? = some w ∧ e.2.1 = w.Cond ∧
        (if w.Children = [] then leafClause h1 b1.placeholder w = some (e.2.2.1, e.2.2.2)
         else Wheres.string h1 w.Children true b1.placeholder
           = some (e.2.2.1, e.2.2.2))) ∧
      Wheres.string h1 b1.whereList false b1.placeholder
        = some (taggedClauses (prior.map (fun e => (e.2.1, e.2.2.1)) ++
              [(WhereCondAnd, lit "(" ++ f1 ++ lit "," ++ f2 ++ lit ") in (" ++
                join (List.replicate tuples.length (lit "(?,?)")) (lit ",") ++ lit ")")]),
            (prior.map (fun e => e.2.2.2)).flatten ++ tuples.flatten) ∧
      (b.whereList = [] →
        Wheres.string h1 b1.whereList false b1.placeholder
          = some (lit "(" ++ f1 ++ lit "," ++ f2 ++ lit ") in (" ++
                join (List.replicate tuples.length (lit "(?,?)")) (lit ",") ++ lit ")",
              tuples.flatten)) := by
  obtain ⟨hinv, hptr⟩ := runCalls_preserves calls [] b0 h b HeapInv_nil
    (by rw [hb0]; intro p hp; cases hp) hrun
  have hlast := runCalls_last calls [] b0 h b (by rw [hb0]; intro q hq; cases hq) hrun
  obtain ⟨pairs, rfl⟩ := tuples_as_pairs tuples h2
  match pairs, hN with
  | p :: ps, _ =>
    obtain ⟨A, B, hwc, hAf, hBf, hAc, hBc, hAo, hAcond, hAr, hAv, hBr, hBv⟩ :=
      WhereCombineIn_two_gen h b f1 f2 hf p ps
    have hp := hnil [p.1, p.2] (by simp)
    have hp1 : p.1 ≠ Val.nil := hp p.1 (by simp)
    have hp2 : p.2 ≠ Val.nil := hp p.2 (by simp)
    obtain ⟨k0, hk0⟩ := typeKind_isSome p.1 hp1
    obtain ⟨k1, hk1⟩ := typeKind_isSome p.2 hp2
    obtain ⟨hinv1, _⟩ := BCall_preserves
      (BCall.WhereCombineIn [f1, f2] ((p :: ps).map (fun p => [p.1, p.2]))) h b _ _ hinv hptr
      (by simp only [BCall.run]; exact hwc)
    obtain ⟨hval1, hlen1⟩ := combine_two_state h A B p ps hinv hval hlen hp1 hp2 hAr hAv hBr hBv
    obtain ⟨prior, g1, g2, g3, g4⟩ := combine_two_list h b.whereList (fun _ => lit "?") A B
      p ps k0 k1 hinv1 hptr hlast hval1 hlen1 hk0 hk1 hAc hAo hAr hAv hBv
    have hph : ({ b with whereList := b.whereList ++ [h.length, h.length + 1] }
        : SQLBulder).placeholder = fun _ => lit "?" :=
      placeholder_parameterized _ hpar
    have htext := combine_two_text f1 f2 ps.length
    rw [hAcond, hAf, hBf, htext] at g4
    have hflat : ((p :: ps).map (fun p => [p.1, p.2])).length = ps.length + 1 := by simp
    refine ⟨h ++ [A, B], _, prior, hwc, rfl, g1, g2, ?_, ?_, ?_⟩
    · rw [hph]; exact g3
    · rw [hph, hflat]; exact g4
    · intro hnone
      rw [hph, hflat]
      have hpr : prior = [] := by
        have := g1
        rw [hnone] at this
        simpa [renderedNodes] using this
      rw [hpr] at g4
      simpa [taggedClauses] using g4

/-- C2 (amended), at the input of `TestSQLBuild` after an earlier condition:
`New("test").Where("x", "=", 1).WhereCombineIn([f1, f2], [[10, 20], [11, 22]])`
renders `x = ? AND (f1,f2) in ((?,?),(?,?))` with the arguments
`[1, 10, 20, 11, 22]`; the rendered nodes are the earlier leaf and the head of
the chain. -/
theorem combine_in_two_fields_clause_witness :
    ∃ (h1 : Heap) (b1 : SQLBulder),
      SQLBulder.WhereCombineIn
          [{ Field := lit "x", Operation := lit "=", Value := [Val.num .int 1], Children := [],
             Cond := WhereCondAnd, CombineRight := none, CombineLeft := none }]
          { New (lit "test") [] with whereList := [0] }
          [lit "f1", lit "f2"]
          [[Val.num .int 10, Val.num .int 20], [Val.num .int 11, Val.num .int 22]]
        = some (h1, b1) ∧
      renderedNodes h1 false b1.whereList = [0, 1] ∧
      Wheres.string h1 b1.whereList false b1.placeholder
        = some (lit "x = ? AND (f1,f2) in ((?,?),(?,?))",
            [Val.num .int 1, Val.num .int 10, Val.num .int 20, Val.num .int 11,
             Val.num .int 22]) := by
  have hrun : runCalls [BCall.Where (lit "x") (lit "=") (Val.num .int 1)] []
      (New (lit "test") [])
      = some
        ([{ Field := lit "x", Operation := lit "=", Value := [Val.num .int 1], Children := [],
            Cond := WhereCondAnd, CombineRight := none, CombineLeft := none }],
         { New (lit "test") [] with whereList := [0] }) := rfl
  obtain ⟨h1, b1, prior, e1, e2, e3, e4, _, e6, _⟩ := combine_in_two_fields_clause
    [BCall.Where (lit "x") (lit "=") (Val.num .int 1)] (New (lit "test") []) _ _
    (lit "f1") (lit "f2")
    [[Val.num .int 10, Val.num .int 20], [Val.num .int 11, Val.num .int 22]]
    rfl hrun rfl
    (by
      intro w hw
      simp only [List.mem_singleton] at hw
      subst hw
      exact fun _ => ⟨_, _, rfl, Val.noConfusion⟩)
    (by
      intro w hw q wq hcr
      simp only [List.mem_singleton] at hw
      subst hw
      cases hcr)
    (by decide) (by decide)
    (by
      intro t ht
      simp only [List.mem_cons, List.mem_singleton, List.not_mem_nil, or_false] at ht
      rcases ht with rfl | rfl <;> rfl)
    (by
      intro t ht v hv
      simp only [List.getElem?_cons_zero, Option.some.injEq] at ht
      subst ht
      simp only [List.mem_cons, List.mem_singleton, List.not_mem_nil, or_false] at hv
      rcases hv with rfl | rfl <;> exact Val.noConfusion)
  have hc : SQLBulder.WhereCombineIn
      [{ Field := lit "x", Operation := lit "=", Value := [Val.num .int 1], Children := [],
         Cond := WhereCondAnd, CombineRight := none, CombineLeft := none }]
      { New (lit "test") [] with whereList := [0] }
      [lit "f1", lit "f2"]
      [[Val.num .int 10, Val.num .int 20], [Val.num .int 11, Val.num .int 22]]
      = some
        ([{ Field := lit "x", Operation := lit "=", Value := [Val.num .int 1], Children := [],
            Cond := WhereCondAnd, CombineRight := none, CombineLeft := none },
          { Field := lit "f1", Operation := OpIn, Value := [Val.num .int 10, Val.num .int 11],
            Children := [], Cond := WhereCondAnd, CombineRight := some 2,
            CombineLeft := none },
          { Field := lit "f2", Operation := OpIn, Value := [Val.num .int 20, Val.num .int 22],
            Children := [], Cond := WhereCondAnd, CombineRight := none,
            CombineLeft := some 1 }],
         { New (lit "test") [] with whereList := [0, 1, 2] }) := rfl
  rw [hc] at e1
  simp only [Option.some.injEq, Prod.mk.injEq] at e1
  obtain ⟨rfl, rfl⟩ := e1
  refine ⟨_, _, hc, ?_, rfl⟩
  rw [e4, e3]
  rfl

end Builder

namespace Builder

/-- C3: with three field names `a`, `b`, `c` and the tuple `(1,2,3)`,
`WhereCombineIn` appends three `in` leaves but links only the first two: the
leaf of `b` has no combine-right peer and the leaf of `c` no combine-left peer,
and the serializer renders `(a,b) in ((?,?)) AND c in (?)` instead of one clause
over the three fields. -/
theorem combine_in_three_fields_links_first_two :
    Wheres.WhereCombineIn [] [] [lit "a", lit "b", lit "c"]
        [[Val.num .int 1, Val.num .int 2, Val.num .int 3]]
      = some
        ([{ Field := lit "a", Operation := OpIn, Value := [Val.num .int 1], Children := [],
            Cond := WhereCondAnd, CombineRight := some 1, CombineLeft := none },
          { Field := lit "b", Operation := OpIn, Value := [Val.num .int 2], Children := [],
            Cond := WhereCondAnd, CombineRight := none, CombineLeft := some 0 },
          { Field := lit "c", Operation := OpIn, Value := [Val.num .int 3], Children := [],
            Cond := WhereCondAnd, CombineRight := none, CombineLeft := none }],
         [0, 1, 2]) ∧
    ((Wheres.WhereCombineIn [] [] [lit "a", lit "b", lit "c"]
        [[Val.num .int 1, Val.num .int 2, Val.num .int 3]]).bind
      fun s => Wheres.string s.1 s.2 false (fun _ => lit "?"))
      = some (lit "(a,b) in ((?,?)) AND c in (?)",
          [Val.num .int 1, Val.num .int 2, Val.num .int 3]) := by
  constructor <;> rfl

/-- C4: a value of type `UpdateRaw` in an update row is not recognised as a raw
expression (its type string is `builder.UpdateRaw`, the code compares with
`mydb.UpdateRaw`): it is rendered as a placeholder and passed on as one
argument.  For `Update({f: UpdateRaw{"%d | f", [100]}})` with `Where(a = 11)`
the statement is `UPDATE test SET f = ? WHERE a = ?` (`f` delimiter-wrapped;
`%v` for `?` in literal mode) and the arguments are the `UpdateRaw` value and
`11`. -/
theorem update_raw_value_rendered_as_placeholder :
    (∀ (b : SQLBulder) (f e : GoString) (a : List Val) (rest : GoMap Val)
        (sb : GoString) (args : List Val),
      updateLoop b ((f, Val.updateRaw e a) :: rest) (sb, args)
        = updateLoop b rest
            (sb ++ _wrapField f b.delimiter ++ lit " = " ++ b.placeholder Kind.Struct ++ lit ",",
             args ++ [Val.updateRaw e a])) ∧
    (let s := SQLBulder.Where [] (New (lit "test") [{ Parameterized := true, Reuse := true }])
        (lit "a") (lit "=") (Val.num .int 11)
     ((s.2.Update [(lit "f", Val.updateRaw (lit "%d | f") [Val.num .int 100])]).Build s.1).1)
      = some { sql := lit "UPDATE test SET `f` = ? WHERE a = ?",
               args := some [Val.updateRaw (lit "%d | f") [Val.num .int 100], Val.num .int 11],
               err := none } ∧
    testUpdate [{ Parameterized := false, Reuse := true }]
      = some { sql := lit "UPDATE test SET `c` = %v,`b` = %v,`d` = \"%s\",`f` = %v WHERE a = %v",
               args := some [Val.num .int 1, Val.num .int 2, Val.str (lit "jack"),
                 Val.updateRaw (lit "%d | f") [Val.num .int 100], Val.num .int 11],
               err := none } := by
  refine ⟨?_, rfl, rfl⟩
  intro b f e a rest sb args
  have hne : ¬ (packageName ++ lit ".UpdateRaw" = lit "mydb.UpdateRaw") := by decide
  rw [updateLoop]
  simp only [typeString, typeKind, if_neg hne]
  cases b.parameterized <;> rfl

/-- C8 (as stated, refuted): the statement of the insert of `{a:1, b:2}` into
`t` with the on-duplicate keys `a`, `b` is not
`INSERT INTO t (a,b) VALUES (?,?) ON DUPLICATE KEY UPDATE a = VALUES(a), b = VALUES(b)`. -/
theorem insert_statement_field_list_not_bare :
    testInsert (lit "t") [{ Parameterized := true, Reuse := true }]
      ≠ some { sql := lit "INSERT INTO t (a,b) VALUES (?,?) ON DUPLICATE KEY UPDATE a = VALUES(a), b = VALUES(b)",
               args := some [Val.num .int 1, Val.num .int 2], err := none } := by
  intro h
  have h1 := congrArg (fun r => r.map (fun x => x.sql)) h
  revert h1
  decide

/-- C8 (amended): in parameterized mode the insert of `{a:1, b:2}` (fields
enumerated in the order `a`, `b`) into `t` with the on-duplicate keys `a`, `b`
renders the field list with every field wrapped in the delimiter (a backtick),
the keys of the on-duplicate clause unwrapped, and returns the arguments
`[1, 2]`. -/
theorem insert_statement_wraps_fields :
    testInsert (lit "t") [{ Parameterized := true, Reuse := true }]
      = some { sql := lit "INSERT INTO t (`a`,`b`) VALUES (?,?) ON DUPLICATE KEY UPDATE a = VALUES(a), b = VALUES(b)",
               args := some [Val.num .int 1, Val.num .int 2], err := none } := by
  rfl

/-- C9: in literal mode the string value of a condition leaf is returned as the
caller supplied it, not escaped: for `Select("a").Where("a", "=", "x'y")` the
argument list is `["x'y"]` although `_escape` of that string is `x\'y`; the same
string in an update row or an insert row is returned escaped. -/
theorem literal_mode_condition_value_not_escaped :
    (let s := SQLBulder.Where []
        ((New (lit "t") [{ Parameterized := false, Reuse := true }]).Select [lit "a"])
        (lit "a") (lit "=") (Val.str (lit "x'y"))
     (s.2.Build s.1).1)
      = some { sql := lit "SELECT a FROM t WHERE a = \"%s\"",
               args := some [Val.str (lit "x'y")], err := none } ∧
    _escape (lit "x'y") = some (lit "x\\'y") ∧
    (let s := SQLBulder.Where [] (New (lit "t") [{ Parameterized := false, Reuse := true }])
        (lit "a") (lit "=") (Val.num .int 1)
     ((s.2.Update [(lit "b", Val.str (lit "x'y"))]).Build s.1).1)
      = some { sql := lit "UPDATE t SET `b` = \"%s\" WHERE a = %v",
               args := some [Val.str (lit "x\\'y"), Val.num .int 1], err := none } ∧
    (((New (lit "t") [{ Parameterized := false, Reuse := true }]).Insert
        [(lit "b", Val.str (lit "x'y"))]).Build []).1
      = some { sql := lit "INSERT INTO t (`b`) VALUES (\"%s\")",
               args := some [Val.str (lit "x\\'y")], err := none } := by
  refine ⟨rfl, by decide, rfl, rfl⟩


/-- C5 (as stated, refuted): an update in literal mode on the table `t`, with
an empty condition list and the value row `{a: OrderAsc}`, whose only value is
the non-nil constant `OrderAsc` of the defined string type `OrderEnum`,
returns no error: `Build` faults in `buildUpdate` on the type assertion
`val.(string)`, which comes before the check of the conditions. -/
theorem update_without_conditions_defined_string_faults :
    ((New (lit "t") [{ Parameterized := false, Reuse := true }]).Update
        [(lit "a", Val.defString (lit "builder.OrderEnum") OrderAsc)]).whereList = [] ∧
    (((New (lit "t") [{ Parameterized := false, Reuse := true }]).Update
        [(lit "a", Val.defString (lit "builder.OrderEnum") OrderAsc)]).Build []).1 = none :=
  ⟨rfl, rfl⟩

/-- C5 (amended): for every builder with a non-empty table name and an empty
condition list whose action is update, with a first value row in which no
value is nil, no value is of a type with the type string `mydb.UpdateRaw`, and,
in literal mode, every value of kind string is of the type `string`, or whose
action is delete, `Build` returns the empty statement, nil arguments and the
error `invalid sql: can not update without where conditions` (respectively
`... delete ...`); and the condition list stays empty when `WhereIn`,
`OrWhereIn`, `WhereNotIn`, `OrWhereNotIn` or `WhereCombineIn` is called with no
value or with an empty sequence. -/
theorem update_delete_without_conditions_fail (h : Heap) (b : SQLBulder)
    (htable : b.tableName ≠ []) (hwhere : b.whereList = [])
    (haction : (b.action = SQLActionUpdate ∧
        ∃ row rest, b.values = row :: rest ∧
          ∀ e ∈ row, e.2 ≠ Val.nil ∧ typeString e.2 ≠ some (lit "mydb.UpdateRaw") ∧
            (b.parameterized = false → typeKind e.2 = some Kind.String →
              (assertString e.2).isSome = true)) ∨
      b.action = SQLActionDelete) :
    (b.Build h).1
      = some { sql := [], args := none,
               err := some (if b.action = SQLActionUpdate
                 then lit "invalid sql: can not update without where conditions"
                 else lit "invalid sql: can not delete without where conditions") } ∧
    (∀ (h1 : Heap) (b1 : SQLBulder) (f e : GoString),
      b1.WhereIn h1 f [] = some (h1, b1) ∧ b1.WhereIn h1 f [Val.slice e []] = some (h1, b1) ∧
      b1.OrWhereIn h1 f [] = some (h1, b1) ∧ b1.OrWhereIn h1 f [Val.slice e []] = some (h1, b1) ∧
      b1.WhereNotIn h1 f [] = some (h1, b1) ∧
      b1.WhereNotIn h1 f [Val.slice e []] = some (h1, b1) ∧
      b1.OrWhereNotIn h1 f [] = some (h1, b1) ∧
      b1.OrWhereNotIn h1 f [Val.slice e []] = some (h1, b1)) ∧
    (∀ (h1 : Heap) (b1 : SQLBulder) (fields : List GoString),
      b1.WhereCombineIn h1 fields [] = some (h1, b1)) := by
  refine ⟨?_, ?_, ?_⟩
  · have hw : Wheres.string h [] false b.placeholder = some ([], []) := rfl
    rcases haction with ⟨ha, row, rest, hvals, hrow⟩ | ha
    · obtain ⟨r, hr⟩ := updateLoop_isSome b row hrow ([], b.args)
      obtain ⟨up, args1⟩ := r
      have hne : ¬ (SQLActionUpdate = SQLActionInsert) := by decide
      simp only [SQLBulder.Build, SQLBulder.build, if_neg htable, ha, if_neg hne, if_true,
        SQLBulder.buildUpdate, hvals, hr, hwhere, hw]
      rfl
    · have h1 : ¬ (SQLActionDelete = SQLActionInsert) := by decide
      have h2 : ¬ (SQLActionDelete = SQLActionUpdate) := by decide
      have h3 : ¬ (SQLActionDelete = SQLActionSelect) := by decide
      simp only [SQLBulder.Build, SQLBulder.build, if_neg htable, ha, if_neg h1, if_neg h2,
        if_neg h3, if_true, SQLBulder.buildDelete, hwhere, hw]
      rfl
  · intro h1 b1 f e
    refine ⟨rfl, rfl, rfl, rfl, rfl, rfl, rfl, rfl⟩
  · intro h1 b1 fields
    rfl

/-- C5 (amended), at a concrete input: in literal mode,
`New("t").Update({a: "x", b: 1}).Build()`. -/
theorem update_delete_without_conditions_fail_witness :
    (((New (lit "t") [{ Parameterized := false, Reuse := true }]).Update
        [(lit "a", Val.str (lit "x")), (lit "b", Val.num .int 1)]).Build []).1
      = some { sql := [], args := none,
               err := some (lit "invalid sql: can not update without where conditions") } :=
  (update_delete_without_conditions_fail []
    ((New (lit "t") [{ Parameterized := false, Reuse := true }]).Update
      [(lit "a", Val.str (lit "x")), (lit "b", Val.num .int 1)])
    (by decide) rfl
    (Or.inl ⟨rfl, _, _, rfl, by
      intro e he
      simp only [List.mem_cons, List.mem_singleton, List.not_mem_nil, or_false] at he
      rcases he with rfl | rfl
      · exact ⟨Val.noConfusion, by decide, fun _ _ => rfl⟩
      · exact ⟨Val.noConfusion, by decide,
          fun _ hk => by simp [typeKind, NumKind.kind] at hk⟩⟩)).1

/-- C7 (as stated, refuted): an insert in parameterized mode whose single row
`{a: nil}` has the non-empty field set `{a}` returns no statement: `Build`
faults on the nil value (`reflect.TypeOf(nil).Kind()`). -/
theorem insert_nil_value_faults :
    (((New (lit "t") [{ Parameterized := true, Reuse := true }]).Insert
        [(lit "a", Val.nil)]).Build []).1 = none := by
  rfl

/-- C7 (amended): for every insert in parameterized mode into a table with a
non-empty name, with `k >= 1` value rows whose first row is non-empty and holds
no nil value, and for whatever order the first row is enumerated in, `Build`
returns the statement
`INSERT [IGNORE ]INTO <table> (<fields>) VALUES <groups>[ ON DUPLICATE KEY UPDATE ...]`
(the fields of the first row, each wrapped in the delimiter, comma-joined; `k`
comma-joined groups of one `?` per field; `IGNORE` exactly when the ignore flag
is set; the suffix `k1 = VALUES(k1), ...` exactly when on-duplicate keys are
configured), no error, and `k * |fields|` arguments, the entry `i*|fields|+j`
being the value of row `i` for the `j`-th field of the rendered list. -/
theorem insert_parameterized_statement (h : Heap) (b : SQLBulder) (row0 : GoMap Val)
    (rest : List (GoMap Val))
    (hp : b.parameterized = true) (ha : b.action = SQLActionInsert)
    (hv : b.values = row0 :: rest) (hne : row0 ≠ [])
    (hnil : ∀ e ∈ row0, e.2 ≠ Val.nil) (ht : b.tableName ≠ []) :
    ∃ args : List Val,
      (b.Build h).1 = some
        { sql := lit "INSERT" ++ (if b.insert.ignore then lit " IGNORE" else [])
            ++ lit " INTO " ++ b.tableName ++ lit " ("
            ++ join (row0.map (fun e => _wrapField e.1 b.delimiter)) (lit ",")
            ++ lit ") VALUES "
            ++ join (List.replicate (rest.length + 1)
                (lit "(" ++ join (List.replicate row0.length (lit "?")) (lit ",") ++ lit ")"))
                (lit ",")
            ++ (if b.insert.onDupKeyUpdates = [] then []
                else lit " ON DUPLICATE KEY UPDATE "
                  ++ join (b.insert.onDupKeyUpdates.map
                      (fun k => k ++ lit " = VALUES(" ++ k ++ lit ")")) (lit ", ")),
          args := some args, err := none } ∧
      args.length = (rest.length + 1) * row0.length ∧
      ∀ (i j : Nat) (row : GoMap Val) (e : GoString × Val),
        (row0 :: rest)[i]? = some row → row0[j]? = some e →
        args[i * row0.length + j]? = some (mapGet row e.1 Val.nil) := by
  refine ⟨(row0 :: rest).flatMap (fun row => row0.map (fun e => mapGet row e.1 Val.nil)),
    ?_, ?_, ?_⟩
  · simp only [SQLBulder.Build, SQLBulder.build, if_neg ht, ha, if_true]
    exact buildInsert_parameterized b row0 rest hp hv hne hnil ht
  · rw [flatMap_fixed_length _ row0.length (fun x => by simp)]
    simp
  · intro i j row e hi hj
    have hjlt : j < row0.length := by
      by_contra hc
      rw [List.getElem?_eq_none (by omega)] at hj
      cases hj
    rw [flatMap_fixed_getElem? _ row0.length (fun x => by simp) _ i j hjlt, hi]
    simp [hj]

/-- C7 (amended), at a concrete input: the batch insert of `{a: 1, b: "x"}` and
`{a: 2, b: "y"}` into `t` with the ignore flag set. -/
theorem insert_parameterized_statement_witness :
    ∃ args : List Val,
      (((New (lit "t") []).BatchInsertIgnore
          [[(lit "a", Val.num .int 1), (lit "b", Val.str (lit "x"))],
           [(lit "a", Val.num .int 2), (lit "b", Val.str (lit "y"))]]).Build []).1
        = some { sql := lit "INSERT IGNORE INTO t (`a`,`b`) VALUES (?,?),(?,?)",
                 args := some args, err := none } ∧
      args.length = 4 ∧
      args[3]? = some (Val.str (lit "y")) := by
  obtain ⟨args, h1, h2, h3⟩ := insert_parameterized_statement []
    ((New (lit "t") []).BatchInsertIgnore
      [[(lit "a", Val.num .int 1), (lit "b", Val.str (lit "x"))],
       [(lit "a", Val.num .int 2), (lit "b", Val.str (lit "y"))]])
    [(lit "a", Val.num .int 1), (lit "b", Val.str (lit "x"))]
    [[(lit "a", Val.num .int 2), (lit "b", Val.str (lit "y"))]]
    rfl rfl rfl (by simp)
    (by
      intro e he
      simp only [List.mem_cons, List.mem_singleton, List.not_mem_nil, or_false] at he
      rcases he with rfl | rfl <;> exact Val.noConfusion)
    (by decide)
  exact ⟨args, h1, h2, h3 1 1 _ _ rfl rfl⟩

/-- C6: for every select builder, `buildSelect` returns, when the condition
serializer returns the clause `w` with the arguments `a` (and faults exactly
when the serializer faults), no error, the arguments `a`, and the statement
that is the single-space join, in this order, of `SELECT` and the non-empty
ones among: the comma-joined field list, `FROM`, the table name,
`FORCE INDEX(<name>)` (absent for an empty name), `WHERE <w>` (absent for an
empty `w`), `ORDER BY f1 D1,f2 D2,...` (absent without orders),
`GROUP BY g1,g2,...` (absent without groups), `LIMIT n` and `OFFSET n` (absent
for `-1`, the unset value); and in literal mode the configuration of
`TestSQLBuild` yields the expected statement byte for byte. -/
theorem select_statement_clause_order (h : Heap) (b : SQLBulder) :
    b.buildSelect h
      = (Wheres.string h b.whereList false b.placeholder).map (fun wa =>
          { sql := join (lit "SELECT" ::
              ([join b.fields (lit ","), lit "FROM", b.tableName,
                if b.forceIndexName = [] then []
                  else lit "FORCE INDEX(" ++ b.forceIndexName ++ lit ")",
                if wa.1 = [] then [] else lit "WHERE " ++ wa.1,
                if b.orders = [] then []
                  else lit "ORDER BY "
                    ++ join (b.orders.map (fun o => o.Field ++ lit " " ++ o.Order)) (lit ","),
                if b.groups = [] then [] else lit "GROUP BY " ++ join b.groups (lit ","),
                if b.limitSize = -1 then [] else lit "LIMIT " ++ formatInt b.limitSize,
                if b.offsetSize = -1 then [] else lit "OFFSET " ++ formatInt b.offsetSize
               ].filter (fun s => decide (s ≠ [])))) (lit " "),
            args := some wa.2, err := none }) ∧
    testSelect [{ Parameterized := false, Reuse := true }] = some
      { sql := lit "SELECT a,b,c,max(d) FROM test_p1 FORCE INDEX(_uk_a_b_c) WHERE a = %v AND (d = %v AND e >= \"%s\" OR f <= %v) OR c = %v OR (d = %v AND e = \"%s\") AND g in (%v,%v,%v,%v,%v) AND h in (\"%s\") AND (aa,bb) in ((%v,%v),(%v,%v)) ORDER BY a ASC,b DESC GROUP BY c LIMIT 10 OFFSET 20",
        args := some [Val.num .int 11, Val.num .int 12, Val.str (lit "14"), Val.num .int 15,
          Val.num .int 13, Val.num .int 15, Val.str (lit "147"), Val.num .int 1,
          Val.num .int 2, Val.num .int 3, Val.num .int 4, Val.num .int 5,
          Val.str (lit "jack"), Val.num .int 10, Val.num .int 20, Val.num .int 11,
          Val.num .int 22],
        err := none } :=
  ⟨buildSelect_eq h b, rfl⟩

/-- C10: for every byte string `s`, `_escape s` returns the string obtained by
replacing each byte of `s`, in order, by its escape sequence: each of the seven
special bytes (NUL, LF, CR, backslash, single quote, double quote, 0x1A) by a
backslash followed by `0`, `n`, `r`, backslash, single quote, double quote, `Z`,
and every other byte (whether or not it is part of a valid UTF-8 sequence) by
itself; so the length grows by the number of special bytes, and the four bytes
NUL, LF, backslash, single quote give the eight bytes of their escape
sequences. -/
theorem escape_replaces_special_bytes (s : GoString) :
    _escape s = some (s.flatMap escapeByte) ∧
    (s.flatMap escapeByte).length = s.length + s.countP isSpecial ∧
    (escapeByte 0 = [92, 48] ∧ escapeByte 10 = [92, 110] ∧ escapeByte 13 = [92, 114] ∧
      escapeByte 92 = [92, 92] ∧ escapeByte 39 = [92, 39] ∧ escapeByte 34 = [92, 34] ∧
      escapeByte 26 = [92, 90]) ∧
    (∀ b, isSpecial b = false → escapeByte b = [b]) ∧
    _escape [0, 10, 92, 39] = some [92, 48, 92, 110, 92, 92, 92, 39] := by
  refine ⟨_escape_eq s, flatMap_escapeByte_length s, by decide, ?_, by decide⟩
  intro b hb
  unfold isSpecial at hb
  unfold escapeByte
  simp only [decide_eq_false_iff_not, not_or] at hb
  obtain ⟨h1, h2, h3, h4, h5, h6, h7⟩ := hb
  simp [h1, h2, h3, h4, h5, h6, h7]

end Builder

namespace Builder

/-- C11: for every builder obtained from `New` by calls of the fluent
interface, the state of the builder after `Build` and after `BuildWithTable`
(whether the call returns a statement, returns an error or faults) is the
state that `_default` sets: empty table name, no action, no fields, no value
rows, no conditions, no orders, no groups, no args, limit and offset `-1`, no
force-index name, ignore flag false and no on-duplicate keys.  Consequently
the pool holds only instances in that state (the terminal call puts the reset
instance back, and `Get` hands out a pooled instance or a fresh default one),
and the builder that `New` returns is the same whichever instance the pool
hands out: it depends on the table and the options only. -/
theorem terminal_call_resets_builder (table : GoString) (opts : List NewBuilderOpt)
    (calls : List Call) (h0 h : Heap) (b : SQLBulder) (name : GoString)
    (pool : Pool) (pick : Option Nat)
    (hrun : runAll calls h0 (New table opts) = some (h, b)) :
    (b.Build h).2 = SQLBulder._default ∧
    (b.BuildWithTable h name).2 = SQLBulder._default ∧
    (SQLBulder._default.tableName = [] ∧ SQLBulder._default.action = [] ∧
      SQLBulder._default.fields = [] ∧ SQLBulder._default.values = [] ∧
      SQLBulder._default.whereList = [] ∧ SQLBulder._default.orders = [] ∧
      SQLBulder._default.groups = [] ∧ SQLBulder._default.args = [] ∧
      SQLBulder._default.limitSize = -1 ∧ SQLBulder._default.offsetSize = -1 ∧
      SQLBulder._default.forceIndexName = [] ∧ SQLBulder._default.insert.ignore = false ∧
      SQLBulder._default.insert.onDupKeyUpdates = []) ∧
    ((∀ x ∈ pool, x = SQLBulder._default) →
      (NewIn pool pick table opts).1 = New table opts ∧
      (∀ x ∈ (NewIn pool pick table opts).2, x = SQLBulder._default) ∧
      (putBackBuilderIn pool b).1 = (b.Build h).2 ∧
      (∀ x ∈ (putBackBuilderIn pool b).2, x = SQLBulder._default)) := by
  have hreuse : b.reuse = true := by
    rw [runAll_reuse calls h0 _ h b hrun, New_reuse]
  have hbuild : (b.Build h).2 = SQLBulder._default := build_resets h b hreuse
  refine ⟨hbuild, build_resets h { b with tableName := name } hreuse,
    ⟨rfl, rfl, rfl, rfl, rfl, rfl, rfl, rfl, rfl, rfl, rfl, rfl, rfl⟩, ?_⟩
  intro hpool
  have hget : (Pool.Get pool pick).1 = SQLBulder._default ∧
      ∀ x ∈ (Pool.Get pool pick).2, x = SQLBulder._default := by
    cases pick with
    | none => exact ⟨rfl, hpool⟩
    | some i =>
      cases hi : pool[i]? with
      | none =>
        simp only [Pool.Get, hi, true_and]
        exact hpool
      | some x =>
        simp only [Pool.Get, hi]
        refine ⟨hpool x (List.getElem?_mem hi), ?_⟩
        intro y hy
        exact hpool y (List.mem_of_mem_eraseIdx hy)
  have hnew : (NewIn pool pick table opts).1 = New table opts ∧
      ∀ x ∈ (NewIn pool pick table opts).2, x = SQLBulder._default := by
    cases opts with
    | nil =>
      simp only [NewIn, newSQLBuilderIn, New, newSQLBuilder, if_true]
      exact ⟨by rw [hget.1], hget.2⟩
    | cons o rest =>
      cases hr : o.Reuse with
      | false =>
        simp only [NewIn, newSQLBuilderIn, New, newSQLBuilder, hr, Bool.false_eq_true, if_false,
          true_and]
        exact hpool
      | true =>
        simp only [NewIn, newSQLBuilderIn, New, newSQLBuilder, hr, if_true]
        exact ⟨by rw [hget.1], hget.2⟩
  refine ⟨hnew.1, hnew.2, ?_, ?_⟩
  · rw [hbuild]
    simp [putBackBuilderIn, hreuse]
  · intro x hx
    simp only [putBackBuilderIn, hreuse, if_true, List.mem_cons] at hx
    rcases hx with rfl | hx
    · rfl
    · exact hpool x hx

/-- C11, at a concrete input: `New("test").Where("a", "=", 11).Delete().Build()`
leaves the builder in the default state. -/
theorem terminal_call_resets_builder_witness :
    ∃ (h : Heap) (b : SQLBulder),
      runAll [Call.cond (BCall.Where (lit "a") (lit "=") (Val.num .int 11)), Call.Delete] []
        (New (lit "test") []) = some (h, b) ∧
      b.action = SQLActionDelete ∧ b.whereList = [0] ∧ b.tableName = lit "test" ∧
      (b.Build h).2 = SQLBulder._default :=
  ⟨_, _, rfl, rfl, rfl, rfl,
    (terminal_call_resets_builder (lit "test") []
      [Call.cond (BCall.Where (lit "a") (lit "=") (Val.num .int 11)), Call.Delete] [] _ _
      [] [] none rfl).1⟩

/-- C13: for every field name and each of `WhereIn`, `OrWhereIn`, `WhereNotIn`,
`OrWhereNotIn`: called with one slice of `n >= 1` elements (of whatever element
type), or with `n >= 1` values of which the first is not a slice, the call
appends exactly one leaf, whose values are those `n` elements in order, whose
operator is `in` / `not in` and whose conjunction is `AND` / `OR` according to
the method, the objects and the conditions that were there being left as they
were; called with no value or with one empty slice, it changes nothing. -/
theorem where_in_appends_one_leaf (h : Heap) (b : SQLBulder) (field : GoString) :
    ∀ m ∈ [(SQLBulder.WhereIn, OpIn, WhereCondAnd), (SQLBulder.OrWhereIn, OpIn, WhereCondOr),
           (SQLBulder.WhereNotIn, OpNotIn, WhereCondAnd),
           (SQLBulder.OrWhereNotIn, OpNotIn, WhereCondOr)],
      (∀ (e : GoString) (xs : List Val), xs ≠ [] →
        m.1 h b field [Val.slice e xs]
          = some (h ++ [{ Field := field, Operation := m.2.1, Value := xs, Children := [],
                          Cond := m.2.2, CombineRight := none, CombineLeft := none }],
                  { b with whereList := b.whereList ++ [h.length] })) ∧
      (∀ (v : Val) (vs : List Val), (∀ e xs, v ≠ Val.slice e xs) →
        m.1 h b field (v :: vs)
          = some (h ++ [{ Field := field, Operation := m.2.1, Value := v :: vs,
                          Children := [], Cond := m.2.2, CombineRight := none,
                          CombineLeft := none }],
                  { b with whereList := b.whereList ++ [h.length] })) ∧
      m.1 h b field [] = some (h, b) ∧
      (∀ e : GoString, m.1 h b field [Val.slice e []] = some (h, b)) := by
  intro m hm
  simp only [List.mem_cons, List.mem_singleton, List.not_mem_nil, or_false] at hm
  have hspread : ∀ (v : Val) (vs : List Val), (∀ e xs, v ≠ Val.slice e xs) →
      _getInValues (v :: vs) = some (v :: vs) := by
    intro v vs hv
    cases v with
    | slice e xs => exact absurd rfl (hv e xs)
    | _ => rfl
  rcases hm with rfl | rfl | rfl | rfl
  all_goals
    refine ⟨?_, ?_, rfl, fun e => rfl⟩
    · intro e xs hxs
      have hl : ¬ xs.length = 0 := by
        intro hc; exact hxs (List.length_eq_zero.mp hc)
      simp [SQLBulder.WhereIn, SQLBulder.OrWhereIn, SQLBulder.WhereNotIn,
        SQLBulder.OrWhereNotIn, whereInWith, _getInValues, hl, Wheres.WhereIn,
        Wheres.OrWhereIn, Wheres.WhereNotIn, Wheres.OrWhereNotIn, Wheres.where_]
    · intro v vs hv
      simp [SQLBulder.WhereIn, SQLBulder.OrWhereIn, SQLBulder.WhereNotIn,
        SQLBulder.OrWhereNotIn, whereInWith, hspread v vs hv, Wheres.WhereIn,
        Wheres.OrWhereIn, Wheres.WhereNotIn, Wheres.OrWhereNotIn, Wheres.where_]

/-- C13, at a concrete input: `OrWhereNotIn("g", []int{1, 2, 3})` on a fresh
builder. -/
theorem where_in_appends_one_leaf_witness :
    (New (lit "t") []).OrWhereNotIn [] (lit "g")
        [Val.slice (lit "int") [Val.num .int 1, Val.num .int 2, Val.num .int 3]]
      = some ([{ Field := lit "g", Operation := OpNotIn,
                 Value := [Val.num .int 1, Val.num .int 2, Val.num .int 3], Children := [],
                 Cond := WhereCondOr, CombineRight := none, CombineLeft := none }],
              { New (lit "t") [] with whereList := [0] }) :=
  ((where_in_appends_one_leaf [] (New (lit "t") []) (lit "g")
      (SQLBulder.OrWhereNotIn, OpNotIn, WhereCondOr) (by simp)).1
    (lit "int") [Val.num .int 1, Val.num .int 2, Val.num .int 3] (by simp))

end Builder

namespace Builder

theorem filterMap_map_some {α β : Type} (f : α → Option β) :
    ∀ l : List α, (∀ x ∈ l, (f x).isSome) → (l.filterMap f).map some = l.map f := by
  intro l
  induction l with
  | nil => intro _; rfl
  | cons x t ih =>
    intro hx
    have h1 := hx x (List.mem_cons_self _ _)
    cases hfx : f x with
    | none => rw [hfx] at h1; cases h1
    | some y =>
      rw [List.filterMap_cons_some hfx, List.map_cons, List.map_cons, hfx,
        ih (fun z hz => hx z (List.mem_cons_of_mem _ hz))]

/-- C14: for every list of pairwise distinct field names `f_0..f_{m-1}` and
every list of `n >= 1` tuples of length `m`, `WhereCombineIn` returns, and it
appends, after the objects and the conditions that were there, one leaf for
every field, in field order; the leaf of `f_i` has the operator `in`, the
conjunction `AND`, no children, and the values `[t_0[i], ..., t_{n-1}[i]]`, so
every created leaf holds `n` values. -/
theorem combine_in_transposes_tuples (h : Heap) (b : SQLBulder) (fields : List GoString)
    (tuples : List (List Val))
    (hnd : fields.Nodup) (hn : 1 ≤ tuples.length)
    (hlen : ∀ t ∈ tuples, t.length = fields.length) :
    ∃ leaves : List Where,
      b.WhereCombineIn h fields tuples
        = some (h ++ leaves,
            { b with whereList := b.whereList ++ List.range' h.length fields.length }) ∧
      leaves.length = fields.length ∧
      ∀ (i : Nat) (f : GoString), fields[i]? = some f →
        ∃ leaf : Where, leaves[i]? = some leaf ∧ leaf.Field = f ∧ leaf.Operation = OpIn ∧
          leaf.Cond = WhereCondAnd ∧ leaf.Children = [] ∧
          leaf.Value.map some = tuples.map (fun t => t[i]?) ∧
          leaf.Value.length = tuples.length := by
  obtain ⟨fv, hfv, hcol, _⟩ := combineInCollect_total tuples fields 0 [] hnd
    (fun t ht => by rw [hlen t ht]; omega)
  obtain ⟨leaves, hlink, hcontent⟩ := combineInLink_content fv h b.whereList fields 0 [] []
    rfl rfl
  simp only [List.append_nil, List.range'_zero, zero_add, List.nil_append] at hlink hcontent
  have hll : leaves.length = fields.length := by
    have := congrArg List.length hcontent
    simpa using this
  refine ⟨leaves, ?_, hll, ?_⟩
  · have hne : ¬ tuples.length = 0 := by omega
    simp only [SQLBulder.WhereCombineIn, hne, if_false, Wheres.WhereCombineIn, hfv, hlink]
  · intro i f hf
    have hi : i < fields.length := lt_length_of_getElem? fields i f hf
    have hleaf : leaves[i]? = some (leaves.get ⟨i, by omega⟩) :=
      List.getElem?_eq_getElem (by omega)
    generalize leaves.get ⟨i, by omega⟩ = leaf at hleaf
    have hget := congrArg (fun l => l[i]?) hcontent
    simp only [List.getElem?_map, hleaf, hf, Option.map_some', Option.some.injEq,
      Prod.mk.injEq] at hget
    obtain ⟨e1, e2, e3, e4, e5⟩ := hget
    have hv : leaf.Value = tuples.filterMap (fun t => t[i]?) := by
      rw [e3, hcol i f hf]
      simp [mapGet]
    have hsome : ∀ t ∈ tuples, (t[i]?).isSome := by
      intro t ht
      rw [List.getElem?_eq_getElem (by rw [hlen t ht]; exact hi)]
      rfl
    have hmap : leaf.Value.map some = tuples.map (fun t => t[i]?) := by
      rw [hv, filterMap_map_some _ _ hsome]
    refine ⟨leaf, hleaf, e1, e2, e5, e4, hmap, ?_⟩
    have := congrArg List.length hmap
    simpa using this

/-- C14, at a concrete input: three fields and two tuples, after one earlier
condition. -/
theorem combine_in_transposes_tuples_witness :
    ∃ leaves : List Where,
      SQLBulder.WhereCombineIn
          [{ Field := lit "x", Operation := lit "=", Value := [Val.num .int 0], Children := [],
             Cond := WhereCondAnd, CombineRight := none, CombineLeft := none }]
          { New (lit "t") [] with whereList := [0] }
          [lit "a", lit "b", lit "c"]
          [[Val.num .int 1, Val.num .int 2, Val.num .int 3],
           [Val.num .int 4, Val.num .int 5, Val.num .int 6]]
        = some
          ([{ Field := lit "x", Operation := lit "=", Value := [Val.num .int 0],
              Children := [], Cond := WhereCondAnd, CombineRight := none,
              CombineLeft := none }] ++ leaves,
           { New (lit "t") [] with whereList := [0, 1, 2, 3] }) ∧
      leaves.length = 3 ∧
      ∃ leaf : Where, leaves[2]? = some leaf ∧ leaf.Field = lit "c" ∧ leaf.Operation = OpIn ∧
        leaf.Cond = WhereCondAnd ∧
        leaf.Value.map some = [some (Val.num .int 3), some (Val.num .int 6)] := by
  obtain ⟨leaves, h1, h2, h3⟩ := combine_in_transposes_tuples
    [{ Field := lit "x", Operation := lit "=", Value := [Val.num .int 0], Children := [],
       Cond := WhereCondAnd, CombineRight := none, CombineLeft := none }]
    { New (lit "t") [] with whereList := [0] }
    [lit "a", lit "b", lit "c"]
    [[Val.num .int 1, Val.num .int 2, Val.num .int 3],
     [Val.num .int 4, Val.num .int 5, Val.num .int 6]]
    (by decide) (by decide)
    (by
      intro t ht
      simp only [List.mem_cons, List.mem_singleton, List.not_mem_nil, or_false] at ht
      rcases ht with rfl | rfl <;> rfl)
  obtain ⟨leaf, k1, k2, k3, k4, _, k6, _⟩ := h3 2 (lit "c") rfl
  exact ⟨leaves, h1, h2, leaf, k1, k2, k3, k4, k6⟩

end Builder

namespace Builder

/-- C20: on the chain that `WhereCombineIn([a, b], [[1, 10], [1, 20]])` builds
(leaves `a in (1, 1)` and `b in (10, 20)`, the tuples `(1, 10)` and `(1, 20)`),
`CombineValues` on the leaf of `a` followed by
`SetValueByGivenFieldValues("a", [1], all)` stores `[1]`, the list `S` itself,
in the leaf of `a`, and the values at all matching indices, `[10, 20]`, in the
leaf of `b`: the two leaves end with lists of the lengths 1 and 2, although both
tuples have their `a`-component in `S`; the chain is then rendered
`(a,b) in ((?,?))` with the arguments `[1, 10]`, the tuple `(1, 20)` being
lost. -/
theorem set_values_unequal_lengths :
    ((Wheres.WhereCombineIn [] [] [lit "a", lit "b"]
        [[Val.num .int 1, Val.num .int 10], [Val.num .int 1, Val.num .int 20]]).bind fun s =>
      (Where.CombineValues s.1 0).bind fun m =>
        CombineWheres.SetValueByGivenFieldValues s.1 m.1 (lit "a") [Val.num .int 1] m.2)
      = some
        [{ Field := lit "a", Operation := OpIn, Value := [Val.num .int 1], Children := [],
           Cond := WhereCondAnd, CombineRight := some 1, CombineLeft := none },
         { Field := lit "b", Operation := OpIn, Value := [Val.num .int 10, Val.num .int 20],
           Children := [], Cond := WhereCondAnd, CombineRight := none,
           CombineLeft := some 0 }] ∧
    Wheres.string
        [{ Field := lit "a", Operation := OpIn, Value := [Val.num .int 1], Children := [],
           Cond := WhereCondAnd, CombineRight := some 1, CombineLeft := none },
         { Field := lit "b", Operation := OpIn, Value := [Val.num .int 10, Val.num .int 20],
           Children := [], Cond := WhereCondAnd, CombineRight := none,
           CombineLeft := some 0 }]
        [0, 1] false (fun _ => lit "?")
      = some (lit "(a,b) in ((?,?))", [Val.num .int 1, Val.num .int 10]) :=
  ⟨rfl, rfl⟩

end Builder

namespace Builder

/-- C16: for every heap and every condition list `whs`.  (1) The rendering of a
node that is not the first of its list is its conjunction tag, one space, and
its rendering as the first of a list.  (2) On a heap built by calls of the
fluent interface in which every node without children has a non-nil first value
and the two leaves of a combine chain hold equally many values, for `whs` the
top-level list or the children of any node: `Wheres.string` returns; the nodes
it renders are exactly the entries of `whs` that do not directly follow an
entry with a combine-right peer (every entry but the peers of a combine chain,
which are rendered with its head); its text is the clause of the first rendered
node without a tag followed, for every later rendered node, by one space, its
own tag, one space and its clause, the whole bracketed when brackets are asked
for and the list has more than one entry; the clause of a node with children is
the text of the list of its children, and the clause of a leaf is its leaf
clause (`field op placeholders`, for the head of a chain the clause of the
chain); the arguments are those of the rendered nodes in order.  (3) The tag of
the first node is not read: with any other tag at that node (which occurs once
in the list and is no child of a node) the rendering is the same, so a first
condition attached with `OrWhere`/`OrWheres` renders as one attached with
`Where`/`Wheres`.  (4) On any heap, when `Wheres.string` returns, the nodes it
has rendered are those entries, and the text and the arguments are composed in
the same way from the first-position renderings of these nodes. -/
theorem first_tag_implicit_later_tags_emitted (h : Heap) (getPh : Kind → GoString)
    (whs : Wheres) (nb : Bool) :
    (∀ (p : Nat) (w : Where) (nb1 : Bool), h[p]? = some w →
      Where.string h p false nb1 getPh
        = (Where.string h p true nb1 getPh).map
            (fun r => (w.Cond ++ lit " " ++ r.1, r.2))) ∧
    (∀ (calls : List BCall) (b0 b : SQLBulder),
      b0.whereList = [] → runCalls calls [] b0 = some (h, b) →
      (∀ x ∈ h, x.Children = [] → ∃ v vs, x.Value = v :: vs ∧ v ≠ Val.nil) →
      (∀ x ∈ h, ∀ (q : Nat) (xq : Where), x.CombineRight = some q → h[q]? = some xq →
        xq.Value.length = x.Value.length) →
      (whs = b.whereList ∨ ∃ x ∈ h, whs = x.Children) →
      ∃ nodes : List (Nat × GoString × GoString × List Val),
        nodes.map (fun e => e.1) = renderedNodes h false whs ∧
        (∀ e ∈ nodes, ∃ w : Where, h[e.1]? = some w ∧ e.2.1 = w.Cond ∧
          (if w.Children = [] then leafClause h getPh w = some (e.2.2.1, e.2.2.2)
           else Wheres.string h w.Children (decide (whs.length > 1)) getPh
             = some (e.2.2.1, e.2.2.2))) ∧
        Wheres.string h whs nb getPh
          = some (if nb = true ∧ whs.length > 1
              then _wrapBracket (taggedClauses (nodes.map (fun e => (e.2.1, e.2.2.1))))
              else taggedClauses (nodes.map (fun e => (e.2.1, e.2.2.1))),
            (nodes.map (fun e => e.2.2.2)).flatten)) ∧
    (∀ (p : Nat) (rest : Wheres) (w : Where) (c : GoString),
      whs = p :: rest → h[p]? = some w → p ∉ rest → (∀ x ∈ h, p ∉ x.Children) →
      Wheres.string (h.set p { w with Cond := c }) whs nb getPh
        = Wheres.string h whs nb getPh) ∧
    (∀ (t : GoString) (a : List Val), Wheres.string h whs nb getPh = some (t, a) →
      ∃ nodes : List (Nat × GoString × GoString × List Val),
        nodes.map (fun e => e.1) = renderedNodes h false whs ∧
        (∀ e ∈ nodes, ∃ w : Where, h[e.1]? = some w ∧ e.2.1 = w.Cond ∧
          Where.string h e.1 true (decide (whs.length > 1)) getPh
            = some (e.2.2.1, e.2.2.2)) ∧
        t = (if nb = true ∧ whs.length > 1
              then _wrapBracket (taggedClauses (nodes.map (fun e => (e.2.1, e.2.2.1))))
              else taggedClauses (nodes.map (fun e => (e.2.1, e.2.2.1)))) ∧
        a = (nodes.map (fun e => e.2.2.2)).flatten) := by
  refine ⟨?_, ?_, ?_, ?_⟩
  · intro p w nb1 hp
    exact string_not_first h getPh p nb1 w hp
  · intro calls b0 b hb0 hrun hval hlen hwhs
    obtain ⟨hinv, hptr⟩ := runCalls_preserves calls [] b0 h b HeapInv_nil
      (by rw [hb0]; intro p hp; cases hp) hrun
    apply Wheres_string_structure h getPh hinv
      (fun p w hp => hval w (List.getElem?_mem hp))
      (fun p q w wq hp hcr hqq => hlen w (List.getElem?_mem hp) q wq hcr hqq)
    rcases hwhs with rfl | ⟨x, hx, rfl⟩
    · exact hptr
    · intro c hc
      obtain ⟨q, hq⟩ := List.getElem?_of_mem hx
      obtain ⟨wc, hwc, _⟩ := (hinv q x hq).2.1 c hc
      exact lt_length_of_getElem? h c wc hwc
  · intro p rest w c hwhs hp hrest hnc
    subst hwhs
    exact Wheres_string_agree p h _ (AgreeButCond_set h p w c hp) hnc getPh rest hrest nb
  · intro t a hrun
    exact Wheres_string_nodes h getPh whs nb t a hrun

/-- C16, at a concrete input: the list built by
`OrWhere("a", "=", 11).OrWheres(w.Where("d", "=", 12).OrWhere("f", "<=", "x")).WhereCombineIn([aa, bb], [[10, 20], [11, 22]]).OrWhere("c", "=", 13)`
holds a leaf, a branch, the two leaves of a combine chain and a leaf; the
rendered nodes are the entries 0, 1, 4 and 6 (the peer 5 is rendered with its
head), and the text is `a = ? OR (d = ? OR f <= ?) AND (aa,bb) in ((?,?),(?,?)) OR c = ?`:
the tag `OR` of the first node is not written, every later node has its own
tag. -/
theorem first_tag_implicit_later_tags_emitted_witness :
    ∃ (h : Heap) (b : SQLBulder) (nodes : List (Nat × GoString × GoString × List Val)),
      runCalls
        [BCall.OrWhere (lit "a") (lit "=") (Val.num .int 11),
         BCall.OrWheres [WCall.Where (lit "d") (lit "=") (Val.num .int 12),
                         WCall.OrWhere (lit "f") (lit "<=") (Val.str (lit "x"))],
         BCall.WhereCombineIn [lit "aa", lit "bb"]
           [[Val.num .int 10, Val.num .int 20], [Val.num .int 11, Val.num .int 22]],
         BCall.OrWhere (lit "c") (lit "=") (Val.num .int 13)]
        [] (New (lit "test") []) = some (h, b) ∧
      b.whereList = [0, 1, 4, 5, 6] ∧
      nodes.map (fun e => e.1) = [0, 1, 4, 6] ∧
      nodes.map (fun e => e.2.1) = [WhereCondOr, WhereCondOr, WhereCondAnd, WhereCondOr] ∧
      Wheres.string h b.whereList false (fun _ => lit "?")
        = some (taggedClauses (nodes.map (fun e => (e.2.1, e.2.2.1))),
            (nodes.map (fun e => e.2.2.2)).flatten) ∧
      Wheres.string h b.whereList false (fun _ => lit "?")
        = some (lit "a = ? OR (d = ? OR f <= ?) AND (aa,bb) in ((?,?),(?,?)) OR c = ?",
            [Val.num .int 11, Val.num .int 12, Val.str (lit "x"), Val.num .int 10,
             Val.num .int 20, Val.num .int 11, Val.num .int 22, Val.num .int 13]) := by
  have hrun : runCalls
      [BCall.OrWhere (lit "a") (lit "=") (Val.num .int 11),
       BCall.OrWheres [WCall.Where (lit "d") (lit "=") (Val.num .int 12),
                       WCall.OrWhere (lit "f") (lit "<=") (Val.str (lit "x"))],
       BCall.WhereCombineIn [lit "aa", lit "bb"]
         [[Val.num .int 10, Val.num .int 20], [Val.num .int 11, Val.num .int 22]],
       BCall.OrWhere (lit "c") (lit "=") (Val.num .int 13)]
      [] (New (lit "test") [])
      = some
        ([{ Field := lit "a", Operation := lit "=", Value := [Val.num .int 11],
            Children := [], Cond := WhereCondOr, CombineRight := none, CombineLeft := none },
          { Field := [], Operation := [], Value := [],
            Children := [2, 3], Cond := WhereCondOr, CombineRight := none,
            CombineLeft := none },
          { Field := lit "d", Operation := lit "=", Value := [Val.num .int 12],
            Children := [], Cond := WhereCondAnd, CombineRight := none, CombineLeft := none },
          { Field := lit "f", Operation := lit "<=", Value := [Val.str (lit "x")],
            Children := [], Cond := WhereCondOr, CombineRight := none, CombineLeft := none },
          { Field := lit "aa", Operation := OpIn,
            Value := [Val.num .int 10, Val.num .int 11],
            Children := [], Cond := WhereCondAnd, CombineRight := some 5,
            CombineLeft := none },
          { Field := lit "bb", Operation := OpIn,
            Value := [Val.num .int 20, Val.num .int 22],
            Children := [], Cond := WhereCondAnd, CombineRight := none,
            CombineLeft := some 4 },
          { Field := lit "c", Operation := lit "=", Value := [Val.num .int 13],
            Children := [], Cond := WhereCondOr, CombineRight := none, CombineLeft := none }],
         { New (lit "test") [] with whereList := [0, 1, 4, 5, 6] }) := rfl
  obtain ⟨nodes, hn1, hn2, hn3⟩ :=
    (first_tag_implicit_later_tags_emitted _ (fun _ => lit "?") [0, 1, 4, 5, 6] false).2.1
      _ _ _ rfl hrun
      (by
        intro w hw
        simp only [List.mem_cons, List.mem_singleton, List.not_mem_nil, or_false] at hw
        rcases hw with rfl | rfl | rfl | rfl | rfl | rfl | rfl
        · exact fun _ => ⟨_, _, rfl, Val.noConfusion⟩
        · intro hc; cases hc
        · exact fun _ => ⟨_, _, rfl, Val.noConfusion⟩
        · exact fun _ => ⟨_, _, rfl, Val.noConfusion⟩
        · exact fun _ => ⟨_, _, rfl, Val.noConfusion⟩
        · exact fun _ => ⟨_, _, rfl, Val.noConfusion⟩
        · exact fun _ => ⟨_, _, rfl, Val.noConfusion⟩)
      (by
        intro w hw q wq hcr hq
        simp only [List.mem_cons, List.mem_singleton, List.not_mem_nil, or_false] at hw
        rcases hw with rfl | rfl | rfl | rfl | rfl | rfl | rfl
        all_goals first
          | (cases hcr; done)
          | (cases hcr
             have e : wq = _ := (Option.some.inj hq).symm
             subst e
             rfl))
      (Or.inl rfl)
  have hmap : nodes.map (fun e => e.1) = [0, 1, 4, 6] := hn1.trans rfl
  have htags : nodes.map (fun e => e.2.1)
      = [WhereCondOr, WhereCondOr, WhereCondAnd, WhereCondOr] := by
    rcases nodes with _ | ⟨e0, _ | ⟨e1, _ | ⟨e2, _ | ⟨e3, _ | ⟨e4, rest⟩⟩⟩⟩⟩
    all_goals try (simp at hmap; done)
    simp only [List.map_cons, List.map_nil, List.cons.injEq, and_true] at hmap
    obtain ⟨m0, m1, m2, m3⟩ := hmap
    obtain ⟨w0, k0, t0, _⟩ := hn2 e0 (by simp)
    obtain ⟨w1, k1, t1, _⟩ := hn2 e1 (by simp)
    obtain ⟨w2, k2, t2, _⟩ := hn2 e2 (by simp)
    obtain ⟨w3, k3, t3, _⟩ := hn2 e3 (by simp)
    rw [m0] at k0
    rw [m1] at k1
    rw [m2] at k2
    rw [m3] at k3
    cases k0
    cases k1
    cases k2
    cases k3
    show [e0.2.1, e1.2.1, e2.2.1, e3.2.1] = _
    rw [t0, t1, t2, t3]
    rfl
  have hs := hn3
  simp only [Bool.false_eq_true, false_and, if_false] at hs
  exact ⟨_, _, nodes, hrun, rfl, hmap, htags, hs, rfl⟩

end Builder

namespace Builder

/-- C17: a builder made by `New("test")` without options is in parameterized
mode (`New` starts from `parameterized := true` and `opts` is empty), so its
placeholder is `?` for every kind of value, and
`New("test").Where("a", "=", 11).Delete().Build()` returns
`DELETE FROM test WHERE a = ?`, not the `DELETE FROM test WHERE a = %v` that
`TestSQLBuild` expects; the expected statement is returned only with the option
`Parameterized: false`. -/
theorem new_without_options_renders_markers :
    (∀ (table : GoString) (k : Kind), (New table []).placeholder k = lit "?") ∧
    testDelete [] = some
      { sql := lit "DELETE FROM test WHERE a = ?", args := some [Val.num .int 11],
        err := none } ∧
    testDelete [{ Parameterized := false, Reuse := true }] = some
      { sql := lit "DELETE FROM test WHERE a = %v", args := some [Val.num .int 11],
        err := none } :=
  ⟨fun _ _ => rfl, rfl, rfl⟩

/-- C19: a select with an empty field list and a non-empty table name has no
`*` at the field position: when the condition serializer returns, the statement
is `SELECT FROM <table>` followed by the other clauses, and
`New("t").Query().Build()` returns `SELECT FROM t`. -/
theorem select_without_fields_has_no_star :
    (∀ (h : Heap) (b : SQLBulder) (w : GoString) (a : List Val),
      b.fields = [] → b.tableName ≠ [] →
      Wheres.string h b.whereList false b.placeholder = some (w, a) →
      ∃ rest : GoString,
        b.buildSelect h = some
          { sql := lit "SELECT FROM " ++ b.tableName ++ rest, args := some a,
            err := none }) ∧
    ((New (lit "t") []).Query.Build []).1 = some
      { sql := lit "SELECT FROM t", args := some [], err := none } := by
  refine ⟨?_, rfl⟩
  intro h b w a hf ht hw
  rw [buildSelect_eq, hw, hf]
  simp only [Option.map_some']
  have e0 : join ([] : List GoString) (lit ",") = [] := rfl
  rw [e0, List.filter_cons_of_neg (by simp), List.filter_cons_of_pos (by decide),
    List.filter_cons_of_pos (by simpa using ht)]
  generalize List.filter _ _ = l
  refine ⟨(join (b.tableName :: l) (lit " ")).drop b.tableName.length, ?_⟩
  have e : join (b.tableName :: l) (lit " ")
      = b.tableName ++ (join (b.tableName :: l) (lit " ")).drop b.tableName.length := by
    cases l with
    | nil => simp [join]
    | cons x t => rw [join_cons_cons]; simp
  rw [join_cons_cons, join_cons_cons]
  have l1 : lit "SELECT FROM " = lit "SELECT" ++ lit " " ++ (lit "FROM" ++ lit " ") := by decide
  rw [l1, List.append_assoc (lit "SELECT" ++ lit " " ++ (lit "FROM" ++ lit " ")), ← e]
  simp only [List.append_assoc]

/-- C15: the children of a branch with more than one child are rendered
without brackets when the branch is the only entry of its list.  With the
branch `Wheres(w.Where("a", "=", 1).OrWhere("b", "=", 2))` as the only condition
the clause is `a = ? OR b = ?`; and in the tree whose top-level entries are the
leaf `x = 1` and an `AND` branch whose only child is the branch `a = 1 OR b = 2`,
the clause is `x = ? AND a = ? OR b = ?`, in which the conjunction `OR` of the
inner branch associates with the sibling `x = ?`.  Among several entries the
same branch is rendered `(a = ? OR b = ?)`. -/
theorem single_entry_branch_not_bracketed :
    ((runCalls
        [BCall.Wheres [WCall.Where (lit "a") (lit "=") (Val.num .int 1),
                       WCall.OrWhere (lit "b") (lit "=") (Val.num .int 2)]]
        [] (New (lit "t") [])).bind
      fun s => Wheres.string s.1 s.2.whereList false s.2.placeholder)
      = some (lit "a = ? OR b = ?", [Val.num .int 1, Val.num .int 2]) ∧
    Wheres.string
        [{ Field := lit "x", Operation := lit "=", Value := [Val.num .int 1], Children := [],
           Cond := WhereCondAnd, CombineRight := none, CombineLeft := none },
         { Field := [], Operation := [], Value := [], Children := [2],
           Cond := WhereCondAnd, CombineRight := none, CombineLeft := none },
         { Field := [], Operation := [], Value := [], Children := [3, 4],
           Cond := WhereCondAnd, CombineRight := none, CombineLeft := none },
         { Field := lit "a", Operation := lit "=", Value := [Val.num .int 1], Children := [],
           Cond := WhereCondAnd, CombineRight := none, CombineLeft := none },
         { Field := lit "b", Operation := lit "=", Value := [Val.num .int 2], Children := [],
           Cond := WhereCondOr, CombineRight := none, CombineLeft := none }]
        [0, 1] false (fun _ => lit "?")
      = some (lit "x = ? AND a = ? OR b = ?",
          [Val.num .int 1, Val.num .int 1, Val.num .int 2]) ∧
    ((runCalls
        [BCall.Where (lit "x") (lit "=") (Val.num .int 1),
         BCall.Wheres [WCall.Where (lit "a") (lit "=") (Val.num .int 1),
                       WCall.OrWhere (lit "b") (lit "=") (Val.num .int 2)]]
        [] (New (lit "t") [])).bind
      fun s => Wheres.string s.1 s.2.whereList false s.2.placeholder)
      = some (lit "x = ? AND (a = ? OR b = ?)",
          [Val.num .int 1, Val.num .int 1, Val.num .int 2]) :=
  ⟨rfl, rfl, rfl⟩

end Builder

namespace Builder

theorem Wheres_string_tidy (h : Heap) (b : SQLBulder) (hinv : HeapInv h)
    (hnodes : ∀ x ∈ h, x.Children = [] →
      Tidy x.Field ∧ x.Operation ∈ [OpEq, OpLt, OpLte, OpGt, OpGte, OpIn, OpNotIn])
    (whs : Wheres) (hne : whs ≠ []) (nb : Bool) (w : GoString) (a : List Val)
    (hw : Wheres.string h whs nb b.placeholder = some (w, a)) : Tidy w := by
  unfold Wheres.string at hw
  refine stringWith_tidy h whs _ ?_ hne nb w a hw
  intro p f nb1 t a1 hrun
  refine stringF_tidy h b.placeholder ?_ ?_ ?_ ?_ h.length p f nb1 t a1 hrun
  · intro k
    unfold SQLBulder.placeholder
    split_ifs <;> decide
  · intro x hx
    obtain ⟨q, hq⟩ := List.getElem?_of_mem hx
    rcases (hinv q x hq).1.1 with hc | hc <;> rw [hc] <;> decide
  · intro x hx hc
    obtain ⟨h1, h2⟩ := hnodes x hx hc
    refine ⟨h1, ?_⟩
    simp only [List.mem_cons, List.mem_singleton, List.not_mem_nil, or_false] at h2
    rcases h2 with h2 | h2 | h2 | h2 | h2 | h2 | h2 <;> rw [h2] <;> decide
  · intro x hx q hq
    obtain ⟨n, hn⟩ := List.getElem?_of_mem hx
    exact (hinv n x hn).2.2 q hq

theorem filter_tidy (l : List GoString) (hl : ∀ s ∈ l, s = [] ∨ Tidy s) :
    ∀ s ∈ l.filter (fun s => decide (s ≠ [])), Tidy s := by
  intro s hs
  rw [List.mem_filter] at hs
  rcases hl s hs.1 with h1 | h1
  · simp [h1] at hs
  · exact h1

/-- C18: for every select builder obtained from `New` by calls of the fluent
interface, whose table name, select fields, order fields and group fields are
tidy (not empty, no leading, trailing or doubled space), whose index name is
empty or tidy, whose order directions are `ASC` or `DESC`, and whose condition
leaves have tidy field names and operators among `=`, `<`, `<=`, `>`, `>=`,
`in`, `not in`.  (1) When every condition node without children has a non-nil
first value and the two leaves of a combine chain hold equally many values,
`Build` returns.  (2) Whatever `Build` returns is a statement without error
that is tidy (no two consecutive spaces, no space at either end): the
single-space join of `SELECT` and the non-empty ones among the field list,
`FROM`, the table name and the clauses, with the text `w` and the arguments of
the condition serializer; a clause is empty exactly when it is not configured
(no index name, no condition, no order, no group, limit or offset `-1`) and is
otherwise its keyword with a non-empty body, so no keyword is emitted without
a body. -/
theorem select_statement_tidy (table : GoString) (opts : List NewBuilderOpt)
    (calls : List Call) (h : Heap) (b : SQLBulder)
    (hrun : runAll calls [] (New table opts) = some (h, b))
    (hact : b.action = SQLActionSelect)
    (ht : Tidy b.tableName) (hf : ∀ f ∈ b.fields, Tidy f)
    (hidx : b.forceIndexName = [] ∨ Tidy b.forceIndexName)
    (ho : ∀ o ∈ b.orders, Tidy o.Field ∧ (o.Order = OrderAsc ∨ o.Order = OrderDesc))
    (hg : ∀ g ∈ b.groups, Tidy g)
    (hnodes : ∀ x ∈ h, x.Children = [] →
      Tidy x.Field ∧ x.Operation ∈ [OpEq, OpLt, OpLte, OpGt, OpGte, OpIn, OpNotIn]) :
    ((∀ x ∈ h, x.Children = [] → ∃ v vs, x.Value = v :: vs ∧ v ≠ Val.nil) →
      (∀ x ∈ h, ∀ (q : Nat) (xq : Where), x.CombineRight = some q → h[q]? = some xq →
        xq.Value.length = x.Value.length) →
      ∃ r : BuildResult, (b.Build h).1 = some r) ∧
    (∀ r : BuildResult, (b.Build h).1 = some r →
      ∃ (w : GoString) (a : List Val),
        Wheres.string h b.whereList false b.placeholder = some (w, a) ∧
        r.err = none ∧ r.args = some a ∧
        Tidy r.sql ∧
        (b.whereList ≠ [] → w ≠ []) ∧
        r.sql = join (lit "SELECT" ::
          ([join b.fields (lit ","), lit "FROM", b.tableName,
            if b.forceIndexName = [] then []
              else lit "FORCE INDEX(" ++ b.forceIndexName ++ lit ")",
            if b.whereList = [] then [] else lit "WHERE " ++ w,
            if b.orders = [] then []
              else lit "ORDER BY "
                ++ join (b.orders.map (fun o => o.Field ++ lit " " ++ o.Order)) (lit ","),
            if b.groups = [] then [] else lit "GROUP BY " ++ join b.groups (lit ","),
            if b.limitSize = -1 then [] else lit "LIMIT " ++ formatInt b.limitSize,
            if b.offsetSize = -1 then [] else lit "OFFSET " ++ formatInt b.offsetSize
           ].filter (fun s => decide (s ≠ [])))) (lit " ")) := by
  obtain ⟨hinv, hptr⟩ := runAll_New_inv calls table opts h b hrun
  have d1 : ¬ (SQLActionSelect = SQLActionInsert) := by decide
  have d2 : ¬ (SQLActionSelect = SQLActionUpdate) := by decide
  have hbuild : (b.Build h).1 = b.buildSelect h := by
    simp only [SQLBulder.Build, SQLBulder.build, if_neg ht.1, hact, if_neg d1, if_neg d2,
      if_true]
  constructor
  · intro hval hlen
    obtain ⟨⟨w, a⟩, hw⟩ := Wheres_string_isSome h b.placeholder hinv
      (fun p x hp => hval x (List.getElem?_mem hp))
      (fun p q x xq hp hcr hqq => hlen x (List.getElem?_mem hp) q xq hcr hqq)
      b.whereList hptr false
    rw [hbuild, buildSelect_eq, hw]
    exact ⟨_, rfl⟩
  intro r hr
  rw [hbuild, buildSelect_eq] at hr
  cases hws : Wheres.string h b.whereList false b.placeholder with
  | none => simp [hws] at hr
  | some wa =>
  obtain ⟨w, a⟩ := wa
  have hw := hws
  have hwne : b.whereList ≠ [] → Tidy w := fun hne =>
    Wheres_string_tidy h b hinv hnodes b.whereList hne false w a hw
  have hwe : w = [] ↔ b.whereList = [] := by
    constructor
    · intro hw0
      by_contra hne
      exact (hwne hne).1 hw0
    · intro hwl
      rw [hwl] at hw
      simp only [Wheres.string, Wheres.stringWith, Option.some.injEq, Prod.mk.injEq] at hw
      exact hw.1.symm
  rw [hws] at hr
  simp only [Option.map_some', hwe, Option.some.injEq] at hr
  subst hr
  refine ⟨w, a, rfl, rfl, rfl, ?_, fun hne => (hwne hne).1, rfl⟩
  · apply Tidy_join_space _ (by simp)
    intro s hs
    rcases List.mem_cons.mp hs with rfl | hs
    · decide
    · refine filter_tidy _ ?_ s hs
      intro x hx
      simp only [List.mem_cons, List.mem_singleton, List.not_mem_nil, or_false] at hx
      have e1 : lit "WHERE " = lit "WHERE" ++ lit " " := by decide
      have e2 : lit "ORDER BY " = lit "ORDER BY" ++ lit " " := by decide
      have e3 : lit "GROUP BY " = lit "GROUP BY" ++ lit " " := by decide
      have e4 : lit "LIMIT " = lit "LIMIT" ++ lit " " := by decide
      have e5 : lit "OFFSET " = lit "OFFSET" ++ lit " " := by decide
      rcases hx with rfl | rfl | rfl | rfl | rfl | rfl | rfl | rfl | rfl
      · by_cases hfe : b.fields = []
        · left; rw [hfe]; rfl
        · right; exact Tidy_join_comma _ hfe hf
      · right; decide
      · right; exact ht
      · rcases hidx with hi | hi
        · left; rw [if_pos hi]
        · right
          rw [if_neg hi.1]
          exact Tidy_append _ _ (Tidy_append _ _ (by decide) hi) (by decide)
      · by_cases hwl : b.whereList = []
        · left; rw [if_pos hwl]
        · right
          rw [if_neg hwl, e1]
          exact Tidy_space _ _ (by decide) (hwne hwl)
      · by_cases hoe : b.orders = []
        · left; rw [if_pos hoe]
        · right
          rw [if_neg hoe, e2]
          refine Tidy_space _ _ (by decide) (Tidy_join_comma _ (by simpa using hoe) ?_)
          intro s1 hs1
          rw [List.mem_map] at hs1
          obtain ⟨o, hom, rfl⟩ := hs1
          obtain ⟨k1, k2⟩ := ho o hom
          refine Tidy_space _ _ k1 ?_
          rcases k2 with k2 | k2 <;> rw [k2] <;> decide
      · by_cases hge : b.groups = []
        · left; rw [if_pos hge]
        · right
          rw [if_neg hge, e3]
          exact Tidy_space _ _ (by decide) (Tidy_join_comma _ hge hg)
      · by_cases hle : b.limitSize = -1
        · left; rw [if_pos hle]
        · right
          rw [if_neg hle, e4]
          exact Tidy_space _ _ (by decide) (formatInt_Tidy _)
      · by_cases hoe : b.offsetSize = -1
        · left; rw [if_pos hoe]
        · right
          rw [if_neg hoe, e5]
          exact Tidy_space _ _ (by decide) (formatInt_Tidy _)

/-- C18, at a concrete input: a select with a condition, a grouped branch, a
combine chain and every clause,
`New("t").Select("a", "b").Where("x", "=", 1).Wheres(w.Where("d", "=", 2).OrWhere("e", "<=", "v")).WhereCombineIn([f1, f2], [[10, 20], [11, 22]]).ForceIndex("idx").OrderBy("a", ASC).GroupBy("b").Limit(10).Offset(5).Query().Build()`. -/
theorem select_statement_tidy_witness :
    ∃ (h : Heap) (b : SQLBulder),
      runAll [Call.Select [lit "a", lit "b"],
              Call.cond (BCall.Where (lit "x") (lit "=") (Val.num .int 1)),
              Call.cond (BCall.Wheres [WCall.Where (lit "d") (lit "=") (Val.num .int 2),
                                       WCall.OrWhere (lit "e") (lit "<=") (Val.str (lit "v"))]),
              Call.cond (BCall.WhereCombineIn [lit "f1", lit "f2"]
                [[Val.num .int 10, Val.num .int 20], [Val.num .int 11, Val.num .int 22]]),
              Call.ForceIndex (lit "idx"),
              Call.OrderBy (lit "a") OrderAsc, Call.GroupBy [lit "b"],
              Call.Limit 10, Call.Offset 5, Call.Query]
        [] (New (lit "t") []) = some (h, b) ∧
      ∃ r : BuildResult, (b.Build h).1 = some r ∧ r.err = none ∧
        r.sql = lit ("SELECT a,b FROM t FORCE INDEX(idx) WHERE x = ? AND (d = ? OR e <= ?) " ++
          "AND (f1,f2) in ((?,?),(?,?)) ORDER BY a ASC GROUP BY b LIMIT 10 OFFSET 5") ∧
        Tidy r.sql := by
  have hrun : runAll [Call.Select [lit "a", lit "b"],
              Call.cond (BCall.Where (lit "x") (lit "=") (Val.num .int 1)),
              Call.cond (BCall.Wheres [WCall.Where (lit "d") (lit "=") (Val.num .int 2),
                                       WCall.OrWhere (lit "e") (lit "<=") (Val.str (lit "v"))]),
              Call.cond (BCall.WhereCombineIn [lit "f1", lit "f2"]
                [[Val.num .int 10, Val.num .int 20], [Val.num .int 11, Val.num .int 22]]),
              Call.ForceIndex (lit "idx"),
              Call.OrderBy (lit "a") OrderAsc, Call.GroupBy [lit "b"],
              Call.Limit 10, Call.Offset 5, Call.Query]
        [] (New (lit "t") [])
      = some
        ([{ Field := lit "x", Operation := lit "=", Value := [Val.num .int 1], Children := [],
            Cond := WhereCondAnd, CombineRight := none, CombineLeft := none },
          { Field := [], Operation := [], Value := [], Children := [2, 3],
            Cond := WhereCondAnd, CombineRight := none, CombineLeft := none },
          { Field := lit "d", Operation := lit "=", Value := [Val.num .int 2], Children := [],
            Cond := WhereCondAnd, CombineRight := none, CombineLeft := none },
          { Field := lit "e", Operation := lit "<=", Value := [Val.str (lit "v")],
            Children := [], Cond := WhereCondOr, CombineRight := none, CombineLeft := none },
          { Field := lit "f1", Operation := OpIn, Value := [Val.num .int 10, Val.num .int 11],
            Children := [], Cond := WhereCondAnd, CombineRight := some 5,
            CombineLeft := none },
          { Field := lit "f2", Operation := OpIn, Value := [Val.num .int 20, Val.num .int 22],
            Children := [], Cond := WhereCondAnd, CombineRight := none,
            CombineLeft := some 4 }],
         { New (lit "t") [] with
           action := SQLActionSelect, fields := [lit "a", lit "b"], whereList := [0, 1, 4, 5],
           forceIndexName := lit "idx",
           orders := [{ Field := lit "a", Order := OrderAsc }], groups := [lit "b"],
           limitSize := 10, offsetSize := 5 }) := rfl
  obtain ⟨hret, htidy⟩ := select_statement_tidy (lit "t") [] _ _ _ hrun rfl (by decide)
    (by
      intro f hf
      simp only [List.mem_cons, List.mem_singleton, List.not_mem_nil, or_false] at hf
      rcases hf with rfl | rfl <;> decide)
    (Or.inr (by decide))
    (by
      intro o ho
      simp only [List.mem_singleton] at ho
      subst ho
      exact ⟨by decide, Or.inl rfl⟩)
    (by
      intro g hg
      simp only [List.mem_singleton] at hg
      subst hg
      decide)
    (by
      intro x hx hc
      simp only [List.mem_cons, List.mem_singleton, List.not_mem_nil, or_false] at hx
      rcases hx with rfl | rfl | rfl | rfl | rfl | rfl
      · exact ⟨by decide, by decide⟩
      · exact absurd hc (by decide)
      · exact ⟨by decide, by decide⟩
      · exact ⟨by decide, by decide⟩
      · exact ⟨by decide, by decide⟩
      · exact ⟨by decide, by decide⟩)
  obtain ⟨r, hr⟩ := hret
    (by
      intro x hx
      simp only [List.mem_cons, List.mem_singleton, List.not_mem_nil, or_false] at hx
      rcases hx with rfl | rfl | rfl | rfl | rfl | rfl
      · exact fun _ => ⟨_, _, rfl, Val.noConfusion⟩
      · intro hc; cases hc
      · exact fun _ => ⟨_, _, rfl, Val.noConfusion⟩
      · exact fun _ => ⟨_, _, rfl, Val.noConfusion⟩
      · exact fun _ => ⟨_, _, rfl, Val.noConfusion⟩
      · exact fun _ => ⟨_, _, rfl, Val.noConfusion⟩)
    (by
      intro x hx q xq hcr hq
      simp only [List.mem_cons, List.mem_singleton, List.not_mem_nil, or_false] at hx
      rcases hx with rfl | rfl | rfl | rfl | rfl | rfl
      all_goals first
        | (cases hcr; done)
        | (cases hcr
           have e : xq = _ := (Option.some.inj hq).symm
           subst e
           rfl))
  obtain ⟨w, a, _, herr, _, ht, _, _⟩ := htidy r hr
  have e : some r = some _ := hr.symm.trans
    (show (SQLBulder.Build _ _).1 = some
      { sql := lit ("SELECT a,b FROM t FORCE INDEX(idx) WHERE x = ? AND (d = ? OR e <= ?) " ++
          "AND (f1,f2) in ((?,?),(?,?)) ORDER BY a ASC GROUP BY b LIMIT 10 OFFSET 5"),
        args := some [Val.num .int 1, Val.num .int 2, Val.str (lit "v"), Val.num .int 10,
          Val.num .int 20, Val.num .int 11, Val.num .int 22],
        err := none } from rfl)
  have es : r.sql = _ := congrArg BuildResult.sql (Option.some.inj e)
  exact ⟨_, _, hrun, r, hr, herr, es, ht⟩

end Builder

namespace Builder

/-- C12 (as stated, refuted): three builders reached through the fluent
interface with non-nil values, no grouped branch without conditions and rows
with a field, on which `Build` neither returns an error nor a statement.  The
select `New("t").Select("x").WhereCombineIn([a, b, a], [[1, 2, 3]])` has a
non-empty table name and `Build` faults: the leaves of `a` hold `[1, 3]`, the
leaf of `b` holds `[2]`, and `Where.string` reads `allValues[1][1]`.  The insert
in literal mode `BatchInsert([{a: "x"}, {a: 1}])` faults on the type assertion
`arg.(string)` for the second row.  The update in literal mode
`Where("id", "=", 1).Update({a: OrderAsc})`, whose value is the non-nil constant
`OrderAsc` of the defined string type `OrderEnum`, faults on the type assertion
`val.(string)`. -/
theorem build_faults_on_well_formed_input :
    (∃ (h : Heap) (b : SQLBulder),
      runAll [Call.Select [lit "x"],
              Call.cond (BCall.WhereCombineIn [lit "a", lit "b", lit "a"]
                [[Val.num .int 1, Val.num .int 2, Val.num .int 3]])]
        [] (New (lit "t") []) = some (h, b) ∧
      b.tableName = lit "t" ∧ b.action = SQLActionSelect ∧ (b.Build h).1 = none) ∧
    (∃ (h : Heap) (b : SQLBulder),
      runAll [Call.BatchInsert [[(lit "a", Val.str (lit "x"))], [(lit "a", Val.num .int 1)]]]
        [] (New (lit "t") [{ Parameterized := false, Reuse := true }]) = some (h, b) ∧
      b.tableName = lit "t" ∧ b.action = SQLActionInsert ∧ (b.Build h).1 = none) ∧
    (∃ (h : Heap) (b : SQLBulder),
      runAll [Call.cond (BCall.Where (lit "id") (lit "=") (Val.num .int 1)),
              Call.Update [(lit "a", Val.defString (lit "builder.OrderEnum") OrderAsc)]]
        [] (New (lit "t") [{ Parameterized := false, Reuse := true }]) = some (h, b) ∧
      b.tableName = lit "t" ∧ b.action = SQLActionUpdate ∧ (b.Build h).1 = none) :=
  ⟨⟨_, _, rfl, rfl, rfl, rfl⟩, ⟨_, _, rfl, rfl, rfl, rfl⟩, ⟨_, _, rfl, rfl, rfl, rfl⟩⟩

/-- C12 (amended): for every builder obtained from `New` by calls of the fluent
interface in which every condition node without children has a non-nil first
value (so no grouped branch is without conditions), the two leaves of every
combine chain hold equally many values, the first value row of an insert or
update has at least one field and no nil value, for an insert in literal mode
every row holds a value of type `string` for each field whose first-row value
is of kind string, and for an update no value of the first row is of a type
with the type string `mydb.UpdateRaw` and, in literal mode, every value of kind
string in it is of type `string`: `Build` returns, and
its error is non-nil exactly when the table name is empty, or no action was
recorded, or the action is insert and there is no value row, or the action is
update or delete and the condition list is empty.  With an error the statement
is empty and the arguments are nil; an empty table name gives the error
`invalid sql: empty table name` whatever the rest; a select with a non-empty
table name has no error. -/
theorem build_error_exactly_when (table : GoString) (opts : List NewBuilderOpt)
    (calls : List Call) (h : Heap) (b : SQLBulder)
    (hrun : runAll calls [] (New table opts) = some (h, b))
    (hval : ∀ x ∈ h, x.Children = [] → ∃ v vs, x.Value = v :: vs ∧ v ≠ Val.nil)
    (hlen : ∀ x ∈ h, ∀ (q : Nat) (xq : Where), x.CombineRight = some q → h[q]? = some xq →
      xq.Value.length = x.Value.length)
    (hrows : b.action = SQLActionInsert ∨ b.action = SQLActionUpdate →
      ∀ row0 rest, b.values = row0 :: rest → row0 ≠ [] ∧ ∀ e ∈ row0, e.2 ≠ Val.nil)
    (hstr : b.action = SQLActionInsert → b.parameterized = false →
      ∀ row0 rest, b.values = row0 :: rest → ∀ row ∈ b.values, ∀ e ∈ row0,
        typeKind e.2 = some Kind.String → ∃ s, mapGet row e.1 Val.nil = Val.str s)
    (hupd : b.action = SQLActionUpdate →
      ∀ row0 rest, b.values = row0 :: rest → ∀ e ∈ row0,
        typeString e.2 ≠ some (lit "mydb.UpdateRaw") ∧
        (b.parameterized = false → typeKind e.2 = some Kind.String →
          (assertString e.2).isSome = true)) :
    ∃ r : BuildResult,
      (b.Build h).1 = some r ∧
      (r.err ≠ none ↔
        (b.tableName = [] ∨ b.action = [] ∨
          (b.action = SQLActionInsert ∧ b.values = []) ∨
          ((b.action = SQLActionUpdate ∨ b.action = SQLActionDelete) ∧ b.whereList = []))) ∧
      (r.err ≠ none → r.sql = [] ∧ r.args = none) ∧
      (b.tableName = [] → r.err = some (lit "invalid sql: empty table name")) ∧
      (b.tableName ≠ [] → b.action = SQLActionSelect → r.err = none) := by
  obtain ⟨hinv, hptr⟩ := runAll_New_inv calls table opts h b hrun
  have hnew : (New table opts).action = [] := by
    unfold New newSQLBuilder
    simp
    rfl
  have hact := runAll_action calls [] (New table opts) h b (Or.inl hnew) hrun
  obtain ⟨⟨w, a⟩, hw⟩ := Wheres_string_isSome h b.placeholder hinv
    (fun p x hp => hval x (List.getElem?_mem hp))
    (fun p q x xq hp hcr hqq => hlen x (List.getElem?_mem hp) q xq hcr hqq)
    b.whereList hptr false
  have hwe := Wheres_string_nil_iff h b.placeholder b.whereList false w a hw
  have d1 : ¬ (SQLActionSelect = SQLActionInsert) := by decide
  have d2 : ¬ (SQLActionSelect = SQLActionUpdate) := by decide
  have d3 : ¬ (SQLActionDelete = SQLActionInsert) := by decide
  have d4 : ¬ (SQLActionDelete = SQLActionUpdate) := by decide
  have d5 : ¬ (SQLActionDelete = SQLActionSelect) := by decide
  have d6 : ¬ (SQLActionUpdate = SQLActionInsert) := by decide
  have d7 : ¬ (([] : GoString) = SQLActionInsert) := by decide
  have d8 : ¬ (([] : GoString) = SQLActionUpdate) := by decide
  have d9 : ¬ (([] : GoString) = SQLActionSelect) := by decide
  have d10 : ¬ (([] : GoString) = SQLActionDelete) := by decide
  have d11 : ¬ (SQLActionSelect = ([] : GoString)) := by decide
  have d12 : ¬ (SQLActionDelete = ([] : GoString)) := by decide
  have d13 : ¬ (SQLActionInsert = ([] : GoString)) := by decide
  have d14 : ¬ (SQLActionUpdate = ([] : GoString)) := by decide
  have d15 : ¬ (SQLActionInsert = SQLActionUpdate) := by decide
  have d16 : ¬ (SQLActionInsert = SQLActionDelete) := by decide
  have d17 : ¬ (SQLActionUpdate = SQLActionDelete) := by decide
  have d18 : ¬ (SQLActionSelect = SQLActionDelete) := by decide
  have fin_err : ∀ msg : GoString, (b.Build h).1 = some (errorResult msg) →
      (b.tableName = [] ∨ b.action = [] ∨
        (b.action = SQLActionInsert ∧ b.values = []) ∨
        ((b.action = SQLActionUpdate ∨ b.action = SQLActionDelete) ∧ b.whereList = [])) →
      (b.tableName = [] → msg = lit "empty table name") →
      (b.tableName ≠ [] → b.action ≠ SQLActionSelect) →
      ∃ r : BuildResult,
        (b.Build h).1 = some r ∧
        (r.err ≠ none ↔
          (b.tableName = [] ∨ b.action = [] ∨
            (b.action = SQLActionInsert ∧ b.values = []) ∨
            ((b.action = SQLActionUpdate ∨ b.action = SQLActionDelete) ∧
              b.whereList = []))) ∧
        (r.err ≠ none → r.sql = [] ∧ r.args = none) ∧
        (b.tableName = [] → r.err = some (lit "invalid sql: empty table name")) ∧
        (b.tableName ≠ [] → b.action = SQLActionSelect → r.err = none) := by
    intro msg hb hcond hmsg hsel
    refine ⟨errorResult msg, hb, ⟨fun _ => hcond, fun _ => by simp [errorResult]⟩,
      fun _ => ⟨rfl, rfl⟩, ?_, ?_⟩
    · intro ht
      rw [hmsg ht]
      rfl
    · intro ht ha
      exact absurd ha (hsel ht)
  have fin_ok : ∀ (sql : GoString) (args : List Val),
      (b.Build h).1 = some { sql := sql, args := some args, err := none } →
      ¬ (b.tableName = [] ∨ b.action = [] ∨
        (b.action = SQLActionInsert ∧ b.values = []) ∨
        ((b.action = SQLActionUpdate ∨ b.action = SQLActionDelete) ∧ b.whereList = [])) →
      ∃ r : BuildResult,
        (b.Build h).1 = some r ∧
        (r.err ≠ none ↔
          (b.tableName = [] ∨ b.action = [] ∨
            (b.action = SQLActionInsert ∧ b.values = []) ∨
            ((b.action = SQLActionUpdate ∨ b.action = SQLActionDelete) ∧
              b.whereList = []))) ∧
        (r.err ≠ none → r.sql = [] ∧ r.args = none) ∧
        (b.tableName = [] → r.err = some (lit "invalid sql: empty table name")) ∧
        (b.tableName ≠ [] → b.action = SQLActionSelect → r.err = none) := by
    intro sql args hb hcond
    refine ⟨_, hb, ⟨fun hc => absurd rfl hc, fun hc => absurd hc hcond⟩,
      fun hc => absurd rfl hc, ?_, fun _ _ => rfl⟩
    intro ht
    exact absurd (Or.inl ht) hcond
  by_cases ht : b.tableName = []
  · refine fin_err (lit "empty table name") ?_ (Or.inl ht) (fun _ => rfl)
      (fun hne => absurd ht hne)
    simp only [SQLBulder.Build, SQLBulder.build, if_pos ht]
  · rcases hact with ha | ha | ha | ha | ⟨ha, hvne⟩
    · refine fin_err (lit "wrong action") ?_ (Or.inr (Or.inl ha)) (fun hc => absurd hc ht)
        (fun _ hc => by rw [ha] at hc; exact absurd hc d9)
      simp only [SQLBulder.Build, SQLBulder.build, if_neg ht, ha, if_neg d7, if_neg d8,
        if_neg d9, if_neg d10]
    · have hb : ∃ sql, (b.Build h).1 = some { sql := sql, args := some a, err := none } :=
        ⟨_, by simp only [SQLBulder.Build, SQLBulder.build, if_neg ht, ha, if_neg d1,
          if_neg d2, if_true, SQLBulder.buildSelect, hw]; rfl⟩
      obtain ⟨sql, hb⟩ := hb
      refine fin_ok sql a hb ?_
      simp only [ha, ht, d11, d1, d2, d18, false_and, false_or, or_self, not_false_eq_true]
    · by_cases hw0 : w = []
      · refine fin_err (lit "can not delete without where conditions") ?_
          (Or.inr (Or.inr (Or.inr ⟨Or.inr ha, hwe.mp hw0⟩))) (fun hc => absurd hc ht)
          (fun _ hc => by rw [ha] at hc; exact absurd hc d5)
        simp only [SQLBulder.Build, SQLBulder.build, if_neg ht, ha, if_neg d3, if_neg d4,
          if_neg d5, if_true, SQLBulder.buildDelete, hw, if_pos hw0]
      · have hb : ∃ sql, (b.Build h).1 = some { sql := sql, args := some a, err := none } :=
          ⟨_, by simp only [SQLBulder.Build, SQLBulder.build, if_neg ht, ha, if_neg d3,
            if_neg d4, if_neg d5, if_true, SQLBulder.buildDelete, hw, if_neg hw0]; rfl⟩
        obtain ⟨sql, hb⟩ := hb
        refine fin_ok sql a hb ?_
        have hwl : b.whereList ≠ [] := fun hc => hw0 (hwe.mpr hc)
        simp only [ha, ht, d12, d3, d4, hwl, and_false, false_and, false_or, or_self,
          not_false_eq_true]
    · have hcases : b.values = [] ∨ ∃ row0 rest, b.values = row0 :: rest := by
        cases b.values with
        | nil => exact Or.inl rfl
        | cons x t => exact Or.inr ⟨x, t, rfl⟩
      rcases hcases with hv | ⟨row0, rest, hv⟩
      · refine fin_err (lit "wrong insert values") ?_
          (Or.inr (Or.inr (Or.inl ⟨ha, hv⟩))) (fun hc => absurd hc ht)
          (fun _ hc => by rw [ha] at hc; exact absurd hc.symm d1)
        simp only [SQLBulder.Build, SQLBulder.build, if_neg ht, ha, if_true,
          SQLBulder.buildInsert, hv]
      · obtain ⟨k1, k2⟩ := hrows (Or.inl ha) row0 rest hv
        obtain ⟨sql, args, hb⟩ := buildInsert_ok b row0 rest hv k1 k2
          (fun hp => hstr ha hp row0 rest hv)
        refine fin_ok sql args ?_ ?_
        · simp only [SQLBulder.Build, SQLBulder.build, if_neg ht, ha, if_true, hb]
        · simp only [ha, ht, d13, d15, d16, hv, false_and, false_or, or_self, and_false,
            not_false_eq_true, reduceCtorEq]
    · have hcases : b.values = [] ∨ ∃ row0 rest, b.values = row0 :: rest := by
        cases b.values with
        | nil => exact Or.inl rfl
        | cons x t => exact Or.inr ⟨x, t, rfl⟩
      rcases hcases with hv | ⟨row0, rest, hv⟩
      · exact absurd hv hvne
      · obtain ⟨k1, k2⟩ := hrows (Or.inr ha) row0 rest hv
        obtain ⟨⟨up, args1⟩, hup⟩ := updateLoop_isSome b row0
          (fun e he => ⟨k2 e he, (hupd ha row0 rest hv e he).1, (hupd ha row0 rest hv e he).2⟩)
          ([], b.args)
        have hupne : up ≠ [] := updateLoop_ne_nil b row0 [] b.args up args1 hup (Or.inr k1)
        by_cases hw0 : w = []
        · refine fin_err (lit "can not update without where conditions") ?_
            (Or.inr (Or.inr (Or.inr ⟨Or.inl ha, hwe.mp hw0⟩))) (fun hc => absurd hc ht)
            (fun _ hc => by rw [ha] at hc; exact absurd hc.symm d2)
          simp only [SQLBulder.Build, SQLBulder.build, if_neg ht, ha, if_neg d6, if_true,
            SQLBulder.buildUpdate, hv, hup, hw, if_pos hw0]
        · obtain ⟨u, hu⟩ := sliceStr_ok up hupne
          have hb : ∃ sql, (b.Build h).1
              = some { sql := sql, args := some (args1 ++ a), err := none } :=
            ⟨_, by simp only [SQLBulder.Build, SQLBulder.build, if_neg ht, ha, if_neg d6,
              if_true, SQLBulder.buildUpdate, hv, hup, hw, if_neg hw0, hu]; rfl⟩
          obtain ⟨sql, hb⟩ := hb
          refine fin_ok sql _ hb ?_
          have hwl : b.whereList ≠ [] := fun hc => hw0 (hwe.mpr hc)
          simp only [ha, ht, d14, d6, d17, hwl, and_false, false_and, false_or, or_self,
            not_false_eq_true]

/-- C12 (amended), at a concrete input: in literal mode,
`New("t").Where("id", "=", 1).WhereCombineIn([a, b], [[1, 2], [3, 4]]).Update({c: "x", d: 1}).Build()`,
an update with a condition and a combine chain, returns a statement and no
error. -/
theorem build_error_exactly_when_witness :
    ∃ (h : Heap) (b : SQLBulder),
      runAll [Call.cond (BCall.Where (lit "id") (lit "=") (Val.num .int 1)),
              Call.cond (BCall.WhereCombineIn [lit "a", lit "b"]
                [[Val.num .int 1, Val.num .int 2], [Val.num .int 3, Val.num .int 4]]),
              Call.Update [(lit "c", Val.str (lit "x")), (lit "d", Val.num .int 1)]]
        [] (New (lit "t") [{ Parameterized := false, Reuse := true }]) = some (h, b) ∧
      h.length = 3 ∧
      ∃ r : BuildResult, (b.Build h).1 = some r ∧ r.err = none := by
  have hrun : runAll [Call.cond (BCall.Where (lit "id") (lit "=") (Val.num .int 1)),
              Call.cond (BCall.WhereCombineIn [lit "a", lit "b"]
                [[Val.num .int 1, Val.num .int 2], [Val.num .int 3, Val.num .int 4]]),
              Call.Update [(lit "c", Val.str (lit "x")), (lit "d", Val.num .int 1)]]
        [] (New (lit "t") [{ Parameterized := false, Reuse := true }])
      = some
        ([{ Field := lit "id", Operation := lit "=", Value := [Val.num .int 1],
            Children := [], Cond := WhereCondAnd, CombineRight := none, CombineLeft := none },
          { Field := lit "a", Operation := OpIn, Value := [Val.num .int 1, Val.num .int 3],
            Children := [], Cond := WhereCondAnd, CombineRight := some 2,
            CombineLeft := none },
          { Field := lit "b", Operation := OpIn, Value := [Val.num .int 2, Val.num .int 4],
            Children := [], Cond := WhereCondAnd, CombineRight := none,
            CombineLeft := some 1 }],
         { (New (lit "t") [{ Parameterized := false, Reuse := true }]) with
           whereList := [0, 1, 2], action := SQLActionUpdate,
           values := [[(lit "c", Val.str (lit "x")), (lit "d", Val.num .int 1)]] }) := rfl
  obtain ⟨r, h1, h2, _, _, _⟩ := build_error_exactly_when (lit "t")
    [{ Parameterized := false, Reuse := true }] _ _ _ hrun
    (by
      intro x hx
      simp only [List.mem_cons, List.mem_singleton, List.not_mem_nil, or_false] at hx
      rcases hx with rfl | rfl | rfl <;> exact fun _ => ⟨_, _, rfl, Val.noConfusion⟩)
    (by
      intro x hx q xq hcr hq
      simp only [List.mem_cons, List.mem_singleton, List.not_mem_nil, or_false] at hx
      rcases hx with rfl | rfl | rfl
      all_goals first
        | (cases hcr; done)
        | (cases hcr
           have e : xq = _ := (Option.some.inj hq).symm
           subst e
           rfl))
    (by
      intro _ row0 rest hv
      have e : [[(lit "c", Val.str (lit "x")), (lit "d", Val.num .int 1)]] = row0 :: rest := hv
      simp only [List.cons.injEq] at e
      obtain ⟨rfl, _⟩ := e
      refine ⟨by simp, ?_⟩
      intro e he
      simp only [List.mem_cons, List.mem_singleton, List.not_mem_nil, or_false] at he
      rcases he with rfl | rfl <;> exact Val.noConfusion)
    (by
      intro hc
      have : SQLActionUpdate = SQLActionInsert := hc
      exact absurd this (by decide))
    (by
      intro _ row0 rest hv e he
      have e1 : [[(lit "c", Val.str (lit "x")), (lit "d", Val.num .int 1)]] = row0 :: rest := hv
      simp only [List.cons.injEq] at e1
      obtain ⟨rfl, _⟩ := e1
      simp only [List.mem_cons, List.mem_singleton, List.not_mem_nil, or_false] at he
      rcases he with rfl | rfl
      · exact ⟨by decide, fun _ _ => rfl⟩
      · exact ⟨by decide, fun _ hk => by simp [typeKind, NumKind.kind] at hk⟩)
  refine ⟨_, _, hrun, rfl, r, h1, ?_⟩
  by_contra herr
  rcases h2.mp herr with hc | hc | ⟨hc, _⟩ | ⟨_, hc⟩
  · exact absurd hc (by decide)
  · exact absurd hc (by decide)
  · exact absurd hc (by decide)
  · exact absurd hc (by decide)

end Builder

namespace Builder

/-- C21: on a finite condition tree, `GetWheresByField` returns the nodes whose
field is the given name in breadth-first order.  The heap `h` holds the nodes,
the top-level entries of the builder are valid addresses, and the children of
every node are valid addresses of smaller height `r` (the structure is finite
and has no cycle).  Then the call returns (the loop ends), and its result is
the list of the matching nodes of depth 0, then those of depth 1, and so on,
left to right within a depth; no node lies at depth `h.length` or deeper.  So
a node is returned exactly when it lies at some depth of the tree and its
field is the name; when no node is reached twice (a tree), no node is returned
twice; the result is empty for an empty tree and when no node matches.  The
function has no heap result: it stores nothing in the tree. -/
theorem find_by_field_breadth_first (h : Heap) (b : SQLBulder) (field : GoString)
    (r : Nat → Nat)
    (hroots : ∀ p ∈ b.whereList, p < h.length)
    (hacyc : ∀ p wh, h[p]? = some wh → ∀ c ∈ wh.Children, c < h.length ∧ r c < r p) :
    ∃ res, b.GetWheresByField h field = some res ∧
      res = (List.range h.length).flatMap
        (fun d => (levelNodes h b.whereList d).filter (hasField h field)) ∧
      (∀ d, h.length ≤ d → levelNodes h b.whereList d = []) ∧
      (∀ p, p ∈ res ↔ (∃ d, p ∈ levelNodes h b.whereList d) ∧ hasField h field p = true) ∧
      ((breadthFirst h b.whereList h.length).Nodup → res.Nodup) ∧
      (b.whereList = [] → res = []) ∧
      ((∀ d, ∀ p ∈ levelNodes h b.whereList d, hasField h field p = false) → res = []) := by
  obtain ⟨_, hz⟩ := levelNodes_bound h b.whereList r hroots hacyc
  refine ⟨_, findByField_eq h b.whereList field r hroots hacyc, rfl, hz, ?_, ?_, ?_, ?_⟩
  · intro p
    constructor
    · intro hp
      obtain ⟨d, _, hd⟩ := List.mem_flatMap.1 hp
      exact ⟨⟨d, (List.mem_filter.1 hd).1⟩, (List.mem_filter.1 hd).2⟩
    · rintro ⟨⟨d, hd⟩, hf⟩
      have hlt : d < h.length := by
        by_contra hge
        rw [hz d (Nat.le_of_not_lt hge)] at hd
        exact absurd hd (List.not_mem_nil _)
      exact List.mem_flatMap.2 ⟨d, List.mem_range.2 hlt, List.mem_filter.2 ⟨hd, hf⟩⟩
  · intro hnd
    have heq : (List.range h.length).flatMap
        (fun d => (levelNodes h b.whereList d).filter (hasField h field)) =
        (breadthFirst h b.whereList h.length).filter (hasField h field) := by
      unfold breadthFirst
      rw [List.filter_flatMap]
    rw [heq]
    exact hnd.filter _
  · intro hnil
    rw [List.flatMap_eq_nil_iff]
    intro d _
    rw [hnil, levelNodes_nil]; rfl
  · intro hno
    rw [List.flatMap_eq_nil_iff]
    intro d _
    rw [List.filter_eq_nil_iff]
    intro p hp
    rw [hno d p hp]
    exact Bool.false_ne_true

/-- C21, at a concrete input: the tree `testTree` of three levels with the
entries 0, 1, 2 and the field name `a`; the nodes 0 (depth 0), 5 (depth 1) and
6 (depth 2) are returned in this order. -/
theorem find_by_field_breadth_first_witness :
    (∀ p ∈ ({ New (lit "t") [] with whereList := [0, 1, 2] } : SQLBulder).whereList,
      p < testTree.length) ∧
    (∀ p wh, testTree[p]? = some wh → ∀ c ∈ wh.Children,
      c < testTree.length ∧
        (fun q => if q = 1 then 2 else if q = 4 then 1 else 0) c <
          (fun q => if q = 1 then 2 else if q = 4 then 1 else 0) p) ∧
    SQLBulder.GetWheresByField testTree { New (lit "t") [] with whereList := [0, 1, 2] }
      (lit "a") = some [0, 5, 6] := by
  have hroots : ∀ p ∈ ({ New (lit "t") [] with whereList := [0, 1, 2] } : SQLBulder).whereList,
      p < testTree.length := by
    intro p hp
    have hp2 : p ∈ [0, 1, 2] := hp
    have hlen : testTree.length = 7 := rfl
    rw [hlen]
    simp at hp2
    omega
  have hacyc : ∀ p wh, testTree[p]? = some wh → ∀ c ∈ wh.Children,
      c < testTree.length ∧
        (fun q => if q = 1 then 2 else if q = 4 then 1 else 0) c <
          (fun q => if q = 1 then 2 else if q = 4 then 1 else 0) p := by
    intro p wh hp c hc
    have hlen : testTree.length = 7 := rfl
    rw [hlen]
    rcases p with _ | _ | _ | _ | _ | _ | _ | p
    all_goals
      simp only [testTree, List.getElem?_cons_zero, List.getElem?_cons_succ,
        List.getElem?_nil, Option.some.injEq] at hp
    all_goals cases hp
    all_goals simp at hc
    all_goals try (rcases hc with rfl | rfl | rfl <;> simp)
  obtain ⟨res, hres, heq, _⟩ := find_by_field_breadth_first testTree
    { New (lit "t") [] with whereList := [0, 1, 2] } (lit "a")
    (fun q => if q = 1 then 2 else if q = 4 then 1 else 0) hroots hacyc
  refine ⟨hroots, hacyc, ?_⟩
  rw [hres, heq]
  rfl

end Builder

namespace Builder

/-- C22 (the code departs from it): the pattern of `IsSingleAggregationSum`,
`(?i)[count|sum]\((.*?)\)`, compiles to one rune out of the letters of
`count|sum` (either case, the bar, and the long s), an opening parenthesis, any
runes but the newline, and a closing parenthesis: the brackets make a character
class, not the alternative of the two names.  So with the single field `min(d)`
the predicate is true (the `n` before the parenthesis), and so it is with
`concat(a,b)`, which holds no call of `count` or `sum`; with `max(d)` and
`avg(d)` it is false, and with `count(*)` and `SUM(x)` it is true. -/
theorem single_aggregation_sum_accepts_min :
    Compile (lit "(?i)" ++ lit "[count|sum]" ++ lit "\\((.*?)\\)") =
      some [Inst.one (CharSet.of [67, 99, 79, 111, 85, 117, 78, 110, 84, 116, 124,
              83, 115, 0x17F, 85, 117, 77, 109]),
            Inst.one (CharSet.of [40]), Inst.many CharSet.anyNotNL,
            Inst.one (CharSet.of [41])] ∧
    ((New (lit "t") []).Select [lit "min(d)"]).IsSingleAggregationSum = some true ∧
    ((New (lit "t") []).Select [lit "concat(a,b)"]).IsSingleAggregationSum = some true ∧
    ((New (lit "t") []).Select [lit "max(d)"]).IsSingleAggregationSum = some false ∧
    ((New (lit "t") []).Select [lit "avg(d)"]).IsSingleAggregationSum = some false ∧
    ((New (lit "t") []).Select [lit "count(*)"]).IsSingleAggregationSum = some true ∧
    ((New (lit "t") []).Select [lit "SUM(x)"]).IsSingleAggregationSum = some true :=
  ⟨rfl, rfl, rfl, rfl, rfl, rfl, rfl⟩

end Builder

namespace Builder

/-- C23 (the code departs from it): `Build` faults on each of the inputs the
claim lists, all of them built from `New("t")` by fluent calls with non-nil
scalar values.  (1) `Select("x").Wheres(func(w) { return w })`: the grouped
branch has no child and no value, and `Where.string` reads `Value[0]`.
(2) `Insert({})`: the field holder is empty and `fieldsHolder[:len-1]` is out of
range.  (3) `Update({}).Where("id", "=", 1)`: the update part is empty and
`updatePart[:len-1]` is out of range.  (4) in literal mode,
`BatchInsert([{a: "x"}, {b: "y"}])` and `BatchInsert([{a: "x"}, {a: 7}])`: the
second row has no string for `a` and `arg.(string)` fails.  (5)
`Select("x").Wheres(func(w) { return w.WhereIn("a", []) })` and the same with
`w.WhereCombineIn(["a", "b"], [])`: the leaves hold no value and `Where.string`
reads `Value[0]`. -/
theorem build_faults_on_listed_inputs :
    (∃ (h : Heap) (b : SQLBulder),
      runAll [Call.Select [lit "x"], Call.cond (BCall.Wheres [])]
        [] (New (lit "t") []) = some (h, b) ∧ (b.Build h).1 = none) ∧
    (∃ (h : Heap) (b : SQLBulder),
      runAll [Call.Insert []] [] (New (lit "t") []) = some (h, b) ∧
      (b.Build h).1 = none) ∧
    (∃ (h : Heap) (b : SQLBulder),
      runAll [Call.Update [],
              Call.cond (BCall.Where (lit "id") (lit "=") (Val.num .int 1))]
        [] (New (lit "t") []) = some (h, b) ∧ (b.Build h).1 = none) ∧
    (∃ (h : Heap) (b : SQLBulder),
      runAll [Call.BatchInsert [[(lit "a", Val.str (lit "x"))], [(lit "b", Val.str (lit "y"))]]]
        [] (New (lit "t") [{ Parameterized := false, Reuse := true }]) = some (h, b) ∧
      (b.Build h).1 = none) ∧
    (∃ (h : Heap) (b : SQLBulder),
      runAll [Call.BatchInsert [[(lit "a", Val.str (lit "x"))], [(lit "a", Val.num .int 7)]]]
        [] (New (lit "t") [{ Parameterized := false, Reuse := true }]) = some (h, b) ∧
      (b.Build h).1 = none) ∧
    (∃ (h : Heap) (b : SQLBulder),
      runAll [Call.Select [lit "x"], Call.cond (BCall.Wheres [WCall.WhereIn (lit "a") []])]
        [] (New (lit "t") []) = some (h, b) ∧ (b.Build h).1 = none) ∧
    (∃ (h : Heap) (b : SQLBulder),
      runAll [Call.Select [lit "x"],
              Call.cond (BCall.Wheres [WCall.WhereCombineIn [lit "a", lit "b"] []])]
        [] (New (lit "t") []) = some (h, b) ∧ (b.Build h).1 = none) :=
  ⟨⟨_, _, rfl, rfl⟩, ⟨_, _, rfl, rfl⟩, ⟨_, _, rfl, rfl⟩, ⟨_, _, rfl, rfl⟩,
   ⟨_, _, rfl, rfl⟩, ⟨_, _, rfl, rfl⟩, ⟨_, _, rfl, rfl⟩⟩

end Builder

namespace Builder

/-- C24: `_escape` is invertible.  For every byte string `s`, `_escape`
returns a text `e` with `unescape e = s`, where `unescape` reads left to right,
maps each pair of a backslash and a code (`0`, `n`, `r`, backslash, single
quote, double quote, `Z`) back to its special byte and copies every other byte.
The text `e` is the concatenation of one token per byte of `s`; a token is
either a single byte that is no quote and no backslash, or a pair of a
backslash and a code, so every quote byte of `e` is the second byte of an
escape pair.  `_escape` is injective. -/
theorem escape_invertible :
    (∀ s : GoString, ∃ (e : GoString) (toks : List GoString), _escape s = some e ∧ unescape e = s ∧
      e = toks.flatten ∧ toks.length = s.length ∧
      ∀ tok ∈ toks, (∃ b, tok = [b] ∧ b ≠ 39 ∧ b ≠ 34 ∧ b ≠ 92) ∨
        (∃ c b, tok = [92, c] ∧ unescapeCode c = some b)) ∧
    Function.Injective _escape := by
  refine ⟨fun s => ⟨s.flatMap escapeByte, s.map escapeByte, _escape_eq s,
    unescape_escape s, ?_, List.length_map _ _, ?_⟩, ?_⟩
  · rw [List.flatMap_def]
  · intro tok htok
    obtain ⟨b, _, rfl⟩ := List.mem_map.1 htok
    rcases escapeByte_token b with ⟨h1, h2⟩ | ⟨c, h1, h2⟩
    · exact Or.inl ⟨b, h1, h2⟩
    · exact Or.inr ⟨c, b, h1, h2⟩
  · intro s t hst
    rw [_escape_eq, _escape_eq] at hst
    have h := congrArg unescape (Option.some.inj hst)
    rwa [unescape_escape, unescape_escape] at h

end Builder
